import Mathlib

/-!
MSM IOMMU LPAE page tables

A shallow embedding of `drivers/iommu/msm_iommu_pagetable_lpae.c`.

* Descriptors are 64-bit values, held as `Nat`.
* A descriptor slot is addressed by a `PtePtr`: a slot of the first-level
  table, or a slot of the table stored in a page frame.
* `PtState` carries `pt->fl_table`, the descriptor memory, the page frames
  currently handed out by `__get_free_page`, and the outcomes of the coming
  `__get_free_page` calls (`0` is the failed allocation).
* `clean_pte` only performs cache maintenance and has no effect on descriptor
  contents, so it does not occur in the embedding; `redirect` only feeds
  `clean_pte`.
* `pr_err` and `WARN_ONCE` only log.
-/

namespace MsmLpae

/-! ## Constants -/

def SZ_4K : Nat := 0x1000
def SZ_64K : Nat := 0x10000
def SZ_2M : Nat := 0x200000
def SZ_32M : Nat := 0x2000000
def SZ_1G : Nat := 0x40000000

def PTE_SIZE : Nat := 8
def FL_ALIGN : Nat := 0x20

def NUM_FL_PTE : Nat := 4
def NUM_SL_PTE : Nat := 512
def NUM_TL_PTE : Nat := 512

def FLSL_BASE_MASK : Nat := 0xFFFFFFF000
def FLSL_1G_BLOCK_MASK : Nat := 0xFFC0000000
def FLSL_BLOCK_MASK : Nat := 0xFFFFE00000
def FLSL_TYPE_BLOCK : Nat := 1 <<< 0
def FLSL_TYPE_TABLE : Nat := 3 <<< 0
def FLSL_PTE_TYPE_MASK : Nat := 3 <<< 0

def TL_TYPE_PAGE : Nat := 3 <<< 0
def TL_PAGE_MASK : Nat := 0xFFFFFFF000
def TL_AP_RO : Nat := 0x3 <<< 6
def TL_AP_RW : Nat := 0x1 <<< 6
def TL_SH_ISH : Nat := 0x3 <<< 8
def TL_SH_NSH : Nat := 0x0 <<< 8
def TL_AF : Nat := 0x1 <<< 10
def TL_NG : Nat := 0x1 <<< 11
def TL_CH : Nat := 0x1 <<< 52

def PTE_MT_BUFFERABLE : Nat := 1 <<< 2
def PTE_MT_WRITEALLOC : Nat := 7 <<< 2
def PTE_MT_MASK : Nat := 7 <<< 2

/-- Protection flags of `linux/iommu.h`. -/
def IOMMU_READ : Nat := 1
def IOMMU_WRITE : Nat := 2
def IOMMU_CACHE : Nat := 4

def EINVAL : Int := 22
def ENOMEM : Int := 12
def EBUSY : Int := 16

/-- Arithmetic on `u32` values wraps. -/
def u32 (x : Nat) : Nat := x % 2 ^ 32

def FL_OFFSET (va : Nat) : Nat := (va &&& 0xC0000000) >>> 30
def SL_OFFSET (va : Nat) : Nat := (va &&& 0x3FE00000) >>> 21
def TL_OFFSET (va : Nat) : Nat := (va &&& 0x1FF000) >>> 12

/-! ## Build configuration and attribute translation -/

/-- The two inputs of `__get_cache_attr`: whether `CONFIG_ARM_LPAE` is set, and
the kernel's `pgprot_kernel`. -/
structure Build where
  CONFIG_ARM_LPAE : Bool
  pgprot_kernel : Nat

/-- The number of bits of `phys_addr_t`: 64 with `CONFIG_ARM_LPAE`, 32 without. -/
def PHYS_ADDR_BITS (k : Build) : Nat := if k.CONFIG_ARM_LPAE then 64 else 32

/-- A value as a variable of type `phys_addr_t` holds it. -/
def phys_addr_t (k : Build) (x : Nat) : Nat := x % 2 ^ PHYS_ADDR_BITS k

def __get_cache_attr (k : Build) : Nat :=
  if k.CONFIG_ARM_LPAE then k.pgprot_kernel &&& PTE_MT_MASK else PTE_MT_WRITEALLOC

/-- Returns `(upper_attr, lower_attr)`; `prot` is the bit pattern of the `s32`. -/
def __get_attr (k : Build) (prot : Nat) : Nat × Nat :=
  let attr_idx := PTE_MT_BUFFERABLE
  let upper_attr := 0
  let lower_attr := 0
  let prot := if prot &&& (IOMMU_READ ||| IOMMU_WRITE) = 0
    then prot ||| (IOMMU_READ ||| IOMMU_WRITE) else prot
  let prot := if prot &&& IOMMU_WRITE ≠ 0 ∧ prot &&& IOMMU_READ = 0
    then prot ||| IOMMU_READ else prot
  let attr_idx := if prot &&& IOMMU_CACHE ≠ 0 then __get_cache_attr k else attr_idx
  let lower_attr := lower_attr ||| attr_idx
  let lower_attr := lower_attr ||| (TL_NG ||| TL_AF)
  let lower_attr := lower_attr ||| (if prot &&& IOMMU_CACHE ≠ 0 then TL_SH_ISH else TL_SH_NSH)
  let lower_attr := lower_attr ||| (if prot &&& IOMMU_WRITE ≠ 0 then TL_AP_RW else TL_AP_RO)
  (upper_attr, lower_attr)

/-! ## Descriptor memory -/

/-- A pointer to a descriptor slot. -/
inductive PtePtr where
  /-- Slot `i` of the first-level table `pt->fl_table`. -/
  | fl (i : Nat)
  /-- Slot `i` of the table stored in the page frame at address `page`. -/
  | pg (page : Nat) (i : Nat)
  deriving DecidableEq

/-- Pointer arithmetic `pte + i`. -/
def PtePtr.add : PtePtr → Nat → PtePtr
  | .fl i, n => .fl (i + n)
  | .pg p i, n => .pg p (i + n)

structure PtState where
  /-- The pointer `pt->unaligned_fl_table`; `0` is `NULL`. -/
  unaligned_fl_table : Nat
  /-- The pointer `pt->fl_table`; `0` is `NULL`. -/
  fl_table : Nat
  /-- Contents of every descriptor slot. -/
  mem : PtePtr → Nat
  /-- Page frames obtained from `__get_free_page` and not yet given to `free_page`. -/
  live : List Nat
  /-- Results of the coming `__get_free_page` calls, `0` for a failed one. -/
  pool : List Nat

/-- The store `*pte = v`. -/
def write (s : PtState) (pte : PtePtr) (v : Nat) : PtState :=
  { s with mem := Function.update s.mem pte v }

/-- `memset(table + start, 0, n * sizeof(u64))`. -/
def memset_zero (s : PtState) (table start n : Nat) : PtState :=
  { s with mem := fun q =>
      match q with
      | .fl _ => s.mem q
      | .pg p j => if p = table ∧ start ≤ j ∧ j < start + n then 0 else s.mem q }

def __get_free_page (s : PtState) : Nat × PtState :=
  match s.pool with
  | [] => (0, s)
  | p :: rest =>
    if p = 0 then (0, { s with pool := rest })
    else (p, { s with pool := rest, live := p :: s.live })

def free_page (s : PtState) (page : Nat) : PtState :=
  { s with live := s.live.filter (fun q => q ≠ page) }

/-- `FOLLOW_TO_NEXT_TABLE(pte)`; tables are named by their physical address,
so that `__va` and `__pa` are the identity. -/
def FOLLOW_TO_NEXT_TABLE (s : PtState) (pte : PtePtr) : Nat :=
  s.mem pte &&& FLSL_BASE_MASK

/-! ## Table allocator -/

/-- `ALIGN(x, a)` for a power of two `a`. -/
def ALIGN (x a : Nat) : Nat := (x + (a - 1)) / a * a

/-- `msm_iommu_pagetable_alloc`; `kz` is what `kzalloc` returns, `0` when it
fails. `kzalloc` hands out zeroed memory. -/
def msm_iommu_pagetable_alloc (s : PtState) (kz : Nat) : Int × PtState :=
  let s1 := { s with unaligned_fl_table := kz }
  if kz = 0 then (-ENOMEM, s1)
  else
    (0, { s1 with
      fl_table := ALIGN kz FL_ALIGN
      mem := fun q =>
        match q with
        | .fl _ => 0
        | .pg _ _ => s.mem q })

def msm_iommu_pagetable_free (s : PtState) : PtState :=
  let s1 := (List.range NUM_FL_PTE).foldl (fun st i =>
    if st.mem (.fl i) &&& FLSL_TYPE_TABLE = FLSL_TYPE_TABLE then
      free_page st (st.mem (.fl i) &&& FLSL_BASE_MASK)
    else st) s
  { s1 with unaligned_fl_table := 0, fl_table := 0 }

/-! ## Mapping engine -/

def make_second_level_tbl (s : PtState) (fl_pte : PtePtr) : Nat × PtState :=
  let r := __get_free_page s
  let sl := r.1
  if sl = 0 then (sl, r.2)
  else
    let s1 := memset_zero r.2 sl 0 (SZ_4K / 8)
    (sl, write s1 fl_pte ((sl &&& FLSL_BASE_MASK) ||| FLSL_TYPE_TABLE))

def make_third_level_tbl (s : PtState) (sl_pte : PtePtr) : Nat × PtState :=
  let r := __get_free_page s
  let tl := r.1
  if tl = 0 then (tl, r.2)
  else
    let s1 := memset_zero r.2 tl 0 (SZ_4K / 8)
    (tl, write s1 sl_pte ((tl &&& FLSL_BASE_MASK) ||| FLSL_TYPE_TABLE))

def tl_4k_map (s : PtState) (tl_pte : PtePtr) (pa upper_attr lower_attr : Nat) :
    Int × PtState :=
  if s.mem tl_pte ≠ 0 then (-EBUSY, s)
  else (0, write s tl_pte (upper_attr ||| (pa &&& TL_PAGE_MASK) ||| lower_attr ||| TL_TYPE_PAGE))

/-- The loop `for (i = 0; i < n; ++i) if (*(pte+i)) ...`: is one of the `n`
slots from `pte` on occupied? -/
def any_busy (s : PtState) (pte : PtePtr) (n : Nat) : Bool :=
  (List.range n).any (fun i => s.mem (pte.add i) ≠ 0)

/-- The loop `for (i = 0; i < n; ++i) *(pte+i) = v`. -/
def write_run (s : PtState) (pte : PtePtr) (n : Nat) (v : Nat) : PtState :=
  (List.range n).foldl (fun st i => write st (pte.add i) v) s

def tl_64k_map (s : PtState) (tl_pte : PtePtr) (pa upper_attr lower_attr : Nat) :
    Int × PtState :=
  if any_busy s tl_pte 16 then (-EBUSY, s)
  else
    let upper_attr := upper_attr ||| TL_CH
    (0, write_run s tl_pte 16
      (upper_attr ||| (pa &&& TL_PAGE_MASK) ||| lower_attr ||| TL_TYPE_PAGE))

def sl_2m_map (s : PtState) (sl_pte : PtePtr) (pa upper_attr lower_attr : Nat) :
    Int × PtState :=
  if s.mem sl_pte ≠ 0 then (-EBUSY, s)
  else (0, write s sl_pte
    (upper_attr ||| (pa &&& FLSL_BLOCK_MASK) ||| lower_attr ||| FLSL_TYPE_BLOCK))

def sl_32m_map (s : PtState) (sl_pte : PtePtr) (pa upper_attr lower_attr : Nat) :
    Int × PtState :=
  if any_busy s sl_pte 16 then (-EBUSY, s)
  else
    let upper_attr := upper_attr ||| TL_CH
    (0, write_run s sl_pte 16
      (upper_attr ||| (pa &&& FLSL_BLOCK_MASK) ||| lower_attr ||| FLSL_TYPE_BLOCK))

def fl_1G_map (s : PtState) (fl_pte : PtePtr) (pa upper_attr lower_attr : Nat) :
    Int × PtState :=
  if s.mem fl_pte ≠ 0 then (-EBUSY, s)
  else (0, write s fl_pte
    (upper_attr ||| (pa &&& FLSL_1G_BLOCK_MASK) ||| lower_attr ||| FLSL_TYPE_BLOCK))

def common_error_check (len : Nat) (fl_table : Nat) : Int :=
  if len ≠ SZ_1G ∧ len ≠ SZ_32M ∧ len ≠ SZ_2M ∧ len ≠ SZ_64K ∧ len ≠ SZ_4K then -EINVAL
  else if fl_table = 0 then -EINVAL
  else 0

def handle_1st_lvl (s : PtState) (fl_pte : PtePtr) (pa upper_attr lower_attr len : Nat) :
    Int × PtState :=
  if len = SZ_1G then fl_1G_map s fl_pte pa upper_attr lower_attr
  else
    let r : Int × PtState :=
      if s.mem fl_pte = 0 then
        let m := make_second_level_tbl s fl_pte
        if m.1 = 0 then (-ENOMEM, m.2) else (0, m.2)
      else (0, s)
    if r.1 = 0 then
      if r.2.mem fl_pte &&& FLSL_TYPE_TABLE ≠ FLSL_TYPE_TABLE then (-EBUSY, r.2)
      else (0, r.2)
    else r

def handle_3rd_lvl (s : PtState) (sl_pte : PtePtr) (va pa upper_attr lower_attr len : Nat) :
    Int × PtState :=
  let r : Int × PtState :=
    if s.mem sl_pte = 0 then
      let m := make_third_level_tbl s sl_pte
      if m.1 = 0 then (-ENOMEM, m.2) else (0, m.2)
    else (0, s)
  if r.1 ≠ 0 then r
  else if r.2.mem sl_pte &&& FLSL_TYPE_TABLE ≠ FLSL_TYPE_TABLE then (-EBUSY, r.2)
  else
    let tl_table := FOLLOW_TO_NEXT_TABLE r.2 sl_pte
    let tl_offset := TL_OFFSET va
    let tl_pte := PtePtr.pg tl_table tl_offset
    if len = SZ_64K then tl_64k_map r.2 tl_pte pa upper_attr lower_attr
    else tl_4k_map r.2 tl_pte pa upper_attr lower_attr

def msm_iommu_pagetable_map (k : Build) (s : PtState) (va pa len prot : Nat) :
    Int × PtState :=
  let ret := common_error_check len s.fl_table
  if ret ≠ 0 then (ret, s)
  else if s.fl_table = 0 then (-EINVAL, s)
  else
    let attr := __get_attr k prot
    let fl_offset := FL_OFFSET va
    let fl_pte := PtePtr.fl fl_offset
    let r := handle_1st_lvl s fl_pte pa attr.1 attr.2 len
    if r.1 ≠ 0 then r
    else
      let sl_table := FOLLOW_TO_NEXT_TABLE r.2 fl_pte
      let sl_offset := SL_OFFSET va
      let sl_pte := PtePtr.pg sl_table sl_offset
      if len = SZ_32M then sl_32m_map r.2 sl_pte pa attr.1 attr.2
      else if len = SZ_2M then sl_2m_map r.2 sl_pte pa attr.1 attr.2
      else if len = SZ_64K ∨ len = SZ_4K then
        handle_3rd_lvl r.2 sl_pte va pa attr.1 attr.2 len
      else r

/-! ## Unmapping engine -/

/-- Returns `(!used, state)`. -/
def free_table (s : PtState) (prev_level_pte : PtePtr) (table table_len : Nat)
    (check : Bool) : Bool × PtState :=
  let used : Bool := if check then any_busy s (PtePtr.pg table 0) table_len else false
  if !used then (true, write (free_page s table) prev_level_pte 0)
  else (false, s)

def fl_1G_unmap (s : PtState) (fl_pte : PtePtr) : PtState :=
  write s fl_pte 0

/-- What one pass through the body of the `while` loop of
`__msm_iommu_pagetable_unmap_range` does: `return`, or go round again. -/
inductive Walk where
  | ret (s : PtState)
  | again (s : PtState) (va offset : Nat)

/-- The body of the `while (offset < len)` loop. -/
def unmap_body (s : PtState) (va len offset : Nat) : Walk :=
  let left_to_unmap := len - offset
  let fl_offset := FL_OFFSET va
  let fl_pte := PtePtr.fl fl_offset
  if s.mem fl_pte = 0 then .ret s
  else
    let type := s.mem fl_pte &&& FLSL_PTE_TYPE_MASK
    if type = FLSL_TYPE_BLOCK then
      let s1 := fl_1G_unmap s fl_pte
      .again s1 (u32 (va + SZ_1G)) (u32 (offset + SZ_1G))
    else if type = FLSL_TYPE_TABLE then
      let sl_table := FOLLOW_TO_NEXT_TABLE s fl_pte
      let sl_offset := SL_OFFSET va
      let sl_pte := PtePtr.pg sl_table sl_offset
      let type := s.mem sl_pte &&& FLSL_PTE_TYPE_MASK
      if type = FLSL_TYPE_BLOCK then
        let sl_start := sl_offset
        let sl_end := left_to_unmap / SZ_2M + sl_start
        let sl_end := if sl_end > NUM_TL_PTE then NUM_TL_PTE else sl_end
        let entries := sl_end - sl_start
        let s1 := memset_zero s sl_table sl_start entries
        let check := decide (sl_end - sl_start ≠ NUM_SL_PTE)
        let f := free_table s1 fl_pte sl_table NUM_SL_PTE check
        .again f.2 (u32 (va + u32 (entries * SZ_2M))) (u32 (offset + u32 (entries * SZ_2M)))
      else if type = FLSL_TYPE_TABLE then
        let tl_start := TL_OFFSET va
        let tl_table := FOLLOW_TO_NEXT_TABLE s sl_pte
        let tl_end := left_to_unmap / SZ_4K + tl_start
        let tl_end := if tl_end > NUM_TL_PTE then NUM_TL_PTE else tl_end
        let entries := tl_end - tl_start
        let s1 := memset_zero s tl_table tl_start entries
        let check := decide (entries ≠ NUM_TL_PTE)
        let f := free_table s1 sl_pte tl_table NUM_TL_PTE check
        let s2 := if f.1 then (free_table f.2 fl_pte sl_table NUM_SL_PTE true).2 else f.2
        .again s2 (u32 (va + u32 (entries * SZ_4K))) (u32 (offset + u32 (entries * SZ_4K)))
      else .again s va offset
    else .again s va offset

/-- The `while (offset < len)` loop, run for at most `fuel` passes; `none` when
the loop has not been left by then. -/
def unmap_loop (len : Nat) : Nat → PtState → Nat → Nat → Option PtState
  | 0, s, _, offset => if offset < len then none else some s
  | fuel + 1, s, va, offset =>
    if offset < len then
      match unmap_body s va len offset with
      | .ret s1 => some s1
      | .again s1 va1 offset1 => unmap_loop len fuel s1 va1 offset1
    else some s

/-- `__msm_iommu_pagetable_unmap_range`; `silent` only silences `pr_err`. `BUG_ON`
does not return, like a loop that is never left. -/
def __msm_iommu_pagetable_unmap_range (fuel : Nat) (s : PtState) (va len : Nat)
    (_silent : Nat) : Option PtState :=
  if len &&& (SZ_4K - 1) ≠ 0 then none
  else unmap_loop len fuel s va 0

def msm_iommu_pagetable_unmap_range (fuel : Nat) (s : PtState) (va len : Nat) :
    Option PtState :=
  __msm_iommu_pagetable_unmap_range fuel s va len 0

/-! ## Scatter lists and range mapping -/

/-- One segment of a scatter list: `sg_dma_address(sg)`, `sg_phys(sg)` and
`sg->length`. -/
structure scatterlist where
  dma_address : Nat
  phys : Nat
  length : Nat

def get_phys_addr (sg : scatterlist) : Nat :=
  let pa := sg.dma_address
  if pa = 0 then sg.phys else pa

/-- `IS_ALIGNED(va | pa, align) && (len >= align)`. -/
def is_fully_aligned (va pa len align : Nat) : Bool :=
  decide ((va ||| pa) &&& (align - 1) = 0) && decide (len ≥ align)

/-- The choice of `chunk_size` at the head of the loop of
`msm_iommu_pagetable_map_range`. -/
def chunk_size (va pa chunk_left : Nat) : Nat :=
  if is_fully_aligned va pa chunk_left SZ_1G then SZ_1G
  else if is_fully_aligned va pa chunk_left SZ_32M then SZ_32M
  else if is_fully_aligned va pa chunk_left SZ_2M then SZ_2M
  else if is_fully_aligned va pa chunk_left SZ_64K then SZ_64K
  else SZ_4K

/-- The variables of the loop of `msm_iommu_pagetable_map_range`. The scatter
list is the list of segments from the current one on. -/
structure RangeVars where
  s : PtState
  sg : List scatterlist
  va : Nat
  pa : Nat
  offset : Nat
  chunk_offset : Nat

/-- One pass through the body of the mapping loop: `Sum.inl` is `goto fail`
with the return code, `Sum.inr` goes round again; `none` is a dereference of
the end of the scatter list. The offsets and `va` are `u32`, `pa` is a
`phys_addr_t`: `pa += chunk_size` wraps at the width of that type. -/
def map_range_body (k : Build) (v : RangeVars) (len up_at lo_at : Nat) :
    Option (Sum (Int × RangeVars) RangeVars) :=
  match v.sg with
  | [] => none
  | sg :: rest =>
    let chunk_left := u32 (sg.length + 2 ^ 32 - v.chunk_offset)
    let fl_offset := FL_OFFSET v.va
    let fl_pte := PtePtr.fl fl_offset
    let chunk_size := chunk_size v.va v.pa chunk_left
    let r := handle_1st_lvl v.s fl_pte v.pa up_at lo_at chunk_size
    if r.1 ≠ 0 then some (.inl (r.1, { v with s := r.2 }))
    else
      let sl_table := FOLLOW_TO_NEXT_TABLE r.2 fl_pte
      let sl_offset := SL_OFFSET v.va
      let sl_pte := PtePtr.pg sl_table sl_offset
      let r2 : Int × PtState :=
        if chunk_size = SZ_32M then sl_32m_map r.2 sl_pte v.pa up_at lo_at
        else if chunk_size = SZ_2M then sl_2m_map r.2 sl_pte v.pa up_at lo_at
        else if chunk_size = SZ_64K ∨ chunk_size = SZ_4K then
          handle_3rd_lvl r.2 sl_pte v.va v.pa up_at lo_at chunk_size
        else r
      if r2.1 ≠ 0 then some (.inl (r2.1, { v with s := r2.2 }))
      else
        let offset := u32 (v.offset + chunk_size)
        let chunk_offset := u32 (v.chunk_offset + chunk_size)
        let va := u32 (v.va + chunk_size)
        let pa := phys_addr_t k (v.pa + chunk_size)
        if chunk_offset ≥ sg.length ∧ offset < len then
          match rest with
          | [] => none
          | sg1 :: _ =>
            some (.inr ⟨r2.2, rest, va, get_phys_addr sg1, offset, 0⟩)
        else some (.inr ⟨r2.2, sg :: rest, va, pa, offset, chunk_offset⟩)

/-- The mapping loop run for at most `fuel` passes; the result is the return
code and the variables at the label `fail`. -/
def map_range_loop (k : Build) (len up_at lo_at : Nat) :
    Nat → RangeVars → Option (Int × RangeVars)
  | 0, v => if v.offset < len then none else some (0, v)
  | fuel + 1, v =>
    if v.offset < len then
      match map_range_body k v len up_at lo_at with
      | none => none
      | some (.inl r) => some r
      | some (.inr v1) => map_range_loop k len up_at lo_at fuel v1
    else some (0, v)

def msm_iommu_pagetable_map_range (k : Build) (fuel : Nat) (s : PtState) (va : Nat)
    (sg : List scatterlist) (len prot : Nat) : Option (Int × PtState) :=
  let start_va := va
  if len &&& (SZ_4K - 1) ≠ 0 then none
  else if s.fl_table = 0 then some (-EINVAL, s)
  else
    let attr := __get_attr k prot
    match sg with
    | [] => none
    | sg0 :: _ =>
      let pa := get_phys_addr sg0
      match map_range_loop k len attr.1 attr.2 fuel ⟨s, sg, va, pa, 0, 0⟩ with
      | none => none
      | some (ret, v) =>
        if ret ≠ 0 ∧ v.offset > 0 then
          match __msm_iommu_pagetable_unmap_range fuel v.s start_va v.offset 1 with
          | none => none
          | some s1 => some (ret, s1)
        else some (ret, v.s)

/-! ## The translation-table walk

What the translation hardware finds for an address, in the long-descriptor
format: at the first and second level type `01` is a block and type `11` a
table, at the third level type `11` is a page. -/

/-- A leaf found by the walk: the bytes it covers, its slot and its value. -/
structure Leaf where
  span : Nat
  slot : PtePtr
  desc : Nat
  deriving DecidableEq

def walk (s : PtState) (va : Nat) : Option Leaf :=
  let fl_pte := PtePtr.fl (FL_OFFSET va)
  let d1 := s.mem fl_pte
  if d1 &&& FLSL_PTE_TYPE_MASK = FLSL_TYPE_BLOCK then some ⟨SZ_1G, fl_pte, d1⟩
  else if d1 &&& FLSL_PTE_TYPE_MASK = FLSL_TYPE_TABLE then
    let sl_pte := PtePtr.pg (d1 &&& FLSL_BASE_MASK) (SL_OFFSET va)
    let d2 := s.mem sl_pte
    if d2 &&& FLSL_PTE_TYPE_MASK = FLSL_TYPE_BLOCK then some ⟨SZ_2M, sl_pte, d2⟩
    else if d2 &&& FLSL_PTE_TYPE_MASK = FLSL_TYPE_TABLE then
      let tl_pte := PtePtr.pg (d2 &&& FLSL_BASE_MASK) (TL_OFFSET va)
      let d3 := s.mem tl_pte
      if d3 &&& FLSL_PTE_TYPE_MASK = TL_TYPE_PAGE then some ⟨SZ_4K, tl_pte, d3⟩
      else none
    else none
  else none

/-! ## Well-formed table states -/

def isTable (d : Nat) : Prop := d &&& FLSL_PTE_TYPE_MASK = FLSL_TYPE_TABLE

def isBlock (d : Nat) : Prop := d &&& FLSL_PTE_TYPE_MASK = FLSL_TYPE_BLOCK

instance (d : Nat) : Decidable (isTable d) := by unfold isTable; infer_instance

instance (d : Nat) : Decidable (isBlock d) := by unfold isBlock; infer_instance

/-- The second-level table linked from first-level slot `i`. -/
def sl_of (s : PtState) (i : Nat) : Nat := FOLLOW_TO_NEXT_TABLE s (.fl i)

/-- The third-level table linked from slot `j` of the second-level table of
first-level slot `i`. -/
def tl_of (s : PtState) (i j : Nat) : Nat := FOLLOW_TO_NEXT_TABLE s (.pg (sl_of s i) j)

/-- Is slot `j` under first-level slot `i` a link to a third-level table? -/
def linksTl (s : PtState) (i j : Nat) : Prop :=
  isTable (s.mem (.fl i)) ∧ isTable (s.mem (.pg (sl_of s i) j))

instance (s : PtState) (i j : Nat) : Decidable (linksTl s i j) := by
  unfold linksTl; infer_instance

/-- The tables form a tree: no table is linked from two slots, and no table
serves at two levels. -/
structure Tree (s : PtState) : Prop where
  sl_inj : ∀ i < NUM_FL_PTE, isTable (s.mem (.fl i)) → ∀ i1 < NUM_FL_PTE,
    isTable (s.mem (.fl i1)) → sl_of s i = sl_of s i1 → i = i1
  tl_ne_sl : ∀ i < NUM_FL_PTE, isTable (s.mem (.fl i)) → ∀ j < NUM_SL_PTE, linksTl s i j →
    ∀ i1 < NUM_FL_PTE, isTable (s.mem (.fl i1)) → tl_of s i j ≠ sl_of s i1
  tl_inj : ∀ i < NUM_FL_PTE, isTable (s.mem (.fl i)) → ∀ j < NUM_SL_PTE, linksTl s i j →
    ∀ i1 < NUM_FL_PTE, isTable (s.mem (.fl i1)) → ∀ j1 < NUM_SL_PTE, linksTl s i1 j1 →
    tl_of s i j = tl_of s i1 j1 → i = i1 ∧ j = j1

/-- A well-formed state: a root exists, every slot of the first and second
level is `Empty`, a block or a table link, every slot of the third level is
`Empty` or a page, the tables form a tree of pages that are in use, and the
page allocator hands out fresh page frames: not in use, distinct,
page-aligned and addressable by a table descriptor. -/
structure WellFormed (s : PtState) : Prop where
  root : s.fl_table ≠ 0
  tree : Tree s
  fl_kind : ∀ i < NUM_FL_PTE,
    s.mem (.fl i) = 0 ∨ isBlock (s.mem (.fl i)) ∨ isTable (s.mem (.fl i))
  sl_kind : ∀ i < NUM_FL_PTE, isTable (s.mem (.fl i)) → ∀ j < NUM_SL_PTE,
    s.mem (.pg (sl_of s i) j) = 0 ∨ isBlock (s.mem (.pg (sl_of s i) j)) ∨
      isTable (s.mem (.pg (sl_of s i) j))
  tl_kind : ∀ i < NUM_FL_PTE, isTable (s.mem (.fl i)) → ∀ j < NUM_SL_PTE, linksTl s i j →
    ∀ t < NUM_TL_PTE, s.mem (.pg (tl_of s i j) t) = 0 ∨
      s.mem (.pg (tl_of s i j) t) &&& FLSL_PTE_TYPE_MASK = TL_TYPE_PAGE
  sl_live : ∀ i < NUM_FL_PTE, isTable (s.mem (.fl i)) → sl_of s i ∈ s.live
  tl_live : ∀ i < NUM_FL_PTE, isTable (s.mem (.fl i)) → ∀ j < NUM_SL_PTE, linksTl s i j →
    tl_of s i j ∈ s.live
  pool_fresh : ∀ p ∈ s.pool, p ∉ s.live
  pool_nodup : (s.pool.filter (fun p => p ≠ 0)).Nodup
  pool_aligned : ∀ p ∈ s.pool, p &&& FLSL_BASE_MASK = p

/-! ## Vocabulary of the statements -/

/-- When a granule `G` is eligible at a position of the range-mapping loop:
both addresses are multiples of `G` and `G` fits in what is left of the current
segment. -/
def Fits (va pa chunk_left G : Nat) : Prop :=
  va % G = 0 ∧ pa % G = 0 ∧ G ≤ chunk_left

instance (va pa chunk_left G : Nat) : Decidable (Fits va pa chunk_left G) := by
  unfold Fits; infer_instance

/-- A slot of a table in use: a slot of the first-level table, or a slot of a
page frame of `live`. -/
def InUse (live : List Nat) : PtePtr → Prop
  | .fl _ => True
  | .pg p _ => p ∈ live

instance (live : List Nat) (q : PtePtr) : Decidable (InUse live q) := by
  cases q <;> unfold InUse <;> infer_instance

/-- Every occupied slot in use has the same value in `t` as in `s`. -/
def Keeps (live : List Nat) (s t : PtState) : Prop :=
  ∀ q, InUse live q → s.mem q ≠ 0 → t.mem q = s.mem q

/-- The state after a successful `make_second_level_tbl` or
`make_third_level_tbl` on slot `pte` that was handed page frame `p`. -/
def link_table (s : PtState) (pte : PtePtr) (p : Nat) : PtState :=
  write (memset_zero { s with pool := s.pool.tail, live := p :: s.live } p 0 (SZ_4K / 8)) pte
    ((p &&& FLSL_BASE_MASK) ||| FLSL_TYPE_TABLE)

/-- State `t` is state `s` once slot `pte` is sure to link a table: `s` itself
when the slot already links one, the result of the allocation when the slot
was `Empty`. -/
def Linked (s : PtState) (pte : PtePtr) (t : PtState) : Prop :=
  (isTable (s.mem pte) ∧ t = s) ∨
  (s.mem pte = 0 ∧ ∃ p rest, s.pool = p :: rest ∧ p ≠ 0 ∧ t = link_table s pte p)

/-- How many adjacent slots a mapping of length `len` writes. -/
def run_len (len : Nat) : Nat := if len = SZ_64K ∨ len = SZ_32M then 16 else 1

/-- The descriptor that a mapping of length `len` writes. -/
def leaf_desc (k : Build) (prot pa len : Nat) : Nat :=
  let a := __get_attr k prot
  if len = SZ_1G then a.1 ||| (pa &&& FLSL_1G_BLOCK_MASK) ||| a.2 ||| FLSL_TYPE_BLOCK
  else if len = SZ_32M then
    (a.1 ||| TL_CH) ||| (pa &&& FLSL_BLOCK_MASK) ||| a.2 ||| FLSL_TYPE_BLOCK
  else if len = SZ_2M then a.1 ||| (pa &&& FLSL_BLOCK_MASK) ||| a.2 ||| FLSL_TYPE_BLOCK
  else if len = SZ_64K then (a.1 ||| TL_CH) ||| (pa &&& TL_PAGE_MASK) ||| a.2 ||| TL_TYPE_PAGE
  else a.1 ||| (pa &&& TL_PAGE_MASK) ||| a.2 ||| TL_TYPE_PAGE

/-- The number of second-level slots that one pass of the unmapping loop clears
at `va` when `left` bytes are left to unmap. -/
def sl_entries (va left : Nat) : Nat :=
  (if left / SZ_2M + SL_OFFSET va > NUM_TL_PTE then NUM_TL_PTE
    else left / SZ_2M + SL_OFFSET va) - SL_OFFSET va

/-- The number of third-level slots that one pass of the unmapping loop clears
at `va` when `left` bytes are left to unmap. -/
def tl_entries (va left : Nat) : Nat :=
  (if left / SZ_4K + TL_OFFSET va > NUM_TL_PTE then NUM_TL_PTE
    else left / SZ_4K + TL_OFFSET va) - TL_OFFSET va

/-- The state after the pass of the unmapping loop that clears a run of
second-level slots at `va`. -/
def unmap_sl_run (s : PtState) (va left : Nat) : PtState :=
  let fl_pte := PtePtr.fl (FL_OFFSET va)
  let sl_table := FOLLOW_TO_NEXT_TABLE s fl_pte
  let entries := sl_entries va left
  (free_table (memset_zero s sl_table (SL_OFFSET va) entries) fl_pte sl_table NUM_SL_PTE
    (decide (entries ≠ NUM_SL_PTE))).2

/-- The state after the pass of the unmapping loop that clears a run of
third-level slots at `va`. -/
def unmap_tl_run (s : PtState) (va left : Nat) : PtState :=
  let fl_pte := PtePtr.fl (FL_OFFSET va)
  let sl_table := FOLLOW_TO_NEXT_TABLE s fl_pte
  let sl_pte := PtePtr.pg sl_table (SL_OFFSET va)
  let tl_table := FOLLOW_TO_NEXT_TABLE s sl_pte
  let entries := tl_entries va left
  let f := free_table (memset_zero s tl_table (TL_OFFSET va) entries) sl_pte tl_table NUM_TL_PTE
    (decide (entries ≠ NUM_TL_PTE))
  if f.1 then (free_table f.2 fl_pte sl_table NUM_SL_PTE true).2 else f.2

/-- The table state after at most `n` passes through the loop of
`__msm_iommu_pagetable_unmap_range`, started with `s`, `va` and `offset`: every
state that the walk goes through is one of these. -/
def unmap_trace (len : Nat) : Nat → PtState → Nat → Nat → PtState
  | 0, s, _, _ => s
  | n + 1, s, va, offset =>
    if offset < len then
      match unmap_body s va len offset with
      | .ret s1 => s1
      | .again s1 va1 offset1 => unmap_trace len n s1 va1 offset1
    else s

/-- The span of virtual addresses that leaf `lf`, found by the walk for address
`a`, covers lies outside `[va, va + len)`. -/
def leaf_outside (lf : Leaf) (a va len : Nat) : Prop :=
  a / lf.span * lf.span + lf.span ≤ va ∨ va + len ≤ a / lf.span * lf.span

instance (lf : Leaf) (a va len : Nat) : Decidable (leaf_outside lf a va len) := by
  unfold leaf_outside; infer_instance

/-- State `t` comes from state `s` by clearing slots. -/
def Cleared (s t : PtState) : Prop := ∀ q, t.mem q = s.mem q ∨ t.mem q = 0

/-- Every address of `[lo, hi)` is mapped by a leaf whose span lies inside
`[lo, hi)`. -/
def Covered (s : PtState) (lo hi : Nat) : Prop :=
  ∀ a, lo ≤ a → a < hi → ∃ lf, walk s a = some lf ∧
    lo ≤ a / lf.span * lf.span ∧ a / lf.span * lf.span + lf.span ≤ hi

/-- The number of bytes of a scatter list. -/
def sg_total (sg : List scatterlist) : Nat := (sg.map (fun x => x.length)).sum

/-- A scatter list of page-aligned segments: every segment starts on a 4 KiB
boundary and its length is a multiple of 4 KiB, not zero. -/
def sg_pages (sg : List scatterlist) : Prop :=
  ∀ x ∈ sg, get_phys_addr x % SZ_4K = 0 ∧ x.length % SZ_4K = 0 ∧ 0 < x.length

instance (sg : List scatterlist) : Decidable (sg_pages sg) := by
  unfold sg_pages; infer_instance

/-- A table instance right after a successful `msm_iommu_pagetable_alloc`: the
root exists, every slot is `Empty`, no page is in use; `pool` is what the page
allocator will hand out. -/
def fresh_pt (pool : List Nat) : PtState :=
  { unaligned_fl_table := 0x1000
    fl_table := 0x1000
    mem := fun _ => 0
    live := []
    pool := pool }

/-- The build configuration used in the worked examples. -/
def k0 : Build := { CONFIG_ARM_LPAE := false, pgprot_kernel := 0 }

/-- Three page frames for the allocator of the worked examples. -/
def pool3 : List Nat := [0x80000000, 0x80001000, 0x80002000]

/-- A fresh table instance after mapping a 1 GiB block at virtual address 0. -/
def pt_1G : PtState := (msm_iommu_pagetable_map k0 (fresh_pt pool3) 0 0 SZ_1G 3).2

/-- A fresh table instance after mapping a 2 MiB block at virtual address 0. -/
def pt_2M : PtState := (msm_iommu_pagetable_map k0 (fresh_pt pool3) 0 0 SZ_2M 3).2

/-- A fresh table instance after mapping a 4 KiB page at virtual address 0. -/
def pt_4K : PtState := (msm_iommu_pagetable_map k0 (fresh_pt pool3) 0 0 SZ_4K 3).2

/-- A fresh table instance after mapping a 2 MiB block at virtual address 0 and
a 4 KiB page at virtual address 2 MiB. -/
def pt_mixed : PtState := (msm_iommu_pagetable_map k0 pt_2M 0x200000 0x200000 SZ_4K 3).2

/-- What is observed of a state in the worked examples: the four first-level
descriptors and the page frames in use. -/
def observe (s : PtState) : List Nat × List Nat :=
  ((List.range NUM_FL_PTE).map (fun i => s.mem (.fl i)), s.live)

/-- The four granules above the page size, largest first. -/
def big_granules : List Nat := [SZ_1G, SZ_32M, SZ_2M, SZ_64K]

/-- The five supported granules, largest first. -/
def granules : List Nat := [SZ_1G, SZ_32M, SZ_2M, SZ_64K, SZ_4K]

/-! ## Single unmapping -/

/-- `msm_iommu_pagetable_unmap`: the walk of `msm_iommu_pagetable_unmap_range`,
then `return len`. -/
def msm_iommu_pagetable_unmap (fuel : Nat) (s : PtState) (va len : Nat) :
    Option (Nat × PtState) :=
  match msm_iommu_pagetable_unmap_range fuel s va len with
  | none => none
  | some s1 => some (len, s1)

/-- The table state that a pass through the loop body leaves. -/
def Walk.state : Walk → PtState
  | .ret s => s
  | .again s _ _ => s

/-! ## The walk with an emptiness scan at every `free_table`

The same walk as `__msm_iommu_pagetable_unmap_range`, but `free_table` is
always called with `check = 1`. -/

def unmap_body_scan (s : PtState) (va len offset : Nat) : Walk :=
  let left_to_unmap := len - offset
  let fl_offset := FL_OFFSET va
  let fl_pte := PtePtr.fl fl_offset
  if s.mem fl_pte = 0 then .ret s
  else
    let type := s.mem fl_pte &&& FLSL_PTE_TYPE_MASK
    if type = FLSL_TYPE_BLOCK then
      let s1 := fl_1G_unmap s fl_pte
      .again s1 (u32 (va + SZ_1G)) (u32 (offset + SZ_1G))
    else if type = FLSL_TYPE_TABLE then
      let sl_table := FOLLOW_TO_NEXT_TABLE s fl_pte
      let sl_offset := SL_OFFSET va
      let sl_pte := PtePtr.pg sl_table sl_offset
      let type := s.mem sl_pte &&& FLSL_PTE_TYPE_MASK
      if type = FLSL_TYPE_BLOCK then
        let sl_start := sl_offset
        let sl_end := left_to_unmap / SZ_2M + sl_start
        let sl_end := if sl_end > NUM_TL_PTE then NUM_TL_PTE else sl_end
        let entries := sl_end - sl_start
        let s1 := memset_zero s sl_table sl_start entries
        let f := free_table s1 fl_pte sl_table NUM_SL_PTE true
        .again f.2 (u32 (va + u32 (entries * SZ_2M))) (u32 (offset + u32 (entries * SZ_2M)))
      else if type = FLSL_TYPE_TABLE then
        let tl_start := TL_OFFSET va
        let tl_table := FOLLOW_TO_NEXT_TABLE s sl_pte
        let tl_end := left_to_unmap / SZ_4K + tl_start
        let tl_end := if tl_end > NUM_TL_PTE then NUM_TL_PTE else tl_end
        let entries := tl_end - tl_start
        let s1 := memset_zero s tl_table tl_start entries
        let f := free_table s1 sl_pte tl_table NUM_TL_PTE true
        let s2 := if f.1 then (free_table f.2 fl_pte sl_table NUM_SL_PTE true).2 else f.2
        .again s2 (u32 (va + u32 (entries * SZ_4K))) (u32 (offset + u32 (entries * SZ_4K)))
      else .again s va offset
    else .again s va offset

def unmap_loop_scan (len : Nat) : Nat → PtState → Nat → Nat → Option PtState
  | 0, s, _, offset => if offset < len then none else some s
  | fuel + 1, s, va, offset =>
    if offset < len then
      match unmap_body_scan s va len offset with
      | .ret s1 => some s1
      | .again s1 va1 offset1 => unmap_loop_scan len fuel s1 va1 offset1
    else some s

def unmap_range_scan (fuel : Nat) (s : PtState) (va len : Nat) : Option PtState :=
  if len &&& (SZ_4K - 1) ≠ 0 then none
  else unmap_loop_scan len fuel s va 0

/-! ## Repeated single mapping

What the specification says of range mapping: the scatter list is cut into
chunks, segment by segment, and the single-mapping step is called once for
each chunk. -/

/-- One call of the single-mapping step: `size` bytes at `va`, mapped to `pa`. -/
structure Chunk where
  va : Nat
  pa : Nat
  size : Nat
  deriving DecidableEq

/-- The chunks of what is `left` of a segment at `va` and `pa`, at most `n` of
them: the greedily chosen chunk, then the chunks of the rest; a segment with
nothing left has no chunk. The virtual address advances as a `u32`, the
physical address as a `phys_addr_t`. -/
def seg_chunks (k : Build) : Nat → Nat → Nat → Nat → List Chunk
  | 0, _, _, _ => []
  | n + 1, va, pa, left =>
    if left = 0 then []
    else
      ⟨va, pa, chunk_size va pa left⟩ ::
        seg_chunks k n (u32 (va + chunk_size va pa left))
          (phys_addr_t k (pa + chunk_size va pa left)) (left - chunk_size va pa left)

/-- The chunks of a scatter list mapped from `va` on: the chunks of the first
segment, then those of the next segments at the virtual address behind it. -/
def greedy_chunks (k : Build) : Nat → List scatterlist → List Chunk
  | _, [] => []
  | va, x :: rest =>
    seg_chunks k (x.length / SZ_4K + 1) va (get_phys_addr x) x.length ++
      greedy_chunks k (u32 (va + x.length)) rest

/-- Calls `msm_iommu_pagetable_map` once for each chunk, in order, up to the
first call that fails: the result is the return code and the state of the last
call made. -/
def map_chunks (k : Build) (prot : Nat) : PtState → List Chunk → Int × PtState
  | s, [] => (0, s)
  | s, c :: rest =>
    let r := msm_iommu_pagetable_map k s c.va c.pa c.size prot
    if r.1 ≠ 0 then r else map_chunks k prot r.2 rest

/-- The sixteen pieces of `step` bytes of a group at `va` and `pa`. -/
def pieces (va pa step : Nat) : List Chunk :=
  (List.range 16).map (fun i => ⟨va + i * step, pa + i * step, step⟩)

/-- A descriptor with the contiguous hint (bit 52) cleared. -/
def without_hint (d : Nat) : Nat := d &&& 0xFFEFFFFFFFFFFFFF

/-- The page frames of the second-level tables that the first-level table
links. -/
def l2_tables (s : PtState) : List Nat :=
  ((List.range NUM_FL_PTE).filter (fun i => decide (isTable (s.mem (.fl i))))).map
    (fun i => sl_of s i)

/-- The slot lies inside its table: one of the 4 slots of the first-level
table, or one of the 512 slots of a page frame. -/
def in_table : PtePtr → Prop
  | .fl i => i < NUM_FL_PTE
  | .pg _ j => j < NUM_SL_PTE

instance (q : PtePtr) : Decidable (in_table q) := by
  cases q <;> unfold in_table <;> infer_instance

/-- A scatter list whose first segment holds no bytes. -/
def sg_empty_head : List scatterlist := [⟨0x5000, 0, 0⟩, ⟨0x9000, 0, 0x1000⟩]

/-- A fresh table instance after mapping two 4 KiB pages, at virtual addresses
0x1000 and 0x2000, readable, writable and cacheable. -/
def pt_two_pages : PtState :=
  (msm_iommu_pagetable_map k0
    (msm_iommu_pagetable_map k0 (fresh_pt pool3) 0x1000 0x9000 SZ_4K 7).2
    0x2000 0xA000 SZ_4K 7).2

/-- Two page frames for the allocator: its third allocation fails. -/
def pool2 : List Nat := [0x80000000, 0x80001000]

/-- A scatter list of 4 MiB and a page: 2 MiB at a 2 MiB-aligned address, 2 MiB
at an address that is 4 KiB-aligned and never 64 KiB-aligned together with the
virtual address, and one more page. -/
def sg_block_pages : List scatterlist :=
  [⟨0x200000, 0, 0x200000⟩, ⟨0x10001000, 0, 0x200000⟩, ⟨0x20001000, 0, 0x1000⟩]

/-- The table state while `sg_block_pages` is mapped from virtual address 0 in
a fresh table with the page frames of `pool2`, once the block and `j` pages are
mapped: first-level slot 0 links the second-level table in page `0x80000000`,
whose slot 0 holds the 2 MiB block and whose slot 1 links the third-level
table in page `0x80001000`; that table holds the descriptors of the first `j`
pages; every other slot is `Empty`; both page frames are in use and the
allocator has none left. -/
def BlockAndPages (j : Nat) (s : PtState) : Prop :=
  s.fl_table ≠ 0 ∧ s.mem (.fl 0) = 0x80000003 ∧ (∀ i, 1 ≤ i → s.mem (.fl i) = 0) ∧
  s.mem (.pg 0x80000000 0) = 0x200C45 ∧ s.mem (.pg 0x80000000 1) = 0x80001003 ∧
  (∀ i, 2 ≤ i → s.mem (.pg 0x80000000 i) = 0) ∧
  (∀ i < j, s.mem (.pg 0x80001000 i) = leaf_desc k0 3 (0x10001000 + i * 0x1000) SZ_4K) ∧
  (∀ i, j ≤ i → s.mem (.pg 0x80001000 i) = 0) ∧
  s.live = [0x80001000, 0x80000000] ∧ s.pool = []

/-- A fresh table instance after mapping three 2 MiB blocks: the last 2 MiB
below 1 GiB, in the second-level table of first-level slot 0, and the first
4 MiB above 1 GiB, in the second-level table of first-level slot 1. -/
def pt_two_tables : PtState :=
  (msm_iommu_pagetable_map k0
    (msm_iommu_pagetable_map k0
      (msm_iommu_pagetable_map k0 (fresh_pt pool3) 0x3FE00000 0x3FE00000 SZ_2M 3).2
      0x40000000 0x40000000 SZ_2M 3).2
    0x40200000 0x40200000 SZ_2M 3).2

end MsmLpae

namespace MsmLpae

/-! ## Bit-level facts -/

theorem shift_of_masked (va s w : Nat) :
    (va &&& ((2 ^ w - 1) <<< s)) >>> s = va / 2 ^ s % 2 ^ w := by
  apply Nat.eq_of_testBit_eq
  intro i
  rw [Nat.testBit_shiftRight, Nat.testBit_and, Nat.testBit_shiftLeft, Nat.testBit_mod_two_pow,
    ← Nat.shiftRight_eq_div_pow, Nat.testBit_shiftRight, Nat.testBit_two_pow_sub_one]
  simp
  by_cases h : i < w <;> simp [h]

theorem FL_OFFSET_eq (va : Nat) : FL_OFFSET va = va / 2 ^ 30 % 4 := by
  simpa using shift_of_masked va 30 2

theorem SL_OFFSET_eq (va : Nat) : SL_OFFSET va = va / 2 ^ 21 % 512 := by
  simpa using shift_of_masked va 21 9

theorem TL_OFFSET_eq (va : Nat) : TL_OFFSET va = va / 2 ^ 12 % 512 := by
  simpa using shift_of_masked va 12 9

theorem lor_mod_two_pow (x y n : Nat) : (x ||| y) % 2 ^ n = (x % 2 ^ n) ||| (y % 2 ^ n) := by
  apply Nat.eq_of_testBit_eq
  intro i
  simp only [Nat.testBit_mod_two_pow, Nat.testBit_or]
  by_cases h : i < n <;> simp [h]

theorem land_mod_two_pow (x y n : Nat) : (x &&& y) % 2 ^ n = (x % 2 ^ n) &&& (y % 2 ^ n) := by
  apply Nat.eq_of_testBit_eq
  intro i
  simp only [Nat.testBit_mod_two_pow, Nat.testBit_and]
  by_cases h : i < n <;> simp [h]

theorem lor_eq_zero (x y : Nat) : x ||| y = 0 ↔ x = 0 ∧ y = 0 := by
  constructor
  · intro h
    have hb : ∀ i, x.testBit i = false ∧ y.testBit i = false := by
      intro i
      have := congrArg (fun z => z.testBit i) h
      simpa using this
    exact ⟨Nat.eq_of_testBit_eq (fun i => by simp [(hb i).1]),
      Nat.eq_of_testBit_eq (fun i => by simp [(hb i).2])⟩
  · rintro ⟨rfl, rfl⟩
    rfl

/-- Alignment of `va | pa` to a power of two is alignment of both. -/
theorem aligned_lor (va pa n : Nat) :
    (va ||| pa) &&& (2 ^ n - 1) = 0 ↔ va % 2 ^ n = 0 ∧ pa % 2 ^ n = 0 := by
  rw [Nat.and_pow_two_sub_one_eq_mod, lor_mod_two_pow, lor_eq_zero]

theorem is_fully_aligned_iff (va pa len n : Nat) :
    is_fully_aligned va pa len (2 ^ n) = true ↔
      va % 2 ^ n = 0 ∧ pa % 2 ^ n = 0 ∧ 2 ^ n ≤ len := by
  unfold is_fully_aligned
  simp only [Bool.and_eq_true, decide_eq_true_eq, aligned_lor, ge_iff_le, and_assoc]

theorem SZ_1G_pow : SZ_1G = 2 ^ 30 := by decide
theorem SZ_32M_pow : SZ_32M = 2 ^ 25 := by decide
theorem SZ_2M_pow : SZ_2M = 2 ^ 21 := by decide
theorem SZ_64K_pow : SZ_64K = 2 ^ 16 := by decide
theorem SZ_4K_pow : SZ_4K = 2 ^ 12 := by decide

/-! ## Granule selection -/

theorem chunk_size_cases (va pa cl : Nat) :
    (Fits va pa cl SZ_1G ∧ chunk_size va pa cl = SZ_1G) ∨
    (¬ Fits va pa cl SZ_1G ∧ Fits va pa cl SZ_32M ∧ chunk_size va pa cl = SZ_32M) ∨
    (¬ Fits va pa cl SZ_1G ∧ ¬ Fits va pa cl SZ_32M ∧ Fits va pa cl SZ_2M ∧
      chunk_size va pa cl = SZ_2M) ∨
    (¬ Fits va pa cl SZ_1G ∧ ¬ Fits va pa cl SZ_32M ∧ ¬ Fits va pa cl SZ_2M ∧
      Fits va pa cl SZ_64K ∧ chunk_size va pa cl = SZ_64K) ∨
    (¬ Fits va pa cl SZ_1G ∧ ¬ Fits va pa cl SZ_32M ∧ ¬ Fits va pa cl SZ_2M ∧
      ¬ Fits va pa cl SZ_64K ∧ chunk_size va pa cl = SZ_4K) := by
  have h1 := is_fully_aligned_iff va pa cl 30
  have h2 := is_fully_aligned_iff va pa cl 25
  have h3 := is_fully_aligned_iff va pa cl 21
  have h4 := is_fully_aligned_iff va pa cl 16
  rw [← SZ_1G_pow] at h1
  rw [← SZ_32M_pow] at h2
  rw [← SZ_2M_pow] at h3
  rw [← SZ_64K_pow] at h4
  unfold Fits chunk_size
  by_cases a1 : is_fully_aligned va pa cl SZ_1G = true
  · left; exact ⟨h1.1 a1, by simp [a1]⟩
  · right
    by_cases a2 : is_fully_aligned va pa cl SZ_32M = true
    · left; exact ⟨fun h => a1 (h1.2 h), h2.1 a2, by simp [a1, a2]⟩
    · right
      by_cases a3 : is_fully_aligned va pa cl SZ_2M = true
      · left; exact ⟨fun h => a1 (h1.2 h), fun h => a2 (h2.2 h), h3.1 a3, by simp [a1, a2, a3]⟩
      · right
        by_cases a4 : is_fully_aligned va pa cl SZ_64K = true
        · left
          exact ⟨fun h => a1 (h1.2 h), fun h => a2 (h2.2 h), fun h => a3 (h3.2 h), h4.1 a4,
            by simp [a1, a2, a3, a4]⟩
        · right
          exact ⟨fun h => a1 (h1.2 h), fun h => a2 (h2.2 h), fun h => a3 (h3.2 h),
            fun h => a4 (h4.2 h), by simp [a1, a2, a3, a4]⟩

/-- A 4 KiB-aligned position where no larger granule is eligible still takes a
page. -/
theorem fits_4k_of_fits {va pa cl G : Nat} (hG : G ∈ granules) (h : Fits va pa cl G) :
    Fits va pa cl SZ_4K := by
  simp only [granules, List.mem_cons, List.mem_singleton, List.not_mem_nil, or_false] at hG
  unfold Fits at *
  simp only [SZ_1G, SZ_32M, SZ_2M, SZ_64K, SZ_4K] at *
  rcases hG with rfl | rfl | rfl | rfl | rfl <;> omega

/-- C9: the chunk size chosen by the range-mapping loop is the largest of 1 GiB,
32 MiB, 2 MiB and 64 KiB to which both addresses are aligned and which fits in
the rest of the segment; it is 4 KiB when there is none; so at a 4 KiB-aligned
position with at least 4 KiB left it is the largest eligible one of the five
granules. -/
theorem chunk_size_is_greedy (va pa chunk_left : Nat) :
    ((∃ G ∈ big_granules, Fits va pa chunk_left G) →
      chunk_size va pa chunk_left ∈ big_granules ∧
      Fits va pa chunk_left (chunk_size va pa chunk_left) ∧
      ∀ G ∈ big_granules, Fits va pa chunk_left G → G ≤ chunk_size va pa chunk_left) ∧
    ((¬ ∃ G ∈ big_granules, Fits va pa chunk_left G) →
      chunk_size va pa chunk_left = SZ_4K) ∧
    (Fits va pa chunk_left SZ_4K →
      chunk_size va pa chunk_left ∈ granules ∧
      Fits va pa chunk_left (chunk_size va pa chunk_left) ∧
      ∀ G ∈ granules, Fits va pa chunk_left G → G ≤ chunk_size va pa chunk_left) := by
  have hc := chunk_size_cases va pa chunk_left
  have e1 : SZ_1G = 1073741824 := rfl
  have e2 : SZ_32M = 33554432 := rfl
  have e3 : SZ_2M = 2097152 := rfl
  have e4 : SZ_64K = 65536 := rfl
  have e5 : SZ_4K = 4096 := rfl
  simp only [big_granules, granules, List.mem_cons, List.mem_singleton, List.not_mem_nil,
    or_false, exists_eq_or_imp, exists_eq_left, forall_eq_or_imp, forall_eq]
  rcases hc with ⟨f1, h⟩ | ⟨n1, f2, h⟩ | ⟨n1, n2, f3, h⟩ | ⟨n1, n2, n3, f4, h⟩ |
    ⟨n1, n2, n3, n4, h⟩
  · rw [h]
    refine ⟨fun _ => ⟨Or.inl rfl, f1, fun _ => le_refl _, fun g => ?_, fun g => ?_,
      fun g => ?_⟩, fun g => absurd (Or.inl f1) g, fun _ => ⟨Or.inl rfl, f1, fun _ => le_refl _,
      fun g => ?_, fun g => ?_, fun g => ?_, fun g => ?_⟩⟩ <;> simp [e1, e2, e3, e4, e5]
  · rw [h]
    refine ⟨fun _ => ⟨Or.inr (Or.inl rfl), f2, fun g => absurd g n1, fun _ => le_refl _,
      fun g => ?_, fun g => ?_⟩, fun g => absurd (Or.inr (Or.inl f2)) g,
      fun _ => ⟨Or.inr (Or.inl rfl), f2, fun g => absurd g n1, fun _ => le_refl _,
      fun g => ?_, fun g => ?_, fun g => ?_⟩⟩ <;> simp [e1, e2, e3, e4, e5]
  · rw [h]
    refine ⟨fun _ => ⟨Or.inr (Or.inr (Or.inl rfl)), f3, fun g => absurd g n1,
      fun g => absurd g n2, fun _ => le_refl _, fun g => ?_⟩,
      fun g => absurd (Or.inr (Or.inr (Or.inl f3))) g,
      fun _ => ⟨Or.inr (Or.inr (Or.inl rfl)), f3, fun g => absurd g n1,
      fun g => absurd g n2, fun _ => le_refl _, fun g => ?_, fun g => ?_⟩⟩ <;>
      simp [e1, e2, e3, e4, e5]
  · rw [h]
    refine ⟨fun _ => ⟨Or.inr (Or.inr (Or.inr rfl)), f4, fun g => absurd g n1,
      fun g => absurd g n2, fun g => absurd g n3, fun _ => le_refl _⟩,
      fun g => absurd (Or.inr (Or.inr (Or.inr f4))) g,
      fun _ => ⟨Or.inr (Or.inr (Or.inr (Or.inl rfl))), f4, fun g => absurd g n1,
      fun g => absurd g n2, fun g => absurd g n3, fun _ => le_refl _, fun g => ?_⟩⟩
    simp [e4, e5]
  · rw [h]
    refine ⟨fun g => ?_, fun _ => rfl, fun f5 => ⟨Or.inr (Or.inr (Or.inr (Or.inr rfl))), f5,
      fun g => absurd g n1, fun g => absurd g n2, fun g => absurd g n3, fun g => absurd g n4,
      fun _ => le_refl _⟩⟩
    rcases g with g | g | g | g
    · exact absurd g n1
    · exact absurd g n2
    · exact absurd g n3
    · exact absurd g n4

/-- C9 at a position where 2 MiB is the largest eligible granule. -/
theorem chunk_size_is_greedy_witness :
    Fits 0x200000 0x600000 0x300000 SZ_4K ∧
    chunk_size 0x200000 0x600000 0x300000 ∈ granules ∧
    Fits 0x200000 0x600000 0x300000 (chunk_size 0x200000 0x600000 0x300000) ∧
    ∀ G ∈ granules, Fits 0x200000 0x600000 0x300000 G →
      G ≤ chunk_size 0x200000 0x600000 0x300000 :=
  ⟨by decide, (chunk_size_is_greedy 0x200000 0x600000 0x300000).2.2 (by decide)⟩

/-! ## Attribute translation -/

/-- What `__get_attr` returns, by the flags of `prot`. -/
theorem get_attr_eq (k : Build) (prot : Nat) :
    (__get_attr k prot).1 = 0 ∧
    (__get_attr k prot).2 =
      (if prot &&& IOMMU_CACHE = 0 then PTE_MT_BUFFERABLE else __get_cache_attr k) |||
      (TL_NG ||| TL_AF) |||
      (if prot &&& IOMMU_CACHE = 0 then TL_SH_NSH else TL_SH_ISH) |||
      (if prot &&& IOMMU_READ ≠ 0 ∧ prot &&& IOMMU_WRITE = 0 then TL_AP_RO else TL_AP_RW) := by
  refine ⟨rfl, ?_⟩
  have h3 : prot &&& 3 = (prot &&& 1) ||| (prot &&& 2) := Nat.and_or_distrib_left prot 1 2
  have a1 : (prot ||| 3) &&& 1 = (prot &&& 1) ||| 1 := by
    rw [Nat.and_distrib_right]; rfl
  have a2 : (prot ||| 3) &&& 2 = (prot &&& 2) ||| 2 := by
    rw [Nat.and_distrib_right]; rfl
  have a4 : (prot ||| 3) &&& 4 = prot &&& 4 := by
    rw [Nat.and_distrib_right]; exact Nat.or_zero _
  have b2 : (prot ||| 1) &&& 2 = prot &&& 2 := by
    rw [Nat.and_distrib_right]; exact Nat.or_zero _
  have b4 : (prot ||| 1) &&& 4 = prot &&& 4 := by
    rw [Nat.and_distrib_right]; exact Nat.or_zero _
  have n2 : (prot &&& 2) ||| 2 ≠ 0 := fun h => absurd ((lor_eq_zero _ _).1 h).2 (by decide)
  unfold __get_attr
  simp only [IOMMU_READ, IOMMU_WRITE, IOMMU_CACHE]
  have d3 : (1 ||| 2 : Nat) = 3 := by decide
  rw [d3]
  by_cases c0 : prot &&& 3 = 0
  · have hR : prot &&& 1 = 0 := ((lor_eq_zero _ _).1 (h3 ▸ c0)).1
    by_cases c4 : prot &&& 4 = 0 <;> simp [-Nat.and_one_is_mod, c0, a1, a2, a4, n2, hR, c4]
  · by_cases cW : prot &&& 2 = 0
    · have hR : prot &&& 1 ≠ 0 := fun h => c0 (by rw [h3, h, cW]; rfl)
      by_cases c4 : prot &&& 4 = 0 <;> simp [-Nat.and_one_is_mod, c0, cW, hR, c4]
    · by_cases cR : prot &&& 1 = 0
      · by_cases c4 : prot &&& 4 = 0 <;> simp [-Nat.and_one_is_mod, c0, cW, cR, b2, b4, c4]
      · by_cases c4 : prot &&& 4 = 0 <;> simp [-Nat.and_one_is_mod, c0, cW, cR, c4]

/-- C10: `__get_attr` is total, the upper attributes are 0 and the lower attributes
are the OR of the memory-type index, of `TL_NG` and `TL_AF`, of the shareability
and of the access permission, which is read-only exactly when read is requested
without write. -/
theorem get_attr_spec (k : Build) (prot : Nat) :
    (__get_attr k prot).1 = 0 ∧
    (__get_attr k prot).2 =
      (if prot &&& IOMMU_CACHE = 0 then PTE_MT_BUFFERABLE else __get_cache_attr k) |||
      (TL_NG ||| TL_AF) |||
      (if prot &&& IOMMU_CACHE = 0 then TL_SH_NSH else TL_SH_ISH) |||
      (if prot &&& IOMMU_READ ≠ 0 ∧ prot &&& IOMMU_WRITE = 0 then TL_AP_RO else TL_AP_RW) :=
  get_attr_eq k prot

end MsmLpae

namespace MsmLpae

/-! ## Stores, runs and the page allocator -/

@[simp] theorem write_mem (s : PtState) (p : PtePtr) (v : Nat) (q : PtePtr) :
    (write s p v).mem q = if q = p then v else s.mem q := by
  simp [write, Function.update_apply]

@[simp] theorem write_live (s : PtState) (p : PtePtr) (v : Nat) : (write s p v).live = s.live := rfl

@[simp] theorem write_pool (s : PtState) (p : PtePtr) (v : Nat) : (write s p v).pool = s.pool := rfl

@[simp] theorem write_fl_table (s : PtState) (p : PtePtr) (v : Nat) :
    (write s p v).fl_table = s.fl_table := rfl

@[simp] theorem memset_zero_fl (s : PtState) (t a n i : Nat) :
    (memset_zero s t a n).mem (.fl i) = s.mem (.fl i) := rfl

@[simp] theorem memset_zero_pg (s : PtState) (t a n p j : Nat) :
    (memset_zero s t a n).mem (.pg p j) =
      if p = t ∧ a ≤ j ∧ j < a + n then 0 else s.mem (.pg p j) := rfl

@[simp] theorem memset_zero_live (s : PtState) (t a n : Nat) :
    (memset_zero s t a n).live = s.live := rfl

@[simp] theorem memset_zero_pool (s : PtState) (t a n : Nat) :
    (memset_zero s t a n).pool = s.pool := rfl

@[simp] theorem memset_zero_fl_table (s : PtState) (t a n : Nat) :
    (memset_zero s t a n).fl_table = s.fl_table := rfl

@[simp] theorem free_page_mem (s : PtState) (p : Nat) : (free_page s p).mem = s.mem := rfl

@[simp] theorem free_page_pool (s : PtState) (p : Nat) : (free_page s p).pool = s.pool := rfl

@[simp] theorem free_page_fl_table (s : PtState) (p : Nat) :
    (free_page s p).fl_table = s.fl_table := rfl

theorem mem_free_page (s : PtState) (p q : Nat) :
    q ∈ (free_page s p).live ↔ q ∈ s.live ∧ q ≠ p := by
  simp [free_page, List.mem_filter]

@[simp] theorem add_fl (i n : Nat) : (PtePtr.fl i).add n = .fl (i + n) := rfl

@[simp] theorem add_pg (p i n : Nat) : (PtePtr.pg p i).add n = .pg p (i + n) := rfl

@[simp] theorem add_zero (p : PtePtr) : p.add 0 = p := by
  cases p <;> rfl

theorem write_run_succ (s : PtState) (pte : PtePtr) (n v : Nat) :
    write_run s pte (n + 1) v = write (write_run s pte n v) (pte.add n) v := by
  simp [write_run, List.range_succ, List.foldl_append]

theorem write_run_one (s : PtState) (pte : PtePtr) (v : Nat) :
    write_run s pte 1 v = write s pte v := by
  simp [write_run, List.range_succ]

theorem write_run_mem (s : PtState) (pte : PtePtr) (n v : Nat) (q : PtePtr) :
    (write_run s pte n v).mem q = if ∃ i < n, q = pte.add i then v else s.mem q := by
  induction n with
  | zero => simp [write_run]
  | succ n ih =>
    rw [write_run_succ, write_mem, ih]
    by_cases h : q = pte.add n
    · have : ∃ i < n + 1, q = pte.add i := ⟨n, Nat.lt_succ_self n, h⟩
      rw [if_pos h, if_pos this]
    · by_cases h2 : ∃ i < n, q = pte.add i
      · obtain ⟨i, hi, e⟩ := h2
        have h3 : ∃ i < n + 1, q = pte.add i := ⟨i, Nat.lt_succ_of_lt hi, e⟩
        have h4 : ∃ i < n, q = pte.add i := ⟨i, hi, e⟩
        simp only [h, if_false, h3, h4, if_true]
      · have h3 : ¬ ∃ i < n + 1, q = pte.add i := by
          rintro ⟨i, hi, e⟩
          rcases Nat.lt_succ_iff_lt_or_eq.1 hi with h5 | h5
          · exact h2 ⟨i, h5, e⟩
          · exact h (h5 ▸ e)
        simp only [h, if_false, h2, h3]

theorem write_run_fl (s : PtState) (p j n v i : Nat) :
    (write_run s (.pg p j) n v).mem (.fl i) = s.mem (.fl i) := by
  rw [write_run_mem]
  simp

theorem write_run_pg (s : PtState) (p j n v p1 j1 : Nat) :
    (write_run s (.pg p j) n v).mem (.pg p1 j1) =
      if p1 = p ∧ j ≤ j1 ∧ j1 < j + n then v else s.mem (.pg p1 j1) := by
  rw [write_run_mem]
  have : (∃ i < n, PtePtr.pg p1 j1 = (PtePtr.pg p j).add i) ↔ p1 = p ∧ j ≤ j1 ∧ j1 < j + n := by
    constructor
    · rintro ⟨i, hi, e⟩
      simp only [add_pg, PtePtr.pg.injEq] at e
      omega
    · rintro ⟨rfl, h1, h2⟩
      refine ⟨j1 - j, by omega, ?_⟩
      have : j + (j1 - j) = j1 := by omega
      rw [add_pg, this]
  simp only [this]

@[simp] theorem write_run_live (s : PtState) (pte : PtePtr) (n v : Nat) :
    (write_run s pte n v).live = s.live := by
  induction n with
  | zero => rfl
  | succ n ih => rw [write_run_succ, write_live, ih]

@[simp] theorem write_run_pool (s : PtState) (pte : PtePtr) (n v : Nat) :
    (write_run s pte n v).pool = s.pool := by
  induction n with
  | zero => rfl
  | succ n ih => rw [write_run_succ, write_pool, ih]

@[simp] theorem write_run_fl_table (s : PtState) (pte : PtePtr) (n v : Nat) :
    (write_run s pte n v).fl_table = s.fl_table := by
  induction n with
  | zero => rfl
  | succ n ih => rw [write_run_succ, write_fl_table, ih]

theorem any_busy_eq_true (s : PtState) (pte : PtePtr) (n : Nat) :
    any_busy s pte n = true ↔ ∃ i < n, s.mem (pte.add i) ≠ 0 := by
  simp [any_busy, List.any_eq_true]

theorem any_busy_eq_false (s : PtState) (pte : PtePtr) (n : Nat) :
    any_busy s pte n = false ↔ ∀ i < n, s.mem (pte.add i) = 0 := by
  rw [← Bool.not_eq_true, any_busy_eq_true]
  push_neg
  rfl

/-! ## Return codes -/

theorem EINVAL_ne : (-EINVAL : Int) ≠ 0 ∧ (-EINVAL : Int) ≠ -EBUSY ∧ (-EINVAL : Int) ≠ -ENOMEM := by
  decide

theorem fl_1G_map_ret (s : PtState) (p : PtePtr) (pa u l : Nat) :
    (fl_1G_map s p pa u l).1 = 0 ∨ (fl_1G_map s p pa u l).1 = -EBUSY := by
  unfold fl_1G_map; split <;> simp

theorem sl_2m_map_ret (s : PtState) (p : PtePtr) (pa u l : Nat) :
    (sl_2m_map s p pa u l).1 = 0 ∨ (sl_2m_map s p pa u l).1 = -EBUSY := by
  unfold sl_2m_map; split <;> simp

theorem sl_32m_map_ret (s : PtState) (p : PtePtr) (pa u l : Nat) :
    (sl_32m_map s p pa u l).1 = 0 ∨ (sl_32m_map s p pa u l).1 = -EBUSY := by
  unfold sl_32m_map; split <;> simp

theorem tl_4k_map_ret (s : PtState) (p : PtePtr) (pa u l : Nat) :
    (tl_4k_map s p pa u l).1 = 0 ∨ (tl_4k_map s p pa u l).1 = -EBUSY := by
  unfold tl_4k_map; split <;> simp

theorem tl_64k_map_ret (s : PtState) (p : PtePtr) (pa u l : Nat) :
    (tl_64k_map s p pa u l).1 = 0 ∨ (tl_64k_map s p pa u l).1 = -EBUSY := by
  unfold tl_64k_map; split <;> simp

theorem handle_1st_lvl_ret (s : PtState) (p : PtePtr) (pa u l len : Nat) :
    (handle_1st_lvl s p pa u l len).1 = 0 ∨ (handle_1st_lvl s p pa u l len).1 = -EBUSY ∨
      (handle_1st_lvl s p pa u l len).1 = -ENOMEM := by
  unfold handle_1st_lvl
  split
  · rcases fl_1G_map_ret s p pa u l with h | h <;> simp [h]
  · by_cases h0 : s.mem p = 0
    · by_cases h1 : (make_second_level_tbl s p).1 = 0
      · simp [h0, h1, ENOMEM]
      · simp only [h0, h1, if_true, if_false]
        split_ifs <;> simp
    · simp only [h0, if_false]
      split_ifs <;> simp

theorem handle_3rd_lvl_ret (s : PtState) (p : PtePtr) (va pa u l len : Nat) :
    (handle_3rd_lvl s p va pa u l len).1 = 0 ∨ (handle_3rd_lvl s p va pa u l len).1 = -EBUSY ∨
      (handle_3rd_lvl s p va pa u l len).1 = -ENOMEM := by
  have tail : ∀ t : PtState,
      (if t.mem p &&& FLSL_TYPE_TABLE ≠ FLSL_TYPE_TABLE then ((-EBUSY : Int), t)
        else if len = SZ_64K then
          tl_64k_map t (.pg (FOLLOW_TO_NEXT_TABLE t p) (TL_OFFSET va)) pa u l
        else tl_4k_map t (.pg (FOLLOW_TO_NEXT_TABLE t p) (TL_OFFSET va)) pa u l).1 = 0 ∨
      (if t.mem p &&& FLSL_TYPE_TABLE ≠ FLSL_TYPE_TABLE then ((-EBUSY : Int), t)
        else if len = SZ_64K then
          tl_64k_map t (.pg (FOLLOW_TO_NEXT_TABLE t p) (TL_OFFSET va)) pa u l
        else tl_4k_map t (.pg (FOLLOW_TO_NEXT_TABLE t p) (TL_OFFSET va)) pa u l).1 = -EBUSY := by
    intro t
    split_ifs
    · simp
    · exact tl_64k_map_ret _ _ _ _ _
    · exact tl_4k_map_ret _ _ _ _ _
  unfold handle_3rd_lvl
  by_cases h0 : s.mem p = 0
  · by_cases h1 : (make_third_level_tbl s p).1 = 0
    · simp [h0, h1, ENOMEM]
    · simp only [h0, h1, if_true, if_false, ne_eq, not_true_eq_false]
      rcases tail (make_third_level_tbl s p).2 with h | h
      · exact Or.inl h
      · exact Or.inr (Or.inl h)
  · simp only [h0, if_false, ne_eq, not_true_eq_false]
    rcases tail s with h | h
    · exact Or.inl h
    · exact Or.inr (Or.inl h)

theorem common_error_check_eq (len fl_table : Nat) :
    common_error_check len fl_table = if len ∈ granules ∧ fl_table ≠ 0 then 0 else -EINVAL := by
  unfold common_error_check granules
  simp only [List.mem_cons, List.mem_singleton, List.not_mem_nil, or_false]
  by_cases h1 : len = SZ_1G <;> by_cases h2 : len = SZ_32M <;> by_cases h3 : len = SZ_2M <;>
    by_cases h4 : len = SZ_64K <;> by_cases h5 : len = SZ_4K <;>
    by_cases h6 : fl_table = 0 <;> simp [h1, h2, h3, h4, h5, h6]

/-- A call of `msm_iommu_pagetable_map` that passes the argument check does not
return `-EINVAL`. -/
theorem map_ret_of_valid (k : Build) (s : PtState) (va pa len prot : Nat)
    (hlen : len ∈ granules) (hfl : s.fl_table ≠ 0) :
    (msm_iommu_pagetable_map k s va pa len prot).1 ≠ -EINVAL := by
  have hc : common_error_check len s.fl_table = 0 := by
    rw [common_error_check_eq]; simp [hlen, hfl]
  obtain ⟨z0, zb, zm⟩ := EINVAL_ne
  unfold msm_iommu_pagetable_map
  simp only [hc, ne_eq, not_true_eq_false, if_false, hfl]
  have h1 := handle_1st_lvl_ret s (.fl (FL_OFFSET va)) pa (__get_attr k prot).1
    (__get_attr k prot).2 len
  have fin : ∀ r : Int, (r = 0 ∨ r = -EBUSY ∨ r = -ENOMEM) → r ≠ -EINVAL := by
    rintro r (h | h | h) <;> rw [h] <;> first | exact zb.symm | exact zm.symm | exact z0.symm
  have fin2 : ∀ r : Int, (r = 0 ∨ r = -EBUSY) → r ≠ -EINVAL := by
    rintro r (h | h) <;> rw [h] <;> first | exact zb.symm | exact z0.symm
  split_ifs
  all_goals first
    | exact fin _ h1
    | exact fin2 _ (sl_32m_map_ret _ _ _ _ _)
    | exact fin2 _ (sl_2m_map_ret _ _ _ _ _)
    | exact fin _ (handle_3rd_lvl_ret _ _ _ _ _ _ _)

/-- A call that fails the argument check returns `-EINVAL` and the state it was
given. -/
theorem map_of_invalid (k : Build) (s : PtState) (va pa len prot : Nat)
    (h : len ∉ granules ∨ s.fl_table = 0) :
    msm_iommu_pagetable_map k s va pa len prot = (-EINVAL, s) := by
  have hc : common_error_check len s.fl_table = -EINVAL := by
    rw [common_error_check_eq]
    rcases h with h | h <;> simp [h]
  unfold msm_iommu_pagetable_map
  simp [hc, EINVAL]

/-- C4: `msm_iommu_pagetable_map` returns `-EINVAL` exactly when the length is none
of the five granules or the root pointer is null, and a call that returns
`-EINVAL` leaves the whole state (descriptors, pages in use, allocator) as it
was. -/
theorem map_einval_iff (k : Build) (s : PtState) (va pa len prot : Nat) :
    ((msm_iommu_pagetable_map k s va pa len prot).1 = -EINVAL ↔
      (len ∉ granules ∨ s.fl_table = 0)) ∧
    ((msm_iommu_pagetable_map k s va pa len prot).1 = -EINVAL →
      (msm_iommu_pagetable_map k s va pa len prot).2 = s) := by
  have key : (msm_iommu_pagetable_map k s va pa len prot).1 = -EINVAL →
      (len ∉ granules ∨ s.fl_table = 0) := by
    intro h
    by_contra hn
    push_neg at hn
    exact map_ret_of_valid k s va pa len prot hn.1 hn.2 h
  refine ⟨⟨key, fun h => ?_⟩, fun h => ?_⟩
  · rw [map_of_invalid k s va pa len prot h]
  · rw [map_of_invalid k s va pa len prot (key h)]

/-- C4 on a length that is no granule: the call is refused and the state kept. -/
theorem map_einval_iff_witness :
    (msm_iommu_pagetable_map k0 (fresh_pt []) 0 0 0x3000 0).1 = -EINVAL ∧
    (msm_iommu_pagetable_map k0 (fresh_pt []) 0 0 0x3000 0).2 = fresh_pt [] :=
  ⟨((map_einval_iff k0 (fresh_pt []) 0 0 0x3000 0).1).2 (Or.inl (by decide)),
   (map_einval_iff k0 (fresh_pt []) 0 0 0x3000 0).2
     (((map_einval_iff k0 (fresh_pt []) 0 0 0x3000 0).1).2 (Or.inl (by decide)))⟩

end MsmLpae

namespace MsmLpae

/-! ## Mapping never overwrites -/

theorem Keeps.refl (L : List Nat) (s : PtState) : Keeps L s s := fun _ _ _ => rfl

theorem Keeps.trans {L : List Nat} {s t u : PtState} (h1 : Keeps L s t) (h2 : Keeps L t u) :
    Keeps L s u := by
  intro q hq hnz
  have e1 := h1 q hq hnz
  have e2 := h2 q hq (by rw [e1]; exact hnz)
  rw [e2, e1]

theorem keeps_write (L : List Nat) (s : PtState) (p : PtePtr) (v : Nat) (h : s.mem p = 0) :
    Keeps L s (write s p v) := by
  intro q _ hnz
  have : q ≠ p := fun e => hnz (e ▸ h)
  simp [this]

theorem keeps_write_run (L : List Nat) (s : PtState) (pte : PtePtr) (n v : Nat)
    (h : ∀ i < n, s.mem (pte.add i) = 0) : Keeps L s (write_run s pte n v) := by
  intro q _ hnz
  rw [write_run_mem]
  have : ¬ ∃ i < n, q = pte.add i := by
    rintro ⟨i, hi, e⟩
    exact hnz (e ▸ h i hi)
  simp [this]

theorem get_free_page_mem (s : PtState) : (__get_free_page s).2.mem = s.mem := by
  unfold __get_free_page
  split
  · rfl
  · split <;> rfl

theorem get_free_page_fl_table (s : PtState) : (__get_free_page s).2.fl_table = s.fl_table := by
  unfold __get_free_page
  split
  · rfl
  · split <;> rfl

theorem get_free_page_pool (s : PtState) : ∀ p ∈ (__get_free_page s).2.pool, p ∈ s.pool := by
  unfold __get_free_page
  split
  · intro p hp; exact hp
  · rename_i p rest e
    split <;> (intro q hq; rw [e]; exact List.mem_cons_of_mem _ hq)

theorem get_free_page_mem_pool (s : PtState) (h : (__get_free_page s).1 ≠ 0) :
    (__get_free_page s).1 ∈ s.pool := by
  cases hs : s.pool with
  | nil => simp [__get_free_page, hs] at h
  | cons p rest =>
    by_cases hp : p = 0
    · simp [__get_free_page, hs, hp] at h
    · simp [__get_free_page, hs, hp]

/-- A page taken from outside `L` can be cleared and linked from an empty slot
without touching an occupied slot of `L`. -/
theorem keeps_link (L : List Nat) (s : PtState) (pte : PtePtr) (t v : Nat)
    (ht : t ∉ L) (h0 : s.mem pte = 0) :
    Keeps L s (write (memset_zero (__get_free_page s).2 t 0 (SZ_4K / 8)) pte v) := by
  intro q hq hnz
  have hne : q ≠ pte := fun e => hnz (e ▸ h0)
  rw [write_mem, if_neg hne]
  cases q with
  | fl i => rw [memset_zero_fl, get_free_page_mem]
  | pg p j =>
    have : p ≠ t := fun e => ht (e ▸ hq)
    rw [memset_zero_pg, get_free_page_mem]
    simp [this]

theorem keeps_make_second_level_tbl (L : List Nat) (s : PtState) (pte : PtePtr)
    (hp : ∀ p ∈ s.pool, p ∉ L) (h0 : s.mem pte = 0) :
    Keeps L s (make_second_level_tbl s pte).2 := by
  unfold make_second_level_tbl
  by_cases h : (__get_free_page s).1 = 0
  · simp only [h, if_true]
    intro q _ _
    rw [get_free_page_mem]
  · simp only [h, if_false]
    exact keeps_link L s pte _ _ (hp _ (get_free_page_mem_pool s h)) h0

theorem keeps_make_third_level_tbl (L : List Nat) (s : PtState) (pte : PtePtr)
    (hp : ∀ p ∈ s.pool, p ∉ L) (h0 : s.mem pte = 0) :
    Keeps L s (make_third_level_tbl s pte).2 := by
  unfold make_third_level_tbl
  by_cases h : (__get_free_page s).1 = 0
  · simp only [h, if_true]
    intro q _ _
    rw [get_free_page_mem]
  · simp only [h, if_false]
    exact keeps_link L s pte _ _ (hp _ (get_free_page_mem_pool s h)) h0

theorem make_second_level_tbl_pool (s : PtState) (pte : PtePtr) :
    ∀ p ∈ (make_second_level_tbl s pte).2.pool, p ∈ s.pool := by
  unfold make_second_level_tbl
  by_cases h : (__get_free_page s).1 = 0
  · simp only [h, if_true]; exact get_free_page_pool s
  · simp only [h, if_false, write_pool, memset_zero_pool]; exact get_free_page_pool s

theorem keeps_fl_1G_map (L : List Nat) (s : PtState) (pte : PtePtr) (pa u l : Nat) :
    Keeps L s (fl_1G_map s pte pa u l).2 := by
  unfold fl_1G_map
  by_cases h : s.mem pte = 0
  · simp only [h, ne_eq, not_true_eq_false, if_false]; exact keeps_write L s pte _ h
  · simp only [h, ne_eq, not_false_eq_true, if_true]; exact Keeps.refl L s

theorem keeps_sl_2m_map (L : List Nat) (s : PtState) (pte : PtePtr) (pa u l : Nat) :
    Keeps L s (sl_2m_map s pte pa u l).2 := by
  unfold sl_2m_map
  by_cases h : s.mem pte = 0
  · simp only [h, ne_eq, not_true_eq_false, if_false]; exact keeps_write L s pte _ h
  · simp only [h, ne_eq, not_false_eq_true, if_true]; exact Keeps.refl L s

theorem keeps_tl_4k_map (L : List Nat) (s : PtState) (pte : PtePtr) (pa u l : Nat) :
    Keeps L s (tl_4k_map s pte pa u l).2 := by
  unfold tl_4k_map
  by_cases h : s.mem pte = 0
  · simp only [h, ne_eq, not_true_eq_false, if_false]; exact keeps_write L s pte _ h
  · simp only [h, ne_eq, not_false_eq_true, if_true]; exact Keeps.refl L s

theorem keeps_sl_32m_map (L : List Nat) (s : PtState) (pte : PtePtr) (pa u l : Nat) :
    Keeps L s (sl_32m_map s pte pa u l).2 := by
  unfold sl_32m_map
  by_cases h : any_busy s pte 16 = true
  · simp only [h, if_true]; exact Keeps.refl L s
  · simp only [h, if_false]
    exact keeps_write_run L s pte 16 _
      ((any_busy_eq_false s pte 16).1 (Bool.not_eq_true _ ▸ h))

theorem keeps_tl_64k_map (L : List Nat) (s : PtState) (pte : PtePtr) (pa u l : Nat) :
    Keeps L s (tl_64k_map s pte pa u l).2 := by
  unfold tl_64k_map
  by_cases h : any_busy s pte 16 = true
  · simp only [h, if_true]; exact Keeps.refl L s
  · simp only [h, if_false]
    exact keeps_write_run L s pte 16 _
      ((any_busy_eq_false s pte 16).1 (Bool.not_eq_true _ ▸ h))

theorem keeps_handle_1st_lvl (L : List Nat) (s : PtState) (pte : PtePtr) (pa u l len : Nat)
    (hp : ∀ p ∈ s.pool, p ∉ L) :
    Keeps L s (handle_1st_lvl s pte pa u l len).2 ∧
      ∀ p ∈ (handle_1st_lvl s pte pa u l len).2.pool, p ∈ s.pool := by
  unfold handle_1st_lvl
  by_cases hl : len = SZ_1G
  · simp only [hl, if_true]
    refine ⟨keeps_fl_1G_map L s pte pa u l, ?_⟩
    unfold fl_1G_map
    split <;> (intro p h; exact h)
  · simp only [hl, if_false]
    by_cases h0 : s.mem pte = 0
    · have hk := keeps_make_second_level_tbl L s pte hp h0
      have hq := make_second_level_tbl_pool s pte
      simp only [h0, if_true]
      split_ifs <;> exact ⟨hk, hq⟩
    · simp only [h0, if_false]
      split_ifs <;> exact ⟨Keeps.refl L s, fun p h => h⟩

theorem keeps_handle_3rd_lvl (L : List Nat) (s : PtState) (pte : PtePtr) (va pa u l len : Nat)
    (hp : ∀ p ∈ s.pool, p ∉ L) :
    Keeps L s (handle_3rd_lvl s pte va pa u l len).2 := by
  unfold handle_3rd_lvl
  by_cases h0 : s.mem pte = 0
  · have hk := keeps_make_third_level_tbl L s pte hp h0
    simp only [h0, if_true]
    split_ifs
    all_goals first
      | exact hk
      | exact hk.trans (keeps_tl_64k_map L _ _ pa u l)
      | exact hk.trans (keeps_tl_4k_map L _ _ pa u l)
  · simp only [h0, if_false]
    split_ifs
    all_goals first
      | exact Keeps.refl L s
      | exact keeps_tl_64k_map L _ _ pa u l
      | exact keeps_tl_4k_map L _ _ pa u l

theorem keeps_map (k : Build) (L : List Nat) (s : PtState) (va pa len prot : Nat)
    (hp : ∀ p ∈ s.pool, p ∉ L) :
    Keeps L s (msm_iommu_pagetable_map k s va pa len prot).2 := by
  have h1 := keeps_handle_1st_lvl L s (.fl (FL_OFFSET va)) pa (__get_attr k prot).1
    (__get_attr k prot).2 len hp
  unfold msm_iommu_pagetable_map
  simp only []
  split_ifs
  all_goals first
    | exact Keeps.refl L s
    | exact h1.1
    | exact h1.1.trans (keeps_sl_32m_map L _ _ pa _ _)
    | exact h1.1.trans (keeps_sl_2m_map L _ _ pa _ _)
    | exact h1.1.trans (keeps_handle_3rd_lvl L _ _ va pa _ _ len (fun p h => hp p (h1.2 p h)))

/-- C3: `msm_iommu_pagetable_map` never overwrites. Given an allocator that hands out
no page frame that is in use, every slot of the first-level table or of a page
in use that holds a non-zero descriptor before the call holds the same
descriptor after it, whatever the call returns; so only slots that were zero
change. -/
theorem map_never_overwrites (k : Build) (s : PtState) (va pa len prot : Nat)
    (_hva : va % len = 0) (hpool : ∀ p ∈ s.pool, p ∉ s.live)
    (q : PtePtr) (hq : InUse s.live q) (hnz : s.mem q ≠ 0) :
    (msm_iommu_pagetable_map k s va pa len prot).2.mem q = s.mem q :=
  keeps_map k s.live s va pa len prot hpool q hq hnz

/-- C3 where a page is requested inside a 1 GiB block: the block descriptor stays. -/
theorem map_never_overwrites_witness :
    0 % SZ_4K = 0 ∧ (∀ p ∈ pt_1G.pool, p ∉ pt_1G.live) ∧ InUse pt_1G.live (.fl 0) ∧
    pt_1G.mem (.fl 0) ≠ 0 ∧
    (msm_iommu_pagetable_map k0 pt_1G 0 0x5000 SZ_4K 3).2.mem (.fl 0) = pt_1G.mem (.fl 0) :=
  ⟨by decide, by decide, by decide, by decide,
    map_never_overwrites k0 pt_1G 0 0x5000 SZ_4K 3 (by decide) (by decide) (.fl 0)
      (by decide) (by decide)⟩

end MsmLpae

namespace MsmLpae

/-! ## Descriptor types -/

theorem land3_eq_mod (d : Nat) : d &&& 3 = d % 4 := Nat.and_pow_two_sub_one_eq_mod d 2

theorem type_mask_eq : FLSL_PTE_TYPE_MASK = 3 := rfl
theorem type_table_eq : FLSL_TYPE_TABLE = 3 := rfl
theorem type_block_eq : FLSL_TYPE_BLOCK = 1 := rfl
theorem type_page_eq : TL_TYPE_PAGE = 3 := rfl

theorem isTable_iff (d : Nat) : isTable d ↔ d % 4 = 3 := by
  unfold isTable; rw [type_mask_eq, type_table_eq, land3_eq_mod]

theorem isBlock_iff (d : Nat) : isBlock d ↔ d % 4 = 1 := by
  unfold isBlock; rw [type_mask_eq, type_block_eq, land3_eq_mod]

theorem isTable_ne_zero {d : Nat} (h : isTable d) : d ≠ 0 := by
  rw [isTable_iff] at h; intro e; rw [e] at h; exact absurd h (by decide)

theorem isBlock_ne_zero {d : Nat} (h : isBlock d) : d ≠ 0 := by
  rw [isBlock_iff] at h; intro e; rw [e] at h; exact absurd h (by decide)

theorem not_isTable_zero : ¬ isTable 0 := fun h => isTable_ne_zero h rfl

theorem isBlock_not_isTable {d : Nat} (h : isBlock d) : ¬ isTable d := by
  rw [isBlock_iff] at h; rw [isTable_iff]; omega

theorem lor_mod4 (x y : Nat) : (x ||| y) % 4 = (x % 4) ||| (y % 4) := lor_mod_two_pow x y 2

theorem land_mod4 (x y : Nat) : (x &&& y) % 4 = (x % 4) &&& (y % 4) := land_mod_two_pow x y 2

/-- The lower attributes leave the two type bits clear. -/
theorem lower_attr_mod4 (k : Build) (prot : Nat) : (__get_attr k prot).2 % 4 = 0 := by
  rw [(get_attr_eq k prot).2]
  have hc : __get_cache_attr k % 4 = 0 := by
    unfold __get_cache_attr
    split
    · rw [land_mod4]; exact Nat.and_zero _
    · rfl
  simp only [lor_mod4]
  split_ifs <;> first | rfl | (simp only [hc]; rfl)

theorem upper_attr_eq (k : Build) (prot : Nat) : (__get_attr k prot).1 = 0 :=
  (get_attr_eq k prot).1

/-- The link written by `make_second_level_tbl` and `make_third_level_tbl` is a
table descriptor. -/
theorem isTable_link (p : Nat) : isTable ((p &&& FLSL_BASE_MASK) ||| FLSL_TYPE_TABLE) := by
  rw [isTable_iff, lor_mod4, land_mod4]
  have : FLSL_BASE_MASK % 4 = 0 := rfl
  rw [this, Nat.and_zero]
  rfl

/-- Following the link written for an aligned page frame leads to that frame. -/
theorem next_link (p : Nat) (hp : p &&& FLSL_BASE_MASK = p) :
    ((p &&& FLSL_BASE_MASK) ||| FLSL_TYPE_TABLE) &&& FLSL_BASE_MASK = p := by
  rw [Nat.and_distrib_right, Nat.and_assoc, Nat.and_self, hp]
  have : FLSL_TYPE_TABLE &&& FLSL_BASE_MASK = 0 := rfl
  rw [this, Nat.or_zero]

theorem leaf_desc_mod4 (k : Build) (prot pa len : Nat) :
    leaf_desc k prot pa len % 4 = if len = SZ_1G ∨ len = SZ_32M ∨ len = SZ_2M then 1 else 3 := by
  have hl := lower_attr_mod4 k prot
  have hu := upper_attr_eq k prot
  have m1 : FLSL_1G_BLOCK_MASK % 4 = 0 := rfl
  have m2 : FLSL_BLOCK_MASK % 4 = 0 := rfl
  have m3 : TL_PAGE_MASK % 4 = 0 := rfl
  have m4 : TL_CH % 4 = 0 := rfl
  unfold leaf_desc
  simp only []
  split_ifs <;>
    simp only [lor_mod4, land_mod4, hl, hu, m1, m2, m3, m4, Nat.and_zero, Nat.zero_mod,
      Nat.zero_or, Nat.or_zero] <;> first | rfl | simp_all

theorem leaf_desc_ne_zero (k : Build) (prot pa len : Nat) : leaf_desc k prot pa len ≠ 0 := by
  intro h
  have := leaf_desc_mod4 k prot pa len
  rw [h] at this
  split_ifs at this

theorem isBlock_leaf_desc (k : Build) (prot pa len : Nat)
    (h : len = SZ_1G ∨ len = SZ_32M ∨ len = SZ_2M) : isBlock (leaf_desc k prot pa len) := by
  rw [isBlock_iff, leaf_desc_mod4, if_pos h]

theorem isPage_leaf_desc (k : Build) (prot pa len : Nat)
    (h : ¬ (len = SZ_1G ∨ len = SZ_32M ∨ len = SZ_2M)) :
    leaf_desc k prot pa len &&& FLSL_PTE_TYPE_MASK = TL_TYPE_PAGE := by
  rw [type_mask_eq, type_page_eq, land3_eq_mod, leaf_desc_mod4, if_neg h]

/-! ## Linking a new table -/

theorem link_table_mem (s : PtState) (pte : PtePtr) (p : Nat) (q : PtePtr) :
    (link_table s pte p).mem q =
      if q = pte then (p &&& FLSL_BASE_MASK) ||| FLSL_TYPE_TABLE
      else match q with
        | .fl _ => s.mem q
        | .pg p1 j => if p1 = p ∧ j < 512 then 0 else s.mem q := by
  unfold link_table
  rw [write_mem]
  by_cases h : q = pte
  · simp [h]
  · simp only [h, if_false]
    cases q with
    | fl i => rfl
    | pg p1 j => rw [memset_zero_pg]; simp [SZ_4K]

theorem link_table_self (s : PtState) (pte : PtePtr) (p : Nat) :
    (link_table s pte p).mem pte = (p &&& FLSL_BASE_MASK) ||| FLSL_TYPE_TABLE := by
  rw [link_table_mem, if_pos rfl]

theorem link_table_fl (s : PtState) (p j i p1 : Nat) :
    (link_table s (.pg p j) p1).mem (.fl i) = s.mem (.fl i) := by
  rw [link_table_mem]; simp

@[simp] theorem link_table_live (s : PtState) (pte : PtePtr) (p : Nat) :
    (link_table s pte p).live = p :: s.live := rfl

@[simp] theorem link_table_pool (s : PtState) (pte : PtePtr) (p : Nat) :
    (link_table s pte p).pool = s.pool.tail := rfl

@[simp] theorem link_table_fl_table (s : PtState) (pte : PtePtr) (p : Nat) :
    (link_table s pte p).fl_table = s.fl_table := rfl

theorem get_free_page_cons (s : PtState) (p : Nat) (rest : List Nat) (h : s.pool = p :: rest)
    (hp : p ≠ 0) :
    __get_free_page s = (p, { s with pool := s.pool.tail, live := p :: s.live }) := by
  unfold __get_free_page
  simp [h, hp]

theorem get_free_page_zero (s : PtState) (h : (__get_free_page s).1 = 0) :
    ¬ ∃ p rest, s.pool = p :: rest ∧ p ≠ 0 := by
  rintro ⟨p, rest, e, hp⟩
  rw [get_free_page_cons s p rest e hp] at h
  exact hp h

theorem get_free_page_nonzero (s : PtState) (h : (__get_free_page s).1 ≠ 0) :
    ∃ p rest, s.pool = p :: rest ∧ p ≠ 0 := by
  cases hs : s.pool with
  | nil => simp [__get_free_page, hs] at h
  | cons p rest =>
    by_cases hp : p = 0
    · simp [__get_free_page, hs, hp] at h
    · exact ⟨p, rest, rfl, hp⟩

theorem make_second_level_tbl_ok (s : PtState) (pte : PtePtr) (p : Nat) (rest : List Nat)
    (h : s.pool = p :: rest) (hp : p ≠ 0) :
    make_second_level_tbl s pte = (p, link_table s pte p) := by
  unfold make_second_level_tbl
  rw [get_free_page_cons s p rest h hp]
  simp only [hp, if_false]
  rfl

theorem make_third_level_tbl_ok (s : PtState) (pte : PtePtr) (p : Nat) (rest : List Nat)
    (h : s.pool = p :: rest) (hp : p ≠ 0) :
    make_third_level_tbl s pte = (p, link_table s pte p) := by
  unfold make_third_level_tbl
  rw [get_free_page_cons s p rest h hp]
  simp only [hp, if_false]
  rfl

theorem make_second_level_tbl_zero (s : PtState) (pte : PtePtr)
    (h : (make_second_level_tbl s pte).1 ≠ 0) : ∃ p rest, s.pool = p :: rest ∧ p ≠ 0 := by
  apply get_free_page_nonzero
  intro e
  apply h
  unfold make_second_level_tbl
  simp [e]

theorem make_third_level_tbl_zero (s : PtState) (pte : PtePtr)
    (h : (make_third_level_tbl s pte).1 ≠ 0) : ∃ p rest, s.pool = p :: rest ∧ p ≠ 0 := by
  apply get_free_page_nonzero
  intro e
  apply h
  unfold make_third_level_tbl
  simp [e]

/-- A successful `handle_1st_lvl` for a length below 1 GiB leaves a table link
in the slot, the old one or a new one. -/
theorem handle_1st_lvl_ok (s : PtState) (pte : PtePtr) (pa u l len : Nat) (hl : len ≠ SZ_1G)
    (h : (handle_1st_lvl s pte pa u l len).1 = 0) :
    Linked s pte (handle_1st_lvl s pte pa u l len).2 ∧
      isTable ((handle_1st_lvl s pte pa u l len).2.mem pte) := by
  unfold handle_1st_lvl at h ⊢
  simp only [hl, if_false] at h ⊢
  by_cases h0 : s.mem pte = 0
  · simp only [h0, if_true] at h ⊢
    by_cases hm : (make_second_level_tbl s pte).1 = 0
    · simp [hm, ENOMEM] at h
    · obtain ⟨p, rest, e, hp⟩ := make_second_level_tbl_zero s pte hm
      have hmk := make_second_level_tbl_ok s pte p rest e hp
      have hT : isTable ((link_table s pte p).mem pte) := by
        rw [link_table_self]; exact isTable_link p
      have hT' : (link_table s pte p).mem pte &&& FLSL_TYPE_TABLE = FLSL_TYPE_TABLE := hT
      simp only [hmk, hp, if_false, if_true, hT', ne_eq, not_true_eq_false]
      exact ⟨Or.inr ⟨h0, p, rest, e, hp, rfl⟩, hT⟩
  · simp only [h0, if_false, if_true] at h ⊢
    by_cases hT : s.mem pte &&& FLSL_TYPE_TABLE = FLSL_TYPE_TABLE
    · simp only [hT, ne_eq, not_true_eq_false, if_false]
      exact ⟨Or.inl ⟨hT, rfl⟩, hT⟩
    · simp [hT, EBUSY] at h

end MsmLpae

namespace MsmLpae

/-! ## What a successful mapping call has done -/

theorem fl_1G_map_ok (s : PtState) (pte : PtePtr) (pa u l : Nat)
    (h : (fl_1G_map s pte pa u l).1 = 0) :
    s.mem pte = 0 ∧ (fl_1G_map s pte pa u l).2 =
      write s pte (u ||| (pa &&& FLSL_1G_BLOCK_MASK) ||| l ||| FLSL_TYPE_BLOCK) := by
  unfold fl_1G_map at h ⊢
  by_cases h0 : s.mem pte = 0
  · simp [h0]
  · simp [h0, EBUSY] at h

theorem sl_2m_map_ok (s : PtState) (pte : PtePtr) (pa u l : Nat)
    (h : (sl_2m_map s pte pa u l).1 = 0) :
    s.mem pte = 0 ∧ (sl_2m_map s pte pa u l).2 =
      write s pte (u ||| (pa &&& FLSL_BLOCK_MASK) ||| l ||| FLSL_TYPE_BLOCK) := by
  unfold sl_2m_map at h ⊢
  by_cases h0 : s.mem pte = 0
  · simp [h0]
  · simp [h0, EBUSY] at h

theorem tl_4k_map_ok (s : PtState) (pte : PtePtr) (pa u l : Nat)
    (h : (tl_4k_map s pte pa u l).1 = 0) :
    s.mem pte = 0 ∧ (tl_4k_map s pte pa u l).2 =
      write s pte (u ||| (pa &&& TL_PAGE_MASK) ||| l ||| TL_TYPE_PAGE) := by
  unfold tl_4k_map at h ⊢
  by_cases h0 : s.mem pte = 0
  · simp [h0]
  · simp [h0, EBUSY] at h

theorem sl_32m_map_ok (s : PtState) (pte : PtePtr) (pa u l : Nat)
    (h : (sl_32m_map s pte pa u l).1 = 0) :
    (∀ i < 16, s.mem (pte.add i) = 0) ∧ (sl_32m_map s pte pa u l).2 =
      write_run s pte 16 ((u ||| TL_CH) ||| (pa &&& FLSL_BLOCK_MASK) ||| l ||| FLSL_TYPE_BLOCK) := by
  unfold sl_32m_map at h ⊢
  by_cases h0 : any_busy s pte 16 = true
  · simp [h0, EBUSY] at h
  · have h0' : any_busy s pte 16 = false := by simpa using h0
    refine ⟨(any_busy_eq_false s pte 16).1 h0', ?_⟩
    simp [h0']

theorem tl_64k_map_ok (s : PtState) (pte : PtePtr) (pa u l : Nat)
    (h : (tl_64k_map s pte pa u l).1 = 0) :
    (∀ i < 16, s.mem (pte.add i) = 0) ∧ (tl_64k_map s pte pa u l).2 =
      write_run s pte 16 ((u ||| TL_CH) ||| (pa &&& TL_PAGE_MASK) ||| l ||| TL_TYPE_PAGE) := by
  unfold tl_64k_map at h ⊢
  by_cases h0 : any_busy s pte 16 = true
  · simp [h0, EBUSY] at h
  · have h0' : any_busy s pte 16 = false := by simpa using h0
    refine ⟨(any_busy_eq_false s pte 16).1 h0', ?_⟩
    simp [h0']

theorem SZ_distinct :
    SZ_1G ≠ SZ_32M ∧ SZ_1G ≠ SZ_2M ∧ SZ_1G ≠ SZ_64K ∧ SZ_1G ≠ SZ_4K ∧ SZ_32M ≠ SZ_2M ∧
    SZ_32M ≠ SZ_64K ∧ SZ_32M ≠ SZ_4K ∧ SZ_2M ≠ SZ_64K ∧ SZ_2M ≠ SZ_4K ∧ SZ_64K ≠ SZ_4K := by
  decide

/-- The third-level part of a successful call. -/
theorem handle_3rd_lvl_ok (k : Build) (s : PtState) (pte : PtePtr) (va pa prot len : Nat)
    (hlen : len = SZ_64K ∨ len = SZ_4K)
    (h : (handle_3rd_lvl s pte va pa (__get_attr k prot).1 (__get_attr k prot).2 len).1 = 0) :
    ∃ t, Linked s pte t ∧ isTable (t.mem pte) ∧
      (∀ x < run_len len, t.mem (.pg (FOLLOW_TO_NEXT_TABLE t pte) (TL_OFFSET va + x)) = 0) ∧
      (handle_3rd_lvl s pte va pa (__get_attr k prot).1 (__get_attr k prot).2 len).2 =
        write_run t (.pg (FOLLOW_TO_NEXT_TABLE t pte) (TL_OFFSET va)) (run_len len)
          (leaf_desc k prot pa len) := by
  obtain ⟨d12, d13, d14, d15, d23, d24, d25, d34, d35, d45⟩ := SZ_distinct
  -- the part after the table has been made sure of
  have tail : ∀ t : PtState, isTable (t.mem pte) →
      (if len = SZ_64K then
          tl_64k_map t (.pg (FOLLOW_TO_NEXT_TABLE t pte) (TL_OFFSET va)) pa (__get_attr k prot).1
            (__get_attr k prot).2
        else tl_4k_map t (.pg (FOLLOW_TO_NEXT_TABLE t pte) (TL_OFFSET va)) pa
          (__get_attr k prot).1 (__get_attr k prot).2).1 = 0 →
      (∀ x < run_len len, t.mem (.pg (FOLLOW_TO_NEXT_TABLE t pte) (TL_OFFSET va + x)) = 0) ∧
      (if len = SZ_64K then
          tl_64k_map t (.pg (FOLLOW_TO_NEXT_TABLE t pte) (TL_OFFSET va)) pa (__get_attr k prot).1
            (__get_attr k prot).2
        else tl_4k_map t (.pg (FOLLOW_TO_NEXT_TABLE t pte) (TL_OFFSET va)) pa
          (__get_attr k prot).1 (__get_attr k prot).2).2 =
        write_run t (.pg (FOLLOW_TO_NEXT_TABLE t pte) (TL_OFFSET va)) (run_len len)
          (leaf_desc k prot pa len) := by
    intro t _ hr
    rcases hlen with e | e
    · subst e
      simp only [if_true] at hr ⊢
      obtain ⟨hz, he⟩ := tl_64k_map_ok _ _ _ _ _ hr
      have hn : run_len SZ_64K = 16 := rfl
      have hd : leaf_desc k prot pa SZ_64K = ((__get_attr k prot).1 ||| TL_CH) |||
          (pa &&& TL_PAGE_MASK) ||| (__get_attr k prot).2 ||| TL_TYPE_PAGE := rfl
      rw [hn, hd]
      exact ⟨fun x hx => by simpa using hz x hx, he⟩
    · subst e
      simp only [d45.symm, if_false] at hr ⊢
      obtain ⟨hz, he⟩ := tl_4k_map_ok _ _ _ _ _ hr
      have hn : run_len SZ_4K = 1 := rfl
      have hd : leaf_desc k prot pa SZ_4K = (__get_attr k prot).1 |||
          (pa &&& TL_PAGE_MASK) ||| (__get_attr k prot).2 ||| TL_TYPE_PAGE := rfl
      rw [hn, hd, write_run_one]
      refine ⟨fun x hx => ?_, he⟩
      have : x = 0 := by omega
      subst this
      simpa using hz
  unfold handle_3rd_lvl at h ⊢
  by_cases h0 : s.mem pte = 0
  · simp only [h0, if_true] at h ⊢
    by_cases hm : (make_third_level_tbl s pte).1 = 0
    · simp [hm, ENOMEM] at h
    · obtain ⟨p, rest, e, hp⟩ := make_third_level_tbl_zero s pte hm
      have hmk := make_third_level_tbl_ok s pte p rest e hp
      have hT : isTable ((link_table s pte p).mem pte) := by
        rw [link_table_self]; exact isTable_link p
      have hT' : (link_table s pte p).mem pte &&& FLSL_TYPE_TABLE = FLSL_TYPE_TABLE := hT
      simp only [hmk, hp, if_false, if_true, hT', ne_eq, not_true_eq_false] at h ⊢
      exact ⟨link_table s pte p, Or.inr ⟨h0, p, rest, e, hp, rfl⟩, hT, tail _ hT h⟩
  · simp only [h0, if_false, if_true] at h ⊢
    by_cases hT : s.mem pte &&& FLSL_TYPE_TABLE = FLSL_TYPE_TABLE
    · simp only [hT, ne_eq, not_true_eq_false, if_false] at h ⊢
      exact ⟨s, Or.inl ⟨hT, rfl⟩, hT, tail _ hT h⟩
    · simp [hT, EBUSY] at h

/-- A call that returns 0 was given a granule and a root. -/
theorem map_ok_valid (k : Build) (s : PtState) (va pa len prot : Nat)
    (h : (msm_iommu_pagetable_map k s va pa len prot).1 = 0) :
    len ∈ granules ∧ s.fl_table ≠ 0 := by
  by_contra hn
  have : len ∉ granules ∨ s.fl_table = 0 := by
    by_cases h1 : len ∈ granules
    · right; by_contra h2; exact hn ⟨h1, h2⟩
    · left; exact h1
  rw [map_of_invalid k s va pa len prot this] at h
  have h2 : (-EINVAL : Int) = 0 := h
  exact absurd h2 (by decide)

/-- The body of `msm_iommu_pagetable_map` once the argument check has passed. -/
theorem map_of_valid (k : Build) (s : PtState) (va pa len prot : Nat)
    (hlen : len ∈ granules) (hfl : s.fl_table ≠ 0) :
    msm_iommu_pagetable_map k s va pa len prot =
      (let attr := __get_attr k prot
       let fl_pte := PtePtr.fl (FL_OFFSET va)
       let r := handle_1st_lvl s fl_pte pa attr.1 attr.2 len
       if r.1 ≠ 0 then r
       else
         let sl_pte := PtePtr.pg (FOLLOW_TO_NEXT_TABLE r.2 fl_pte) (SL_OFFSET va)
         if len = SZ_32M then sl_32m_map r.2 sl_pte pa attr.1 attr.2
         else if len = SZ_2M then sl_2m_map r.2 sl_pte pa attr.1 attr.2
         else if len = SZ_64K ∨ len = SZ_4K then
           handle_3rd_lvl r.2 sl_pte va pa attr.1 attr.2 len
         else r) := by
  have hc : common_error_check len s.fl_table = 0 := by
    rw [common_error_check_eq]; simp [hlen, hfl]
  unfold msm_iommu_pagetable_map
  simp only [hc, ne_eq, not_true_eq_false, if_false, hfl]

/-- A successful 1 GiB mapping wrote one block descriptor into an empty
first-level slot. -/
theorem map_ok_1G (k : Build) (s : PtState) (va pa prot : Nat)
    (h : (msm_iommu_pagetable_map k s va pa SZ_1G prot).1 = 0) :
    s.mem (.fl (FL_OFFSET va)) = 0 ∧
    (msm_iommu_pagetable_map k s va pa SZ_1G prot).2 =
      write s (.fl (FL_OFFSET va)) (leaf_desc k prot pa SZ_1G) := by
  obtain ⟨d12, d13, d14, d15, d23, d24, d25, d34, d35, d45⟩ := SZ_distinct
  obtain ⟨hlen, hfl⟩ := map_ok_valid k s va pa SZ_1G prot h
  rw [map_of_valid k s va pa SZ_1G prot hlen hfl] at h ⊢
  have e1 : handle_1st_lvl s (.fl (FL_OFFSET va)) pa (__get_attr k prot).1 (__get_attr k prot).2
      SZ_1G = fl_1G_map s (.fl (FL_OFFSET va)) pa (__get_attr k prot).1 (__get_attr k prot).2 := by
    unfold handle_1st_lvl; simp
  simp only [e1, d12, d13, d14, d15, if_false, or_self] at h ⊢
  have h1 : (fl_1G_map s (.fl (FL_OFFSET va)) pa (__get_attr k prot).1
      (__get_attr k prot).2).1 = 0 := by
    by_contra hne
    simp only [ne_eq, hne, not_false_eq_true, if_true] at h
  simp only [h1, ne_eq, not_true_eq_false, if_false]
  exact fl_1G_map_ok _ _ _ _ _ h1

/-- A successful 32 MiB or 2 MiB mapping made sure of a second-level table and
wrote its block descriptors into empty slots of that table. -/
theorem map_ok_L2 (k : Build) (s : PtState) (va pa len prot : Nat)
    (hlen : len = SZ_32M ∨ len = SZ_2M)
    (h : (msm_iommu_pagetable_map k s va pa len prot).1 = 0) :
    ∃ t, Linked s (.fl (FL_OFFSET va)) t ∧ isTable (t.mem (.fl (FL_OFFSET va))) ∧
      (∀ x < run_len len,
        t.mem (.pg (FOLLOW_TO_NEXT_TABLE t (.fl (FL_OFFSET va))) (SL_OFFSET va + x)) = 0) ∧
      (msm_iommu_pagetable_map k s va pa len prot).2 =
        write_run t (.pg (FOLLOW_TO_NEXT_TABLE t (.fl (FL_OFFSET va))) (SL_OFFSET va))
          (run_len len) (leaf_desc k prot pa len) := by
  obtain ⟨d12, d13, d14, d15, d23, d24, d25, d34, d35, d45⟩ := SZ_distinct
  obtain ⟨hg, hfl⟩ := map_ok_valid k s va pa len prot h
  rw [map_of_valid k s va pa len prot hg hfl] at h ⊢
  have hne : len ≠ SZ_1G := by rcases hlen with e | e <;> rw [e] <;> simp [d12.symm, d13.symm]
  simp only [] at h ⊢
  by_cases h1 : (handle_1st_lvl s (.fl (FL_OFFSET va)) pa (__get_attr k prot).1
      (__get_attr k prot).2 len).1 = 0
  · obtain ⟨hL, hT⟩ := handle_1st_lvl_ok s _ pa _ _ len hne h1
    simp only [h1, ne_eq, not_true_eq_false, if_false] at h ⊢
    refine ⟨_, hL, hT, ?_⟩
    rcases hlen with e | e
    · subst e
      simp only [if_true] at h ⊢
      obtain ⟨hz, he⟩ := sl_32m_map_ok _ _ _ _ _ h
      have hn : run_len SZ_32M = 16 := rfl
      have hd : leaf_desc k prot pa SZ_32M = ((__get_attr k prot).1 ||| TL_CH) |||
          (pa &&& FLSL_BLOCK_MASK) ||| (__get_attr k prot).2 ||| FLSL_TYPE_BLOCK := rfl
      rw [hn, hd]
      exact ⟨fun x hx => by simpa using hz x hx, he⟩
    · subst e
      simp only [d23.symm, if_false, if_true] at h ⊢
      obtain ⟨hz, he⟩ := sl_2m_map_ok _ _ _ _ _ h
      have hn : run_len SZ_2M = 1 := rfl
      have hd : leaf_desc k prot pa SZ_2M = (__get_attr k prot).1 |||
          (pa &&& FLSL_BLOCK_MASK) ||| (__get_attr k prot).2 ||| FLSL_TYPE_BLOCK := rfl
      rw [hn, hd, write_run_one]
      refine ⟨fun x hx => ?_, he⟩
      have : x = 0 := by omega
      subst this
      simpa using hz
  · simp only [ne_eq, h1, not_false_eq_true, if_true] at h

/-- A successful 64 KiB or 4 KiB mapping made sure of a second-level and of a
third-level table and wrote its page descriptors into empty slots of the
latter. -/
theorem map_ok_L3 (k : Build) (s : PtState) (va pa len prot : Nat)
    (hlen : len = SZ_64K ∨ len = SZ_4K)
    (h : (msm_iommu_pagetable_map k s va pa len prot).1 = 0) :
    ∃ t t2, Linked s (.fl (FL_OFFSET va)) t ∧ isTable (t.mem (.fl (FL_OFFSET va))) ∧
      Linked t (.pg (FOLLOW_TO_NEXT_TABLE t (.fl (FL_OFFSET va))) (SL_OFFSET va)) t2 ∧
      isTable (t2.mem (.pg (FOLLOW_TO_NEXT_TABLE t (.fl (FL_OFFSET va))) (SL_OFFSET va))) ∧
      (∀ x < run_len len,
        t2.mem (.pg (FOLLOW_TO_NEXT_TABLE t2
          (.pg (FOLLOW_TO_NEXT_TABLE t (.fl (FL_OFFSET va))) (SL_OFFSET va)))
          (TL_OFFSET va + x)) = 0) ∧
      (msm_iommu_pagetable_map k s va pa len prot).2 =
        write_run t2 (.pg (FOLLOW_TO_NEXT_TABLE t2
          (.pg (FOLLOW_TO_NEXT_TABLE t (.fl (FL_OFFSET va))) (SL_OFFSET va))) (TL_OFFSET va))
          (run_len len) (leaf_desc k prot pa len) := by
  obtain ⟨d12, d13, d14, d15, d23, d24, d25, d34, d35, d45⟩ := SZ_distinct
  obtain ⟨hg, hfl⟩ := map_ok_valid k s va pa len prot h
  rw [map_of_valid k s va pa len prot hg hfl] at h ⊢
  have hne : len ≠ SZ_1G := by rcases hlen with e | e <;> rw [e] <;> simp [d14.symm, d15.symm]
  have hne2 : len ≠ SZ_32M := by rcases hlen with e | e <;> rw [e] <;> simp [d24.symm, d25.symm]
  have hne3 : len ≠ SZ_2M := by rcases hlen with e | e <;> rw [e] <;> simp [d34.symm, d35.symm]
  simp only [] at h ⊢
  by_cases h1 : (handle_1st_lvl s (.fl (FL_OFFSET va)) pa (__get_attr k prot).1
      (__get_attr k prot).2 len).1 = 0
  · obtain ⟨hL, hT⟩ := handle_1st_lvl_ok s _ pa _ _ len hne h1
    simp only [h1, ne_eq, not_true_eq_false, if_false, hne2, hne3, hlen, if_true] at h ⊢
    obtain ⟨t2, hL2, hT2, hz, he⟩ := handle_3rd_lvl_ok k _ _ va pa prot len hlen h
    exact ⟨_, t2, hL, hT, hL2, hT2, hz, he⟩
  · simp only [ne_eq, h1, not_false_eq_true, if_true] at h

end MsmLpae

namespace MsmLpae

/-! ## One pass of the unmapping loop -/

theorem PtState.ext' {s t : PtState} (h0 : s.unaligned_fl_table = t.unaligned_fl_table)
    (h1 : s.fl_table = t.fl_table) (h2 : ∀ q, s.mem q = t.mem q) (h3 : s.live = t.live)
    (h4 : s.pool = t.pool) : s = t := by
  cases s; cases t
  simp only [PtState.mk.injEq]
  exact ⟨h0, h1, funext h2, h3, h4⟩

theorem free_table_eq (s : PtState) (prev : PtePtr) (table len : Nat) (check : Bool) :
    free_table s prev table len check =
      if check = true ∧ any_busy s (.pg table 0) len = true then (false, s)
      else (true, write (free_page s table) prev 0) := by
  unfold free_table
  cases check <;> cases h : any_busy s (.pg table 0) len <;> simp [h]

theorem unmap_body_empty (s : PtState) (va len offset : Nat)
    (h : s.mem (.fl (FL_OFFSET va)) = 0) : unmap_body s va len offset = .ret s := by
  unfold unmap_body
  simp [h]

theorem unmap_body_fl_block (s : PtState) (va len offset : Nat)
    (h : isBlock (s.mem (.fl (FL_OFFSET va)))) :
    unmap_body s va len offset =
      .again (write s (.fl (FL_OFFSET va)) 0) (u32 (va + SZ_1G)) (u32 (offset + SZ_1G)) := by
  have h0 := isBlock_ne_zero h
  have h' : s.mem (.fl (FL_OFFSET va)) &&& FLSL_PTE_TYPE_MASK = FLSL_TYPE_BLOCK := h
  unfold unmap_body
  simp only [h0, if_false, h', if_true, fl_1G_unmap]

theorem unmap_body_fl_stuck (s : PtState) (va len offset : Nat)
    (h0 : s.mem (.fl (FL_OFFSET va)) ≠ 0) (h1 : ¬ isBlock (s.mem (.fl (FL_OFFSET va))))
    (h2 : ¬ isTable (s.mem (.fl (FL_OFFSET va)))) :
    unmap_body s va len offset = .again s va offset := by
  have h1' : ¬ s.mem (.fl (FL_OFFSET va)) &&& FLSL_PTE_TYPE_MASK = FLSL_TYPE_BLOCK := h1
  have h2' : ¬ s.mem (.fl (FL_OFFSET va)) &&& FLSL_PTE_TYPE_MASK = FLSL_TYPE_TABLE := h2
  unfold unmap_body
  simp only [h0, if_false, h1', h2']

theorem unmap_body_sl_block (s : PtState) (va len offset : Nat)
    (h1 : isTable (s.mem (.fl (FL_OFFSET va))))
    (h2 : isBlock (s.mem (.pg (sl_of s (FL_OFFSET va)) (SL_OFFSET va)))) :
    unmap_body s va len offset =
      .again (unmap_sl_run s va (len - offset))
        (u32 (va + u32 (sl_entries va (len - offset) * SZ_2M)))
        (u32 (offset + u32 (sl_entries va (len - offset) * SZ_2M))) := by
  have h0 := isTable_ne_zero h1
  have hb := isBlock_not_isTable.mt (not_not.2 h1)
  have hb' : ¬ s.mem (.fl (FL_OFFSET va)) &&& FLSL_PTE_TYPE_MASK = FLSL_TYPE_BLOCK := hb
  have h1' : s.mem (.fl (FL_OFFSET va)) &&& FLSL_PTE_TYPE_MASK = FLSL_TYPE_TABLE := h1
  have h2' : s.mem (.pg (FOLLOW_TO_NEXT_TABLE s (.fl (FL_OFFSET va))) (SL_OFFSET va)) &&&
      FLSL_PTE_TYPE_MASK = FLSL_TYPE_BLOCK := h2
  have ht : ¬ FLSL_TYPE_TABLE = FLSL_TYPE_BLOCK := by decide
  unfold unmap_body unmap_sl_run sl_entries
  simp only [h0, if_false, hb', h1', if_true, h2', ht]

theorem unmap_body_sl_table (s : PtState) (va len offset : Nat)
    (h1 : isTable (s.mem (.fl (FL_OFFSET va))))
    (h2 : isTable (s.mem (.pg (sl_of s (FL_OFFSET va)) (SL_OFFSET va)))) :
    unmap_body s va len offset =
      .again (unmap_tl_run s va (len - offset))
        (u32 (va + u32 (tl_entries va (len - offset) * SZ_4K)))
        (u32 (offset + u32 (tl_entries va (len - offset) * SZ_4K))) := by
  have h0 := isTable_ne_zero h1
  have hb := isBlock_not_isTable.mt (not_not.2 h1)
  have hb' : ¬ s.mem (.fl (FL_OFFSET va)) &&& FLSL_PTE_TYPE_MASK = FLSL_TYPE_BLOCK := hb
  have h1' : s.mem (.fl (FL_OFFSET va)) &&& FLSL_PTE_TYPE_MASK = FLSL_TYPE_TABLE := h1
  have hb2 := isBlock_not_isTable.mt (not_not.2 h2)
  have hb2' : ¬ s.mem (.pg (FOLLOW_TO_NEXT_TABLE s (.fl (FL_OFFSET va))) (SL_OFFSET va)) &&&
      FLSL_PTE_TYPE_MASK = FLSL_TYPE_BLOCK := hb2
  have h2' : s.mem (.pg (FOLLOW_TO_NEXT_TABLE s (.fl (FL_OFFSET va))) (SL_OFFSET va)) &&&
      FLSL_PTE_TYPE_MASK = FLSL_TYPE_TABLE := h2
  have ht : ¬ FLSL_TYPE_TABLE = FLSL_TYPE_BLOCK := by decide
  unfold unmap_body unmap_tl_run tl_entries
  simp only [h0, if_false, hb', h1', if_true, h2', hb2', ht]

theorem unmap_body_sl_stuck (s : PtState) (va len offset : Nat)
    (h1 : isTable (s.mem (.fl (FL_OFFSET va))))
    (h2 : ¬ isBlock (s.mem (.pg (sl_of s (FL_OFFSET va)) (SL_OFFSET va))))
    (h3 : ¬ isTable (s.mem (.pg (sl_of s (FL_OFFSET va)) (SL_OFFSET va)))) :
    unmap_body s va len offset = .again s va offset := by
  have h0 := isTable_ne_zero h1
  have hb := isBlock_not_isTable.mt (not_not.2 h1)
  have hb' : ¬ s.mem (.fl (FL_OFFSET va)) &&& FLSL_PTE_TYPE_MASK = FLSL_TYPE_BLOCK := hb
  have h1' : s.mem (.fl (FL_OFFSET va)) &&& FLSL_PTE_TYPE_MASK = FLSL_TYPE_TABLE := h1
  have h2' : ¬ s.mem (.pg (FOLLOW_TO_NEXT_TABLE s (.fl (FL_OFFSET va))) (SL_OFFSET va)) &&&
      FLSL_PTE_TYPE_MASK = FLSL_TYPE_BLOCK := h2
  have h3' : ¬ s.mem (.pg (FOLLOW_TO_NEXT_TABLE s (.fl (FL_OFFSET va))) (SL_OFFSET va)) &&&
      FLSL_PTE_TYPE_MASK = FLSL_TYPE_TABLE := h3
  have ht : ¬ FLSL_TYPE_TABLE = FLSL_TYPE_BLOCK := by decide
  unfold unmap_body
  simp only [h0, if_false, hb', h1', if_true, h2', h3', ht]

/-- A pass that leaves the position where it was leaves the loop running for
ever. -/
theorem unmap_loop_stuck (s : PtState) (va len offset : Nat) (hlt : offset < len)
    (h : unmap_body s va len offset = .again s va offset) :
    ∀ fuel, unmap_loop len fuel s va offset = none := by
  intro fuel
  induction fuel with
  | zero => simp [unmap_loop, hlt]
  | succ n ih => simp only [unmap_loop, hlt, if_true, h, ih]

/-- A single pass that reaches the end of the range ends the walk. -/
theorem unmap_loop_one (s s1 : PtState) (va va1 len offset offset1 : Nat) (hlt : offset < len)
    (hge : ¬ offset1 < len)
    (h : unmap_body s va len offset = .again s1 va1 offset1) (fuel : Nat) :
    unmap_loop len (fuel + 1) s va offset = some s1 := by
  simp only [unmap_loop, hlt, if_true, h]
  cases fuel <;> simp [unmap_loop, hge]

end MsmLpae

namespace MsmLpae

/-! ## Slot indices and run lengths -/

theorem FL_OFFSET_lt (va : Nat) : FL_OFFSET va < NUM_FL_PTE := by
  rw [FL_OFFSET_eq]; exact Nat.mod_lt _ (by decide)

theorem SL_OFFSET_lt (va : Nat) : SL_OFFSET va < NUM_SL_PTE := by
  rw [SL_OFFSET_eq]; exact Nat.mod_lt _ (by decide)

theorem TL_OFFSET_lt (va : Nat) : TL_OFFSET va < NUM_TL_PTE := by
  rw [TL_OFFSET_eq]; exact Nat.mod_lt _ (by decide)

theorem run_len_cases (len : Nat) : run_len len = 16 ∨ run_len len = 1 := by
  unfold run_len; split <;> simp

theorem run_fits_tl (va len : Nat) (hlen : len = SZ_64K ∨ len = SZ_4K) (hva : va % len = 0) :
    TL_OFFSET va + run_len len ≤ 512 ∧ tl_entries va len = run_len len ∧
      run_len len * SZ_4K = len := by
  have h := TL_OFFSET_eq va
  rcases hlen with e | e
  · subst e
    have hn : run_len SZ_64K = 16 := rfl
    simp only [SZ_64K, SZ_4K, tl_entries, NUM_TL_PTE] at hva ⊢
    rw [show run_len 65536 = 16 from hn]
    have : TL_OFFSET va ≤ 496 := by rw [h]; omega
    refine ⟨by omega, ?_, by decide⟩
    split <;> omega
  · subst e
    have hn : run_len SZ_4K = 1 := rfl
    simp only [SZ_4K, tl_entries, NUM_TL_PTE] at hva ⊢
    rw [show run_len 4096 = 1 from hn]
    have : TL_OFFSET va ≤ 511 := by rw [h]; omega
    refine ⟨by omega, ?_, by decide⟩
    split <;> omega

theorem run_fits_sl (va len : Nat) (hlen : len = SZ_32M ∨ len = SZ_2M) (hva : va % len = 0) :
    SL_OFFSET va + run_len len ≤ 512 ∧ sl_entries va len = run_len len ∧
      run_len len * SZ_2M = len := by
  have h := SL_OFFSET_eq va
  rcases hlen with e | e
  · subst e
    have hn : run_len SZ_32M = 16 := rfl
    simp only [SZ_32M, SZ_2M, sl_entries, NUM_TL_PTE] at hva ⊢
    rw [show run_len 33554432 = 16 from hn]
    have : SL_OFFSET va ≤ 496 := by rw [h]; omega
    refine ⟨by omega, ?_, by decide⟩
    split <;> omega
  · subst e
    have hn : run_len SZ_2M = 1 := rfl
    simp only [SZ_2M, sl_entries, NUM_TL_PTE] at hva ⊢
    rw [show run_len 2097152 = 1 from hn]
    have : SL_OFFSET va ≤ 511 := by rw [h]; omega
    refine ⟨by omega, ?_, by decide⟩
    split <;> omega

/-! ## Clearing and freeing -/

@[simp] theorem write_unaligned (s : PtState) (p : PtePtr) (v : Nat) :
    (write s p v).unaligned_fl_table = s.unaligned_fl_table := rfl

@[simp] theorem memset_zero_unaligned (s : PtState) (t a n : Nat) :
    (memset_zero s t a n).unaligned_fl_table = s.unaligned_fl_table := rfl

@[simp] theorem write_run_unaligned (s : PtState) (pte : PtePtr) (n v : Nat) :
    (write_run s pte n v).unaligned_fl_table = s.unaligned_fl_table := by
  induction n with
  | zero => rfl
  | succ n ih => rw [write_run_succ, write_unaligned, ih]

theorem memset_zero_none (s : PtState) (t a : Nat) : memset_zero s t a 0 = s := by
  refine PtState.ext' rfl rfl ?_ rfl rfl
  intro q
  cases q with
  | fl i => rfl
  | pg p j =>
    rw [memset_zero_pg]
    have : ¬ (p = t ∧ a ≤ j ∧ j < a + 0) := by omega
    rw [if_neg this]

/-- Clearing the run that was just written into empty slots gives the state
before the write. -/
theorem memset_write_run (t : PtState) (p j n d : Nat)
    (hz : ∀ x < n, t.mem (.pg p (j + x)) = 0) :
    memset_zero (write_run t (.pg p j) n d) p j n = t := by
  refine PtState.ext' ?_ ?_ ?_ ?_ ?_
  · simp
  · simp
  · intro q
    cases q with
    | fl i => rw [memset_zero_fl, write_run_fl]
    | pg p1 j1 =>
      rw [memset_zero_pg, write_run_pg]
      by_cases h : p1 = p ∧ j ≤ j1 ∧ j1 < j + n
      · rw [if_pos h]
        obtain ⟨rfl, h1, h2⟩ := h
        have := hz (j1 - j) (by omega)
        rw [show j + (j1 - j) = j1 by omega] at this
        exact this.symm
      · rw [if_neg h, if_neg h]
  · simp
  · simp

theorem free_table_mem_cases (s : PtState) (prev : PtePtr) (t len : Nat) (c : Bool)
    (q : PtePtr) :
    (free_table s prev t len c).2.mem q = s.mem q ∨ (free_table s prev t len c).2.mem q = 0 := by
  rw [free_table_eq]
  split
  · exact Or.inl rfl
  · simp only [write_mem, free_page_mem]
    by_cases h : q = prev
    · right; simp [h]
    · left; simp [h]

theorem free_table_live (s : PtState) (prev : PtePtr) (t len : Nat) (c : Bool) (p : Nat)
    (h : p ∈ (free_table s prev t len c).2.live) : p ∈ s.live := by
  rw [free_table_eq] at h
  split at h
  · exact h
  · rw [write_live, mem_free_page] at h
    exact h.1

theorem free_table_empty (s : PtState) (prev : PtePtr) (t len : Nat) (c : Bool)
    (h : any_busy s (.pg t 0) len = false) :
    free_table s prev t len c = (true, write (free_page s t) prev 0) := by
  rw [free_table_eq]
  simp [h]

/-- A table that was just linked from a slot outside itself is empty. -/
theorem any_busy_link_table (s : PtState) (pte : PtePtr) (p : Nat)
    (hpte : ∀ j, pte ≠ .pg p j) :
    any_busy (link_table s pte p) (.pg p 0) 512 = false := by
  rw [any_busy_eq_false]
  intro i hi
  rw [add_pg, link_table_mem, if_neg (fun e => hpte _ e.symm)]
  simp [hi]

/-- The range interface with a length that is a multiple of 4 KiB runs the
loop from offset 0. -/
theorem unmap_range_eq (fuel : Nat) (s : PtState) (va len : Nat)
    (h : len &&& (SZ_4K - 1) = 0) :
    msm_iommu_pagetable_unmap_range fuel s va len = unmap_loop len fuel s va 0 := by
  unfold msm_iommu_pagetable_unmap_range __msm_iommu_pagetable_unmap_range
  simp [h]

theorem granule_facts {G : Nat} (hG : G ∈ granules) :
    G &&& (SZ_4K - 1) = 0 ∧ 0 < G ∧ G < 2 ^ 32 := by
  simp only [granules, List.mem_cons, List.mem_singleton, List.not_mem_nil, or_false] at hG
  rcases hG with rfl | rfl | rfl | rfl | rfl <;> decide

/-! ## Unmapping what was just mapped -/

/-- After a 1 GiB block has been written into a first-level slot, unmapping that
gigabyte clears the slot in a single pass. -/
theorem unmap_after_1G (s : PtState) (va d fuel : Nat) (hd : isBlock d) :
    msm_iommu_pagetable_unmap_range (fuel + 1) (write s (.fl (FL_OFFSET va)) d) va SZ_1G =
      some (write (write s (.fl (FL_OFFSET va)) d) (.fl (FL_OFFSET va)) 0) := by
  rw [unmap_range_eq _ _ _ _ (by decide)]
  refine unmap_loop_one _ _ va (u32 (va + SZ_1G)) SZ_1G 0 (u32 (0 + SZ_1G)) (by decide)
    (by decide) ?_ fuel
  apply unmap_body_fl_block
  rw [write_mem, if_pos rfl]
  exact hd

/-- After a run of block descriptors has been written into empty slots of the
second-level table, unmapping the range clears the run in a single pass and
then frees the table if nothing is left in it. -/
theorem unmap_after_L2 (t : PtState) (va len d fuel : Nat)
    (hlen : len = SZ_32M ∨ len = SZ_2M) (hva : va % len = 0)
    (hT : isTable (t.mem (.fl (FL_OFFSET va)))) (hd : isBlock d)
    (hz : ∀ x < run_len len,
      t.mem (.pg (FOLLOW_TO_NEXT_TABLE t (.fl (FL_OFFSET va))) (SL_OFFSET va + x)) = 0) :
    msm_iommu_pagetable_unmap_range (fuel + 1)
      (write_run t (.pg (FOLLOW_TO_NEXT_TABLE t (.fl (FL_OFFSET va))) (SL_OFFSET va))
        (run_len len) d) va len =
      some (free_table t (.fl (FL_OFFSET va)) (FOLLOW_TO_NEXT_TABLE t (.fl (FL_OFFSET va)))
        NUM_SL_PTE true).2 := by
  obtain ⟨hfit, hent, hmul⟩ := run_fits_sl va len hlen hva
  have hg : len ∈ granules := by
    rcases hlen with e | e <;> rw [e] <;> simp [granules]
  obtain ⟨hg1, hg2, hg3⟩ := granule_facts hg
  have hn1 : 1 ≤ run_len len := by rcases run_len_cases len with e | e <;> omega
  have hn2 : run_len len ≠ NUM_SL_PTE := by
    rcases run_len_cases len with e | e <;> rw [e] <;> decide
  set p2 := FOLLOW_TO_NEXT_TABLE t (.fl (FL_OFFSET va)) with hp2
  set s1 := write_run t (.pg p2 (SL_OFFSET va)) (run_len len) d with hs1
  have e1 : s1.mem (.fl (FL_OFFSET va)) = t.mem (.fl (FL_OFFSET va)) := write_run_fl _ _ _ _ _ _
  have e2 : sl_of s1 (FL_OFFSET va) = p2 := by
    unfold sl_of FOLLOW_TO_NEXT_TABLE; rw [e1]; rfl
  have e2' : FOLLOW_TO_NEXT_TABLE s1 (.fl (FL_OFFSET va)) = p2 := e2
  have e3 : s1.mem (.pg p2 (SL_OFFSET va)) = d := by
    rw [hs1, write_run_pg, if_pos ⟨rfl, le_refl _, by omega⟩]
  have hb := unmap_body_sl_block s1 va len 0 (by rw [e1]; exact hT) (by rw [e2, e3]; exact hd)
  have hrun : unmap_sl_run s1 va (len - 0) = (free_table t (.fl (FL_OFFSET va)) p2
      NUM_SL_PTE true).2 := by
    unfold unmap_sl_run
    simp only [Nat.sub_zero, hent, e2', hs1, memset_write_run t p2 (SL_OFFSET va) (run_len len) d hz]
    simp [hn2]
  rw [hrun] at hb
  rw [unmap_range_eq _ _ _ _ hg1]
  refine unmap_loop_one _ _ va _ len 0 _ hg2 ?_ hb fuel
  simp only [Nat.sub_zero, hent, hmul, u32, Nat.zero_add, Nat.mod_mod]
  rw [Nat.mod_eq_of_lt hg3]
  omega

end MsmLpae

namespace MsmLpae

/-- After a run of page descriptors has been written into empty slots of the
third-level table, unmapping the range clears the run in a single pass, frees
the third-level table if nothing is left in it, and then the second-level
table if nothing is left in that. -/
theorem unmap_after_L3 (t : PtState) (va len d fuel p2 p3 : Nat)
    (hlen : len = SZ_64K ∨ len = SZ_4K) (hva : va % len = 0)
    (hT : isTable (t.mem (.fl (FL_OFFSET va))))
    (hp2 : FOLLOW_TO_NEXT_TABLE t (.fl (FL_OFFSET va)) = p2)
    (hT2 : isTable (t.mem (.pg p2 (SL_OFFSET va))))
    (hp3 : FOLLOW_TO_NEXT_TABLE t (.pg p2 (SL_OFFSET va)) = p3)
    (hne : p2 ≠ p3)
    (hz : ∀ x < run_len len, t.mem (.pg p3 (TL_OFFSET va + x)) = 0) :
    msm_iommu_pagetable_unmap_range (fuel + 1)
      (write_run t (.pg p3 (TL_OFFSET va)) (run_len len) d) va len =
      some (if (free_table t (.pg p2 (SL_OFFSET va)) p3 NUM_TL_PTE true).1 then
          (free_table (free_table t (.pg p2 (SL_OFFSET va)) p3 NUM_TL_PTE true).2
            (.fl (FL_OFFSET va)) p2 NUM_SL_PTE true).2
        else (free_table t (.pg p2 (SL_OFFSET va)) p3 NUM_TL_PTE true).2) := by
  obtain ⟨hfit, hent, hmul⟩ := run_fits_tl va len hlen hva
  have hg : len ∈ granules := by
    rcases hlen with e | e <;> rw [e] <;> simp [granules]
  obtain ⟨hg1, hg2, hg3⟩ := granule_facts hg
  have hn2 : run_len len ≠ NUM_TL_PTE := by
    rcases run_len_cases len with e | e <;> rw [e] <;> decide
  set s1 := write_run t (.pg p3 (TL_OFFSET va)) (run_len len) d with hs1
  have e1 : s1.mem (.fl (FL_OFFSET va)) = t.mem (.fl (FL_OFFSET va)) := write_run_fl _ _ _ _ _ _
  have e2 : FOLLOW_TO_NEXT_TABLE s1 (.fl (FL_OFFSET va)) = p2 := by
    unfold FOLLOW_TO_NEXT_TABLE; rw [e1]; exact hp2
  have e3 : s1.mem (.pg p2 (SL_OFFSET va)) = t.mem (.pg p2 (SL_OFFSET va)) := by
    rw [hs1, write_run_pg, if_neg (fun h => hne h.1)]
  have e4 : FOLLOW_TO_NEXT_TABLE s1 (.pg p2 (SL_OFFSET va)) = p3 := by
    unfold FOLLOW_TO_NEXT_TABLE; rw [e3]; exact hp3
  have hb := unmap_body_sl_table s1 va len 0 (by rw [e1]; exact hT)
    (by rw [show sl_of s1 (FL_OFFSET va) = p2 from e2, e3]; exact hT2)
  have hrun : unmap_tl_run s1 va (len - 0) =
      (if (free_table t (.pg p2 (SL_OFFSET va)) p3 NUM_TL_PTE true).1 then
          (free_table (free_table t (.pg p2 (SL_OFFSET va)) p3 NUM_TL_PTE true).2
            (.fl (FL_OFFSET va)) p2 NUM_SL_PTE true).2
        else (free_table t (.pg p2 (SL_OFFSET va)) p3 NUM_TL_PTE true).2) := by
    unfold unmap_tl_run
    simp only [Nat.sub_zero, hent, e2, e4, hs1,
      memset_write_run t p3 (TL_OFFSET va) (run_len len) d hz]
    simp [hn2]
  rw [hrun] at hb
  rw [unmap_range_eq _ _ _ _ hg1]
  refine unmap_loop_one _ _ va _ len 0 _ hg2 ?_ hb fuel
  simp only [Nat.sub_zero, hent, hmul, u32, Nat.zero_add, Nat.mod_mod]
  rw [Nat.mod_eq_of_lt hg3]
  omega

/-! ## The shape of the state after a successful mapping -/

theorem follow_link (s : PtState) (pte : PtePtr) (p : Nat) (hal : p &&& FLSL_BASE_MASK = p) :
    FOLLOW_TO_NEXT_TABLE (link_table s pte p) pte = p := by
  unfold FOLLOW_TO_NEXT_TABLE
  rw [link_table_self, next_link p hal]

theorem follow_fl_link (s : PtState) (a b p i : Nat) :
    FOLLOW_TO_NEXT_TABLE (link_table s (.pg a b) p) (.fl i) = FOLLOW_TO_NEXT_TABLE s (.fl i) := by
  unfold FOLLOW_TO_NEXT_TABLE
  rw [link_table_fl]

theorem wf_pool_head {s : PtState} (hwf : WellFormed s) {p : Nat} {rest : List Nat}
    (h : s.pool = p :: rest) : p ∉ s.live ∧ p &&& FLSL_BASE_MASK = p :=
  ⟨hwf.pool_fresh p (by rw [h]; exact List.mem_cons_self _ _),
    hwf.pool_aligned p (by rw [h]; exact List.mem_cons_self _ _)⟩

theorem wf_pool_second {s : PtState} (hwf : WellFormed s) {p q : Nat} {rest : List Nat}
    (h : s.pool = p :: q :: rest) (hp : p ≠ 0) (hq : q ≠ 0) :
    q ∉ s.live ∧ q &&& FLSL_BASE_MASK = q ∧ p ≠ q := by
  have hm : q ∈ s.pool := by rw [h]; simp
  refine ⟨hwf.pool_fresh q hm, hwf.pool_aligned q hm, ?_⟩
  have hn := hwf.pool_nodup
  rw [h] at hn
  simp only [List.filter_cons, hp, hq, ne_eq, not_false_eq_true, decide_True, if_true] at hn
  rw [List.nodup_cons] at hn
  intro e
  exact hn.1 (by rw [e]; exact List.mem_cons_self _ _)

/-- The state after a successful 32 MiB or 2 MiB mapping in a well-formed state:
the run of block descriptors written over a state `t` that is the state before
the call, or that state with a new, empty second-level table linked. -/
theorem map_L2_shape (k : Build) (s : PtState) (va pa len prot : Nat) (hwf : WellFormed s)
    (hlen : len = SZ_32M ∨ len = SZ_2M)
    (h : (msm_iommu_pagetable_map k s va pa len prot).1 = 0) :
    ∃ t p2, (msm_iommu_pagetable_map k s va pa len prot).2 =
        write_run t (.pg p2 (SL_OFFSET va)) (run_len len) (leaf_desc k prot pa len) ∧
      isTable (t.mem (.fl (FL_OFFSET va))) ∧
      FOLLOW_TO_NEXT_TABLE t (.fl (FL_OFFSET va)) = p2 ∧
      (∀ x < run_len len, t.mem (.pg p2 (SL_OFFSET va + x)) = 0) ∧
      ((t = s) ∨
       (t = link_table s (.fl (FL_OFFSET va)) p2 ∧ s.mem (.fl (FL_OFFSET va)) = 0 ∧
        p2 ∉ s.live ∧ p2 ≠ 0)) := by
  obtain ⟨t, hL, hT, hz, he⟩ := map_ok_L2 k s va pa len prot hlen h
  refine ⟨t, FOLLOW_TO_NEXT_TABLE t (.fl (FL_OFFSET va)), he, hT, rfl, hz, ?_⟩
  rcases hL with ⟨_, e⟩ | ⟨h0, p, rest, hpool, hp, e⟩
  · exact Or.inl e
  · right
    obtain ⟨hfresh, hal⟩ := wf_pool_head hwf hpool
    have : FOLLOW_TO_NEXT_TABLE t (.fl (FL_OFFSET va)) = p := by
      rw [e]; exact follow_link s _ p hal
    rw [this]
    exact ⟨e, h0, hfresh, hp⟩

/-- The state after a successful 64 KiB or 4 KiB mapping in a well-formed state:
the run of page descriptors written over a state `t` that is the state before
the call, or that state with a new, empty third-level table linked, or that
state with a new second-level table that links a new third-level table. The
two tables on the path differ. -/
theorem map_L3_shape (k : Build) (s : PtState) (va pa len prot : Nat) (hwf : WellFormed s)
    (hlen : len = SZ_64K ∨ len = SZ_4K)
    (h : (msm_iommu_pagetable_map k s va pa len prot).1 = 0) :
    ∃ t p2 p3, (msm_iommu_pagetable_map k s va pa len prot).2 =
        write_run t (.pg p3 (TL_OFFSET va)) (run_len len) (leaf_desc k prot pa len) ∧
      isTable (t.mem (.fl (FL_OFFSET va))) ∧
      FOLLOW_TO_NEXT_TABLE t (.fl (FL_OFFSET va)) = p2 ∧
      isTable (t.mem (.pg p2 (SL_OFFSET va))) ∧
      FOLLOW_TO_NEXT_TABLE t (.pg p2 (SL_OFFSET va)) = p3 ∧
      p2 ≠ p3 ∧
      (∀ x < run_len len, t.mem (.pg p3 (TL_OFFSET va + x)) = 0) ∧
      ((t = s) ∨
       (t = link_table s (.pg p2 (SL_OFFSET va)) p3 ∧ isTable (s.mem (.fl (FL_OFFSET va))) ∧
        s.mem (.pg p2 (SL_OFFSET va)) = 0 ∧ p2 ∈ s.live ∧ p3 ∉ s.live ∧ p3 ≠ 0) ∨
       (t = link_table (link_table s (.fl (FL_OFFSET va)) p2) (.pg p2 (SL_OFFSET va)) p3 ∧
        s.mem (.fl (FL_OFFSET va)) = 0 ∧ p2 ∉ s.live ∧ p3 ∉ s.live ∧ p2 ≠ 0 ∧ p3 ≠ 0)) := by
  obtain ⟨t, t2, hL, hT, hL2, hT2, hz, he⟩ := map_ok_L3 k s va pa len prot hlen h
  have hi := FL_OFFSET_lt va
  have hj := SL_OFFSET_lt va
  rcases hL with ⟨hTs, e⟩ | ⟨h0, p, rest, hpool, hp, e⟩
  · -- the second-level table was there
    rw [e] at hL2 hT2 hz he hT
    rcases hL2 with ⟨hTs2, e2⟩ | ⟨h02, p1, rest1, hpool1, hp1, e2⟩
    · -- and so was the third-level table
      rw [e2] at hT2 hz he
      refine ⟨s, _, _, he, hT, rfl, hT2, rfl, ?_, hz, Or.inl rfl⟩
      have := hwf.tree.tl_ne_sl _ hi hTs _ hj ⟨hTs, hTs2⟩ _ hi hTs
      exact fun e => this e.symm
    · -- a third-level table was made
      obtain ⟨hfresh, hal⟩ := wf_pool_head hwf hpool1
      have e3 : FOLLOW_TO_NEXT_TABLE t2 (.pg (FOLLOW_TO_NEXT_TABLE s (.fl (FL_OFFSET va)))
          (SL_OFFSET va)) = p1 := by
        rw [e2]; exact follow_link s _ p1 hal
      have hlive : FOLLOW_TO_NEXT_TABLE s (.fl (FL_OFFSET va)) ∈ s.live :=
        hwf.sl_live _ hi hTs
      have hne : FOLLOW_TO_NEXT_TABLE s (.fl (FL_OFFSET va)) ≠ p1 :=
        fun e => hfresh (e ▸ hlive)
      rw [e3] at hz he
      refine ⟨t2, FOLLOW_TO_NEXT_TABLE s (.fl (FL_OFFSET va)), p1, he, ?_, ?_, hT2, e3, hne, hz,
        Or.inr (Or.inl ⟨e2, hTs, h02, hlive, hfresh, hp1⟩)⟩
      · rw [e2, link_table_fl]; exact hTs
      · rw [e2]; exact follow_fl_link s _ _ _ _
  · -- a second-level table was made
    obtain ⟨hfresh, hal⟩ := wf_pool_head hwf hpool
    have e1 : FOLLOW_TO_NEXT_TABLE t (.fl (FL_OFFSET va)) = p := by
      rw [e]; exact follow_link s _ p hal
    rw [e1] at hL2 hT2 hz he
    have hj2 : SL_OFFSET va < 512 := hj
    have hzero : t.mem (.pg p (SL_OFFSET va)) = 0 := by
      rw [e, link_table_mem, if_neg (by simp)]
      simp [hj2]
    rcases hL2 with ⟨hTs2, _⟩ | ⟨_, p1, rest1, hpool1, hp1, e2⟩
    · rw [hzero] at hTs2
      exact absurd hTs2 not_isTable_zero
    · have hpool2 : s.pool = p :: p1 :: rest1 := by
        rw [hpool]
        have : t.pool = rest := by rw [e, link_table_pool, hpool]; rfl
        rw [← this, hpool1]
      obtain ⟨hfresh1, hal1, hne⟩ := wf_pool_second hwf hpool2 hp hp1
      have e3 : FOLLOW_TO_NEXT_TABLE t2 (.pg p (SL_OFFSET va)) = p1 := by
        rw [e2]; exact follow_link t _ p1 hal1
      rw [e3] at hz he
      have e4 : t2.mem (.fl (FL_OFFSET va)) = t.mem (.fl (FL_OFFSET va)) := by
        rw [e2, link_table_fl]
      refine ⟨t2, p, p1, he, by rw [e4]; exact hT, ?_, hT2, e3, hne, hz,
        Or.inr (Or.inr ⟨by rw [e2, e], h0, hfresh, hfresh1, hp, hp1⟩)⟩
      rw [e2, follow_fl_link]; exact e1

end MsmLpae

namespace MsmLpae

/-! ## Round trip -/

/-- A slot that a run of writes changed lies in the run. -/
theorem write_run_changed (t : PtState) (p j n d : Nat) (q : PtePtr)
    (h : (write_run t (.pg p j) n d).mem q ≠ t.mem q) :
    ∃ x < n, q = .pg p (j + x) := by
  by_contra hn
  apply h
  rw [write_run_mem, if_neg]
  rintro ⟨i, hi, e⟩
  exact hn ⟨i, hi, e⟩

/-- The two frees at the end of a third-level pass only clear slots. -/
theorem cascade_mem_cases (t : PtState) (a b : PtePtr) (p3 p2 : Nat) (q : PtePtr) :
    (if (free_table t a p3 NUM_TL_PTE true).1 then
        (free_table (free_table t a p3 NUM_TL_PTE true).2 b p2 NUM_SL_PTE true).2
      else (free_table t a p3 NUM_TL_PTE true).2).mem q = t.mem q ∨
    (if (free_table t a p3 NUM_TL_PTE true).1 then
        (free_table (free_table t a p3 NUM_TL_PTE true).2 b p2 NUM_SL_PTE true).2
      else (free_table t a p3 NUM_TL_PTE true).2).mem q = 0 := by
  have h1 := free_table_mem_cases t a p3 NUM_TL_PTE true q
  have h2 := free_table_mem_cases (free_table t a p3 NUM_TL_PTE true).2 b p2 NUM_SL_PTE true q
  split
  · rcases h2 with h2 | h2
    · rw [h2]; exact h1
    · exact Or.inr h2
  · exact h1

theorem cascade_live (t : PtState) (a b : PtePtr) (p3 p2 : Nat) (p : Nat)
    (h : p ∈ (if (free_table t a p3 NUM_TL_PTE true).1 then
        (free_table (free_table t a p3 NUM_TL_PTE true).2 b p2 NUM_SL_PTE true).2
      else (free_table t a p3 NUM_TL_PTE true).2).live) : p ∈ t.live := by
  split at h
  · exact free_table_live _ _ _ _ _ _ (free_table_live _ _ _ _ _ _ h)
  · exact free_table_live _ _ _ _ _ _ h

/-- C1: round trip. In a well-formed state, when `msm_iommu_pagetable_map` of a
granule `G` at aligned addresses returns 0, `msm_iommu_pagetable_unmap_range` of
the same range returns (with any fuel of at least one pass), and in the state
it leaves every slot that the mapping call wrote (leaf slots and the slots that
received a link to a new table) holds zero and every page frame that the
mapping call allocated has been freed. -/
theorem map_unmap_round_trip (k : Build) (s : PtState) (va pa G prot fuel : Nat)
    (hwf : WellFormed s) (hG : G ∈ granules) (hva : va % G = 0) (_hpa : pa % G = 0)
    (hmap : (msm_iommu_pagetable_map k s va pa G prot).1 = 0) :
    ∃ s2, msm_iommu_pagetable_unmap_range (fuel + 1)
        (msm_iommu_pagetable_map k s va pa G prot).2 va G = some s2 ∧
      (∀ q, (msm_iommu_pagetable_map k s va pa G prot).2.mem q ≠ s.mem q → s2.mem q = 0) ∧
      (∀ p, p ∈ (msm_iommu_pagetable_map k s va pa G prot).2.live → p ∉ s.live →
        p ∉ s2.live) := by
  simp only [granules, List.mem_cons, List.mem_singleton, List.not_mem_nil, or_false] at hG
  have hcases : G = SZ_1G ∨ (G = SZ_32M ∨ G = SZ_2M) ∨ (G = SZ_64K ∨ G = SZ_4K) := by
    rcases hG with e | e | e | e | e <;> simp [e]
  rcases hcases with e | hlen | hlen
  · -- 1 GiB
    subst e
    obtain ⟨_, he⟩ := map_ok_1G k s va pa prot hmap
    rw [he]
    refine ⟨_, unmap_after_1G s va _ fuel (isBlock_leaf_desc k prot pa SZ_1G (Or.inl rfl)),
      ?_, ?_⟩
    · intro q hq
      by_cases hq2 : q = .fl (FL_OFFSET va)
      · simp [hq2]
      · simp [hq2] at hq
    · intro p hp hn
      exact absurd hp hn
  · -- 32 MiB and 2 MiB
    obtain ⟨t, p2, he, hT, hp2, hz, hcase⟩ := map_L2_shape k s va pa G prot hwf hlen hmap
    rw [he]
    subst hp2
    have hd : isBlock (leaf_desc k prot pa G) :=
      isBlock_leaf_desc k prot pa G (by rcases hlen with e | e <;> simp [e])
    refine ⟨_, unmap_after_L2 t va G _ fuel hlen hva hT hd hz, ?_, ?_⟩
    · intro q hq
      rcases hcase with e | ⟨e, _, _, _⟩
      · rw [e] at hq hz ⊢
        obtain ⟨x, hx, rfl⟩ := write_run_changed _ _ _ _ _ _ hq
        rcases free_table_mem_cases s (.fl (FL_OFFSET va))
          (FOLLOW_TO_NEXT_TABLE s (.fl (FL_OFFSET va))) NUM_SL_PTE true
          (.pg (FOLLOW_TO_NEXT_TABLE s (.fl (FL_OFFSET va))) (SL_OFFSET va + x)) with h | h
        · rw [h]; exact hz x hx
        · exact h
      · have hb : any_busy (link_table s (.fl (FL_OFFSET va))
            (FOLLOW_TO_NEXT_TABLE t (.fl (FL_OFFSET va))))
            (.pg (FOLLOW_TO_NEXT_TABLE t (.fl (FL_OFFSET va))) 0) NUM_SL_PTE = false :=
          any_busy_link_table s (.fl (FL_OFFSET va))
            (FOLLOW_TO_NEXT_TABLE t (.fl (FL_OFFSET va))) (by simp)
        rw [← e] at hb
        rw [free_table_empty _ _ _ _ _ hb]
        simp only [write_mem, free_page_mem]
        by_cases hq1 : q = .fl (FL_OFFSET va)
        · simp [hq1]
        · rw [if_neg hq1]
          by_cases hq2 : (write_run t (.pg (FOLLOW_TO_NEXT_TABLE t (.fl (FL_OFFSET va)))
              (SL_OFFSET va)) (run_len G) (leaf_desc k prot pa G)).mem q = t.mem q
          · rw [hq2] at hq
            rw [e, link_table_mem, if_neg hq1] at hq ⊢
            cases q with
            | fl i => exact absurd rfl hq
            | pg p1 j =>
              simp only [] at hq ⊢
              split
              · rfl
              · rename_i hc; rw [if_neg hc] at hq; exact absurd rfl hq
          · obtain ⟨x, hx, rfl⟩ := write_run_changed _ _ _ _ _ _ hq2
            exact hz x hx
    · intro p hp hn
      rw [write_run_live] at hp
      rcases hcase with e | ⟨e, _, _, _⟩
      · rw [e] at hp; exact absurd hp hn
      · have hb : any_busy (link_table s (.fl (FL_OFFSET va))
            (FOLLOW_TO_NEXT_TABLE t (.fl (FL_OFFSET va))))
            (.pg (FOLLOW_TO_NEXT_TABLE t (.fl (FL_OFFSET va))) 0) NUM_SL_PTE = false :=
          any_busy_link_table s (.fl (FL_OFFSET va))
            (FOLLOW_TO_NEXT_TABLE t (.fl (FL_OFFSET va))) (by simp)
        rw [← e] at hb
        rw [free_table_empty _ _ _ _ _ hb]
        simp only [write_live, mem_free_page]
        have hp' : p ∈ (link_table s (.fl (FL_OFFSET va))
            (FOLLOW_TO_NEXT_TABLE t (.fl (FL_OFFSET va)))).live := by rw [← e]; exact hp
        rw [link_table_live, List.mem_cons] at hp'
        rcases hp' with h | h
        · exact fun hh => hh.2 h
        · exact absurd h hn
  · -- 64 KiB and 4 KiB
    obtain ⟨t, p2, p3, he, hT, hp2, hT2, hp3, hne, hz, hcase⟩ :=
      map_L3_shape k s va pa G prot hwf hlen hmap
    rw [he]
    refine ⟨_, unmap_after_L3 t va G _ fuel p2 p3 hlen hva hT hp2 hT2 hp3 hne hz, ?_, ?_⟩
    · intro q hq
      rcases hcase with e | ⟨e, _, _, _, _, _⟩ | ⟨e, _, _, _, _, _⟩
      · rw [e] at hq hz ⊢
        obtain ⟨x, hx, rfl⟩ := write_run_changed _ _ _ _ _ _ hq
        rcases cascade_mem_cases s (.pg p2 (SL_OFFSET va)) (.fl (FL_OFFSET va)) p3 p2
          (.pg p3 (TL_OFFSET va + x)) with h | h
        · rw [h]; exact hz x hx
        · exact h
      · -- a new third-level table
        have hb : any_busy (link_table s (.pg p2 (SL_OFFSET va)) p3) (.pg p3 0) NUM_TL_PTE
            = false :=
          any_busy_link_table s (.pg p2 (SL_OFFSET va)) p3 (by intro j; simp [hne])
        rw [← e] at hb
        rw [free_table_empty _ _ _ _ _ hb]
        simp only [if_true]
        rcases free_table_mem_cases (write (free_page t p3) (.pg p2 (SL_OFFSET va)) 0)
          (.fl (FL_OFFSET va)) p2 NUM_SL_PTE true q with h | h
        · rw [h]
          simp only [write_mem, free_page_mem]
          by_cases hq1 : q = .pg p2 (SL_OFFSET va)
          · simp [hq1]
          · rw [if_neg hq1]
            by_cases hq2 : (write_run t (.pg p3 (TL_OFFSET va)) (run_len G)
                (leaf_desc k prot pa G)).mem q = t.mem q
            · rw [hq2] at hq
              rw [e, link_table_mem, if_neg hq1] at hq ⊢
              cases q with
              | fl i => exact absurd rfl hq
              | pg p1 j =>
                simp only [] at hq ⊢
                split
                · rfl
                · rename_i hc; rw [if_neg hc] at hq; exact absurd rfl hq
            · obtain ⟨x, hx, rfl⟩ := write_run_changed _ _ _ _ _ _ hq2
              exact hz x hx
        · exact h
      · -- a new second-level and a new third-level table
        have hb : any_busy (link_table (link_table s (.fl (FL_OFFSET va)) p2)
            (.pg p2 (SL_OFFSET va)) p3) (.pg p3 0) NUM_TL_PTE = false :=
          any_busy_link_table (link_table s (.fl (FL_OFFSET va)) p2)
            (.pg p2 (SL_OFFSET va)) p3 (by intro j; simp [hne])
        rw [← e] at hb
        rw [free_table_empty _ _ _ _ _ hb]
        simp only [if_true]
        have hb2 : any_busy (write (free_page t p3) (.pg p2 (SL_OFFSET va)) 0) (.pg p2 0)
            NUM_SL_PTE = false := by
          rw [any_busy_eq_false]
          intro i hi
          have hi' : i < 512 := hi
          rw [add_pg, Nat.zero_add, write_mem, free_page_mem]
          by_cases hc : PtePtr.pg p2 i = .pg p2 (SL_OFFSET va)
          · rw [if_pos hc]
          · rw [if_neg hc, e, link_table_mem, if_neg hc]
            simp only []
            rw [if_neg (by intro hh; exact hne hh.1), link_table_mem, if_neg (by simp)]
            simp [hi']
        rw [free_table_empty _ _ _ _ _ hb2]
        simp only [write_mem, free_page_mem]
        by_cases hq0 : q = .fl (FL_OFFSET va)
        · simp [hq0]
        · rw [if_neg hq0]
          by_cases hq1 : q = .pg p2 (SL_OFFSET va)
          · simp [hq1]
          · rw [if_neg hq1]
            by_cases hq2 : (write_run t (.pg p3 (TL_OFFSET va)) (run_len G)
                (leaf_desc k prot pa G)).mem q = t.mem q
            · rw [hq2] at hq
              rw [e, link_table_mem, if_neg hq1] at hq ⊢
              cases q with
              | fl i =>
                simp only [] at hq
                rw [link_table_mem, if_neg hq0] at hq
                exact absurd rfl hq
              | pg p1 j =>
                simp only [] at hq ⊢
                split
                · rfl
                · rename_i hc
                  rw [if_neg hc, link_table_mem, if_neg hq0] at hq
                  rw [link_table_mem, if_neg hq0]
                  simp only [] at hq ⊢
                  split
                  · rfl
                  · rename_i hc2; rw [if_neg hc2] at hq; exact absurd rfl hq
            · obtain ⟨x, hx, rfl⟩ := write_run_changed _ _ _ _ _ _ hq2
              exact hz x hx
    · intro p hp hn hp2'
      rw [write_run_live] at hp
      rcases hcase with e | ⟨e, _, _, _, _, _⟩ | ⟨e, _, _, _, _, _⟩
      · rw [e] at hp; exact absurd hp hn
      · have hb : any_busy (link_table s (.pg p2 (SL_OFFSET va)) p3) (.pg p3 0) NUM_TL_PTE
            = false :=
          any_busy_link_table s (.pg p2 (SL_OFFSET va)) p3 (by intro j; simp [hne])
        rw [← e] at hb
        rw [free_table_empty _ _ _ _ _ hb] at hp2'
        simp only [if_true] at hp2'
        have h1 := free_table_live _ _ _ _ _ _ hp2'
        rw [write_live, mem_free_page] at h1
        have hp' : p ∈ (link_table s (.pg p2 (SL_OFFSET va)) p3).live := by rw [← e]; exact hp
        rw [link_table_live, List.mem_cons] at hp'
        rcases hp' with h | h
        · exact h1.2 h
        · exact hn h
      · have hb : any_busy (link_table (link_table s (.fl (FL_OFFSET va)) p2)
            (.pg p2 (SL_OFFSET va)) p3) (.pg p3 0) NUM_TL_PTE = false :=
          any_busy_link_table (link_table s (.fl (FL_OFFSET va)) p2)
            (.pg p2 (SL_OFFSET va)) p3 (by intro j; simp [hne])
        rw [← e] at hb
        rw [free_table_empty _ _ _ _ _ hb] at hp2'
        simp only [if_true] at hp2'
        have hb2 : any_busy (write (free_page t p3) (.pg p2 (SL_OFFSET va)) 0) (.pg p2 0)
            NUM_SL_PTE = false := by
          rw [any_busy_eq_false]
          intro i hi
          have hi' : i < 512 := hi
          rw [add_pg, Nat.zero_add, write_mem, free_page_mem]
          by_cases hc : PtePtr.pg p2 i = .pg p2 (SL_OFFSET va)
          · rw [if_pos hc]
          · rw [if_neg hc, e, link_table_mem, if_neg hc]
            simp only []
            rw [if_neg (by intro hh; exact hne hh.1), link_table_mem, if_neg (by simp)]
            simp [hi']
        rw [free_table_empty _ _ _ _ _ hb2] at hp2'
        simp only [write_live, mem_free_page] at hp2'
        have hp' : p ∈ (link_table (link_table s (.fl (FL_OFFSET va)) p2)
            (.pg p2 (SL_OFFSET va)) p3).live := by rw [← e]; exact hp
        simp only [link_table_live, List.mem_cons] at hp'
        rcases hp' with h | h | h
        · exact hp2'.1.2 h
        · exact hp2'.2 h
        · exact hn h

end MsmLpae

namespace MsmLpae

/-! ## The walk -/

theorem walk_fl_block (s : PtState) (a : Nat) (h : isBlock (s.mem (.fl (FL_OFFSET a)))) :
    walk s a = some ⟨SZ_1G, .fl (FL_OFFSET a), s.mem (.fl (FL_OFFSET a))⟩ := by
  have h' : s.mem (.fl (FL_OFFSET a)) &&& FLSL_PTE_TYPE_MASK = FLSL_TYPE_BLOCK := h
  unfold walk
  simp only [h', if_true]

theorem walk_sl_block (s : PtState) (a : Nat) (h1 : isTable (s.mem (.fl (FL_OFFSET a))))
    (h2 : isBlock (s.mem (.pg (sl_of s (FL_OFFSET a)) (SL_OFFSET a)))) :
    walk s a = some ⟨SZ_2M, .pg (sl_of s (FL_OFFSET a)) (SL_OFFSET a),
      s.mem (.pg (sl_of s (FL_OFFSET a)) (SL_OFFSET a))⟩ := by
  have h1' : s.mem (.fl (FL_OFFSET a)) &&& FLSL_PTE_TYPE_MASK = FLSL_TYPE_TABLE := h1
  have h2' : s.mem (.pg (s.mem (.fl (FL_OFFSET a)) &&& FLSL_BASE_MASK) (SL_OFFSET a)) &&&
      FLSL_PTE_TYPE_MASK = FLSL_TYPE_BLOCK := h2
  have ht : ¬ FLSL_TYPE_TABLE = FLSL_TYPE_BLOCK := by decide
  unfold walk
  simp only [h1', ht, if_false, if_true, h2']
  rfl

theorem walk_tl_page (s : PtState) (a : Nat) (h1 : isTable (s.mem (.fl (FL_OFFSET a))))
    (h2 : isTable (s.mem (.pg (sl_of s (FL_OFFSET a)) (SL_OFFSET a))))
    (h3 : s.mem (.pg (tl_of s (FL_OFFSET a) (SL_OFFSET a)) (TL_OFFSET a)) &&&
      FLSL_PTE_TYPE_MASK = TL_TYPE_PAGE) :
    walk s a = some ⟨SZ_4K, .pg (tl_of s (FL_OFFSET a) (SL_OFFSET a)) (TL_OFFSET a),
      s.mem (.pg (tl_of s (FL_OFFSET a) (SL_OFFSET a)) (TL_OFFSET a))⟩ := by
  have h1' : s.mem (.fl (FL_OFFSET a)) &&& FLSL_PTE_TYPE_MASK = FLSL_TYPE_TABLE := h1
  have h2' : s.mem (.pg (s.mem (.fl (FL_OFFSET a)) &&& FLSL_BASE_MASK) (SL_OFFSET a)) &&&
      FLSL_PTE_TYPE_MASK = FLSL_TYPE_TABLE := h2
  have h3' : s.mem (.pg (s.mem (.pg (s.mem (.fl (FL_OFFSET a)) &&& FLSL_BASE_MASK)
      (SL_OFFSET a)) &&& FLSL_BASE_MASK) (TL_OFFSET a)) &&& FLSL_PTE_TYPE_MASK = TL_TYPE_PAGE := h3
  have ht : ¬ FLSL_TYPE_TABLE = FLSL_TYPE_BLOCK := by decide
  unfold walk
  simp only [h1', ht, if_false, if_true, h2', h3']
  rfl

/-- The three ways in which the walk finds a leaf. -/
theorem walk_some_cases (s : PtState) (a : Nat) (lf : Leaf) (h : walk s a = some lf) :
    (isBlock (s.mem (.fl (FL_OFFSET a))) ∧
      lf = ⟨SZ_1G, .fl (FL_OFFSET a), s.mem (.fl (FL_OFFSET a))⟩) ∨
    (isTable (s.mem (.fl (FL_OFFSET a))) ∧
      isBlock (s.mem (.pg (sl_of s (FL_OFFSET a)) (SL_OFFSET a))) ∧
      lf = ⟨SZ_2M, .pg (sl_of s (FL_OFFSET a)) (SL_OFFSET a),
        s.mem (.pg (sl_of s (FL_OFFSET a)) (SL_OFFSET a))⟩) ∨
    (isTable (s.mem (.fl (FL_OFFSET a))) ∧
      isTable (s.mem (.pg (sl_of s (FL_OFFSET a)) (SL_OFFSET a))) ∧
      s.mem (.pg (tl_of s (FL_OFFSET a) (SL_OFFSET a)) (TL_OFFSET a)) &&&
        FLSL_PTE_TYPE_MASK = TL_TYPE_PAGE ∧
      lf = ⟨SZ_4K, .pg (tl_of s (FL_OFFSET a) (SL_OFFSET a)) (TL_OFFSET a),
        s.mem (.pg (tl_of s (FL_OFFSET a) (SL_OFFSET a)) (TL_OFFSET a))⟩) := by
  by_cases h1 : isBlock (s.mem (.fl (FL_OFFSET a)))
  · rw [walk_fl_block s a h1] at h
    exact Or.inl ⟨h1, (Option.some.inj h).symm⟩
  · by_cases h2 : isTable (s.mem (.fl (FL_OFFSET a)))
    · by_cases h3 : isBlock (s.mem (.pg (sl_of s (FL_OFFSET a)) (SL_OFFSET a)))
      · rw [walk_sl_block s a h2 h3] at h
        exact Or.inr (Or.inl ⟨h2, h3, (Option.some.inj h).symm⟩)
      · by_cases h4 : isTable (s.mem (.pg (sl_of s (FL_OFFSET a)) (SL_OFFSET a)))
        · by_cases h5 : s.mem (.pg (tl_of s (FL_OFFSET a) (SL_OFFSET a)) (TL_OFFSET a)) &&&
              FLSL_PTE_TYPE_MASK = TL_TYPE_PAGE
          · rw [walk_tl_page s a h2 h4 h5] at h
            exact Or.inr (Or.inr ⟨h2, h4, h5, (Option.some.inj h).symm⟩)
          · exfalso
            have h1' : ¬ s.mem (.fl (FL_OFFSET a)) &&& FLSL_PTE_TYPE_MASK = FLSL_TYPE_BLOCK := h1
            have h2' : s.mem (.fl (FL_OFFSET a)) &&& FLSL_PTE_TYPE_MASK = FLSL_TYPE_TABLE := h2
            have h3' : ¬ s.mem (.pg (s.mem (.fl (FL_OFFSET a)) &&& FLSL_BASE_MASK)
              (SL_OFFSET a)) &&& FLSL_PTE_TYPE_MASK = FLSL_TYPE_BLOCK := h3
            have h4' : s.mem (.pg (s.mem (.fl (FL_OFFSET a)) &&& FLSL_BASE_MASK)
              (SL_OFFSET a)) &&& FLSL_PTE_TYPE_MASK = FLSL_TYPE_TABLE := h4
            have h5' : ¬ s.mem (.pg (s.mem (.pg (s.mem (.fl (FL_OFFSET a)) &&& FLSL_BASE_MASK)
              (SL_OFFSET a)) &&& FLSL_BASE_MASK) (TL_OFFSET a)) &&& FLSL_PTE_TYPE_MASK =
              TL_TYPE_PAGE := h5
            have ht : ¬ FLSL_TYPE_TABLE = FLSL_TYPE_BLOCK := by decide
            unfold walk at h
            simp only [h2', ht, if_false, if_true, h4', h5'] at h
            exact absurd h (by simp)
        · exfalso
          have h1' : ¬ s.mem (.fl (FL_OFFSET a)) &&& FLSL_PTE_TYPE_MASK = FLSL_TYPE_BLOCK := h1
          have h2' : s.mem (.fl (FL_OFFSET a)) &&& FLSL_PTE_TYPE_MASK = FLSL_TYPE_TABLE := h2
          have h3' : ¬ s.mem (.pg (s.mem (.fl (FL_OFFSET a)) &&& FLSL_BASE_MASK)
            (SL_OFFSET a)) &&& FLSL_PTE_TYPE_MASK = FLSL_TYPE_BLOCK := h3
          have h4' : ¬ s.mem (.pg (s.mem (.fl (FL_OFFSET a)) &&& FLSL_BASE_MASK)
            (SL_OFFSET a)) &&& FLSL_PTE_TYPE_MASK = FLSL_TYPE_TABLE := h4
          have ht : ¬ FLSL_TYPE_TABLE = FLSL_TYPE_BLOCK := by decide
          unfold walk at h
          simp only [h2', ht, if_false, if_true, h3', h4'] at h
          exact absurd h (by simp)
    · exfalso
      have h1' : ¬ s.mem (.fl (FL_OFFSET a)) &&& FLSL_PTE_TYPE_MASK = FLSL_TYPE_BLOCK := h1
      have h2' : ¬ s.mem (.fl (FL_OFFSET a)) &&& FLSL_PTE_TYPE_MASK = FLSL_TYPE_TABLE := h2
      unfold walk at h
      simp only [h1', h2', if_false] at h
      exact absurd h (by simp)

/-! ## Slot indices inside an aligned granule -/

theorem offsets_1G (va a : Nat) (hva : va % SZ_1G = 0) (h1 : va ≤ a) (h2 : a < va + SZ_1G) :
    FL_OFFSET a = FL_OFFSET va := by
  simp only [FL_OFFSET_eq, SZ_1G] at *
  omega

theorem offsets_32M (va a : Nat) (hva : va % SZ_32M = 0) (h1 : va ≤ a) (h2 : a < va + SZ_32M) :
    FL_OFFSET a = FL_OFFSET va ∧ SL_OFFSET va ≤ SL_OFFSET a ∧ SL_OFFSET a < SL_OFFSET va + 16 := by
  simp only [FL_OFFSET_eq, SL_OFFSET_eq, SZ_32M] at *
  omega

theorem offsets_2M (va a : Nat) (hva : va % SZ_2M = 0) (h1 : va ≤ a) (h2 : a < va + SZ_2M) :
    FL_OFFSET a = FL_OFFSET va ∧ SL_OFFSET a = SL_OFFSET va := by
  simp only [FL_OFFSET_eq, SL_OFFSET_eq, SZ_2M] at *
  omega

theorem offsets_64K (va a : Nat) (hva : va % SZ_64K = 0) (h1 : va ≤ a) (h2 : a < va + SZ_64K) :
    FL_OFFSET a = FL_OFFSET va ∧ SL_OFFSET a = SL_OFFSET va ∧
      TL_OFFSET va ≤ TL_OFFSET a ∧ TL_OFFSET a < TL_OFFSET va + 16 := by
  simp only [FL_OFFSET_eq, SL_OFFSET_eq, TL_OFFSET_eq, SZ_64K] at *
  omega

theorem offsets_4K (va a : Nat) (hva : va % SZ_4K = 0) (h1 : va ≤ a) (h2 : a < va + SZ_4K) :
    FL_OFFSET a = FL_OFFSET va ∧ SL_OFFSET a = SL_OFFSET va ∧ TL_OFFSET a = TL_OFFSET va := by
  simp only [FL_OFFSET_eq, SL_OFFSET_eq, TL_OFFSET_eq, SZ_4K] at *
  omega

end MsmLpae

namespace MsmLpae

/-! ## Mapping over a mapped address -/

theorem handle_1st_lvl_occupied (s : PtState) (pte : PtePtr) (pa u l len : Nat)
    (h0 : s.mem pte ≠ 0) (hl : len ≠ SZ_1G) :
    handle_1st_lvl s pte pa u l len =
      if isTable (s.mem pte) then (0, s) else (-EBUSY, s) := by
  unfold handle_1st_lvl
  simp only [hl, if_false, h0, if_true]
  by_cases hT : isTable (s.mem pte)
  · have hT' : s.mem pte &&& FLSL_TYPE_TABLE = FLSL_TYPE_TABLE := hT
    simp [hT, hT']
  · have hT' : ¬ s.mem pte &&& FLSL_TYPE_TABLE = FLSL_TYPE_TABLE := hT
    simp [hT, hT']

theorem handle_3rd_lvl_occupied (s : PtState) (pte : PtePtr) (va pa u l len : Nat)
    (h0 : s.mem pte ≠ 0) :
    handle_3rd_lvl s pte va pa u l len =
      if isTable (s.mem pte) then
        (if len = SZ_64K then tl_64k_map s (.pg (FOLLOW_TO_NEXT_TABLE s pte) (TL_OFFSET va)) pa u l
         else tl_4k_map s (.pg (FOLLOW_TO_NEXT_TABLE s pte) (TL_OFFSET va)) pa u l)
      else (-EBUSY, s) := by
  unfold handle_3rd_lvl
  simp only [h0, if_false]
  by_cases hT : isTable (s.mem pte)
  · have hT' : s.mem pte &&& FLSL_TYPE_TABLE = FLSL_TYPE_TABLE := hT
    simp [hT, hT']
  · have hT' : ¬ s.mem pte &&& FLSL_TYPE_TABLE = FLSL_TYPE_TABLE := hT
    simp [hT, hT']

theorem fl_1G_map_busy (s : PtState) (pte : PtePtr) (pa u l : Nat) (h : s.mem pte ≠ 0) :
    fl_1G_map s pte pa u l = (-EBUSY, s) := by
  unfold fl_1G_map; simp [h]

theorem sl_2m_map_busy (s : PtState) (pte : PtePtr) (pa u l : Nat) (h : s.mem pte ≠ 0) :
    sl_2m_map s pte pa u l = (-EBUSY, s) := by
  unfold sl_2m_map; simp [h]

theorem tl_4k_map_busy (s : PtState) (pte : PtePtr) (pa u l : Nat) (h : s.mem pte ≠ 0) :
    tl_4k_map s pte pa u l = (-EBUSY, s) := by
  unfold tl_4k_map; simp [h]

theorem sl_32m_map_busy (s : PtState) (p j : Nat) (pa u l j1 : Nat) (h : s.mem (.pg p j1) ≠ 0)
    (h1 : j ≤ j1) (h2 : j1 < j + 16) : sl_32m_map s (.pg p j) pa u l = (-EBUSY, s) := by
  have : any_busy s (.pg p j) 16 = true := by
    rw [any_busy_eq_true]
    refine ⟨j1 - j, by omega, ?_⟩
    rw [add_pg, show j + (j1 - j) = j1 by omega]
    exact h
  unfold sl_32m_map; simp [this]

theorem tl_64k_map_busy (s : PtState) (p j : Nat) (pa u l j1 : Nat) (h : s.mem (.pg p j1) ≠ 0)
    (h1 : j ≤ j1) (h2 : j1 < j + 16) : tl_64k_map s (.pg p j) pa u l = (-EBUSY, s) := by
  have : any_busy s (.pg p j) 16 = true := by
    rw [any_busy_eq_true]
    refine ⟨j1 - j, by omega, ?_⟩
    rw [add_pg, show j + (j1 - j) = j1 by omega]
    exact h
  unfold tl_64k_map; simp [this]

theorem page_ne_zero {d : Nat} (h : d &&& FLSL_PTE_TYPE_MASK = TL_TYPE_PAGE) : d ≠ 0 := by
  intro e; rw [e] at h; exact absurd h (by decide)

/-- A mapping request whose range contains an address that the walk resolves is
refused with `-EBUSY`, and nothing changes. -/
theorem map_busy_of_mapped (k : Build) (s : PtState) (va pa G prot a : Nat) (lf : Leaf)
    (hG : G ∈ granules) (hfl : s.fl_table ≠ 0) (hva : va % G = 0) (h1 : va ≤ a)
    (h2 : a < va + G) (hw : walk s a = some lf) :
    msm_iommu_pagetable_map k s va pa G prot = (-EBUSY, s) := by
  obtain ⟨d12, d13, d14, d15, d23, d24, d25, d34, d35, d45⟩ := SZ_distinct
  have hne : (-EBUSY : Int) ≠ 0 := by decide
  rw [map_of_valid k s va pa G prot hG hfl]
  simp only [granules, List.mem_cons, List.mem_singleton, List.not_mem_nil, or_false] at hG
  simp only []
  rcases hG with e | e | e | e | e
  · -- 1 GiB
    subst e
    have hF := offsets_1G va a hva h1 h2
    have h0 : s.mem (.fl (FL_OFFSET va)) ≠ 0 := by
      rw [← hF]
      rcases walk_some_cases s a lf hw with ⟨hb, _⟩ | ⟨ht, _⟩ | ⟨ht, _⟩
      · exact isBlock_ne_zero hb
      · exact isTable_ne_zero ht
      · exact isTable_ne_zero ht
    have e1 : handle_1st_lvl s (.fl (FL_OFFSET va)) pa (__get_attr k prot).1
        (__get_attr k prot).2 SZ_1G = (-EBUSY, s) := by
      unfold handle_1st_lvl
      simp only [if_true]
      exact fl_1G_map_busy s _ _ _ _ h0
    simp [e1, hne]
  · -- 32 MiB
    subst e
    obtain ⟨hF, hS1, hS2⟩ := offsets_32M va a hva h1 h2
    rcases walk_some_cases s a lf hw with ⟨hb, _⟩ | ⟨ht, hb, _⟩ | ⟨ht, ht2, _, _⟩
    · rw [hF] at hb
      rw [handle_1st_lvl_occupied s _ pa _ _ _ (isBlock_ne_zero hb) d12.symm,
        if_neg (isBlock_not_isTable hb)]
      simp [hne]
    · rw [hF] at ht hb
      rw [handle_1st_lvl_occupied s _ pa _ _ _ (isTable_ne_zero ht) d12.symm, if_pos ht]
      simp only [ne_eq, not_true_eq_false, if_false, if_true]
      exact sl_32m_map_busy s _ _ pa _ _ (SL_OFFSET a) (isBlock_ne_zero hb) hS1 hS2
    · rw [hF] at ht ht2
      rw [handle_1st_lvl_occupied s _ pa _ _ _ (isTable_ne_zero ht) d12.symm, if_pos ht]
      simp only [ne_eq, not_true_eq_false, if_false, if_true]
      exact sl_32m_map_busy s _ _ pa _ _ (SL_OFFSET a) (isTable_ne_zero ht2) hS1 hS2
  · -- 2 MiB
    subst e
    obtain ⟨hF, hS⟩ := offsets_2M va a hva h1 h2
    rcases walk_some_cases s a lf hw with ⟨hb, _⟩ | ⟨ht, hb, _⟩ | ⟨ht, ht2, _, _⟩
    · rw [hF] at hb
      rw [handle_1st_lvl_occupied s _ pa _ _ _ (isBlock_ne_zero hb) d13.symm,
        if_neg (isBlock_not_isTable hb)]
      simp [hne]
    · rw [hF, hS] at hb
      rw [hF] at ht
      rw [handle_1st_lvl_occupied s _ pa _ _ _ (isTable_ne_zero ht) d13.symm, if_pos ht]
      simp only [ne_eq, not_true_eq_false, if_false, if_true, d23.symm]
      exact sl_2m_map_busy s _ pa _ _ (isBlock_ne_zero hb)
    · rw [hF, hS] at ht2
      rw [hF] at ht
      rw [handle_1st_lvl_occupied s _ pa _ _ _ (isTable_ne_zero ht) d13.symm, if_pos ht]
      simp only [ne_eq, not_true_eq_false, if_false, if_true, d23.symm]
      exact sl_2m_map_busy s _ pa _ _ (isTable_ne_zero ht2)
  · -- 64 KiB
    subst e
    obtain ⟨hF, hS, hT1, hT2⟩ := offsets_64K va a hva h1 h2
    rcases walk_some_cases s a lf hw with ⟨hb, _⟩ | ⟨ht, hb, _⟩ | ⟨ht, ht2, hpg, _⟩
    · rw [hF] at hb
      rw [handle_1st_lvl_occupied s _ pa _ _ _ (isBlock_ne_zero hb) d14.symm,
        if_neg (isBlock_not_isTable hb)]
      simp [hne]
    · rw [hF, hS] at hb
      rw [hF] at ht
      simp only [sl_of] at hb
      rw [handle_1st_lvl_occupied s _ pa _ _ _ (isTable_ne_zero ht) d14.symm, if_pos ht]
      simp only [ne_eq, not_true_eq_false, if_false, if_true, d24.symm, d34.symm, true_or]
      rw [handle_3rd_lvl_occupied s _ va pa _ _ _ (isBlock_ne_zero hb),
        if_neg (isBlock_not_isTable hb)]
    · rw [hF, hS] at ht2 hpg
      rw [hF] at ht
      simp only [sl_of, tl_of] at ht2 hpg
      rw [handle_1st_lvl_occupied s _ pa _ _ _ (isTable_ne_zero ht) d14.symm, if_pos ht]
      simp only [ne_eq, not_true_eq_false, if_false, if_true, d24.symm, d34.symm, true_or]
      rw [handle_3rd_lvl_occupied s _ va pa _ _ _ (isTable_ne_zero ht2), if_pos ht2, if_pos rfl]
      exact tl_64k_map_busy s _ _ pa _ _ (TL_OFFSET a) (page_ne_zero hpg) hT1 hT2
  · -- 4 KiB
    subst e
    obtain ⟨hF, hS, hT⟩ := offsets_4K va a hva h1 h2
    rcases walk_some_cases s a lf hw with ⟨hb, _⟩ | ⟨ht, hb, _⟩ | ⟨ht, ht2, hpg, _⟩
    · rw [hF] at hb
      rw [handle_1st_lvl_occupied s _ pa _ _ _ (isBlock_ne_zero hb) d15.symm,
        if_neg (isBlock_not_isTable hb)]
      simp [hne]
    · rw [hF, hS] at hb
      rw [hF] at ht
      simp only [sl_of] at hb
      rw [handle_1st_lvl_occupied s _ pa _ _ _ (isTable_ne_zero ht) d15.symm, if_pos ht]
      simp only [ne_eq, not_true_eq_false, if_false, if_true, d25.symm, d35.symm, or_true]
      rw [handle_3rd_lvl_occupied s _ va pa _ _ _ (isBlock_ne_zero hb),
        if_neg (isBlock_not_isTable hb)]
    · rw [hF, hS, hT] at hpg
      rw [hF, hS] at ht2
      rw [hF] at ht
      simp only [sl_of, tl_of] at ht2 hpg
      rw [handle_1st_lvl_occupied s _ pa _ _ _ (isTable_ne_zero ht) d15.symm, if_pos ht]
      simp only [ne_eq, not_true_eq_false, if_false, if_true, d25.symm, d35.symm, or_true]
      rw [handle_3rd_lvl_occupied s _ va pa _ _ _ (isTable_ne_zero ht2), if_pos ht2,
        if_neg d45.symm]
      exact tl_4k_map_busy s _ pa _ _ (page_ne_zero hpg)

end MsmLpae

namespace MsmLpae

/-! ## What was mapped is found by the walk -/

/-- In the state left by a successful mapping call on a well-formed state, the
walk resolves every address of the mapped range. -/
theorem mapped_after_map (k : Build) (s : PtState) (va pa G prot a : Nat)
    (hwf : WellFormed s) (hG : G ∈ granules) (hva : va % G = 0)
    (h : (msm_iommu_pagetable_map k s va pa G prot).1 = 0) (h1 : va ≤ a) (h2 : a < va + G) :
    ∃ lf, walk (msm_iommu_pagetable_map k s va pa G prot).2 a = some lf := by
  obtain ⟨d12, d13, d14, d15, d23, d24, d25, d34, d35, d45⟩ := SZ_distinct
  simp only [granules, List.mem_cons, List.mem_singleton, List.not_mem_nil, or_false] at hG
  have hcases : G = SZ_1G ∨ (G = SZ_32M ∨ G = SZ_2M) ∨ (G = SZ_64K ∨ G = SZ_4K) := by
    rcases hG with e | e | e | e | e <;> simp [e]
  rcases hcases with e | hlen | hlen
  · subst e
    obtain ⟨_, he⟩ := map_ok_1G k s va pa prot h
    have hF := offsets_1G va a hva h1 h2
    rw [he]
    refine ⟨_, walk_fl_block _ a ?_⟩
    rw [hF, write_mem, if_pos rfl]
    exact isBlock_leaf_desc k prot pa SZ_1G (Or.inl rfl)
  · obtain ⟨t, p2, he, hT, hp2, hz, _⟩ := map_L2_shape k s va pa G prot hwf hlen h
    have hd : isBlock (leaf_desc k prot pa G) :=
      isBlock_leaf_desc k prot pa G (by rcases hlen with e | e <;> simp [e])
    have hoff : FL_OFFSET a = FL_OFFSET va ∧ SL_OFFSET va ≤ SL_OFFSET a ∧
        SL_OFFSET a < SL_OFFSET va + run_len G := by
      rcases hlen with e | e
      · subst e
        exact offsets_32M va a hva h1 h2
      · subst e
        obtain ⟨hF, hS⟩ := offsets_2M va a hva h1 h2
        have : run_len SZ_2M = 1 := rfl
        rw [this, hS]
        exact ⟨hF, le_refl _, by omega⟩
    obtain ⟨hF, hS1, hS2⟩ := hoff
    rw [he]
    have e1 : (write_run t (.pg p2 (SL_OFFSET va)) (run_len G) (leaf_desc k prot pa G)).mem
        (.fl (FL_OFFSET a)) = t.mem (.fl (FL_OFFSET va)) := by
      rw [write_run_fl, hF]
    have e2 : sl_of (write_run t (.pg p2 (SL_OFFSET va)) (run_len G) (leaf_desc k prot pa G))
        (FL_OFFSET a) = p2 := by
      unfold sl_of FOLLOW_TO_NEXT_TABLE
      rw [e1]; exact hp2
    refine ⟨_, walk_sl_block _ a (by rw [e1]; exact hT) ?_⟩
    rw [e2, write_run_pg, if_pos ⟨rfl, hS1, hS2⟩]
    exact hd
  · obtain ⟨t, p2, p3, he, hT, hp2, hT2, hp3, hne, hz, _⟩ :=
      map_L3_shape k s va pa G prot hwf hlen h
    have hd : leaf_desc k prot pa G &&& FLSL_PTE_TYPE_MASK = TL_TYPE_PAGE := by
      apply isPage_leaf_desc
      rcases hlen with e | e <;> rw [e] <;> simp [d14.symm, d24.symm, d34.symm, d15.symm,
        d25.symm, d35.symm]
    have hoff : FL_OFFSET a = FL_OFFSET va ∧ SL_OFFSET a = SL_OFFSET va ∧
        TL_OFFSET va ≤ TL_OFFSET a ∧ TL_OFFSET a < TL_OFFSET va + run_len G := by
      rcases hlen with e | e
      · subst e
        exact offsets_64K va a hva h1 h2
      · subst e
        obtain ⟨hF, hS, hTo⟩ := offsets_4K va a hva h1 h2
        have : run_len SZ_4K = 1 := rfl
        rw [this, hTo]
        exact ⟨hF, hS, le_refl _, by omega⟩
    obtain ⟨hF, hS, hT1, hT2'⟩ := hoff
    rw [he]
    have e1 : (write_run t (.pg p3 (TL_OFFSET va)) (run_len G) (leaf_desc k prot pa G)).mem
        (.fl (FL_OFFSET a)) = t.mem (.fl (FL_OFFSET va)) := by
      rw [write_run_fl, hF]
    have e2 : sl_of (write_run t (.pg p3 (TL_OFFSET va)) (run_len G) (leaf_desc k prot pa G))
        (FL_OFFSET a) = p2 := by
      unfold sl_of FOLLOW_TO_NEXT_TABLE
      rw [e1]; exact hp2
    have e3 : (write_run t (.pg p3 (TL_OFFSET va)) (run_len G) (leaf_desc k prot pa G)).mem
        (.pg p2 (SL_OFFSET a)) = t.mem (.pg p2 (SL_OFFSET va)) := by
      rw [write_run_pg, if_neg (fun hh => hne hh.1), hS]
    have e4 : tl_of (write_run t (.pg p3 (TL_OFFSET va)) (run_len G) (leaf_desc k prot pa G))
        (FL_OFFSET a) (SL_OFFSET a) = p3 := by
      unfold tl_of FOLLOW_TO_NEXT_TABLE
      rw [e2, e3]; exact hp3
    refine ⟨_, walk_tl_page _ a (by rw [e1]; exact hT) (by rw [e2, e3]; exact hT2) ?_⟩
    rw [e4, write_run_pg, if_pos ⟨rfl, hT1, hT2'⟩]
    exact hd

/-! ## Overlap -/

theorem map_fl_table (k : Build) (s : PtState) (va pa G prot : Nat) :
    (msm_iommu_pagetable_map k s va pa G prot).2.fl_table = s.fl_table := by
  have h1 : ∀ (t : PtState) (pte : PtePtr), (make_second_level_tbl t pte).2.fl_table =
      t.fl_table := by
    intro t pte
    unfold make_second_level_tbl
    simp only []
    split_ifs <;> simp [get_free_page_fl_table]
  have h2 : ∀ (t : PtState) (pte : PtePtr), (make_third_level_tbl t pte).2.fl_table =
      t.fl_table := by
    intro t pte
    unfold make_third_level_tbl
    simp only []
    split_ifs <;> simp [get_free_page_fl_table]
  have l1 : ∀ (t : PtState) (pte : PtePtr) (pa u l len : Nat),
      (handle_1st_lvl t pte pa u l len).2.fl_table = t.fl_table := by
    intro t pte pa u l len
    unfold handle_1st_lvl fl_1G_map
    simp only []
    split_ifs <;> simp [h1]
  have l2 : ∀ (t : PtState) (pte : PtePtr) (pa u l : Nat),
      (sl_32m_map t pte pa u l).2.fl_table = t.fl_table := by
    intro t pte pa u l
    unfold sl_32m_map
    split_ifs <;> simp
  have l3 : ∀ (t : PtState) (pte : PtePtr) (pa u l : Nat),
      (sl_2m_map t pte pa u l).2.fl_table = t.fl_table := by
    intro t pte pa u l
    unfold sl_2m_map
    split_ifs <;> simp
  have l4 : ∀ (t : PtState) (pte : PtePtr) (va pa u l len : Nat),
      (handle_3rd_lvl t pte va pa u l len).2.fl_table = t.fl_table := by
    intro t pte va pa u l len
    unfold handle_3rd_lvl tl_64k_map tl_4k_map
    simp only []
    split_ifs <;> simp [h2]
  unfold msm_iommu_pagetable_map
  simp only []
  split_ifs <;> simp [l1, l2, l3, l4]

/-- C2: overlap is a conflict that changes nothing. After a successful mapping of
granule `G1` at `va1` on a well-formed state, a mapping request of granule `G2`
at `va2` whose range shares an address with the first one returns `-EBUSY` and
leaves the whole state (every descriptor, the pages in use, the allocator) as
it was before the second call. -/
theorem overlap_is_conflict (k : Build) (s : PtState)
    (va1 pa1 G1 prot1 va2 pa2 G2 prot2 : Nat)
    (hwf : WellFormed s) (hG1 : G1 ∈ granules) (hG2 : G2 ∈ granules)
    (hva1 : va1 % G1 = 0) (_hpa1 : pa1 % G1 = 0) (hva2 : va2 % G2 = 0) (_hpa2 : pa2 % G2 = 0)
    (hov : ∃ a, va1 ≤ a ∧ a < va1 + G1 ∧ va2 ≤ a ∧ a < va2 + G2)
    (h1 : (msm_iommu_pagetable_map k s va1 pa1 G1 prot1).1 = 0) :
    msm_iommu_pagetable_map k (msm_iommu_pagetable_map k s va1 pa1 G1 prot1).2
        va2 pa2 G2 prot2 =
      (-EBUSY, (msm_iommu_pagetable_map k s va1 pa1 G1 prot1).2) := by
  obtain ⟨a, ha1, ha2, ha3, ha4⟩ := hov
  obtain ⟨lf, hw⟩ := mapped_after_map k s va1 pa1 G1 prot1 a hwf hG1 hva1 h1 ha1 ha2
  have hfl : (msm_iommu_pagetable_map k s va1 pa1 G1 prot1).2.fl_table ≠ 0 := by
    rw [map_fl_table]; exact hwf.root
  exact map_busy_of_mapped k _ va2 pa2 G2 prot2 a lf hG2 hfl hva2 ha3 ha4 hw

/-! ## A fresh table instance is well-formed -/

theorem wf_fresh (pool : List Nat) (h1 : (pool.filter (fun p => p ≠ 0)).Nodup)
    (h2 : ∀ p ∈ pool, p &&& FLSL_BASE_MASK = p) : WellFormed (fresh_pt pool) := by
  have nt : ∀ q, ¬ isTable ((fresh_pt pool).mem q) := fun q => not_isTable_zero
  have hr : (fresh_pt pool).fl_table ≠ 0 := by
    show (0x1000 : Nat) ≠ 0
    decide
  refine ⟨hr, ⟨?_, ?_, ?_⟩, ?_, ?_, ?_, ?_, ?_, ?_, h1, h2⟩
  · intro i _ h; exact absurd h (nt _)
  · intro i _ h; exact absurd h (nt _)
  · intro i _ h; exact absurd h (nt _)
  · intro i _; exact Or.inl rfl
  · intro i _ h; exact absurd h (nt _)
  · intro i _ h; exact absurd h (nt _)
  · intro i _ h; exact absurd h (nt _)
  · intro i _ h; exact absurd h (nt _)
  · intro p _ h; exact absurd h (List.not_mem_nil p)

theorem wf_fresh_pool3 : WellFormed (fresh_pt pool3) :=
  wf_fresh pool3 (by decide) (by decide)

/-- C1 on a page mapped at 0x1000 in a fresh table instance. -/
theorem map_unmap_round_trip_witness :
    WellFormed (fresh_pt pool3) ∧ SZ_4K ∈ granules ∧ 0x1000 % SZ_4K = 0 ∧ 0x9000 % SZ_4K = 0 ∧
    (msm_iommu_pagetable_map k0 (fresh_pt pool3) 0x1000 0x9000 SZ_4K 7).1 = 0 ∧
    ∃ s2, msm_iommu_pagetable_unmap_range (0 + 1)
        (msm_iommu_pagetable_map k0 (fresh_pt pool3) 0x1000 0x9000 SZ_4K 7).2 0x1000 SZ_4K =
          some s2 ∧
      (∀ q, (msm_iommu_pagetable_map k0 (fresh_pt pool3) 0x1000 0x9000 SZ_4K 7).2.mem q ≠
        (fresh_pt pool3).mem q → s2.mem q = 0) ∧
      (∀ p, p ∈ (msm_iommu_pagetable_map k0 (fresh_pt pool3) 0x1000 0x9000 SZ_4K 7).2.live →
        p ∉ (fresh_pt pool3).live → p ∉ s2.live) :=
  ⟨wf_fresh_pool3, by decide, by decide, by decide, by decide,
    map_unmap_round_trip k0 (fresh_pt pool3) 0x1000 0x9000 SZ_4K 7 0 wf_fresh_pool3
      (by decide) (by decide) (by decide) (by decide)⟩

/-- C2 on a 2 MiB block at 0 followed by a page request at 0x3000. -/
theorem overlap_is_conflict_witness :
    WellFormed (fresh_pt pool3) ∧ SZ_2M ∈ granules ∧ SZ_4K ∈ granules ∧ 0 % SZ_2M = 0 ∧
    0 % SZ_2M = 0 ∧ 0x3000 % SZ_4K = 0 ∧ 0x5000 % SZ_4K = 0 ∧
    (∃ a, 0 ≤ a ∧ a < 0 + SZ_2M ∧ 0x3000 ≤ a ∧ a < 0x3000 + SZ_4K) ∧
    (msm_iommu_pagetable_map k0 (fresh_pt pool3) 0 0 SZ_2M 3).1 = 0 ∧
    msm_iommu_pagetable_map k0 (msm_iommu_pagetable_map k0 (fresh_pt pool3) 0 0 SZ_2M 3).2
        0x3000 0x5000 SZ_4K 3 =
      (-EBUSY, (msm_iommu_pagetable_map k0 (fresh_pt pool3) 0 0 SZ_2M 3).2) :=
  ⟨wf_fresh_pool3, by decide, by decide, by decide, by decide, by decide, by decide,
    ⟨0x3000, by decide, by decide, by decide, by decide⟩, by decide,
    overlap_is_conflict k0 (fresh_pt pool3) 0 0 SZ_2M 3 0x3000 0x5000 SZ_4K 3 wf_fresh_pool3
      (by decide) (by decide) (by decide) (by decide) (by decide) (by decide)
      ⟨0x3000, by decide, by decide, by decide, by decide⟩ (by decide)⟩

end MsmLpae

namespace MsmLpae

/-! ## Walks that are never left, and a table that is lost -/

/-- C5: the walk of `msm_iommu_pagetable_unmap_range` does not always halt. With a
page mapped at 0 in a fresh table instance, unmapping 4 KiB at 2 MiB finds a
first-level table link and an `Empty` second-level slot, and with a 2 MiB
block mapped at 0, unmapping 4 KiB at 0 finds a second-level block with less
than 2 MiB left: in both cases no amount of fuel lets the loop return. -/
theorem unmap_range_never_returns :
    (∀ fuel, msm_iommu_pagetable_unmap_range fuel pt_4K 0x200000 0x1000 = none) ∧
    (∀ fuel, msm_iommu_pagetable_unmap_range fuel pt_2M 0 0x1000 = none) := by
  constructor
  · intro fuel
    have h := unmap_body_sl_stuck pt_4K 0x200000 0x1000 0 (by decide) (by decide) (by decide)
    rw [unmap_range_eq _ _ _ _ (by decide)]
    exact unmap_loop_stuck pt_4K 0x200000 0x1000 0 (by decide) h fuel
  · intro fuel
    have h := unmap_body_sl_block pt_2M 0 0x1000 0 (by decide) (by decide)
    have e : sl_entries 0 (0x1000 - 0) = 0 := by decide
    have hb : any_busy pt_2M (.pg (FOLLOW_TO_NEXT_TABLE pt_2M (.fl (FL_OFFSET 0))) 0) NUM_SL_PTE
        = true := by
      rw [any_busy_eq_true]
      exact ⟨0, by decide, by decide⟩
    have e2 : unmap_sl_run pt_2M 0 (0x1000 - 0) = pt_2M := by
      unfold unmap_sl_run
      simp only [e, memset_zero_none, free_table_eq, hb]
      simp [NUM_SL_PTE]
    rw [e, e2] at h
    rw [unmap_range_eq _ _ _ _ (by decide)]
    exact unmap_loop_stuck pt_2M 0 0x1000 0 (by decide) h fuel

set_option maxRecDepth 100000 in
/-- C6: a table is orphaned. With a 2 MiB block at 0 and a page at 2 MiB in a fresh
table instance, slot 1 of the second-level table links the third-level table
in page frame 0x80001000. Unmapping the 4 MiB from 0 returns after one pass
with every first-level slot zero, while page frame 0x80001000 is still in
use: the pass has zeroed the link without freeing the table. -/
theorem unmap_range_orphans_table :
    isTable (pt_mixed.mem (.pg 0x80000000 1)) ∧
    FOLLOW_TO_NEXT_TABLE pt_mixed (.pg 0x80000000 1) = 0x80001000 ∧
    observe pt_mixed = ([0x80000003, 0, 0, 0], [0x80001000, 0x80000000]) ∧
    (msm_iommu_pagetable_unmap_range 1 pt_mixed 0 0x400000).map observe =
      some ([0, 0, 0, 0], [0x80001000]) := by
  refine ⟨by decide, by decide, by decide, by decide⟩

end MsmLpae

namespace MsmLpae

/-! ## Clearing keeps the tree -/

theorem cleared_refl (s : PtState) : Cleared s s := fun _ => Or.inl rfl

theorem cleared_trans {s t u : PtState} (h1 : Cleared s t) (h2 : Cleared t u) : Cleared s u := by
  intro q
  rcases h2 q with h | h
  · rw [h]; exact h1 q
  · exact Or.inr h

theorem cleared_write_zero (s : PtState) (p : PtePtr) : Cleared s (write s p 0) := by
  intro q
  rw [write_mem]
  by_cases h : q = p
  · right; rw [if_pos h]
  · left; rw [if_neg h]

theorem cleared_memset_zero (s : PtState) (t a n : Nat) : Cleared s (memset_zero s t a n) := by
  intro q
  cases q with
  | fl i => left; rfl
  | pg p j =>
    rw [memset_zero_pg]
    split
    · right; rfl
    · left; rfl

theorem cleared_free_table (s : PtState) (prev : PtePtr) (t len : Nat) (c : Bool) :
    Cleared s (free_table s prev t len c).2 :=
  fun q => free_table_mem_cases s prev t len c q

theorem cleared_isTable {s t : PtState} (h : Cleared s t) {q : PtePtr}
    (hT : isTable (t.mem q)) : t.mem q = s.mem q := by
  rcases h q with e | e
  · exact e
  · rw [e] at hT; exact absurd hT not_isTable_zero

theorem cleared_sl_of {s t : PtState} (h : Cleared s t) {i : Nat}
    (hT : isTable (t.mem (.fl i))) : sl_of t i = sl_of s i := by
  unfold sl_of FOLLOW_TO_NEXT_TABLE
  rw [cleared_isTable h hT]

theorem cleared_linksTl {s t : PtState} (h : Cleared s t) {i j : Nat} (hl : linksTl t i j) :
    linksTl s i j ∧ sl_of t i = sl_of s i ∧ tl_of t i j = tl_of s i j := by
  obtain ⟨h1, h2⟩ := hl
  have e1 := cleared_isTable h h1
  have e2 := cleared_sl_of h h1
  rw [e2] at h2
  have e3 := cleared_isTable h h2
  refine ⟨⟨by rw [← e1]; exact h1, by rw [← e3]; exact h2⟩, e2, ?_⟩
  unfold tl_of FOLLOW_TO_NEXT_TABLE
  rw [e2, e3]

/-- Clearing slots of a tree of tables leaves a tree of tables. -/
theorem tree_cleared {s t : PtState} (hs : Tree s) (h : Cleared s t) : Tree t := by
  refine ⟨?_, ?_, ?_⟩
  · intro i hi hT i1 hi1 hT1 e
    rw [cleared_sl_of h hT, cleared_sl_of h hT1] at e
    exact hs.sl_inj i hi (by rw [← cleared_isTable h hT]; exact hT) i1 hi1
      (by rw [← cleared_isTable h hT1]; exact hT1) e
  · intro i hi hT j hj hl i1 hi1 hT1
    obtain ⟨hl', _, e3⟩ := cleared_linksTl h hl
    rw [e3, cleared_sl_of h hT1]
    exact hs.tl_ne_sl i hi hl'.1 j hj hl' i1 hi1 (by rw [← cleared_isTable h hT1]; exact hT1)
  · intro i hi hT j hj hl i1 hi1 hT1 j1 hj1 hl1 e
    obtain ⟨hl', _, e3⟩ := cleared_linksTl h hl
    obtain ⟨hl1', _, e31⟩ := cleared_linksTl h hl1
    rw [e3, e31] at e
    exact hs.tl_inj i hi hl'.1 j hj hl' i1 hi1 hl1'.1 j1 hj1 hl1' e

/-! ## The walk only looks at its path -/

theorem walk_congr (s t : PtState) (a : Nat)
    (h1 : t.mem (.fl (FL_OFFSET a)) = s.mem (.fl (FL_OFFSET a)))
    (h2 : isTable (s.mem (.fl (FL_OFFSET a))) →
      t.mem (.pg (sl_of s (FL_OFFSET a)) (SL_OFFSET a)) =
        s.mem (.pg (sl_of s (FL_OFFSET a)) (SL_OFFSET a)))
    (h3 : linksTl s (FL_OFFSET a) (SL_OFFSET a) →
      t.mem (.pg (tl_of s (FL_OFFSET a) (SL_OFFSET a)) (TL_OFFSET a)) =
        s.mem (.pg (tl_of s (FL_OFFSET a) (SL_OFFSET a)) (TL_OFFSET a))) :
    walk t a = walk s a := by
  unfold walk
  simp only [h1]
  by_cases hb : s.mem (.fl (FL_OFFSET a)) &&& FLSL_PTE_TYPE_MASK = FLSL_TYPE_BLOCK
  · simp only [hb, if_true]
  · simp only [hb, if_false]
    by_cases hT : s.mem (.fl (FL_OFFSET a)) &&& FLSL_PTE_TYPE_MASK = FLSL_TYPE_TABLE
    · have e2 := h2 hT
      simp only [sl_of, FOLLOW_TO_NEXT_TABLE] at e2
      simp only [hT, if_true, e2]
      by_cases hb2 : s.mem (.pg (s.mem (.fl (FL_OFFSET a)) &&& FLSL_BASE_MASK) (SL_OFFSET a)) &&&
          FLSL_PTE_TYPE_MASK = FLSL_TYPE_BLOCK
      · simp only [hb2, if_true]
      · simp only [hb2, if_false]
        by_cases hT2 : s.mem (.pg (s.mem (.fl (FL_OFFSET a)) &&& FLSL_BASE_MASK)
            (SL_OFFSET a)) &&& FLSL_PTE_TYPE_MASK = FLSL_TYPE_TABLE
        · have e3 := h3 ⟨hT, hT2⟩
          simp only [tl_of, sl_of, FOLLOW_TO_NEXT_TABLE] at e3
          simp only [hT2, if_true, e3]
        · simp only [hT2, if_false]
    · simp only [hT, if_false]

theorem walk_mem_eq (s t : PtState) (a : Nat) (h : ∀ q, t.mem q = s.mem q) :
    walk t a = walk s a :=
  walk_congr s t a (h _) (fun _ => h _) (fun _ => h _)

/-- The walk finds nothing under a first-level link to an empty table. -/
theorem walk_none_of_empty_sl (s : PtState) (a : Nat)
    (hT : isTable (s.mem (.fl (FL_OFFSET a))))
    (h0 : s.mem (.pg (sl_of s (FL_OFFSET a)) (SL_OFFSET a)) = 0) : walk s a = none := by
  cases h : walk s a with
  | none => rfl
  | some lf =>
    exfalso
    rcases walk_some_cases s a lf h with ⟨hb, _⟩ | ⟨_, hb, _⟩ | ⟨_, ht, _⟩
    · exact isBlock_not_isTable hb hT
    · exact isBlock_ne_zero hb h0
    · exact isTable_ne_zero ht h0

/-- The walk finds nothing under a second-level link to an empty table. -/
theorem walk_none_of_empty_tl (s : PtState) (a : Nat)
    (hT : isTable (s.mem (.fl (FL_OFFSET a))))
    (hT2 : isTable (s.mem (.pg (sl_of s (FL_OFFSET a)) (SL_OFFSET a))))
    (h0 : s.mem (.pg (tl_of s (FL_OFFSET a) (SL_OFFSET a)) (TL_OFFSET a)) = 0) :
    walk s a = none := by
  cases h : walk s a with
  | none => rfl
  | some lf =>
    exfalso
    rcases walk_some_cases s a lf h with ⟨hb, _⟩ | ⟨_, hb, _⟩ | ⟨_, _, hp, _⟩
    · exact isBlock_not_isTable hb hT
    · exact isBlock_not_isTable hb hT2
    · exact page_ne_zero hp h0

/-- Unlinking an empty second-level table changes no walk. -/
theorem walk_unlink_sl (s : PtState) (i : Nat) (a : Nat)
    (hT : isTable (s.mem (.fl i)))
    (h0 : ∀ j < 512, s.mem (.pg (sl_of s i) j) = 0) :
    walk (write (free_page s (sl_of s i)) (.fl i) 0) a = walk s a := by
  by_cases hi : FL_OFFSET a = i
  · subst hi
    rw [walk_none_of_empty_sl s a hT (h0 _ (SL_OFFSET_lt a))]
    cases h : walk (write (free_page s (sl_of s (FL_OFFSET a))) (.fl (FL_OFFSET a)) 0) a with
    | none => rfl
    | some lf =>
      exfalso
      have hz : (write (free_page s (sl_of s (FL_OFFSET a))) (.fl (FL_OFFSET a)) 0).mem
          (.fl (FL_OFFSET a)) = 0 := by simp
      rcases walk_some_cases _ a lf h with ⟨hb, _⟩ | ⟨ht, _⟩ | ⟨ht, _⟩
      · rw [hz] at hb; exact isBlock_ne_zero hb rfl
      · rw [hz] at ht; exact not_isTable_zero ht
      · rw [hz] at ht; exact not_isTable_zero ht
  · apply walk_congr
    · simp [hi]
    · intro _; simp
    · intro _; simp

/-- Unlinking an empty third-level table changes no walk. -/
theorem walk_unlink_tl (s : PtState) (hs : Tree s) (i j : Nat) (hi : i < NUM_FL_PTE)
    (hj : j < NUM_SL_PTE) (a : Nat) (hl : linksTl s i j)
    (h0 : ∀ x < 512, s.mem (.pg (tl_of s i j) x) = 0) :
    walk (write (free_page s (tl_of s i j)) (.pg (sl_of s i) j) 0) a = walk s a := by
  have hFa := FL_OFFSET_lt a
  have hSa := SL_OFFSET_lt a
  by_cases hij : isTable (s.mem (.fl (FL_OFFSET a))) ∧ sl_of s (FL_OFFSET a) = sl_of s i ∧
      SL_OFFSET a = j
  · obtain ⟨hTa, e1, e2⟩ := hij
    have e0 : FL_OFFSET a = i := hs.sl_inj _ hFa hTa _ hi hl.1 e1
    subst e0
    subst e2
    rw [walk_none_of_empty_tl s a hl.1 hl.2 (h0 _ (TL_OFFSET_lt a))]
    apply walk_none_of_empty_sl
    · simp only [write_mem, free_page_mem]
      rw [if_neg (by simp)]
      exact hl.1
    · have : sl_of (write (free_page s (tl_of s (FL_OFFSET a) (SL_OFFSET a)))
          (.pg (sl_of s (FL_OFFSET a)) (SL_OFFSET a)) 0) (FL_OFFSET a) = sl_of s (FL_OFFSET a) := by
        unfold sl_of FOLLOW_TO_NEXT_TABLE
        simp
      rw [this]
      simp
  · apply walk_congr
    · simp
    · intro hTa
      simp only [write_mem, free_page_mem]
      rw [if_neg]
      intro e
      simp only [PtePtr.pg.injEq] at e
      exact hij ⟨hTa, e.1, e.2⟩
    · intro hla
      simp only [write_mem, free_page_mem]
      rw [if_neg]
      intro e
      simp only [PtePtr.pg.injEq] at e
      exact hs.tl_ne_sl _ hFa hla.1 _ hSa hla _ hi hl.1 e.1

end MsmLpae

namespace MsmLpae

/-! ## Freeing a table changes no walk -/

theorem walk_free_sl (m : PtState) (i : Nat) (c : Bool) (a : Nat)
    (hT : isTable (m.mem (.fl i)))
    (hc : c = false → ∀ j < 512, m.mem (.pg (sl_of m i) j) = 0) :
    walk (free_table m (.fl i) (sl_of m i) NUM_SL_PTE c).2 a = walk m a := by
  rw [free_table_eq]
  split
  · rfl
  · rename_i hn
    apply walk_unlink_sl m i a hT
    cases c with
    | false => exact hc rfl
    | true =>
      have hb : any_busy m (.pg (sl_of m i) 0) NUM_SL_PTE = false := by
        cases hh : any_busy m (.pg (sl_of m i) 0) NUM_SL_PTE with
        | false => rfl
        | true => exact absurd ⟨rfl, hh⟩ hn
      intro j hj
      have := (any_busy_eq_false _ _ _).1 hb j hj
      simpa using this

theorem walk_free_tl (m : PtState) (hs : Tree m) (i j : Nat) (c : Bool) (a : Nat)
    (hi : i < NUM_FL_PTE) (hj : j < NUM_SL_PTE) (hl : linksTl m i j)
    (hc : c = false → ∀ x < 512, m.mem (.pg (tl_of m i j) x) = 0) :
    walk (free_table m (.pg (sl_of m i) j) (tl_of m i j) NUM_TL_PTE c).2 a = walk m a := by
  rw [free_table_eq]
  split
  · rfl
  · rename_i hn
    apply walk_unlink_tl m hs i j hi hj a hl
    cases c with
    | false => exact hc rfl
    | true =>
      have hb : any_busy m (.pg (tl_of m i j) 0) NUM_TL_PTE = false := by
        cases hh : any_busy m (.pg (tl_of m i j) 0) NUM_TL_PTE with
        | false => rfl
        | true => exact absurd ⟨rfl, hh⟩ hn
      intro x hx
      have := (any_busy_eq_false _ _ _).1 hb x hx
      simpa using this

/-! ## Clearing a run keeps the leaves outside the range -/

theorem sl_entries_le (p left : Nat) :
    sl_entries p left ≤ left / SZ_2M ∧ SL_OFFSET p + sl_entries p left ≤ 512 := by
  have := SL_OFFSET_lt p
  unfold sl_entries
  simp only [NUM_TL_PTE, NUM_SL_PTE, SZ_2M] at *
  split <;> omega

theorem tl_entries_le (p left : Nat) :
    tl_entries p left ≤ left / SZ_4K ∧ TL_OFFSET p + tl_entries p left ≤ 512 := by
  have := TL_OFFSET_lt p
  unfold tl_entries
  simp only [NUM_TL_PTE, SZ_4K] at *
  split <;> omega

/-- No leaf outside the range lies in the run of second-level slots that a
pass clears. -/
theorem outside_not_in_sl_run (va0 len off a n span : Nat) (hlt : off < len)
    (h32 : va0 + len ≤ 2 ^ 32) (ha : a < 2 ^ 32)
    (hn : n ≤ (len - off) / SZ_2M)
    (hF : FL_OFFSET a = FL_OFFSET (va0 + off))
    (h1 : SL_OFFSET (va0 + off) ≤ SL_OFFSET a) (h2 : SL_OFFSET a < SL_OFFSET (va0 + off) + n)
    (hspan : span = SZ_2M ∨ (span = SZ_4K ∧ SL_OFFSET a ≠ SL_OFFSET (va0 + off)))
    (ho : a / span * span + span ≤ va0 ∨ va0 + len ≤ a / span * span) : False := by
  simp only [FL_OFFSET_eq, SL_OFFSET_eq, SZ_2M, SZ_4K] at *
  rcases hspan with e | ⟨e, hne⟩
  · subst e; omega
  · subst e; omega

/-- No leaf outside the range lies in the run of third-level slots that a
pass clears. -/
theorem outside_not_in_tl_run (va0 len off a n : Nat) (hlt : off < len)
    (h32 : va0 + len ≤ 2 ^ 32) (ha : a < 2 ^ 32)
    (hn : n ≤ (len - off) / SZ_4K)
    (hF : FL_OFFSET a = FL_OFFSET (va0 + off))
    (hS : SL_OFFSET a = SL_OFFSET (va0 + off))
    (h1 : TL_OFFSET (va0 + off) ≤ TL_OFFSET a) (h2 : TL_OFFSET a < TL_OFFSET (va0 + off) + n)
    (ho : a / SZ_4K * SZ_4K + SZ_4K ≤ va0 ∨ va0 + len ≤ a / SZ_4K * SZ_4K) : False := by
  simp only [FL_OFFSET_eq, SL_OFFSET_eq, TL_OFFSET_eq, SZ_4K] at *
  omega

/-- No leaf outside the range is the first-level block at the position of the
walk. -/
theorem outside_not_fl (va0 len off a : Nat) (hlt : off < len)
    (h32 : va0 + len ≤ 2 ^ 32) (ha : a < 2 ^ 32)
    (hF : FL_OFFSET a = FL_OFFSET (va0 + off))
    (ho : a / SZ_1G * SZ_1G + SZ_1G ≤ va0 ∨ va0 + len ≤ a / SZ_1G * SZ_1G) : False := by
  simp only [FL_OFFSET_eq, SZ_1G] at *
  omega

end MsmLpae

namespace MsmLpae

/-! ## One pass keeps the leaves outside the range -/

theorem cleared_zero {s t : PtState} (h : Cleared s t) {q : PtePtr} (h0 : s.mem q = 0) :
    t.mem q = 0 := by
  rcases h q with e | e
  · rw [e]; exact h0
  · exact e

/-- A page that `free_table` frees holds an empty table. -/
theorem free_table_freed (m : PtState) (prev : PtePtr) (t len : Nat) (c : Bool)
    (hprev : ∀ j, prev ≠ .pg t j)
    (hc : c = false → ∀ j < len, m.mem (.pg t j) = 0) (p : Nat) (hp : p ∈ m.live)
    (hn : p ∉ (free_table m prev t len c).2.live) (j : Nat) (hj : j < len) :
    (free_table m prev t len c).2.mem (.pg p j) = 0 := by
  rw [free_table_eq] at hn ⊢
  split at hn
  · exact absurd hp hn
  · rename_i hcond
    rw [if_neg hcond]
    rw [write_live, mem_free_page] at hn
    have hpt : p = t := by
      by_contra hne
      exact hn ⟨hp, hne⟩
    subst hpt
    simp only [write_mem, free_page_mem]
    rw [if_neg (fun e => hprev j e.symm)]
    cases c with
    | false => exact hc rfl j hj
    | true =>
      have hb : any_busy m (.pg p 0) len = false := by
        cases hh : any_busy m (.pg p 0) len with
        | false => rfl
        | true => exact absurd ⟨rfl, hh⟩ hcond
      have := (any_busy_eq_false _ _ _).1 hb j hj
      simpa using this

/-- The position of the walk stays `va + offset`. -/
theorem position_next (va0 len off d : Nat) (h32 : va0 + len ≤ 2 ^ 32)
    (h : u32 (off + u32 d) < len) : u32 (va0 + off + u32 d) = va0 + u32 (off + u32 d) := by
  unfold u32 at *
  omega

theorem position_next_1G (va0 len off : Nat) (h32 : va0 + len ≤ 2 ^ 32)
    (h : u32 (off + SZ_1G) < len) : u32 (va0 + off + SZ_1G) = va0 + u32 (off + SZ_1G) := by
  unfold u32 at *
  simp only [SZ_1G] at *
  omega

/-- What one pass of the walk does to the leaves: a pass started at position
`va0 + off` inside the range only clears slots, keeps every leaf whose span
lies outside `[va0, va0 + len)` where the walk finds it, only frees pages that
hold an empty table, and leaves the position at `va0 + offset`. -/
theorem unmap_body_keeps (s : PtState) (va0 len off : Nat) (hs : Tree s) (hlt : off < len)
    (h32 : va0 + len ≤ 2 ^ 32) :
    ∃ s1, (unmap_body s (va0 + off) len off = .ret s1 ∨
        ∃ va1 off1, unmap_body s (va0 + off) len off = .again s1 va1 off1 ∧
          (off1 < len → va1 = va0 + off1)) ∧
      Cleared s s1 ∧
      (∀ a lf, a < 2 ^ 32 → walk s a = some lf → leaf_outside lf a va0 len →
        walk s1 a = some lf) ∧
      (∀ p, p ∈ s.live → p ∉ s1.live → ∀ j < NUM_TL_PTE, s1.mem (.pg p j) = 0) ∧
      (∀ p, p ∈ s1.live → p ∈ s.live) := by
  have hi := FL_OFFSET_lt (va0 + off)
  have hj := SL_OFFSET_lt (va0 + off)
  by_cases h0 : s.mem (.fl (FL_OFFSET (va0 + off))) = 0
  · exact ⟨s, Or.inl (unmap_body_empty s _ len off h0), cleared_refl s,
      fun _ _ _ h _ => h, fun p hp hn => absurd hp hn, fun _ h => h⟩
  by_cases hB : isBlock (s.mem (.fl (FL_OFFSET (va0 + off))))
  · -- a first-level block
    refine ⟨write s (.fl (FL_OFFSET (va0 + off))) 0,
      Or.inr ⟨_, _, unmap_body_fl_block s _ len off hB, position_next_1G va0 len off h32⟩,
      cleared_write_zero s _, ?_, fun p hp hn => absurd hp hn, fun _ h => h⟩
    intro a lf ha hw ho
    rw [← hw]
    have hne : FL_OFFSET a ≠ FL_OFFSET (va0 + off) := by
      intro e
      rw [← e] at hB
      rw [walk_fl_block s a hB] at hw
      have := Option.some.inj hw
      subst this
      exact outside_not_fl va0 len off a hlt h32 ha e ho
    apply walk_congr
    · simp [hne]
    · intro _; simp
    · intro _; simp
  by_cases hT : isTable (s.mem (.fl (FL_OFFSET (va0 + off))))
  swap
  · exact ⟨s, Or.inr ⟨_, _, unmap_body_fl_stuck s _ len off h0 hB hT, fun _ => rfl⟩,
      cleared_refl s, fun _ _ _ h _ => h, fun p hp hn => absurd hp hn, fun _ h => h⟩
  by_cases hB2 : isBlock (s.mem (.pg (sl_of s (FL_OFFSET (va0 + off))) (SL_OFFSET (va0 + off))))
  · -- a run of second-level slots
    obtain ⟨hn1, hn2⟩ := sl_entries_le (va0 + off) (len - off)
    have hc1 : Cleared s (memset_zero s (sl_of s (FL_OFFSET (va0 + off)))
        (SL_OFFSET (va0 + off)) (sl_entries (va0 + off) (len - off))) :=
      cleared_memset_zero s _ _ _
    have hTm : isTable ((memset_zero s (sl_of s (FL_OFFSET (va0 + off)))
        (SL_OFFSET (va0 + off)) (sl_entries (va0 + off) (len - off))).mem
          (.fl (FL_OFFSET (va0 + off)))) := hT
    have hslm : sl_of (memset_zero s (sl_of s (FL_OFFSET (va0 + off)))
        (SL_OFFSET (va0 + off)) (sl_entries (va0 + off) (len - off)))
          (FL_OFFSET (va0 + off)) = sl_of s (FL_OFFSET (va0 + off)) := rfl
    have hfull : decide (sl_entries (va0 + off) (len - off) ≠ NUM_SL_PTE) = false →
        ∀ j < NUM_SL_PTE, (memset_zero s (sl_of s (FL_OFFSET (va0 + off)))
          (SL_OFFSET (va0 + off)) (sl_entries (va0 + off) (len - off))).mem
            (.pg (sl_of s (FL_OFFSET (va0 + off))) j) = 0 := by
      intro hd j hj'
      have hd' : sl_entries (va0 + off) (len - off) = 512 := by simpa [NUM_SL_PTE] using hd
      have hj2 : j < 512 := hj'
      rw [memset_zero_pg, if_pos ⟨rfl, by omega, by omega⟩]
    refine ⟨unmap_sl_run s (va0 + off) (len - off),
      Or.inr ⟨_, _, unmap_body_sl_block s _ len off hT hB2,
        position_next va0 len off _ h32⟩, ?_, ?_, ?_, ?_⟩
    · exact cleared_trans hc1 (cleared_free_table _ _ _ _ _)
    · intro a lf ha hw ho
      have hstep : walk (memset_zero s (sl_of s (FL_OFFSET (va0 + off)))
          (SL_OFFSET (va0 + off)) (sl_entries (va0 + off) (len - off))) a = walk s a := by
        apply walk_congr
        · rfl
        · intro hTa
          rw [memset_zero_pg, if_neg]
          rintro ⟨e1, e2, e3⟩
          have eF : FL_OFFSET a = FL_OFFSET (va0 + off) :=
            hs.sl_inj _ (FL_OFFSET_lt a) hTa _ hi hT e1
          rcases walk_some_cases s a lf hw with ⟨hb, _⟩ | ⟨_, _, hlf⟩ | ⟨_, ht2, _, hlf⟩
          · exact isBlock_not_isTable hb hTa
          · subst hlf
            exact outside_not_in_sl_run va0 len off a _ SZ_2M hlt h32 ha hn1 eF e2 e3
              (Or.inl rfl) ho
          · subst hlf
            refine outside_not_in_sl_run va0 len off a _ SZ_4K hlt h32 ha hn1 eF e2 e3
              (Or.inr ⟨rfl, ?_⟩) ho
            intro eS
            rw [eF, eS] at ht2
            exact isBlock_not_isTable hB2 ht2
        · intro hla
          rw [memset_zero_pg, if_neg]
          rintro ⟨e1, _, _⟩
          exact hs.tl_ne_sl _ (FL_OFFSET_lt a) hla.1 _ (SL_OFFSET_lt a) hla _ hi hT e1
      unfold unmap_sl_run
      have := walk_free_sl (memset_zero s (sl_of s (FL_OFFSET (va0 + off)))
        (SL_OFFSET (va0 + off)) (sl_entries (va0 + off) (len - off))) (FL_OFFSET (va0 + off))
        (decide (sl_entries (va0 + off) (len - off) ≠ NUM_SL_PTE)) a hTm
        (fun hd j hj' => hfull hd j hj')
      rw [hslm] at this
      exact (this.trans hstep).trans hw
    · intro p hp hn j hj'
      have hj2 : j < NUM_SL_PTE := hj'
      have hprev : ∀ x, PtePtr.fl (FL_OFFSET (va0 + off)) ≠
          .pg (sl_of s (FL_OFFSET (va0 + off))) x := fun x e => PtePtr.noConfusion e
      unfold unmap_sl_run at hn ⊢
      exact free_table_freed _ _ _ NUM_SL_PTE _ hprev hfull p hp hn j hj2
    · intro p hp
      exact free_table_live (memset_zero s (sl_of s (FL_OFFSET (va0 + off)))
        (SL_OFFSET (va0 + off)) (sl_entries (va0 + off) (len - off)))
        (.fl (FL_OFFSET (va0 + off))) (sl_of s (FL_OFFSET (va0 + off))) NUM_SL_PTE
        (decide (sl_entries (va0 + off) (len - off) ≠ NUM_SL_PTE)) p hp
  by_cases hT2 : isTable (s.mem (.pg (sl_of s (FL_OFFSET (va0 + off))) (SL_OFFSET (va0 + off))))
  swap
  · exact ⟨s, Or.inr ⟨_, _, unmap_body_sl_stuck s _ len off hT hB2 hT2, fun _ => rfl⟩,
      cleared_refl s, fun _ _ _ h _ => h, fun p hp hn => absurd hp hn, fun _ h => h⟩
  -- a run of third-level slots
  obtain ⟨hn1, hn2⟩ := tl_entries_le (va0 + off) (len - off)
  have hl : linksTl s (FL_OFFSET (va0 + off)) (SL_OFFSET (va0 + off)) := ⟨hT, hT2⟩
  have hne23 : tl_of s (FL_OFFSET (va0 + off)) (SL_OFFSET (va0 + off)) ≠
      sl_of s (FL_OFFSET (va0 + off)) := hs.tl_ne_sl _ hi hT _ hj hl _ hi hT
  set p2 := sl_of s (FL_OFFSET (va0 + off)) with hp2
  set p3 := tl_of s (FL_OFFSET (va0 + off)) (SL_OFFSET (va0 + off)) with hp3
  set m := memset_zero s p3 (TL_OFFSET (va0 + off)) (tl_entries (va0 + off) (len - off))
    with hm
  have hc1 : Cleared s m := cleared_memset_zero s _ _ _
  have hsm : Tree m := tree_cleared hs hc1
  have hTm : isTable (m.mem (.fl (FL_OFFSET (va0 + off)))) := hT
  have hslm : sl_of m (FL_OFFSET (va0 + off)) = p2 := rfl
  have e2m : m.mem (.pg p2 (SL_OFFSET (va0 + off))) = s.mem (.pg p2 (SL_OFFSET (va0 + off))) := by
    rw [hm, memset_zero_pg, if_neg (fun h => hne23 h.1.symm)]
  have hT2m : isTable (m.mem (.pg p2 (SL_OFFSET (va0 + off)))) := by rw [e2m]; exact hT2
  have hlm : linksTl m (FL_OFFSET (va0 + off)) (SL_OFFSET (va0 + off)) := ⟨hTm, hT2m⟩
  have htlm : tl_of m (FL_OFFSET (va0 + off)) (SL_OFFSET (va0 + off)) = p3 := by
    show FOLLOW_TO_NEXT_TABLE m (.pg (sl_of m (FL_OFFSET (va0 + off)))
      (SL_OFFSET (va0 + off))) = p3
    rw [hslm]
    show m.mem (.pg p2 (SL_OFFSET (va0 + off))) &&& FLSL_BASE_MASK = p3
    rw [e2m]
    rfl
  have hfull : decide (tl_entries (va0 + off) (len - off) ≠ NUM_TL_PTE) = false →
      ∀ x < NUM_TL_PTE, m.mem (.pg p3 x) = 0 := by
    intro hd x hx
    have hd' : tl_entries (va0 + off) (len - off) = 512 := by simpa [NUM_TL_PTE] using hd
    have hx2 : x < 512 := hx
    rw [hm, memset_zero_pg, if_pos ⟨rfl, by omega, by omega⟩]
  have hstep : ∀ a lf, a < 2 ^ 32 → walk s a = some lf → leaf_outside lf a va0 len →
      walk m a = walk s a := by
    intro a lf ha hw ho
    apply walk_congr
    · rfl
    · intro hTa
      rw [hm, memset_zero_pg, if_neg]
      rintro ⟨e1, _, _⟩
      exact hs.tl_ne_sl _ hi hT _ hj hl _ (FL_OFFSET_lt a) hTa e1.symm
    · intro hla
      rw [hm, memset_zero_pg, if_neg]
      rintro ⟨e1, e2, e3⟩
      obtain ⟨eF, eS⟩ := hs.tl_inj _ (FL_OFFSET_lt a) hla.1 _ (SL_OFFSET_lt a) hla _ hi hT _ hj
        hl e1
      rcases walk_some_cases s a lf hw with ⟨hb, _⟩ | ⟨_, hb, _⟩ | ⟨_, _, _, hlf⟩
      · exact isBlock_not_isTable hb hla.1
      · exact isBlock_not_isTable hb hla.2
      · subst hlf
        exact outside_not_in_tl_run va0 len off a _ hlt h32 ha hn1 eF eS e2 e3 ho
  -- the first free
  set f := free_table m (.pg p2 (SL_OFFSET (va0 + off))) p3 NUM_TL_PTE
    (decide (tl_entries (va0 + off) (len - off) ≠ NUM_TL_PTE)) with hf
  have hcf : Cleared m f.2 := cleared_free_table _ _ _ _ _
  have hwf1 : ∀ a, walk f.2 a = walk m a := by
    intro a
    have := walk_free_tl m hsm (FL_OFFSET (va0 + off)) (SL_OFFSET (va0 + off))
      (decide (tl_entries (va0 + off) (len - off) ≠ NUM_TL_PTE)) a hi hj hlm
      (by rw [htlm]; exact fun hd x hx => hfull hd x hx)
    rw [hslm, htlm] at this
    exact this
  have hTf : isTable (f.2.mem (.fl (FL_OFFSET (va0 + off)))) := by
    have : f.2.mem (.fl (FL_OFFSET (va0 + off))) = m.mem (.fl (FL_OFFSET (va0 + off))) := by
      rw [hf, free_table_eq]
      split
      · rfl
      · simp
    rw [this]; exact hTm
  have hslf : sl_of f.2 (FL_OFFSET (va0 + off)) = p2 := by
    rw [cleared_sl_of hcf hTf]
    exact hslm
  have hfreed1 : ∀ p, p ∈ m.live → p ∉ f.2.live → ∀ j < NUM_TL_PTE, f.2.mem (.pg p j) = 0 := by
    intro p hp hn j hj'
    exact free_table_freed m _ p3 NUM_TL_PTE _
      (by intro j e; simp only [PtePtr.pg.injEq] at e; exact hne23 e.1.symm)
      hfull p hp hn j hj'
  -- the second free
  have hrun : unmap_tl_run s (va0 + off) (len - off) =
      if f.1 then (free_table f.2 (.fl (FL_OFFSET (va0 + off))) p2 NUM_SL_PTE true).2
      else f.2 := rfl
  refine ⟨unmap_tl_run s (va0 + off) (len - off),
    Or.inr ⟨_, _, unmap_body_sl_table s _ len off hT hT2,
      position_next va0 len off _ h32⟩, ?_, ?_, ?_, ?_⟩
  · rw [hrun]
    split
    · exact cleared_trans (cleared_trans hc1 hcf) (cleared_free_table _ _ _ _ _)
    · exact cleared_trans hc1 hcf
  · intro a lf ha hw ho
    rw [hrun]
    split
    · have := walk_free_sl f.2 (FL_OFFSET (va0 + off)) true a hTf (by simp)
      rw [hslf] at this
      rw [this, hwf1, hstep a lf ha hw ho, hw]
    · rw [hwf1, hstep a lf ha hw ho, hw]
  · intro p hp hn j hj'
    rw [hrun] at hn ⊢
    split at hn
    · rename_i hf1
      rw [if_pos hf1]
      by_cases hpf : p ∈ f.2.live
      · have hj2 : j < NUM_SL_PTE := hj'
        have hprev : ∀ x, PtePtr.fl (FL_OFFSET (va0 + off)) ≠ .pg p2 x :=
          fun x e => PtePtr.noConfusion e
        exact free_table_freed f.2 _ p2 NUM_SL_PTE true hprev (fun h => absurd h (by decide))
          p hpf hn j hj2
      · exact cleared_zero (cleared_free_table _ _ _ _ _) (hfreed1 p hp hpf j hj')
    · rename_i hf1
      rw [if_neg hf1]
      exact hfreed1 p hp hn j hj'
  · intro p hp
    rw [hrun] at hp
    have hlive1 : ∀ q, q ∈ f.2.live → q ∈ s.live := fun q hq =>
      free_table_live m (.pg p2 (SL_OFFSET (va0 + off))) p3 NUM_TL_PTE
        (decide (tl_entries (va0 + off) (len - off) ≠ NUM_TL_PTE)) q hq
    split at hp
    · exact hlive1 p (free_table_live f.2 (.fl (FL_OFFSET (va0 + off))) p2 NUM_SL_PTE true p hp)
    · exact hlive1 p hp

end MsmLpae

namespace MsmLpae

/-! ## The whole walk keeps the leaves outside the range -/

theorem unmap_trace_done (len n : Nat) (s : PtState) (va off : Nat) (h : ¬ off < len) :
    unmap_trace len n s va off = s := by
  cases n <;> simp [unmap_trace, h]

/-- When the loop returns, it returns one of the states of the trace. -/
theorem unmap_loop_eq_trace (len : Nat) :
    ∀ (fuel : Nat) (s : PtState) (va off : Nat) (s2 : PtState),
      unmap_loop len fuel s va off = some s2 → s2 = unmap_trace len fuel s va off := by
  intro fuel
  induction fuel with
  | zero =>
    intro s va off s2 h
    by_cases hlt : off < len
    · simp [unmap_loop, hlt] at h
    · simp only [unmap_loop, hlt, if_false, Option.some.injEq] at h
      rw [unmap_trace_done len 0 s va off hlt, h]
  | succ n ih =>
    intro s va off s2 h
    by_cases hlt : off < len
    · simp only [unmap_loop, hlt, if_true] at h
      simp only [unmap_trace, hlt, if_true]
      cases hb : unmap_body s va len off with
      | ret s1 =>
        rw [hb] at h
        simp only [Option.some.injEq] at h
        exact h.symm
      | again s1 va1 off1 =>
        rw [hb] at h
        exact ih s1 va1 off1 s2 h
    · simp only [unmap_loop, hlt, if_false, Option.some.injEq] at h
      rw [unmap_trace_done len (n + 1) s va off hlt, h]

/-- Every state of the walk comes from the first one by clearing slots, keeps
the leaves outside the range, and has only freed pages that hold an empty
table. -/
theorem unmap_trace_keeps (va0 len : Nat) (h32 : va0 + len ≤ 2 ^ 32) :
    ∀ (n : Nat) (s : PtState) (off : Nat), Tree s →
      Cleared s (unmap_trace len n s (va0 + off) off) ∧
      (∀ a lf, a < 2 ^ 32 → walk s a = some lf → leaf_outside lf a va0 len →
        walk (unmap_trace len n s (va0 + off) off) a = some lf) ∧
      (∀ p, p ∈ s.live → p ∉ (unmap_trace len n s (va0 + off) off).live →
        ∀ j < NUM_TL_PTE, (unmap_trace len n s (va0 + off) off).mem (.pg p j) = 0) ∧
      (∀ p, p ∈ (unmap_trace len n s (va0 + off) off).live → p ∈ s.live) := by
  intro n
  induction n with
  | zero =>
    intro s off _
    exact ⟨cleared_refl s, fun _ _ _ h _ => h, fun p hp hn => absurd hp hn, fun _ h => h⟩
  | succ n ih =>
    intro s off hs
    by_cases hlt : off < len
    swap
    · rw [unmap_trace_done len (n + 1) s _ off hlt]
      exact ⟨cleared_refl s, fun _ _ _ h _ => h, fun p hp hn => absurd hp hn, fun _ h => h⟩
    obtain ⟨s1, hbody, hc, hw, hfr, hlv⟩ := unmap_body_keeps s va0 len off hs hlt h32
    rcases hbody with hb | ⟨va1, off1, hb, hpos⟩
    · have e : unmap_trace len (n + 1) s (va0 + off) off = s1 := by
        simp only [unmap_trace, hlt, if_true, hb]
      rw [e]
      exact ⟨hc, hw, hfr, hlv⟩
    · have e : unmap_trace len (n + 1) s (va0 + off) off = unmap_trace len n s1 va1 off1 := by
        simp only [unmap_trace, hlt, if_true, hb]
      rw [e]
      by_cases hlt1 : off1 < len
      · rw [hpos hlt1]
        obtain ⟨hc2, hw2, hfr2, hlv2⟩ := ih s1 off1 (tree_cleared hs hc)
        refine ⟨cleared_trans hc hc2, fun a lf ha h1 ho => hw2 a lf ha (hw a lf ha h1 ho) ho, ?_,
          fun p hp => hlv p (hlv2 p hp)⟩
        intro p hp hn j hj
        by_cases hp1 : p ∈ s1.live
        · exact hfr2 p hp1 hn j hj
        · exact cleared_zero hc2 (hfr p hp hp1 j hj)
      · rw [unmap_trace_done len n s1 va1 off1 hlt1]
        exact ⟨hc, hw, hfr, hlv⟩

/-- C8: `msm_iommu_pagetable_unmap_range` does not corrupt siblings. In a
well-formed state, for a range `[va, va + len)` below 4 GiB, every leaf that
the walk finds for an address and whose span lies outside the range is found
for that address, in the same slot and with the same value, in every state
that the loop goes through and in the state the call returns; and a page that
is no longer in use in such a state holds a table whose 512 slots are zero, so
that a table with a leaf left in it is never freed. -/
theorem unmap_range_keeps_siblings (s : PtState) (va len : Nat) (hwf : WellFormed s)
    (_hlen : len % SZ_4K = 0) (h32 : va + len ≤ 2 ^ 32)
    (a : Nat) (lf : Leaf) (ha : a < 2 ^ 32) (hw : walk s a = some lf)
    (ho : leaf_outside lf a va len) :
    (∀ n, walk (unmap_trace len n s va 0) a = some lf) ∧
    (∀ fuel s2, msm_iommu_pagetable_unmap_range fuel s va len = some s2 →
      walk s2 a = some lf) ∧
    (∀ n p, p ∈ s.live → p ∉ (unmap_trace len n s va 0).live →
      ∀ j < NUM_TL_PTE, (unmap_trace len n s va 0).mem (.pg p j) = 0) := by
  have key := fun n => unmap_trace_keeps va len h32 n s 0 hwf.tree
  simp only [Nat.add_zero] at key
  refine ⟨fun n => (key n).2.1 a lf ha hw ho, ?_, fun n => (key n).2.2.1⟩
  intro fuel s2 h
  unfold msm_iommu_pagetable_unmap_range __msm_iommu_pagetable_unmap_range at h
  split at h
  · exact absurd h (by simp)
  · rw [unmap_loop_eq_trace len fuel s va 0 s2 h]
    exact (key fuel).2.1 a lf ha hw ho

theorem wf_pt_1G : WellFormed pt_1G := by
  have nt : ∀ i < NUM_FL_PTE, ¬ isTable (pt_1G.mem (.fl i)) := by decide
  refine ⟨by decide, ⟨?_, ?_, ?_⟩, by decide, ?_, ?_, ?_, ?_, by decide, by decide, by decide⟩
  · intro i hi h; exact absurd h (nt i hi)
  · intro i hi h; exact absurd h (nt i hi)
  · intro i hi h; exact absurd h (nt i hi)
  · intro i hi h; exact absurd h (nt i hi)
  · intro i hi h; exact absurd h (nt i hi)
  · intro i hi h; exact absurd h (nt i hi)
  · intro i hi h; exact absurd h (nt i hi)

end MsmLpae

namespace MsmLpae

/-! ## Unmapping a range that is covered by leaves -/

theorem cleared_of_ne_zero {s t : PtState} (h : Cleared s t) {q : PtePtr} (hq : t.mem q ≠ 0) :
    t.mem q = s.mem q := by
  rcases h q with e | e
  · exact e
  · exact absurd e hq

/-- Clearing slots maps nothing new: a leaf found after the clearing was found
before. -/
theorem walk_cleared {s t : PtState} (h : Cleared s t) (a : Nat) (lf : Leaf)
    (hw : walk t a = some lf) : walk s a = some lf := by
  rcases walk_some_cases t a lf hw with ⟨hb, hlf⟩ | ⟨ht, hb, hlf⟩ | ⟨ht, ht2, hp, hlf⟩
  · have e := cleared_of_ne_zero h (isBlock_ne_zero hb)
    rw [e] at hb
    rw [hlf, e]
    exact walk_fl_block s a hb
  · have e1 := cleared_sl_of h ht
    have e0 := cleared_isTable h ht
    have e2 := cleared_of_ne_zero h (isBlock_ne_zero hb)
    rw [e1] at e2
    rw [e1, e2] at hb
    rw [e0] at ht
    rw [hlf, e1, e2]
    exact walk_sl_block s a ht hb
  · obtain ⟨hls, _, e3⟩ := cleared_linksTl h (⟨ht, ht2⟩ : linksTl t (FL_OFFSET a) (SL_OFFSET a))
    have e4 := cleared_of_ne_zero h (page_ne_zero hp)
    rw [e3] at e4
    rw [e3, e4] at hp
    rw [hlf, e3, e4]
    exact walk_tl_page s a hls.1 hls.2 hp

theorem walk_none_cleared {s t : PtState} (h : Cleared s t) (a : Nat) (hw : walk s a = none) :
    walk t a = none := by
  cases e : walk t a with
  | none => rfl
  | some lf =>
    rw [walk_cleared h a lf e] at hw
    exact absurd hw (by simp)

/-- The walk finds nothing under an `Empty` first-level slot. -/
theorem walk_none_of_empty_fl (s : PtState) (a : Nat) (h0 : s.mem (.fl (FL_OFFSET a)) = 0) :
    walk s a = none := by
  cases h : walk s a with
  | none => rfl
  | some lf =>
    exfalso
    rcases walk_some_cases s a lf h with ⟨hb, _⟩ | ⟨ht, _, _⟩ | ⟨ht, _, _⟩
    · exact isBlock_ne_zero hb h0
    · exact isTable_ne_zero ht h0
    · exact isTable_ne_zero ht h0

theorem sl_entries_idem (p left : Nat) :
    sl_entries p (sl_entries p left * SZ_2M) = sl_entries p left := by
  have := SL_OFFSET_lt p
  unfold sl_entries
  simp only [NUM_TL_PTE, NUM_SL_PTE, SZ_2M] at *
  split <;> split <;> omega

theorem tl_entries_idem (p left : Nat) :
    tl_entries p (tl_entries p left * SZ_4K) = tl_entries p left := by
  have := TL_OFFSET_lt p
  unfold tl_entries
  simp only [NUM_TL_PTE, SZ_4K] at *
  split <;> split <;> omega

theorem unmap_sl_run_idem (s : PtState) (p left : Nat) :
    unmap_sl_run s p (sl_entries p left * SZ_2M) = unmap_sl_run s p left := by
  unfold unmap_sl_run
  simp only [sl_entries_idem]

theorem unmap_tl_run_idem (s : PtState) (p left : Nat) :
    unmap_tl_run s p (tl_entries p left * SZ_4K) = unmap_tl_run s p left := by
  unfold unmap_tl_run
  simp only [tl_entries_idem]

/-- A pass that clears the `d` bytes at the position keeps every leaf that
lies behind them. -/
theorem keeps_of_body (s : PtState) (va0 off d : Nat) (s1 : PtState) (va1 off1 : Nat)
    (hs : Tree s) (hd : 0 < d) (h32 : va0 + (off + d) ≤ 2 ^ 32)
    (hbody : unmap_body s (va0 + off) (off + d) off = .again s1 va1 off1) :
    Cleared s s1 ∧ ∀ a lf, a < 2 ^ 32 → walk s a = some lf →
      leaf_outside lf a va0 (off + d) → walk s1 a = some lf := by
  obtain ⟨s2, hb, hc, hk, _, _⟩ := unmap_body_keeps s va0 (off + d) off hs (by omega) h32
  rcases hb with e | ⟨v, o, e, _⟩
  · rw [hbody] at e
    cases e
  · rw [hbody] at e
    cases e
    exact ⟨hc, hk⟩

/-- The span of a leaf is one of the three block sizes of the format. -/
theorem walk_span (s : PtState) (a : Nat) (lf : Leaf) (h : walk s a = some lf) :
    lf.span = SZ_1G ∨ lf.span = SZ_2M ∨ lf.span = SZ_4K := by
  rcases walk_some_cases s a lf h with ⟨_, e⟩ | ⟨_, _, e⟩ | ⟨_, _, _, e⟩ <;> subst e
  · exact Or.inl rfl
  · exact Or.inr (Or.inl rfl)
  · exact Or.inr (Or.inr rfl)

/-! ### Arithmetic of the runs -/

theorem behind_fl (p a span : Nat) (hp : p ≤ p / SZ_1G * SZ_1G) (ha : p + SZ_1G ≤ a)
    (hspan : span = SZ_1G ∨ span = SZ_2M ∨ span = SZ_4K) : p + SZ_1G ≤ a / span * span := by
  simp only [SZ_1G, SZ_2M, SZ_4K] at *
  rcases hspan with e | e | e <;> subst e <;> omega

theorem behind_sl_run (p a n span : Nat) (ha32 : a < 2 ^ 32) (hp : p ≤ p / SZ_2M * SZ_2M)
    (hn : SL_OFFSET p + n ≤ 512) (ha : p + n * SZ_2M ≤ a) (hR : p ≤ a / span * span)
    (hspan : (span = SZ_1G ∧ FL_OFFSET a ≠ FL_OFFSET p) ∨ span = SZ_2M ∨ span = SZ_4K) :
    p + n * SZ_2M ≤ a / span * span := by
  simp only [FL_OFFSET_eq, SL_OFFSET_eq, SZ_1G, SZ_2M, SZ_4K] at *
  rcases hspan with ⟨e, hne⟩ | e | e <;> subst e <;> omega

theorem behind_tl_run (p a n span : Nat) (hp : p ≤ p / SZ_4K * SZ_4K)
    (hn : TL_OFFSET p + n ≤ 512) (ha : p + n * SZ_4K ≤ a) (hR : p ≤ a / span * span)
    (hspan : (span = SZ_1G ∧ FL_OFFSET a ≠ FL_OFFSET p) ∨
      (span = SZ_2M ∧ (FL_OFFSET a ≠ FL_OFFSET p ∨ SL_OFFSET a ≠ SL_OFFSET p)) ∨
      span = SZ_4K) :
    p + n * SZ_4K ≤ a / span * span := by
  simp only [FL_OFFSET_eq, SL_OFFSET_eq, TL_OFFSET_eq, SZ_1G, SZ_2M, SZ_4K] at *
  rcases hspan with ⟨e, hne⟩ | ⟨e, hne⟩ | e <;> subst e <;> omega

theorem in_sl_run (p a n : Nat) (hp : p ≤ p / SZ_2M * SZ_2M) (hn : SL_OFFSET p + n ≤ 512)
    (h1 : p ≤ a) (h2 : a < p + n * SZ_2M) :
    FL_OFFSET a = FL_OFFSET p ∧ SL_OFFSET p ≤ SL_OFFSET a ∧ SL_OFFSET a < SL_OFFSET p + n := by
  simp only [FL_OFFSET_eq, SL_OFFSET_eq, SZ_2M] at *
  omega

theorem in_tl_run (p a n : Nat) (hp : p ≤ p / SZ_4K * SZ_4K) (hn : TL_OFFSET p + n ≤ 512)
    (h1 : p ≤ a) (h2 : a < p + n * SZ_4K) :
    FL_OFFSET a = FL_OFFSET p ∧ SL_OFFSET a = SL_OFFSET p ∧
      TL_OFFSET p ≤ TL_OFFSET a ∧ TL_OFFSET a < TL_OFFSET p + n := by
  simp only [FL_OFFSET_eq, SL_OFFSET_eq, TL_OFFSET_eq, SZ_4K] at *
  omega

theorem sl_entries_pos (p left : Nat) (h : SZ_2M ≤ left) : 0 < sl_entries p left := by
  have := SL_OFFSET_lt p
  unfold sl_entries
  simp only [NUM_TL_PTE, NUM_SL_PTE, SZ_2M] at *
  split <;> omega

theorem tl_entries_pos (p left : Nat) (h : SZ_4K ≤ left) : 0 < tl_entries p left := by
  have := TL_OFFSET_lt p
  unfold tl_entries
  simp only [NUM_TL_PTE, SZ_4K] at *
  split <;> omega

/-- What is left of a covered range stays covered after a pass that keeps the
leaves behind the `d` bytes it clears. -/
theorem pass_covered (s s1 : PtState) (va0 len off d : Nat)
    (hcov : Covered s (va0 + off) (va0 + len))
    (hk : ∀ a lf, a < 2 ^ 32 → walk s a = some lf → leaf_outside lf a va0 (off + d) →
      walk s1 a = some lf)
    (h32 : va0 + len ≤ 2 ^ 32)
    (hbehind : ∀ a lf, va0 + off + d ≤ a → a < va0 + len → walk s a = some lf →
      va0 + off ≤ a / lf.span * lf.span → va0 + off + d ≤ a / lf.span * lf.span) :
    Covered s1 (va0 + (off + d)) (va0 + len) := by
  intro a h1 h2
  obtain ⟨lf, hw, hlo, hhi⟩ := hcov a (by omega) h2
  have hR := hbehind a lf (by omega) h2 hw hlo
  refine ⟨lf, hk a lf (by omega) hw ?_, by omega, hhi⟩
  unfold leaf_outside
  right
  omega

end MsmLpae

namespace MsmLpae

/-! ## One pass of the walk over a covered range -/

/-- A pass at a first-level block of a covered range. -/
theorem unmap_body_covered_fl (s : PtState) (va0 len off : Nat) (hs : Tree s)
    (h32 : va0 + len ≤ 2 ^ 32) (hlen : len < 2 ^ 32)
    (hcov : Covered s (va0 + off) (va0 + len))
    (hB : isBlock (s.mem (.fl (FL_OFFSET (va0 + off)))))
    (hlo : va0 + off ≤ (va0 + off) / SZ_1G * SZ_1G)
    (hhi : (va0 + off) / SZ_1G * SZ_1G + SZ_1G ≤ va0 + len) :
    ∃ s1 d va1, SZ_4K ≤ d ∧ off + d ≤ len ∧
      unmap_body s (va0 + off) len off = .again s1 va1 (off + d) ∧
      (off + d < len → va1 = va0 + (off + d)) ∧
      Cleared s s1 ∧
      (∀ a, va0 + off ≤ a → a < va0 + off + d → walk s1 a = none) ∧
      Covered s1 (va0 + (off + d)) (va0 + len) := by
  have hd : off + SZ_1G ≤ len := by simp only [SZ_1G] at *; omega
  have e1 : u32 (off + SZ_1G) = off + SZ_1G := by
    unfold u32; simp only [SZ_1G] at *; omega
  have hbody := unmap_body_fl_block s (va0 + off) len off hB
  rw [e1] at hbody
  have hbody2 := unmap_body_fl_block s (va0 + off) (off + SZ_1G) off hB
  obtain ⟨hc, hk⟩ := keeps_of_body s va0 off SZ_1G _ _ _ hs (by decide) (by omega) hbody2
  refine ⟨_, SZ_1G, _, by decide, hd, hbody, ?_, hc, ?_, ?_⟩
  · intro h
    unfold u32
    simp only [SZ_1G] at *
    omega
  · intro a h1 h2
    have hva : (va0 + off) % SZ_1G = 0 := by simp only [SZ_1G] at *; omega
    have e := offsets_1G (va0 + off) a hva h1 h2
    apply walk_none_of_empty_fl
    rw [e]
    simp
  · apply pass_covered s _ va0 len off SZ_1G hcov hk h32
    intro a lf1 h1 _ hw1 _
    exact behind_fl (va0 + off) a lf1.span hlo h1 (walk_span s a lf1 hw1)

/-- A pass at a second-level block of a covered range. -/
theorem unmap_body_covered_sl (s : PtState) (va0 len off : Nat) (hs : Tree s)
    (h32 : va0 + len ≤ 2 ^ 32) (hlen : len < 2 ^ 32)
    (hcov : Covered s (va0 + off) (va0 + len))
    (hT : isTable (s.mem (.fl (FL_OFFSET (va0 + off)))))
    (hB2 : isBlock (s.mem (.pg (sl_of s (FL_OFFSET (va0 + off))) (SL_OFFSET (va0 + off)))))
    (hlo : va0 + off ≤ (va0 + off) / SZ_2M * SZ_2M)
    (hhi : (va0 + off) / SZ_2M * SZ_2M + SZ_2M ≤ va0 + len) :
    ∃ s1 d va1, SZ_4K ≤ d ∧ off + d ≤ len ∧
      unmap_body s (va0 + off) len off = .again s1 va1 (off + d) ∧
      (off + d < len → va1 = va0 + (off + d)) ∧
      Cleared s s1 ∧
      (∀ a, va0 + off ≤ a → a < va0 + off + d → walk s1 a = none) ∧
      Covered s1 (va0 + (off + d)) (va0 + len) := by
  obtain ⟨hn1, hn2⟩ := sl_entries_le (va0 + off) (len - off)
  have hpos := sl_entries_pos (va0 + off) (len - off) (by simp only [SZ_2M] at *; omega)
  have hd : off + sl_entries (va0 + off) (len - off) * SZ_2M ≤ len := by
    simp only [SZ_2M] at *; omega
  have e0 : u32 (sl_entries (va0 + off) (len - off) * SZ_2M) =
      sl_entries (va0 + off) (len - off) * SZ_2M := by
    unfold u32; simp only [SZ_2M] at *; omega
  have e1 : u32 (off + sl_entries (va0 + off) (len - off) * SZ_2M) =
      off + sl_entries (va0 + off) (len - off) * SZ_2M := by
    unfold u32; simp only [SZ_2M] at *; omega
  have hbody := unmap_body_sl_block s (va0 + off) len off hT hB2
  rw [e0, e1] at hbody
  have hbody2 := unmap_body_sl_block s (va0 + off)
    (off + sl_entries (va0 + off) (len - off) * SZ_2M) off hT hB2
  rw [Nat.add_sub_cancel_left, unmap_sl_run_idem] at hbody2
  obtain ⟨hc, hk⟩ := keeps_of_body s va0 off (sl_entries (va0 + off) (len - off) * SZ_2M)
    _ _ _ hs (by simp only [SZ_2M] at *; omega) (by omega) hbody2
  refine ⟨_, sl_entries (va0 + off) (len - off) * SZ_2M, _, ?_, hd, hbody, ?_, hc, ?_, ?_⟩
  · simp only [SZ_2M, SZ_4K] at *; omega
  · intro h
    unfold u32
    omega
  · intro a h1 h2
    obtain ⟨eF, eS1, eS2⟩ := in_sl_run (va0 + off) a _ hlo hn2 h1 h2
    have hm : walk (memset_zero s (sl_of s (FL_OFFSET (va0 + off))) (SL_OFFSET (va0 + off))
        (sl_entries (va0 + off) (len - off))) a = none := by
      apply walk_none_of_empty_sl
      · rw [eF]; exact hT
      · rw [eF]
        show (memset_zero s (sl_of s (FL_OFFSET (va0 + off))) (SL_OFFSET (va0 + off))
          (sl_entries (va0 + off) (len - off))).mem
            (.pg (sl_of s (FL_OFFSET (va0 + off))) (SL_OFFSET a)) = 0
        rw [memset_zero_pg, if_pos ⟨rfl, eS1, eS2⟩]
    refine walk_none_cleared ?_ a hm
    unfold unmap_sl_run
    exact cleared_free_table _ _ _ _ _
  · apply pass_covered s _ va0 len off _ hcov hk h32
    intro a lf1 h1 h2 hw1 hR
    refine behind_sl_run (va0 + off) a _ lf1.span (by omega) hlo hn2 h1 hR ?_
    rcases walk_some_cases s a lf1 hw1 with ⟨hb, e⟩ | ⟨_, _, e⟩ | ⟨_, _, _, e⟩ <;> subst e
    · refine Or.inl ⟨rfl, ?_⟩
      intro eF
      rw [eF] at hb
      exact isBlock_not_isTable hb hT
    · exact Or.inr (Or.inl rfl)
    · exact Or.inr (Or.inr rfl)

/-- A pass at a third-level page of a covered range. -/
theorem unmap_body_covered_tl (s : PtState) (va0 len off : Nat) (hs : Tree s)
    (h32 : va0 + len ≤ 2 ^ 32) (hlen : len < 2 ^ 32)
    (hcov : Covered s (va0 + off) (va0 + len))
    (hT : isTable (s.mem (.fl (FL_OFFSET (va0 + off)))))
    (hT2 : isTable (s.mem (.pg (sl_of s (FL_OFFSET (va0 + off))) (SL_OFFSET (va0 + off)))))
    (hlo : va0 + off ≤ (va0 + off) / SZ_4K * SZ_4K)
    (hhi : (va0 + off) / SZ_4K * SZ_4K + SZ_4K ≤ va0 + len) :
    ∃ s1 d va1, SZ_4K ≤ d ∧ off + d ≤ len ∧
      unmap_body s (va0 + off) len off = .again s1 va1 (off + d) ∧
      (off + d < len → va1 = va0 + (off + d)) ∧
      Cleared s s1 ∧
      (∀ a, va0 + off ≤ a → a < va0 + off + d → walk s1 a = none) ∧
      Covered s1 (va0 + (off + d)) (va0 + len) := by
  have hi := FL_OFFSET_lt (va0 + off)
  have hj := SL_OFFSET_lt (va0 + off)
  obtain ⟨hn1, hn2⟩ := tl_entries_le (va0 + off) (len - off)
  have hpos := tl_entries_pos (va0 + off) (len - off) (by simp only [SZ_4K] at *; omega)
  have hd : off + tl_entries (va0 + off) (len - off) * SZ_4K ≤ len := by
    simp only [SZ_4K] at *; omega
  have e0 : u32 (tl_entries (va0 + off) (len - off) * SZ_4K) =
      tl_entries (va0 + off) (len - off) * SZ_4K := by
    unfold u32; simp only [SZ_4K] at *; omega
  have e1 : u32 (off + tl_entries (va0 + off) (len - off) * SZ_4K) =
      off + tl_entries (va0 + off) (len - off) * SZ_4K := by
    unfold u32; simp only [SZ_4K] at *; omega
  have hbody := unmap_body_sl_table s (va0 + off) len off hT hT2
  rw [e0, e1] at hbody
  have hbody2 := unmap_body_sl_table s (va0 + off)
    (off + tl_entries (va0 + off) (len - off) * SZ_4K) off hT hT2
  rw [Nat.add_sub_cancel_left, unmap_tl_run_idem] at hbody2
  obtain ⟨hc, hk⟩ := keeps_of_body s va0 off (tl_entries (va0 + off) (len - off) * SZ_4K)
    _ _ _ hs (by simp only [SZ_4K] at *; omega) (by omega) hbody2
  have hl : linksTl s (FL_OFFSET (va0 + off)) (SL_OFFSET (va0 + off)) := ⟨hT, hT2⟩
  have hne23 : tl_of s (FL_OFFSET (va0 + off)) (SL_OFFSET (va0 + off)) ≠
      sl_of s (FL_OFFSET (va0 + off)) := hs.tl_ne_sl _ hi hT _ hj hl _ hi hT
  refine ⟨_, tl_entries (va0 + off) (len - off) * SZ_4K, _, ?_, hd, hbody, ?_, hc, ?_, ?_⟩
  · simp only [SZ_4K] at *; omega
  · intro h
    unfold u32
    omega
  · intro a h1 h2
    obtain ⟨eF, eS, eT1, eT2⟩ := in_tl_run (va0 + off) a _ hlo hn2 h1 h2
    set p2 := sl_of s (FL_OFFSET (va0 + off)) with hp2
    set p3 := tl_of s (FL_OFFSET (va0 + off)) (SL_OFFSET (va0 + off)) with hp3
    set m := memset_zero s p3 (TL_OFFSET (va0 + off)) (tl_entries (va0 + off) (len - off))
      with hm
    have hslm : sl_of m (FL_OFFSET (va0 + off)) = p2 := rfl
    have e2m : m.mem (.pg p2 (SL_OFFSET (va0 + off))) =
        s.mem (.pg p2 (SL_OFFSET (va0 + off))) := by
      rw [hm, memset_zero_pg, if_neg (fun h => hne23 h.1.symm)]
    have htlm : tl_of m (FL_OFFSET (va0 + off)) (SL_OFFSET (va0 + off)) = p3 := by
      show FOLLOW_TO_NEXT_TABLE m (.pg (sl_of m (FL_OFFSET (va0 + off)))
        (SL_OFFSET (va0 + off))) = p3
      rw [hslm]
      show m.mem (.pg p2 (SL_OFFSET (va0 + off))) &&& FLSL_BASE_MASK = p3
      rw [e2m]
      rfl
    have hwm : walk m a = none := by
      apply walk_none_of_empty_tl
      · rw [eF]; exact hT
      · rw [eF, eS, hslm, e2m]; exact hT2
      · rw [eF, eS, htlm, hm, memset_zero_pg, if_pos ⟨rfl, eT1, eT2⟩]
    refine walk_none_cleared ?_ a hwm
    have hrun : unmap_tl_run s (va0 + off) (len - off) =
        if (free_table m (.pg p2 (SL_OFFSET (va0 + off))) p3 NUM_TL_PTE
            (decide (tl_entries (va0 + off) (len - off) ≠ NUM_TL_PTE))).1 then
          (free_table (free_table m (.pg p2 (SL_OFFSET (va0 + off))) p3 NUM_TL_PTE
            (decide (tl_entries (va0 + off) (len - off) ≠ NUM_TL_PTE))).2
              (.fl (FL_OFFSET (va0 + off))) p2 NUM_SL_PTE true).2
        else (free_table m (.pg p2 (SL_OFFSET (va0 + off))) p3 NUM_TL_PTE
            (decide (tl_entries (va0 + off) (len - off) ≠ NUM_TL_PTE))).2 := rfl
    rw [hrun]
    split
    · exact cleared_trans (cleared_free_table _ _ _ _ _) (cleared_free_table _ _ _ _ _)
    · exact cleared_free_table _ _ _ _ _
  · apply pass_covered s _ va0 len off _ hcov hk h32
    intro a lf1 h1 h2 hw1 hR
    refine behind_tl_run (va0 + off) a _ lf1.span hlo hn2 h1 hR ?_
    rcases walk_some_cases s a lf1 hw1 with ⟨hb, e⟩ | ⟨_, hb, e⟩ | ⟨_, _, _, e⟩ <;> subst e
    · refine Or.inl ⟨rfl, ?_⟩
      intro eF
      rw [eF] at hb
      exact isBlock_not_isTable hb hT
    · refine Or.inr (Or.inl ⟨rfl, ?_⟩)
      by_contra hcon
      have hcon2 : FL_OFFSET a = FL_OFFSET (va0 + off) ∧
          SL_OFFSET a = SL_OFFSET (va0 + off) := by
        constructor
        · by_contra h; exact hcon (Or.inl h)
        · by_contra h; exact hcon (Or.inr h)
      rw [hcon2.1, hcon2.2] at hb
      exact isBlock_not_isTable hb hT2
    · exact Or.inr (Or.inr rfl)

/-- Every pass of the walk over a covered range clears what is mapped at the
position, moves on, and leaves the rest of the range covered. -/
theorem unmap_body_covered (s : PtState) (va0 len off : Nat) (hs : Tree s) (hlt : off < len)
    (h32 : va0 + len ≤ 2 ^ 32) (hlen : len < 2 ^ 32)
    (hcov : Covered s (va0 + off) (va0 + len)) :
    ∃ s1 d va1, SZ_4K ≤ d ∧ off + d ≤ len ∧
      unmap_body s (va0 + off) len off = .again s1 va1 (off + d) ∧
      (off + d < len → va1 = va0 + (off + d)) ∧
      Cleared s s1 ∧
      (∀ a, va0 + off ≤ a → a < va0 + off + d → walk s1 a = none) ∧
      Covered s1 (va0 + (off + d)) (va0 + len) := by
  obtain ⟨lf, hw, hlo, hhi⟩ := hcov (va0 + off) (le_refl _) (by omega)
  rcases walk_some_cases s _ lf hw with ⟨hB, hlf⟩ | ⟨hT, hB2, hlf⟩ | ⟨hT, hT2, _, hlf⟩ <;>
    subst hlf
  · exact unmap_body_covered_fl s va0 len off hs h32 hlen hcov hB hlo hhi
  · exact unmap_body_covered_sl s va0 len off hs h32 hlen hcov hT hB2 hlo hhi
  · exact unmap_body_covered_tl s va0 len off hs h32 hlen hcov hT hT2 hlo hhi

/-- The walk over a covered range returns, having cleared every leaf of the
range. -/
theorem unmap_loop_covered (va0 len : Nat) (h32 : va0 + len ≤ 2 ^ 32) (hlen : len < 2 ^ 32) :
    ∀ (fuel : Nat) (s : PtState) (off va1 : Nat), Tree s → off ≤ len →
      (off < len → va1 = va0 + off) → len ≤ off + fuel * SZ_4K →
      Covered s (va0 + off) (va0 + len) →
      ∃ s2, unmap_loop len fuel s va1 off = some s2 ∧ Cleared s s2 ∧
        ∀ a, va0 + off ≤ a → a < va0 + len → walk s2 a = none := by
  intro fuel
  induction fuel with
  | zero =>
    intro s off va1 _ hle _ hf _
    have : ¬ off < len := by omega
    exact ⟨s, by simp [unmap_loop, this], cleared_refl s, fun a h1 h2 => by omega⟩
  | succ n ih =>
    intro s off va1 hs hle hva hf hcov
    by_cases hlt : off < len
    · rw [hva hlt]
      obtain ⟨s1, d, va2, hd, hle2, hbody, hva2, hc, hnone, hcov2⟩ :=
        unmap_body_covered s va0 len off hs hlt h32 hlen hcov
      obtain ⟨s2, hrun, hc2, hnone2⟩ := ih s1 (off + d) va2 (tree_cleared hs hc) hle2 hva2
        (by simp only [SZ_4K] at *; omega) hcov2
      refine ⟨s2, ?_, cleared_trans hc hc2, ?_⟩
      · simp only [unmap_loop, hlt, if_true, hbody]
        exact hrun
      · intro a h1 h2
        by_cases h3 : a < va0 + off + d
        · exact walk_none_cleared hc2 a (hnone a h1 h3)
        · exact hnone2 a (by omega) h2
    · exact ⟨s, by simp [unmap_loop, hlt], cleared_refl s, fun a h1 h2 => by omega⟩

end MsmLpae

namespace MsmLpae

/-! ## Steps of the mapping engine that keep a state well formed -/

/-- Taking page frames from the head of the allocator keeps a state well
formed. -/
theorem wf_with_pool (s : PtState) (hwf : WellFormed s) (P : List Nat)
    (hP : P = s.pool ∨ P = s.pool.tail) : WellFormed { s with pool := P } := by
  have hsub : ∀ p ∈ P, p ∈ s.pool := by
    intro p hp
    rcases hP with e | e
    · rw [e] at hp; exact hp
    · rw [e] at hp; exact List.mem_of_mem_tail hp
  have hnd : (P.filter (fun p => p ≠ 0)).Nodup := by
    rcases hP with e | e
    · rw [e]; exact hwf.pool_nodup
    · rw [e]
      exact List.Nodup.sublist ((List.tail_sublist _).filter _) hwf.pool_nodup
  exact ⟨hwf.root, ⟨hwf.tree.sl_inj, hwf.tree.tl_ne_sl, hwf.tree.tl_inj⟩, hwf.fl_kind,
    hwf.sl_kind, hwf.tl_kind, hwf.sl_live, hwf.tl_live,
    fun p hp => hwf.pool_fresh p (hsub p hp), hnd,
    fun p hp => hwf.pool_aligned p (hsub p hp)⟩

/-- The two outcomes of `make_second_level_tbl`: no page frame, and the state
only lost the head of the allocator, or a new table is linked. -/
theorem make_second_level_tbl_cases (s : PtState) (pte : PtePtr) :
    ((make_second_level_tbl s pte).1 = 0 ∧ ∃ P, (P = s.pool ∨ P = s.pool.tail) ∧
      (make_second_level_tbl s pte).2 = { s with pool := P }) ∨
    (∃ p rest, s.pool = p :: rest ∧ p ≠ 0 ∧
      make_second_level_tbl s pte = (p, link_table s pte p)) := by
  cases hs : s.pool with
  | nil =>
    left
    have e : make_second_level_tbl s pte = (0, s) := by
      unfold make_second_level_tbl __get_free_page
      simp [hs]
    rw [e]
    exact ⟨rfl, [], Or.inl rfl, by
      apply PtState.ext' <;> simp [hs]⟩
  | cons p rest =>
    by_cases hp : p = 0
    · left
      have e : make_second_level_tbl s pte = (0, { s with pool := rest }) := by
        unfold make_second_level_tbl __get_free_page
        simp [hs, hp]
      rw [e]
      exact ⟨rfl, rest, Or.inr rfl, rfl⟩
    · right
      exact ⟨p, rest, rfl, hp, make_second_level_tbl_ok s pte p rest hs hp⟩

theorem make_third_level_tbl_eq (s : PtState) (pte : PtePtr) :
    make_third_level_tbl s pte = make_second_level_tbl s pte := rfl

/-- What the allocator holds after it handed out its head. -/
theorem pool_after_link (s : PtState) (hwf : WellFormed s) (p : Nat) (rest : List Nat)
    (hpool : s.pool = p :: rest) (hp : p ≠ 0) :
    (∀ q ∈ rest, q ∉ p :: s.live) ∧ (rest.filter (fun q => q ≠ 0)).Nodup ∧
      ∀ q ∈ rest, q &&& FLSL_BASE_MASK = q := by
  have hn := hwf.pool_nodup
  rw [hpool] at hn
  simp only [List.filter_cons, hp, ne_eq, not_false_eq_true, decide_True, if_true] at hn
  rw [List.nodup_cons] at hn
  have hmem : ∀ q ∈ rest, q ∈ s.pool := fun q hq => by
    rw [hpool]; exact List.mem_cons_of_mem _ hq
  refine ⟨?_, hn.2, fun q hq => hwf.pool_aligned q (hmem q hq)⟩
  intro q hq hq2
  rcases List.mem_cons.1 hq2 with e | e
  · apply hn.1
    rw [List.mem_filter]
    exact ⟨e ▸ hq, by simpa using hp⟩
  · exact hwf.pool_fresh q (hmem q hq) e

/-- Linking a new second-level table from an `Empty` first-level slot keeps a
state well formed and maps nothing. -/
theorem quiet_link_fl (s : PtState) (hwf : WellFormed s) (i p : Nat) (rest : List Nat)
    (h0 : s.mem (.fl i) = 0) (hpool : s.pool = p :: rest) (hp : p ≠ 0) :
    WellFormed (link_table s (.fl i) p) ∧
      ∀ a, walk (link_table s (.fl i) p) a = walk s a := by
  obtain ⟨hfresh, hal⟩ := wf_pool_head hwf hpool
  obtain ⟨hpf, hpn, hpa⟩ := pool_after_link s hwf p rest hpool hp
  have tfl : ∀ i1, i1 ≠ i → (link_table s (.fl i) p).mem (.fl i1) = s.mem (.fl i1) := by
    intro i1 h
    rw [link_table_mem, if_neg (by simpa using h)]
  have tself : (link_table s (.fl i) p).mem (.fl i) =
      (p &&& FLSL_BASE_MASK) ||| FLSL_TYPE_TABLE := link_table_self s _ p
  have tpg : ∀ q x, q ≠ p → (link_table s (.fl i) p).mem (.pg q x) = s.mem (.pg q x) := by
    intro q x h
    rw [link_table_mem, if_neg (by simp)]
    simp [h]
  have tnew : ∀ x < 512, (link_table s (.fl i) p).mem (.pg p x) = 0 := by
    intro x hx
    rw [link_table_mem, if_neg (by simp)]
    simp [hx]
  have hTnew : isTable ((link_table s (.fl i) p).mem (.fl i)) := by
    rw [tself]; exact isTable_link p
  have hsl_new : sl_of (link_table s (.fl i) p) i = p := follow_link s _ p hal
  have hsl_old : ∀ i1, i1 ≠ i → sl_of (link_table s (.fl i) p) i1 = sl_of s i1 := by
    intro i1 h
    unfold sl_of FOLLOW_TO_NEXT_TABLE
    rw [tfl i1 h]
  have hlive_ne : ∀ q ∈ s.live, q ≠ p := fun q hq e => hfresh (e ▸ hq)
  have hL : ∀ i1 < NUM_FL_PTE, ∀ j1 < NUM_SL_PTE, linksTl (link_table s (.fl i) p) i1 j1 →
      i1 ≠ i ∧ linksTl s i1 j1 ∧ tl_of (link_table s (.fl i) p) i1 j1 = tl_of s i1 j1 := by
    intro i1 hi1 j1 hj1 hl
    by_cases e : i1 = i
    · exfalso
      obtain ⟨_, h2⟩ := hl
      rw [e, hsl_new, tnew j1 hj1] at h2
      exact not_isTable_zero h2
    · obtain ⟨h1, h2⟩ := hl
      rw [tfl i1 e] at h1
      have hne := hlive_ne _ (hwf.sl_live i1 hi1 h1)
      rw [hsl_old i1 e, tpg _ _ hne] at h2
      refine ⟨e, ⟨h1, h2⟩, ?_⟩
      unfold tl_of FOLLOW_TO_NEXT_TABLE
      rw [hsl_old i1 e, tpg _ _ hne]
  have hT1 : ∀ i1 < NUM_FL_PTE, isTable ((link_table s (.fl i) p).mem (.fl i1)) → i1 ≠ i →
      isTable (s.mem (.fl i1)) := by
    intro i1 _ h e
    rw [tfl i1 e] at h
    exact h
  constructor
  · refine ⟨hwf.root, ⟨?_, ?_, ?_⟩, ?_, ?_, ?_, ?_, ?_, ?_, ?_, ?_⟩
    · intro i1 hi1 h1 i2 hi2 h2 e
      by_cases e1 : i1 = i <;> by_cases e2 : i2 = i
      · rw [e1, e2]
      · exfalso
        rw [e1, hsl_new, hsl_old i2 e2] at e
        exact hlive_ne _ (hwf.sl_live i2 hi2 (hT1 i2 hi2 h2 e2)) e.symm
      · exfalso
        rw [e2, hsl_new, hsl_old i1 e1] at e
        exact hlive_ne _ (hwf.sl_live i1 hi1 (hT1 i1 hi1 h1 e1)) e
      · rw [hsl_old i1 e1, hsl_old i2 e2] at e
        exact hwf.tree.sl_inj i1 hi1 (hT1 i1 hi1 h1 e1) i2 hi2 (hT1 i2 hi2 h2 e2) e
    · intro i1 hi1 _ j hj hl i2 hi2 h2
      obtain ⟨_, hls, etl⟩ := hL i1 hi1 j hj hl
      rw [etl]
      by_cases e2 : i2 = i
      · rw [e2, hsl_new]
        exact hlive_ne _ (hwf.tl_live i1 hi1 hls.1 j hj hls)
      · rw [hsl_old i2 e2]
        exact hwf.tree.tl_ne_sl i1 hi1 hls.1 j hj hls i2 hi2 (hT1 i2 hi2 h2 e2)
    · intro i1 hi1 _ j hj hl i2 hi2 _ j2 hj2 hl2 e
      obtain ⟨_, hls, etl⟩ := hL i1 hi1 j hj hl
      obtain ⟨_, hls2, etl2⟩ := hL i2 hi2 j2 hj2 hl2
      rw [etl, etl2] at e
      exact hwf.tree.tl_inj i1 hi1 hls.1 j hj hls i2 hi2 hls2.1 j2 hj2 hls2 e
    · intro i1 hi1
      by_cases e1 : i1 = i
      · rw [e1]; exact Or.inr (Or.inr hTnew)
      · rw [tfl i1 e1]; exact hwf.fl_kind i1 hi1
    · intro i1 hi1 h1 j hj
      by_cases e1 : i1 = i
      · rw [e1, hsl_new, tnew j hj]; exact Or.inl rfl
      · have h1s := hT1 i1 hi1 h1 e1
        rw [hsl_old i1 e1, tpg _ _ (hlive_ne _ (hwf.sl_live i1 hi1 h1s))]
        exact hwf.sl_kind i1 hi1 h1s j hj
    · intro i1 hi1 _ j hj hl x hx
      obtain ⟨_, hls, etl⟩ := hL i1 hi1 j hj hl
      rw [etl, tpg _ _ (hlive_ne _ (hwf.tl_live i1 hi1 hls.1 j hj hls))]
      exact hwf.tl_kind i1 hi1 hls.1 j hj hls x hx
    · intro i1 hi1 h1
      by_cases e1 : i1 = i
      · rw [e1, hsl_new]; exact List.mem_cons_self _ _
      · rw [hsl_old i1 e1]
        exact List.mem_cons_of_mem _ (hwf.sl_live i1 hi1 (hT1 i1 hi1 h1 e1))
    · intro i1 hi1 _ j hj hl
      obtain ⟨_, hls, etl⟩ := hL i1 hi1 j hj hl
      rw [etl]
      exact List.mem_cons_of_mem _ (hwf.tl_live i1 hi1 hls.1 j hj hls)
    · intro q hq
      rw [link_table_pool, hpool] at hq
      exact hpf q hq
    · rw [link_table_pool, hpool]
      exact hpn
    · intro q hq
      rw [link_table_pool, hpool] at hq
      exact hpa q hq
  · intro a
    by_cases e : FL_OFFSET a = i
    · rw [walk_none_of_empty_fl s a (by rw [e]; exact h0)]
      apply walk_none_of_empty_sl
      · rw [e]; exact hTnew
      · rw [e, hsl_new]; exact tnew _ (SL_OFFSET_lt a)
    · apply walk_congr
      · exact tfl _ e
      · intro hTa
        exact tpg _ _ (hlive_ne _ (hwf.sl_live _ (FL_OFFSET_lt a) hTa))
      · intro hla
        exact tpg _ _ (hlive_ne _ (hwf.tl_live _ (FL_OFFSET_lt a) hla.1 _ (SL_OFFSET_lt a) hla))

/-- Linking a new third-level table from an `Empty` second-level slot keeps a
state well formed and maps nothing. -/
theorem quiet_link_sl (s : PtState) (hwf : WellFormed s) (i j p : Nat) (rest : List Nat)
    (hi : i < NUM_FL_PTE) (hT : isTable (s.mem (.fl i)))
    (h0 : s.mem (.pg (sl_of s i) j) = 0) (hpool : s.pool = p :: rest) (hp : p ≠ 0) :
    WellFormed (link_table s (.pg (sl_of s i) j) p) ∧
      ∀ a, walk (link_table s (.pg (sl_of s i) j) p) a = walk s a := by
  obtain ⟨hfresh, hal⟩ := wf_pool_head hwf hpool
  obtain ⟨hpf, hpn, hpa⟩ := pool_after_link s hwf p rest hpool hp
  have hlive_ne : ∀ q ∈ s.live, q ≠ p := fun q hq e => hfresh (e ▸ hq)
  have hp2 : sl_of s i ≠ p := hlive_ne _ (hwf.sl_live i hi hT)
  have tfl : ∀ i1, (link_table s (.pg (sl_of s i) j) p).mem (.fl i1) = s.mem (.fl i1) :=
    fun i1 => link_table_fl s _ _ _ _
  have tself : (link_table s (.pg (sl_of s i) j) p).mem (.pg (sl_of s i) j) =
      (p &&& FLSL_BASE_MASK) ||| FLSL_TYPE_TABLE := link_table_self s _ p
  have tpg : ∀ q x, q ≠ p → ¬ (q = sl_of s i ∧ x = j) →
      (link_table s (.pg (sl_of s i) j) p).mem (.pg q x) = s.mem (.pg q x) := by
    intro q x h h2
    rw [link_table_mem, if_neg (by simpa using h2)]
    simp [h]
  have tnew : ∀ x < 512, (link_table s (.pg (sl_of s i) j) p).mem (.pg p x) = 0 := by
    intro x hx
    rw [link_table_mem, if_neg (by simp; intro e; exact absurd e.symm hp2)]
    simp [hx]
  have hTnew : isTable ((link_table s (.pg (sl_of s i) j) p).mem (.pg (sl_of s i) j)) := by
    rw [tself]; exact isTable_link p
  have hsl : ∀ i1, sl_of (link_table s (.pg (sl_of s i) j) p) i1 = sl_of s i1 :=
    fun i1 => follow_fl_link s _ _ _ _
  have htl_new : tl_of (link_table s (.pg (sl_of s i) j) p) i j = p := by
    show FOLLOW_TO_NEXT_TABLE (link_table s (.pg (sl_of s i) j) p)
      (.pg (sl_of (link_table s (.pg (sl_of s i) j) p) i) j) = p
    rw [hsl]
    exact follow_link s _ p hal
  have hslot : ∀ i1 < NUM_FL_PTE, isTable (s.mem (.fl i1)) → ∀ j1, ¬ (i1 = i ∧ j1 = j) →
      ¬ (sl_of s i1 = sl_of s i ∧ j1 = j) := by
    intro i1 hi1 h1 j1 hne ⟨e1, e2⟩
    exact hne ⟨hwf.tree.sl_inj i1 hi1 h1 i hi hT e1, e2⟩
  have hL : ∀ i1 < NUM_FL_PTE, ∀ j1 < NUM_SL_PTE,
      linksTl (link_table s (.pg (sl_of s i) j) p) i1 j1 → ¬ (i1 = i ∧ j1 = j) →
      linksTl s i1 j1 ∧ tl_of (link_table s (.pg (sl_of s i) j) p) i1 j1 = tl_of s i1 j1 := by
    intro i1 hi1 j1 _ hl hne
    obtain ⟨h1, h2⟩ := hl
    rw [tfl i1] at h1
    have hq := hlive_ne _ (hwf.sl_live i1 hi1 h1)
    rw [hsl i1, tpg _ _ hq (hslot i1 hi1 h1 j1 hne)] at h2
    refine ⟨⟨h1, h2⟩, ?_⟩
    show (link_table s (.pg (sl_of s i) j) p).mem
      (.pg (sl_of (link_table s (.pg (sl_of s i) j) p) i1) j1) &&& FLSL_BASE_MASK =
        s.mem (.pg (sl_of s i1) j1) &&& FLSL_BASE_MASK
    rw [hsl i1, tpg _ _ hq (hslot i1 hi1 h1 j1 hne)]
  have hT1 : ∀ i1, isTable ((link_table s (.pg (sl_of s i) j) p).mem (.fl i1)) →
      isTable (s.mem (.fl i1)) := by
    intro i1 h
    rw [tfl i1] at h
    exact h
  have htl_old : ∀ i1 < NUM_FL_PTE, ∀ j1 < NUM_SL_PTE, linksTl s i1 j1 → ∀ x,
      (link_table s (.pg (sl_of s i) j) p).mem (.pg (tl_of s i1 j1) x) =
        s.mem (.pg (tl_of s i1 j1) x) := by
    intro i1 hi1 j1 hj1 hls x
    apply tpg _ _ (hlive_ne _ (hwf.tl_live i1 hi1 hls.1 j1 hj1 hls))
    intro h
    exact hwf.tree.tl_ne_sl i1 hi1 hls.1 j1 hj1 hls i hi hT h.1
  constructor
  · refine ⟨hwf.root, ⟨?_, ?_, ?_⟩, ?_, ?_, ?_, ?_, ?_, ?_, ?_, ?_⟩
    · intro i1 hi1 h1 i2 hi2 h2 e
      rw [hsl i1, hsl i2] at e
      exact hwf.tree.sl_inj i1 hi1 (hT1 i1 h1) i2 hi2 (hT1 i2 h2) e
    · intro i1 hi1 _ j1 hj1 hl i2 hi2 h2
      rw [hsl i2]
      by_cases e : i1 = i ∧ j1 = j
      · rw [e.1, e.2, htl_new]
        exact fun h => hlive_ne _ (hwf.sl_live i2 hi2 (hT1 i2 h2)) h.symm
      · obtain ⟨hls, etl⟩ := hL i1 hi1 j1 hj1 hl e
        rw [etl]
        exact hwf.tree.tl_ne_sl i1 hi1 hls.1 j1 hj1 hls i2 hi2 (hT1 i2 h2)
    · intro i1 hi1 _ j1 hj1 hl i2 hi2 _ j2 hj2 hl2 e
      by_cases e1 : i1 = i ∧ j1 = j <;> by_cases e2 : i2 = i ∧ j2 = j
      · exact ⟨e1.1.trans e2.1.symm, e1.2.trans e2.2.symm⟩
      · exfalso
        obtain ⟨hls2, etl2⟩ := hL i2 hi2 j2 hj2 hl2 e2
        rw [e1.1, e1.2, htl_new, etl2] at e
        exact hlive_ne _ (hwf.tl_live i2 hi2 hls2.1 j2 hj2 hls2) e.symm
      · exfalso
        obtain ⟨hls, etl⟩ := hL i1 hi1 j1 hj1 hl e1
        rw [e2.1, e2.2, htl_new, etl] at e
        exact hlive_ne _ (hwf.tl_live i1 hi1 hls.1 j1 hj1 hls) e
      · obtain ⟨hls, etl⟩ := hL i1 hi1 j1 hj1 hl e1
        obtain ⟨hls2, etl2⟩ := hL i2 hi2 j2 hj2 hl2 e2
        rw [etl, etl2] at e
        exact hwf.tree.tl_inj i1 hi1 hls.1 j1 hj1 hls i2 hi2 hls2.1 j2 hj2 hls2 e
    · intro i1 hi1
      rw [tfl i1]
      exact hwf.fl_kind i1 hi1
    · intro i1 hi1 h1 j1 hj1
      rw [hsl i1]
      by_cases e : i1 = i ∧ j1 = j
      · rw [e.1, e.2]; exact Or.inr (Or.inr hTnew)
      · rw [tpg _ _ (hlive_ne _ (hwf.sl_live i1 hi1 (hT1 i1 h1)))
          (hslot i1 hi1 (hT1 i1 h1) j1 e)]
        exact hwf.sl_kind i1 hi1 (hT1 i1 h1) j1 hj1
    · intro i1 hi1 _ j1 hj1 hl x hx
      by_cases e : i1 = i ∧ j1 = j
      · rw [e.1, e.2, htl_new, tnew x hx]; exact Or.inl rfl
      · obtain ⟨hls, etl⟩ := hL i1 hi1 j1 hj1 hl e
        rw [etl, htl_old i1 hi1 j1 hj1 hls x]
        exact hwf.tl_kind i1 hi1 hls.1 j1 hj1 hls x hx
    · intro i1 hi1 h1
      rw [hsl i1]
      exact List.mem_cons_of_mem _ (hwf.sl_live i1 hi1 (hT1 i1 h1))
    · intro i1 hi1 _ j1 hj1 hl
      by_cases e : i1 = i ∧ j1 = j
      · rw [e.1, e.2, htl_new]; exact List.mem_cons_self _ _
      · obtain ⟨hls, etl⟩ := hL i1 hi1 j1 hj1 hl e
        rw [etl]
        exact List.mem_cons_of_mem _ (hwf.tl_live i1 hi1 hls.1 j1 hj1 hls)
    · intro q hq
      rw [link_table_pool, hpool] at hq
      exact hpf q hq
    · rw [link_table_pool, hpool]
      exact hpn
    · intro q hq
      rw [link_table_pool, hpool] at hq
      exact hpa q hq
  · intro a
    by_cases e : FL_OFFSET a = i ∧ SL_OFFSET a = j
    · rw [walk_none_of_empty_sl s a (by rw [e.1]; exact hT) (by rw [e.1, e.2]; exact h0)]
      apply walk_none_of_empty_tl
      · rw [tfl, e.1]; exact hT
      · rw [hsl, e.1, e.2]; exact hTnew
      · rw [e.1, e.2, htl_new]; exact tnew _ (TL_OFFSET_lt a)
    · apply walk_congr
      · exact tfl _
      · intro hTa
        exact tpg _ _ (hlive_ne _ (hwf.sl_live _ (FL_OFFSET_lt a) hTa))
          (hslot _ (FL_OFFSET_lt a) hTa _ e)
      · intro hla
        exact htl_old _ (FL_OFFSET_lt a) _ (SL_OFFSET_lt a) hla _

theorem handle_1st_lvl_state (s : PtState) (pte : PtePtr) (pa u l len : Nat)
    (hl : len ≠ SZ_1G) :
    (handle_1st_lvl s pte pa u l len).2 =
      if s.mem pte = 0 then (make_second_level_tbl s pte).2 else s := by
  unfold handle_1st_lvl
  simp only [hl, if_false]
  split_ifs <;> rfl

/-- Making sure that a slot of the first level, or of a second-level table,
links a table keeps a state well formed and maps nothing, whether or not the
allocation succeeds. -/
theorem handle_1st_lvl_quiet (s : PtState) (hwf : WellFormed s) (pte : PtePtr)
    (pa u l len : Nat) (hl : len ≠ SZ_1G)
    (hpte : (∃ i, pte = .fl i) ∨
      (∃ i < NUM_FL_PTE, ∃ j, isTable (s.mem (.fl i)) ∧ pte = .pg (sl_of s i) j)) :
    WellFormed (handle_1st_lvl s pte pa u l len).2 ∧
    (∀ a, walk (handle_1st_lvl s pte pa u l len).2 a = walk s a) ∧
    ((handle_1st_lvl s pte pa u l len).1 = 0 →
      isTable ((handle_1st_lvl s pte pa u l len).2.mem pte)) ∧
    (∀ i, pte ≠ .fl i → (handle_1st_lvl s pte pa u l len).2.mem (.fl i) = s.mem (.fl i)) := by
  have h3 : (handle_1st_lvl s pte pa u l len).1 = 0 →
      isTable ((handle_1st_lvl s pte pa u l len).2.mem pte) :=
    fun h => (handle_1st_lvl_ok s pte pa u l len hl h).2
  refine ⟨?_, ?_, h3, ?_⟩ <;> rw [handle_1st_lvl_state s pte pa u l len hl]
  all_goals
    by_cases h0 : s.mem pte = 0
    swap
    · rw [if_neg h0]
      first
        | exact hwf
        | exact fun _ => rfl
        | exact fun _ _ => rfl
    rw [if_pos h0]
    rcases make_second_level_tbl_cases s pte with ⟨_, P, hP, e⟩ | ⟨p, rest, hpool, hp, e⟩
  · rw [e]; exact wf_with_pool s hwf P hP
  · rw [e]
    rcases hpte with ⟨i, rfl⟩ | ⟨i, hi, j, hT, rfl⟩
    · exact (quiet_link_fl s hwf i p rest h0 hpool hp).1
    · exact (quiet_link_sl s hwf i j p rest hi hT h0 hpool hp).1
  · rw [e]; exact fun a => walk_mem_eq s _ a (fun _ => rfl)
  · rw [e]
    rcases hpte with ⟨i, rfl⟩ | ⟨i, hi, j, hT, rfl⟩
    · exact (quiet_link_fl s hwf i p rest h0 hpool hp).2
    · exact (quiet_link_sl s hwf i j p rest hi hT h0 hpool hp).2
  · rw [e]; exact fun _ _ => rfl
  · rw [e]
    intro i hne
    show (link_table s pte p).mem (.fl i) = s.mem (.fl i)
    rw [link_table_mem, if_neg (fun h => hne h.symm)]

end MsmLpae

namespace MsmLpae

/-! ## Writing leaves keeps a state well formed -/

/-- A state that links no table that a well-formed state does not link, and
whose slots have the kind of their level, is well formed. -/
theorem wf_same_links (s t : PtState) (hwf : WellFormed s)
    (hfl : t.fl_table = s.fl_table) (hlive : t.live = s.live) (hpool : t.pool = s.pool)
    (h1 : ∀ i < NUM_FL_PTE, isTable (t.mem (.fl i)) → t.mem (.fl i) = s.mem (.fl i))
    (h2 : ∀ i < NUM_FL_PTE, isTable (s.mem (.fl i)) → ∀ j < NUM_SL_PTE,
      isTable (t.mem (.pg (sl_of s i) j)) →
        t.mem (.pg (sl_of s i) j) = s.mem (.pg (sl_of s i) j))
    (k1 : ∀ i < NUM_FL_PTE,
      t.mem (.fl i) = 0 ∨ isBlock (t.mem (.fl i)) ∨ isTable (t.mem (.fl i)))
    (k2 : ∀ i < NUM_FL_PTE, isTable (s.mem (.fl i)) → ∀ j < NUM_SL_PTE,
      t.mem (.pg (sl_of s i) j) = 0 ∨ isBlock (t.mem (.pg (sl_of s i) j)) ∨
        isTable (t.mem (.pg (sl_of s i) j)))
    (k3 : ∀ i < NUM_FL_PTE, isTable (s.mem (.fl i)) → ∀ j < NUM_SL_PTE, linksTl s i j →
      ∀ x < NUM_TL_PTE, t.mem (.pg (tl_of s i j) x) = 0 ∨
        t.mem (.pg (tl_of s i j) x) &&& FLSL_PTE_TYPE_MASK = TL_TYPE_PAGE) :
    WellFormed t := by
  have hT : ∀ i < NUM_FL_PTE, isTable (t.mem (.fl i)) →
      isTable (s.mem (.fl i)) ∧ sl_of t i = sl_of s i := by
    intro i hi h
    have e := h1 i hi h
    refine ⟨by rw [← e]; exact h, ?_⟩
    show t.mem (.fl i) &&& FLSL_BASE_MASK = s.mem (.fl i) &&& FLSL_BASE_MASK
    rw [e]
  have hL : ∀ i < NUM_FL_PTE, ∀ j < NUM_SL_PTE, linksTl t i j →
      linksTl s i j ∧ tl_of t i j = tl_of s i j := by
    intro i hi j hj hl
    obtain ⟨a, b⟩ := hl
    obtain ⟨hs1, e1⟩ := hT i hi a
    rw [e1] at b
    have e2 := h2 i hi hs1 j hj b
    refine ⟨⟨hs1, by rw [← e2]; exact b⟩, ?_⟩
    show t.mem (.pg (sl_of t i) j) &&& FLSL_BASE_MASK =
      s.mem (.pg (sl_of s i) j) &&& FLSL_BASE_MASK
    rw [e1, e2]
  refine ⟨by rw [hfl]; exact hwf.root, ⟨?_, ?_, ?_⟩, k1, ?_, ?_, ?_, ?_, ?_, ?_, ?_⟩
  · intro i hi h i2 hi2 h2' e
    obtain ⟨a1, e1⟩ := hT i hi h
    obtain ⟨a2, e2⟩ := hT i2 hi2 h2'
    rw [e1, e2] at e
    exact hwf.tree.sl_inj i hi a1 i2 hi2 a2 e
  · intro i hi _ j hj hl i2 hi2 h2'
    obtain ⟨hls, etl⟩ := hL i hi j hj hl
    obtain ⟨a2, e2⟩ := hT i2 hi2 h2'
    rw [etl, e2]
    exact hwf.tree.tl_ne_sl i hi hls.1 j hj hls i2 hi2 a2
  · intro i hi _ j hj hl i2 hi2 _ j2 hj2 hl2 e
    obtain ⟨hls, etl⟩ := hL i hi j hj hl
    obtain ⟨hls2, etl2⟩ := hL i2 hi2 j2 hj2 hl2
    rw [etl, etl2] at e
    exact hwf.tree.tl_inj i hi hls.1 j hj hls i2 hi2 hls2.1 j2 hj2 hls2 e
  · intro i hi h j hj
    obtain ⟨a1, e1⟩ := hT i hi h
    rw [e1]
    exact k2 i hi a1 j hj
  · intro i hi _ j hj hl x hx
    obtain ⟨hls, etl⟩ := hL i hi j hj hl
    rw [etl]
    exact k3 i hi hls.1 j hj hls x hx
  · intro i hi h
    obtain ⟨a1, e1⟩ := hT i hi h
    rw [e1, hlive]
    exact hwf.sl_live i hi a1
  · intro i hi _ j hj hl
    obtain ⟨hls, etl⟩ := hL i hi j hj hl
    rw [etl, hlive]
    exact hwf.tl_live i hi hls.1 j hj hls
  · intro p hp
    rw [hpool] at hp
    rw [hlive]
    exact hwf.pool_fresh p hp
  · rw [hpool]; exact hwf.pool_nodup
  · intro p hp
    rw [hpool] at hp
    exact hwf.pool_aligned p hp

/-- Writing a block into an `Empty` first-level slot. -/
theorem leaf_fl (s : PtState) (hwf : WellFormed s) (i d : Nat) (hd : isBlock d) :
    WellFormed (write s (.fl i) d) ∧
    (∀ a, FL_OFFSET a ≠ i → walk (write s (.fl i) d) a = walk s a) ∧
    (∀ a, FL_OFFSET a = i → ∃ lf, walk (write s (.fl i) d) a = some lf ∧ lf.span = SZ_1G) := by
  have tfl : ∀ i1, i1 ≠ i → (write s (.fl i) d).mem (.fl i1) = s.mem (.fl i1) := by
    intro i1 h
    rw [write_mem, if_neg (by simpa using h)]
  have tself : (write s (.fl i) d).mem (.fl i) = d := by rw [write_mem, if_pos rfl]
  have tpg : ∀ q x, (write s (.fl i) d).mem (.pg q x) = s.mem (.pg q x) := by
    intro q x
    rw [write_mem, if_neg (by simp)]
  refine ⟨?_, ?_, ?_⟩
  · apply wf_same_links s (write s (.fl i) d) hwf rfl rfl rfl
    · intro i1 _ h
      by_cases e : i1 = i
      · rw [e, tself] at h
        exact absurd h (isBlock_not_isTable hd)
      · exact tfl i1 e
    · intro i1 _ _ j _ _
      exact tpg _ _
    · intro i1 hi1
      by_cases e : i1 = i
      · rw [e, tself]; exact Or.inr (Or.inl hd)
      · rw [tfl i1 e]; exact hwf.fl_kind i1 hi1
    · intro i1 hi1 h j hj
      rw [tpg]
      exact hwf.sl_kind i1 hi1 h j hj
    · intro i1 hi1 h j hj hl x hx
      rw [tpg]
      exact hwf.tl_kind i1 hi1 h j hj hl x hx
  · intro a hne
    apply walk_congr
    · exact tfl _ hne
    · intro _; exact tpg _ _
    · intro _; exact tpg _ _
  · intro a e
    refine ⟨_, walk_fl_block _ a ?_, rfl⟩
    rw [e, tself]
    exact hd

/-- Writing a run of blocks into `Empty` slots of a second-level table. -/
theorem leaf_sl (s : PtState) (hwf : WellFormed s) (i x n d : Nat) (hi : i < NUM_FL_PTE)
    (hT : isTable (s.mem (.fl i))) (hd : isBlock d) :
    WellFormed (write_run s (.pg (sl_of s i) x) n d) ∧
    (∀ a, ¬ (FL_OFFSET a = i ∧ x ≤ SL_OFFSET a ∧ SL_OFFSET a < x + n) →
      walk (write_run s (.pg (sl_of s i) x) n d) a = walk s a) ∧
    (∀ a, FL_OFFSET a = i → x ≤ SL_OFFSET a → SL_OFFSET a < x + n →
      ∃ lf, walk (write_run s (.pg (sl_of s i) x) n d) a = some lf ∧ lf.span = SZ_2M) := by
  have tfl : ∀ i1, (write_run s (.pg (sl_of s i) x) n d).mem (.fl i1) = s.mem (.fl i1) :=
    fun i1 => write_run_fl s _ _ _ _ _
  have hsl : ∀ i1, sl_of (write_run s (.pg (sl_of s i) x) n d) i1 = sl_of s i1 := by
    intro i1
    show (write_run s (.pg (sl_of s i) x) n d).mem (.fl i1) &&& FLSL_BASE_MASK =
      s.mem (.fl i1) &&& FLSL_BASE_MASK
    rw [tfl]
  have tl3 : ∀ i1 < NUM_FL_PTE, ∀ j1 < NUM_SL_PTE, linksTl s i1 j1 → ∀ y,
      (write_run s (.pg (sl_of s i) x) n d).mem (.pg (tl_of s i1 j1) y) =
        s.mem (.pg (tl_of s i1 j1) y) := by
    intro i1 hi1 j1 hj1 hl y
    rw [write_run_pg, if_neg]
    rintro ⟨e, _, _⟩
    exact hwf.tree.tl_ne_sl i1 hi1 hl.1 j1 hj1 hl i hi hT e
  refine ⟨?_, ?_, ?_⟩
  · apply wf_same_links s _ hwf (by simp) (by simp) (by simp)
    · intro i1 _ _
      exact tfl i1
    · intro i1 _ _ j _ h
      rw [write_run_pg] at h ⊢
      split_ifs at h ⊢ with hc
      · exact absurd h (isBlock_not_isTable hd)
      · rfl
    · intro i1 hi1
      rw [tfl]
      exact hwf.fl_kind i1 hi1
    · intro i1 hi1 h j hj
      rw [write_run_pg]
      split_ifs
      · exact Or.inr (Or.inl hd)
      · exact hwf.sl_kind i1 hi1 h j hj
    · intro i1 hi1 h j hj hl y hy
      rw [tl3 i1 hi1 j hj hl y]
      exact hwf.tl_kind i1 hi1 h j hj hl y hy
  · intro a hne
    apply walk_congr
    · exact tfl _
    · intro hTa
      rw [write_run_pg, if_neg]
      rintro ⟨e, h1, h2⟩
      exact hne ⟨hwf.tree.sl_inj _ (FL_OFFSET_lt a) hTa i hi hT e, h1, h2⟩
    · intro hla
      exact tl3 _ (FL_OFFSET_lt a) _ (SL_OFFSET_lt a) hla _
  · intro a e h1 h2
    refine ⟨_, walk_sl_block _ a ?_ ?_, rfl⟩
    · rw [tfl, e]; exact hT
    · rw [hsl, e, write_run_pg, if_pos ⟨rfl, h1, h2⟩]
      exact hd

/-- Writing a run of pages into `Empty` slots of a third-level table. -/
theorem leaf_tl (s : PtState) (hwf : WellFormed s) (i j x n d : Nat) (hi : i < NUM_FL_PTE)
    (hj : j < NUM_SL_PTE) (hl : linksTl s i j)
    (hd : d &&& FLSL_PTE_TYPE_MASK = TL_TYPE_PAGE) :
    WellFormed (write_run s (.pg (tl_of s i j) x) n d) ∧
    (∀ a, ¬ (FL_OFFSET a = i ∧ SL_OFFSET a = j ∧ x ≤ TL_OFFSET a ∧ TL_OFFSET a < x + n) →
      walk (write_run s (.pg (tl_of s i j) x) n d) a = walk s a) ∧
    (∀ a, FL_OFFSET a = i → SL_OFFSET a = j → x ≤ TL_OFFSET a → TL_OFFSET a < x + n →
      ∃ lf, walk (write_run s (.pg (tl_of s i j) x) n d) a = some lf ∧ lf.span = SZ_4K) := by
  have tfl : ∀ i1, (write_run s (.pg (tl_of s i j) x) n d).mem (.fl i1) = s.mem (.fl i1) :=
    fun i1 => write_run_fl s _ _ _ _ _
  have hsl : ∀ i1, sl_of (write_run s (.pg (tl_of s i j) x) n d) i1 = sl_of s i1 := by
    intro i1
    show (write_run s (.pg (tl_of s i j) x) n d).mem (.fl i1) &&& FLSL_BASE_MASK =
      s.mem (.fl i1) &&& FLSL_BASE_MASK
    rw [tfl]
  have tl2 : ∀ i1 < NUM_FL_PTE, isTable (s.mem (.fl i1)) → ∀ y,
      (write_run s (.pg (tl_of s i j) x) n d).mem (.pg (sl_of s i1) y) =
        s.mem (.pg (sl_of s i1) y) := by
    intro i1 hi1 h1 y
    rw [write_run_pg, if_neg]
    rintro ⟨e, _, _⟩
    exact hwf.tree.tl_ne_sl i hi hl.1 j hj hl i1 hi1 h1 e.symm
  have htl : ∀ i1 < NUM_FL_PTE, isTable (s.mem (.fl i1)) → ∀ j1,
      tl_of (write_run s (.pg (tl_of s i j) x) n d) i1 j1 = tl_of s i1 j1 := by
    intro i1 hi1 h1 j1
    show (write_run s (.pg (tl_of s i j) x) n d).mem
      (.pg (sl_of (write_run s (.pg (tl_of s i j) x) n d) i1) j1) &&& FLSL_BASE_MASK =
        s.mem (.pg (sl_of s i1) j1) &&& FLSL_BASE_MASK
    rw [hsl, tl2 i1 hi1 h1]
  refine ⟨?_, ?_, ?_⟩
  · apply wf_same_links s _ hwf (by simp) (by simp) (by simp)
    · intro i1 _ _
      exact tfl i1
    · intro i1 hi1 h1 j1 _ _
      exact tl2 i1 hi1 h1 j1
    · intro i1 hi1
      rw [tfl]
      exact hwf.fl_kind i1 hi1
    · intro i1 hi1 h j1 hj1
      rw [tl2 i1 hi1 h]
      exact hwf.sl_kind i1 hi1 h j1 hj1
    · intro i1 hi1 h j1 hj1 hl1 y hy
      rw [write_run_pg]
      split_ifs
      · exact Or.inr hd
      · exact hwf.tl_kind i1 hi1 h j1 hj1 hl1 y hy
  · intro a hne
    apply walk_congr
    · exact tfl _
    · intro hTa
      exact tl2 _ (FL_OFFSET_lt a) hTa _
    · intro hla
      rw [write_run_pg, if_neg]
      rintro ⟨e, h1, h2⟩
      obtain ⟨e1, e2⟩ := hwf.tree.tl_inj _ (FL_OFFSET_lt a) hla.1 _ (SL_OFFSET_lt a) hla
        i hi hl.1 j hj hl e
      exact hne ⟨e1, e2, h1, h2⟩
  · intro a e1 e2 h1 h2
    refine ⟨_, walk_tl_page _ a ?_ ?_ ?_, rfl⟩
    · rw [tfl, e1]; exact hl.1
    · rw [hsl, e1, e2, tl2 i hi hl.1]; exact hl.2
    · rw [e1, e2, htl i hi hl.1, write_run_pg, if_pos ⟨rfl, h1, h2⟩]
      exact hd

end MsmLpae

namespace MsmLpae

/-! ## One mapping call: outcome, well-formedness and what the walk finds -/

theorem sl_32m_map_cases (t : PtState) (pte : PtePtr) (pa u l : Nat) :
    ((sl_32m_map t pte pa u l).1 ≠ 0 ∧ (sl_32m_map t pte pa u l).2 = t) ∨
    ((sl_32m_map t pte pa u l).1 = 0 ∧ (sl_32m_map t pte pa u l).2 =
      write_run t pte 16 ((u ||| TL_CH) ||| (pa &&& FLSL_BLOCK_MASK) ||| l ||| FLSL_TYPE_BLOCK)) := by
  unfold sl_32m_map
  split_ifs
  · left; exact ⟨by simp [EBUSY], rfl⟩
  · right; exact ⟨rfl, rfl⟩

theorem sl_2m_map_cases (t : PtState) (pte : PtePtr) (pa u l : Nat) :
    ((sl_2m_map t pte pa u l).1 ≠ 0 ∧ (sl_2m_map t pte pa u l).2 = t) ∨
    ((sl_2m_map t pte pa u l).1 = 0 ∧ (sl_2m_map t pte pa u l).2 =
      write_run t pte 1 (u ||| (pa &&& FLSL_BLOCK_MASK) ||| l ||| FLSL_TYPE_BLOCK)) := by
  unfold sl_2m_map
  split_ifs
  · left; exact ⟨by simp [EBUSY], rfl⟩
  · right; exact ⟨rfl, by rw [write_run_one]⟩

theorem tl_64k_map_cases (t : PtState) (pte : PtePtr) (pa u l : Nat) :
    ((tl_64k_map t pte pa u l).1 ≠ 0 ∧ (tl_64k_map t pte pa u l).2 = t) ∨
    ((tl_64k_map t pte pa u l).1 = 0 ∧ (tl_64k_map t pte pa u l).2 =
      write_run t pte 16 ((u ||| TL_CH) ||| (pa &&& TL_PAGE_MASK) ||| l ||| TL_TYPE_PAGE)) := by
  unfold tl_64k_map
  split_ifs
  · left; exact ⟨by simp [EBUSY], rfl⟩
  · right; exact ⟨rfl, rfl⟩

theorem tl_4k_map_cases (t : PtState) (pte : PtePtr) (pa u l : Nat) :
    ((tl_4k_map t pte pa u l).1 ≠ 0 ∧ (tl_4k_map t pte pa u l).2 = t) ∨
    ((tl_4k_map t pte pa u l).1 = 0 ∧ (tl_4k_map t pte pa u l).2 =
      write_run t pte 1 (u ||| (pa &&& TL_PAGE_MASK) ||| l ||| TL_TYPE_PAGE)) := by
  unfold tl_4k_map
  split_ifs
  · left; exact ⟨by simp [EBUSY], rfl⟩
  · right; exact ⟨rfl, by rw [write_run_one]⟩

theorem fl_1G_map_cases (t : PtState) (pte : PtePtr) (pa u l : Nat) :
    ((fl_1G_map t pte pa u l).1 ≠ 0 ∧ (fl_1G_map t pte pa u l).2 = t) ∨
    ((fl_1G_map t pte pa u l).1 = 0 ∧ (fl_1G_map t pte pa u l).2 =
      write t pte (u ||| (pa &&& FLSL_1G_BLOCK_MASK) ||| l ||| FLSL_TYPE_BLOCK)) := by
  unfold fl_1G_map
  split_ifs
  · left; exact ⟨by simp [EBUSY], rfl⟩
  · right; exact ⟨rfl, rfl⟩

/-- `handle_3rd_lvl` makes sure of the table as `handle_1st_lvl` does, then
writes the pages. -/
theorem handle_3rd_lvl_eq (t : PtState) (pte : PtePtr) (va pa u l len : Nat) :
    handle_3rd_lvl t pte va pa u l len =
      if (handle_1st_lvl t pte pa u l SZ_4K).1 ≠ 0 then handle_1st_lvl t pte pa u l SZ_4K
      else if len = SZ_64K then
        tl_64k_map (handle_1st_lvl t pte pa u l SZ_4K).2
          (.pg (FOLLOW_TO_NEXT_TABLE (handle_1st_lvl t pte pa u l SZ_4K).2 pte) (TL_OFFSET va))
          pa u l
      else
        tl_4k_map (handle_1st_lvl t pte pa u l SZ_4K).2
          (.pg (FOLLOW_TO_NEXT_TABLE (handle_1st_lvl t pte pa u l SZ_4K).2 pte) (TL_OFFSET va))
          pa u l := by
  have d : SZ_4K ≠ SZ_1G := by decide
  unfold handle_3rd_lvl handle_1st_lvl
  simp only [d, if_false, make_third_level_tbl_eq]
  by_cases h0 : t.mem pte = 0
  · simp only [h0, if_true]
    by_cases hm : (make_second_level_tbl t pte).1 = 0
    · simp [hm, ENOMEM]
    · simp only [hm, if_false]
      by_cases hT : (make_second_level_tbl t pte).2.mem pte &&& FLSL_TYPE_TABLE = FLSL_TYPE_TABLE
      · simp [hT]
      · simp [hT, EBUSY]
  · simp only [h0, if_false]
    by_cases hT : t.mem pte &&& FLSL_TYPE_TABLE = FLSL_TYPE_TABLE
    · simp [hT]
    · simp [hT, EBUSY]

/-! ### Arithmetic of one granule -/

theorem region_in (va a G span : Nat) (hva : va % G = 0) (h1 : va ≤ a) (h2 : a < va + G)
    (hd : (G = SZ_1G ∧ span = SZ_1G) ∨ ((G = SZ_32M ∨ G = SZ_2M) ∧ span = SZ_2M) ∨
      ((G = SZ_64K ∨ G = SZ_4K) ∧ span = SZ_4K)) :
    va ≤ a / span * span ∧ a / span * span + span ≤ va + G := by
  simp only [SZ_1G, SZ_32M, SZ_2M, SZ_64K, SZ_4K] at hd
  rcases hd with ⟨e, e2⟩ | ⟨e | e, e2⟩ | ⟨e | e, e2⟩ <;> subst e <;> subst e2 <;> omega

theorem out_fl (va a : Nat) (hva : va % SZ_1G = 0) (ha : a < 2 ^ 32) (h32 : va + SZ_1G ≤ 2 ^ 32)
    (hout : a < va ∨ va + SZ_1G ≤ a) : FL_OFFSET a ≠ FL_OFFSET va := by
  simp only [FL_OFFSET_eq, SZ_1G] at *
  omega

theorem out_sl (va a G : Nat) (hG : G = SZ_32M ∨ G = SZ_2M) (hva : va % G = 0)
    (ha : a < 2 ^ 32) (h32 : va + G ≤ 2 ^ 32) (hout : a < va ∨ va + G ≤ a) :
    ¬ (FL_OFFSET a = FL_OFFSET va ∧ SL_OFFSET va ≤ SL_OFFSET a ∧
      SL_OFFSET a < SL_OFFSET va + run_len G) := by
  have r1 : run_len SZ_32M = 16 := rfl
  have r2 : run_len SZ_2M = 1 := rfl
  rcases hG with e | e <;> subst e
  · rw [r1]
    simp only [FL_OFFSET_eq, SL_OFFSET_eq, SZ_32M] at *
    omega
  · rw [r2]
    simp only [FL_OFFSET_eq, SL_OFFSET_eq, SZ_2M] at *
    omega

theorem in_sl (va a G : Nat) (hG : G = SZ_32M ∨ G = SZ_2M) (hva : va % G = 0)
    (h1 : va ≤ a) (h2 : a < va + G) :
    FL_OFFSET a = FL_OFFSET va ∧ SL_OFFSET va ≤ SL_OFFSET a ∧
      SL_OFFSET a < SL_OFFSET va + run_len G := by
  have r1 : run_len SZ_32M = 16 := rfl
  have r2 : run_len SZ_2M = 1 := rfl
  rcases hG with e | e <;> subst e
  · rw [r1]
    simp only [FL_OFFSET_eq, SL_OFFSET_eq, SZ_32M] at *
    omega
  · rw [r2]
    simp only [FL_OFFSET_eq, SL_OFFSET_eq, SZ_2M] at *
    omega

theorem out_tl (va a G : Nat) (hG : G = SZ_64K ∨ G = SZ_4K) (hva : va % G = 0)
    (ha : a < 2 ^ 32) (h32 : va + G ≤ 2 ^ 32) (hout : a < va ∨ va + G ≤ a) :
    ¬ (FL_OFFSET a = FL_OFFSET va ∧ SL_OFFSET a = SL_OFFSET va ∧
      TL_OFFSET va ≤ TL_OFFSET a ∧ TL_OFFSET a < TL_OFFSET va + run_len G) := by
  have r1 : run_len SZ_64K = 16 := rfl
  have r2 : run_len SZ_4K = 1 := rfl
  rcases hG with e | e <;> subst e
  · rw [r1]
    simp only [FL_OFFSET_eq, SL_OFFSET_eq, TL_OFFSET_eq, SZ_64K] at *
    omega
  · rw [r2]
    simp only [FL_OFFSET_eq, SL_OFFSET_eq, TL_OFFSET_eq, SZ_4K] at *
    omega

theorem in_tl (va a G : Nat) (hG : G = SZ_64K ∨ G = SZ_4K) (hva : va % G = 0)
    (h1 : va ≤ a) (h2 : a < va + G) :
    FL_OFFSET a = FL_OFFSET va ∧ SL_OFFSET a = SL_OFFSET va ∧
      TL_OFFSET va ≤ TL_OFFSET a ∧ TL_OFFSET a < TL_OFFSET va + run_len G := by
  have r1 : run_len SZ_64K = 16 := rfl
  have r2 : run_len SZ_4K = 1 := rfl
  rcases hG with e | e <;> subst e
  · rw [r1]
    simp only [FL_OFFSET_eq, SL_OFFSET_eq, TL_OFFSET_eq, SZ_64K] at *
    omega
  · rw [r2]
    simp only [FL_OFFSET_eq, SL_OFFSET_eq, TL_OFFSET_eq, SZ_4K] at *
    omega

/-! ### The outcome of one call -/

theorem step_of_cases (s t t1 : PtState) (va G : Nat) (m : Int × PtState)
    (hwf : WellFormed t) (hw : ∀ a, walk t a = walk s a)
    (hm : (m.1 ≠ 0 ∧ m.2 = t) ∨ (m.1 = 0 ∧ m.2 = t1))
    (h1 : WellFormed t1)
    (hout : ∀ a, a < 2 ^ 32 → (a < va ∨ va + G ≤ a) → walk t1 a = walk t a)
    (hin : Covered t1 va (va + G)) :
    WellFormed m.2 ∧ (m.1 ≠ 0 → ∀ a, walk m.2 a = walk s a) ∧
    (m.1 = 0 → (∀ a, a < 2 ^ 32 → (a < va ∨ va + G ≤ a) → walk m.2 a = walk s a) ∧
      Covered m.2 va (va + G)) := by
  rcases hm with ⟨hne, e⟩ | ⟨h0, e⟩
  · rw [e]
    exact ⟨hwf, fun _ => hw, fun h => absurd h hne⟩
  · rw [e]
    exact ⟨h1, fun h => absurd h0 h,
      fun _ => ⟨fun a ha ho => (hout a ha ho).trans (hw a), hin⟩⟩

/-- A call for a block of the second level: `f` is the function that writes
the `n` descriptors `d`. -/
theorem map_step_L2 (s : PtState) (va pa u l G n d : Nat)
    (f : PtState → PtePtr → Int × PtState) (hwf : WellFormed s)
    (hG : G = SZ_32M ∨ G = SZ_2M) (hva : va % G = 0) (h32 : va + G ≤ 2 ^ 32)
    (hn : n = run_len G) (hd : isBlock d)
    (hf : ∀ t pte, ((f t pte).1 ≠ 0 ∧ (f t pte).2 = t) ∨
      ((f t pte).1 = 0 ∧ (f t pte).2 = write_run t pte n d))
    (m : Int × PtState)
    (hm : m = if (handle_1st_lvl s (.fl (FL_OFFSET va)) pa u l G).1 ≠ 0 then
        handle_1st_lvl s (.fl (FL_OFFSET va)) pa u l G
      else f (handle_1st_lvl s (.fl (FL_OFFSET va)) pa u l G).2
        (.pg (FOLLOW_TO_NEXT_TABLE (handle_1st_lvl s (.fl (FL_OFFSET va)) pa u l G).2
          (.fl (FL_OFFSET va))) (SL_OFFSET va))) :
    WellFormed m.2 ∧ (m.1 ≠ 0 → ∀ a, walk m.2 a = walk s a) ∧
    (m.1 = 0 → (∀ a, a < 2 ^ 32 → (a < va ∨ va + G ≤ a) → walk m.2 a = walk s a) ∧
      Covered m.2 va (va + G)) := by
  have hl : G ≠ SZ_1G := by rcases hG with e | e <;> rw [e] <;> decide
  have hi := FL_OFFSET_lt va
  obtain ⟨hwf1, hw1, hT1, _⟩ := handle_1st_lvl_quiet s hwf (.fl (FL_OFFSET va)) pa u l G hl
    (Or.inl ⟨_, rfl⟩)
  by_cases hr : (handle_1st_lvl s (.fl (FL_OFFSET va)) pa u l G).1 = 0
  · rw [if_neg (not_not.2 hr)] at hm
    obtain ⟨h1, h2, h3⟩ := leaf_sl _ hwf1 (FL_OFFSET va) (SL_OFFSET va) n d hi (hT1 hr) hd
    rw [hm]
    refine step_of_cases s _ _ va G _ hwf1 hw1 (hf _ _) h1 ?_ ?_
    · intro a ha ho
      apply h2
      rw [hn]
      exact out_sl va a G hG hva ha h32 ho
    · intro a ha1 ha2
      obtain ⟨eF, eS1, eS2⟩ := in_sl va a G hG hva ha1 ha2
      obtain ⟨lf, hlf, hspan⟩ := h3 a eF eS1 (by rw [hn]; exact eS2)
      refine ⟨lf, hlf, ?_⟩
      rw [hspan]
      exact region_in va a G SZ_2M hva ha1 ha2 (Or.inr (Or.inl ⟨hG, rfl⟩))
  · rw [if_pos hr] at hm
    rw [hm]
    exact ⟨hwf1, fun _ => hw1, fun h => absurd h hr⟩

/-- A call for pages of the third level: `f` is the function that writes the
`n` descriptors `d`. -/
theorem map_step_L3 (s : PtState) (va pa u l G n d : Nat)
    (f : PtState → PtePtr → Int × PtState) (hwf : WellFormed s)
    (hG : G = SZ_64K ∨ G = SZ_4K) (hva : va % G = 0) (h32 : va + G ≤ 2 ^ 32)
    (hn : n = run_len G) (hd : d &&& FLSL_PTE_TYPE_MASK = TL_TYPE_PAGE)
    (hf : ∀ t pte, ((f t pte).1 ≠ 0 ∧ (f t pte).2 = t) ∨
      ((f t pte).1 = 0 ∧ (f t pte).2 = write_run t pte n d))
    (m : Int × PtState)
    (hm : m = if (handle_1st_lvl s (.fl (FL_OFFSET va)) pa u l G).1 ≠ 0 then
        handle_1st_lvl s (.fl (FL_OFFSET va)) pa u l G
      else
        if (handle_1st_lvl (handle_1st_lvl s (.fl (FL_OFFSET va)) pa u l G).2
            (.pg (FOLLOW_TO_NEXT_TABLE (handle_1st_lvl s (.fl (FL_OFFSET va)) pa u l G).2
              (.fl (FL_OFFSET va))) (SL_OFFSET va)) pa u l SZ_4K).1 ≠ 0 then
          handle_1st_lvl (handle_1st_lvl s (.fl (FL_OFFSET va)) pa u l G).2
            (.pg (FOLLOW_TO_NEXT_TABLE (handle_1st_lvl s (.fl (FL_OFFSET va)) pa u l G).2
              (.fl (FL_OFFSET va))) (SL_OFFSET va)) pa u l SZ_4K
        else
          f (handle_1st_lvl (handle_1st_lvl s (.fl (FL_OFFSET va)) pa u l G).2
            (.pg (FOLLOW_TO_NEXT_TABLE (handle_1st_lvl s (.fl (FL_OFFSET va)) pa u l G).2
              (.fl (FL_OFFSET va))) (SL_OFFSET va)) pa u l SZ_4K).2
            (.pg (FOLLOW_TO_NEXT_TABLE
              (handle_1st_lvl (handle_1st_lvl s (.fl (FL_OFFSET va)) pa u l G).2
                (.pg (FOLLOW_TO_NEXT_TABLE (handle_1st_lvl s (.fl (FL_OFFSET va)) pa u l G).2
                  (.fl (FL_OFFSET va))) (SL_OFFSET va)) pa u l SZ_4K).2
              (.pg (FOLLOW_TO_NEXT_TABLE (handle_1st_lvl s (.fl (FL_OFFSET va)) pa u l G).2
                (.fl (FL_OFFSET va))) (SL_OFFSET va))) (TL_OFFSET va))) :
    WellFormed m.2 ∧ (m.1 ≠ 0 → ∀ a, walk m.2 a = walk s a) ∧
    (m.1 = 0 → (∀ a, a < 2 ^ 32 → (a < va ∨ va + G ≤ a) → walk m.2 a = walk s a) ∧
      Covered m.2 va (va + G)) := by
  have hl : G ≠ SZ_1G := by rcases hG with e | e <;> rw [e] <;> decide
  have hi := FL_OFFSET_lt va
  have hj := SL_OFFSET_lt va
  obtain ⟨hwf1, hw1, hT1, _⟩ := handle_1st_lvl_quiet s hwf (.fl (FL_OFFSET va)) pa u l G hl
    (Or.inl ⟨_, rfl⟩)
  by_cases hr : (handle_1st_lvl s (.fl (FL_OFFSET va)) pa u l G).1 = 0
  swap
  · rw [if_pos hr] at hm
    rw [hm]
    exact ⟨hwf1, fun _ => hw1, fun h => absurd h hr⟩
  rw [if_neg (not_not.2 hr)] at hm
  generalize handle_1st_lvl s (.fl (FL_OFFSET va)) pa u l G = r1 at hm hwf1 hw1 hT1 hr
  have hT := hT1 hr
  obtain ⟨hwf2, hw2, hT2, hfl2⟩ := handle_1st_lvl_quiet r1.2 hwf1
    (.pg (FOLLOW_TO_NEXT_TABLE r1.2 (.fl (FL_OFFSET va))) (SL_OFFSET va)) pa u l SZ_4K
    (by decide) (Or.inr ⟨FL_OFFSET va, hi, SL_OFFSET va, hT, rfl⟩)
  have hw12 : ∀ a, walk (handle_1st_lvl r1.2
      (.pg (FOLLOW_TO_NEXT_TABLE r1.2 (.fl (FL_OFFSET va))) (SL_OFFSET va))
      pa u l SZ_4K).2 a = walk s a := fun a => (hw2 a).trans (hw1 a)
  by_cases hr2 : (handle_1st_lvl r1.2
      (.pg (FOLLOW_TO_NEXT_TABLE r1.2 (.fl (FL_OFFSET va))) (SL_OFFSET va))
      pa u l SZ_4K).1 = 0
  swap
  · rw [if_pos hr2] at hm
    rw [hm]
    exact ⟨hwf2, fun _ => hw12, fun h => absurd h hr2⟩
  rw [if_neg (not_not.2 hr2)] at hm
  generalize handle_1st_lvl r1.2
    (.pg (FOLLOW_TO_NEXT_TABLE r1.2 (.fl (FL_OFFSET va))) (SL_OFFSET va))
    pa u l SZ_4K = r2 at hm hwf2 hw2 hT2 hfl2 hw12 hr2
  have e1 : r2.2.mem (.fl (FL_OFFSET va)) = r1.2.mem (.fl (FL_OFFSET va)) :=
    hfl2 _ (fun e => PtePtr.noConfusion e)
  have esl : sl_of r2.2 (FL_OFFSET va) = sl_of r1.2 (FL_OFFSET va) := by
    show r2.2.mem (.fl (FL_OFFSET va)) &&& FLSL_BASE_MASK =
      r1.2.mem (.fl (FL_OFFSET va)) &&& FLSL_BASE_MASK
    rw [e1]
  have hlk : linksTl r2.2 (FL_OFFSET va) (SL_OFFSET va) := by
    refine ⟨by rw [e1]; exact hT, ?_⟩
    rw [esl]
    exact hT2 hr2
  have etl : FOLLOW_TO_NEXT_TABLE r2.2 (.pg (FOLLOW_TO_NEXT_TABLE r1.2 (.fl (FL_OFFSET va)))
      (SL_OFFSET va)) = tl_of r2.2 (FL_OFFSET va) (SL_OFFSET va) := by
    show _ = FOLLOW_TO_NEXT_TABLE r2.2 (.pg (sl_of r2.2 (FL_OFFSET va)) (SL_OFFSET va))
    rw [esl]
    rfl
  rw [etl] at hm
  obtain ⟨h1, h2, h3⟩ := leaf_tl r2.2 hwf2 (FL_OFFSET va) (SL_OFFSET va) (TL_OFFSET va) n d
    hi hj hlk hd
  rw [hm]
  refine step_of_cases s _ _ va G _ hwf2 hw12 (hf _ _) h1 ?_ ?_
  · intro a ha ho
    apply h2
    rw [hn]
    exact out_tl va a G hG hva ha h32 ho
  · intro a ha1 ha2
    obtain ⟨eF, eS, eT1, eT2⟩ := in_tl va a G hG hva ha1 ha2
    obtain ⟨lf, hlf, hspan⟩ := h3 a eF eS eT1 (by rw [hn]; exact eT2)
    refine ⟨lf, hlf, ?_⟩
    rw [hspan]
    exact region_in va a G SZ_4K hva ha1 ha2 (Or.inr (Or.inr ⟨hG, rfl⟩))

end MsmLpae

namespace MsmLpae

/-- What one call of `msm_iommu_pagetable_map` on a well-formed state does: the
state stays well formed; a failed call changes no walk; a successful call
changes no walk outside the granule and covers the granule with leaves. -/
theorem map_step (k : Build) (s : PtState) (va pa G prot : Nat) (hwf : WellFormed s)
    (hG : G ∈ granules) (hva : va % G = 0) (h32 : va + G ≤ 2 ^ 32) :
    WellFormed (msm_iommu_pagetable_map k s va pa G prot).2 ∧
    ((msm_iommu_pagetable_map k s va pa G prot).1 ≠ 0 →
      ∀ a, walk (msm_iommu_pagetable_map k s va pa G prot).2 a = walk s a) ∧
    ((msm_iommu_pagetable_map k s va pa G prot).1 = 0 →
      (∀ a, a < 2 ^ 32 → (a < va ∨ va + G ≤ a) →
        walk (msm_iommu_pagetable_map k s va pa G prot).2 a = walk s a) ∧
      Covered (msm_iommu_pagetable_map k s va pa G prot).2 va (va + G)) := by
  obtain ⟨d12, d13, d14, d15, d23, d24, d25, d34, d35, d45⟩ := SZ_distinct
  rw [map_of_valid k s va pa G prot hG hwf.root]
  simp only [granules, List.mem_cons, List.mem_singleton, List.not_mem_nil, or_false] at hG
  rcases hG with e | e | e | e | e <;> subst e
  · -- 1 GiB
    have h1 : ∀ u l, handle_1st_lvl s (.fl (FL_OFFSET va)) pa u l SZ_1G =
        fl_1G_map s (.fl (FL_OFFSET va)) pa u l := by
      intro u l
      unfold handle_1st_lvl
      rw [if_pos rfl]
    simp only [h1, d12, d13, d14, d15, if_false, or_self, ite_self]
    have hd := isBlock_leaf_desc k prot pa SZ_1G (Or.inl rfl)
    obtain ⟨w1, w2, w3⟩ := leaf_fl s hwf (FL_OFFSET va) _ hd
    refine step_of_cases s s _ va SZ_1G _ hwf (fun _ => rfl) (fl_1G_map_cases _ _ _ _ _) w1 ?_ ?_
    · intro a ha ho
      exact w2 a (out_fl va a hva ha h32 ho)
    · intro a ha1 ha2
      obtain ⟨lf, hlf, hspan⟩ := w3 a (offsets_1G va a hva ha1 ha2)
      refine ⟨lf, hlf, ?_⟩
      rw [hspan]
      exact region_in va a SZ_1G SZ_1G hva ha1 ha2 (Or.inl ⟨rfl, rfl⟩)
  · -- 32 MiB
    exact map_step_L2 s va pa _ _ SZ_32M 16 _
      (fun t pte => sl_32m_map t pte pa (__get_attr k prot).1 (__get_attr k prot).2) hwf
      (Or.inl rfl) hva h32 rfl (isBlock_leaf_desc k prot pa SZ_32M (Or.inr (Or.inl rfl)))
      (fun t pte => sl_32m_map_cases t pte pa _ _) _ rfl
  · -- 2 MiB
    exact map_step_L2 s va pa _ _ SZ_2M 1 _
      (fun t pte => sl_2m_map t pte pa (__get_attr k prot).1 (__get_attr k prot).2) hwf
      (Or.inr rfl) hva h32 rfl (isBlock_leaf_desc k prot pa SZ_2M (Or.inr (Or.inr rfl)))
      (fun t pte => sl_2m_map_cases t pte pa _ _) _ rfl
  · -- 64 KiB
    simp only [handle_3rd_lvl_eq]
    exact map_step_L3 s va pa _ _ SZ_64K 16 _
      (fun t pte => tl_64k_map t pte pa (__get_attr k prot).1 (__get_attr k prot).2) hwf
      (Or.inl rfl) hva h32 rfl (isPage_leaf_desc k prot pa SZ_64K (by decide))
      (fun t pte => tl_64k_map_cases t pte pa _ _) _ rfl
  · -- 4 KiB
    simp only [handle_3rd_lvl_eq]
    exact map_step_L3 s va pa _ _ SZ_4K 1 _
      (fun t pte => tl_4k_map t pte pa (__get_attr k prot).1 (__get_attr k prot).2) hwf
      (Or.inr rfl) hva h32 rfl (isPage_leaf_desc k prot pa SZ_4K (by decide))
      (fun t pte => tl_4k_map_cases t pte pa _ _) _ rfl

end MsmLpae

namespace MsmLpae

/-! ## The loop of `msm_iommu_pagetable_map_range` -/

/-- The chunk chosen at a 4 KiB-aligned position with at least a page left is
a granule that the position is aligned to and that fits in what is left. -/
theorem chunk_size_ok (va pa cl : Nat) (hva : va % SZ_4K = 0) (hcl : SZ_4K ≤ cl) :
    chunk_size va pa cl ∈ granules ∧ va % chunk_size va pa cl = 0 ∧
      chunk_size va pa cl ≤ cl ∧ SZ_4K ≤ chunk_size va pa cl ∧
      chunk_size va pa cl % SZ_4K = 0 := by
  rcases chunk_size_cases va pa cl with ⟨f, e⟩ | ⟨_, f, e⟩ | ⟨_, _, f, e⟩ | ⟨_, _, _, f, e⟩ |
    ⟨_, _, _, _, e⟩ <;> rw [e]
  · exact ⟨by simp [granules], f.1, f.2.2, by decide, by decide⟩
  · exact ⟨by simp [granules], f.1, f.2.2, by decide, by decide⟩
  · exact ⟨by simp [granules], f.1, f.2.2, by decide, by decide⟩
  · exact ⟨by simp [granules], f.1, f.2.2, by decide, by decide⟩
  · exact ⟨by simp [granules], hva, hcl, le_refl _, by decide⟩

theorem sg_total_cons (x : scatterlist) (rest : List scatterlist) :
    sg_total (x :: rest) = x.length + sg_total rest := by
  simp [sg_total]

theorem sg_total_nil : sg_total [] = 0 := rfl

theorem sg_pages_tail (x : scatterlist) (rest : List scatterlist) (h : sg_pages (x :: rest)) :
    sg_pages rest := fun y hy => h y (List.mem_cons_of_mem _ hy)

theorem sg_total_mod (sg : List scatterlist) (h : sg_pages sg) : sg_total sg % SZ_4K = 0 := by
  induction sg with
  | nil => rfl
  | cons x rest ih =>
    rw [sg_total_cons]
    have h1 := (h x (List.mem_cons_self _ _)).2.1
    have h2 := ih (sg_pages_tail x rest h)
    simp only [SZ_4K] at *
    omega

/-- One pass of the mapping loop is one call of `msm_iommu_pagetable_map` for
the chosen chunk, then the step to the next position. -/
theorem map_range_body_eq (k : Build) (v : RangeVars) (len prot : Nat) (sg : scatterlist)
    (rest : List scatterlist) (hsg : v.sg = sg :: rest) (hfl : v.s.fl_table ≠ 0)
    (hc : chunk_size v.va v.pa (u32 (sg.length + 2 ^ 32 - v.chunk_offset)) ∈ granules) :
    map_range_body k v len (__get_attr k prot).1 (__get_attr k prot).2 =
      if (msm_iommu_pagetable_map k v.s v.va v.pa
          (chunk_size v.va v.pa (u32 (sg.length + 2 ^ 32 - v.chunk_offset))) prot).1 ≠ 0 then
        some (.inl ((msm_iommu_pagetable_map k v.s v.va v.pa
          (chunk_size v.va v.pa (u32 (sg.length + 2 ^ 32 - v.chunk_offset))) prot).1,
          { v with s := (msm_iommu_pagetable_map k v.s v.va v.pa
            (chunk_size v.va v.pa (u32 (sg.length + 2 ^ 32 - v.chunk_offset))) prot).2 }))
      else
        if u32 (v.chunk_offset +
            chunk_size v.va v.pa (u32 (sg.length + 2 ^ 32 - v.chunk_offset))) ≥ sg.length ∧
            u32 (v.offset +
              chunk_size v.va v.pa (u32 (sg.length + 2 ^ 32 - v.chunk_offset))) < len then
          match rest with
          | [] => none
          | sg1 :: _ =>
            some (.inr ⟨(msm_iommu_pagetable_map k v.s v.va v.pa
              (chunk_size v.va v.pa (u32 (sg.length + 2 ^ 32 - v.chunk_offset))) prot).2, rest,
              u32 (v.va + chunk_size v.va v.pa (u32 (sg.length + 2 ^ 32 - v.chunk_offset))),
              get_phys_addr sg1,
              u32 (v.offset +
                chunk_size v.va v.pa (u32 (sg.length + 2 ^ 32 - v.chunk_offset))), 0⟩)
        else
          some (.inr ⟨(msm_iommu_pagetable_map k v.s v.va v.pa
            (chunk_size v.va v.pa (u32 (sg.length + 2 ^ 32 - v.chunk_offset))) prot).2,
            sg :: rest,
            u32 (v.va + chunk_size v.va v.pa (u32 (sg.length + 2 ^ 32 - v.chunk_offset))),
            phys_addr_t k
              (v.pa + chunk_size v.va v.pa (u32 (sg.length + 2 ^ 32 - v.chunk_offset))),
            u32 (v.offset + chunk_size v.va v.pa (u32 (sg.length + 2 ^ 32 - v.chunk_offset))),
            u32 (v.chunk_offset +
              chunk_size v.va v.pa (u32 (sg.length + 2 ^ 32 - v.chunk_offset)))⟩) := by
  rw [map_of_valid k v.s v.va v.pa _ prot hc hfl]
  unfold map_range_body
  rw [hsg]
  dsimp only
  generalize chunk_size v.va v.pa (u32 (sg.length + 2 ^ 32 - v.chunk_offset)) = c
  by_cases hr : (handle_1st_lvl v.s (.fl (FL_OFFSET v.va)) v.pa (__get_attr k prot).1
      (__get_attr k prot).2 c).1 = 0
  · simp only [hr, ne_eq, not_true_eq_false, if_false] <;> rfl
  · simp only [hr, ne_eq, not_false_eq_true, if_true]

theorem covered_congr (s t : PtState) (lo hi : Nat)
    (h : ∀ a, lo ≤ a → a < hi → walk t a = walk s a) (hc : Covered s lo hi) :
    Covered t lo hi := by
  intro a h1 h2
  obtain ⟨lf, hw, b1, b2⟩ := hc a h1 h2
  exact ⟨lf, by rw [h a h1 h2]; exact hw, b1, b2⟩

/-- The invariant of the mapping loop: the state is well formed, what was
mapped so far is covered by leaves that lie inside it, and the rest of the
range is as it was. With enough fuel the loop is left. -/
theorem map_range_loop_inv (k : Build) (prot va0 len : Nat) (hva0 : va0 % SZ_4K = 0)
    (h32 : va0 + len ≤ 2 ^ 32) (hlen32 : len < 2 ^ 32) :
    ∀ (fuel : Nat) (v : RangeVars), WellFormed v.s → v.offset ≤ len →
      v.offset % SZ_4K = 0 →
      (v.offset < len → v.va = va0 + v.offset) →
      (v.offset < len → ∃ sg rest, v.sg = sg :: rest ∧ v.chunk_offset < sg.length ∧
        v.chunk_offset ≤ v.offset ∧ v.chunk_offset % SZ_4K = 0 ∧ sg_pages (sg :: rest) ∧
        (sg.length - v.chunk_offset) + sg_total rest = len - v.offset) →
      Covered v.s va0 (va0 + v.offset) →
      (∀ a, va0 + v.offset ≤ a → a < va0 + len → walk v.s a = none) →
      len ≤ v.offset + fuel * SZ_4K →
      ∃ ret v1, map_range_loop k len (__get_attr k prot).1 (__get_attr k prot).2 fuel v =
          some (ret, v1) ∧
        WellFormed v1.s ∧ v1.offset ≤ len ∧ v1.offset % SZ_4K = 0 ∧
        Covered v1.s va0 (va0 + v1.offset) ∧
        (∀ a, va0 + v1.offset ≤ a → a < va0 + len → walk v1.s a = none) := by
  intro fuel
  induction fuel with
  | zero =>
    intro v hwf hle hmod _ _ hcov hnone hf
    have : ¬ v.offset < len := by omega
    exact ⟨0, v, by simp [map_range_loop, this], hwf, hle, hmod, hcov, hnone⟩
  | succ n ih =>
    intro v hwf hle hmod hva hsgs hcov hnone hf
    by_cases hlt : v.offset < len
    swap
    · exact ⟨0, v, by simp [map_range_loop, hlt], hwf, hle, hmod, hcov, hnone⟩
    obtain ⟨sg, rest, hsg, hco, hcoo, hcom, hpages, hsum⟩ := hsgs hlt
    have hvaeq := hva hlt
    obtain ⟨_, hsgm, hsgpos⟩ := hpages sg (List.mem_cons_self _ _)
    have hcl : u32 (sg.length + 2 ^ 32 - v.chunk_offset) = sg.length - v.chunk_offset := by
      unfold u32; omega
    have hcl4 : SZ_4K ≤ sg.length - v.chunk_offset := by simp only [SZ_4K] at *; omega
    have hvam : v.va % SZ_4K = 0 := by rw [hvaeq]; simp only [SZ_4K] at *; omega
    obtain ⟨hcG, hcva, hcle, hc4, hcm⟩ :=
      chunk_size_ok v.va v.pa (sg.length - v.chunk_offset) hvam hcl4
    have hbody := map_range_body_eq k v len prot sg rest hsg hwf.root (by rw [hcl]; exact hcG)
    rw [hcl] at hbody
    generalize chunk_size v.va v.pa (sg.length - v.chunk_offset) = c at hcG hcva hcle hc4 hcm hbody
    have hin : v.va + c ≤ 2 ^ 32 := by omega
    obtain ⟨hwfM, hfail, hsucc⟩ := map_step k v.s v.va v.pa c prot hwf hcG hcva hin
    generalize msm_iommu_pagetable_map k v.s v.va v.pa c prot = M at hwfM hfail hsucc hbody
    by_cases hr : M.1 = 0
    swap
    · rw [if_pos hr] at hbody
      refine ⟨M.1, { v with s := M.2 }, ?_, hwfM, hle, hmod, ?_, ?_⟩
      · simp only [map_range_loop, hlt, if_true, hbody]
      · exact covered_congr v.s M.2 _ _ (fun a _ _ => hfail hr a) hcov
      · intro a h1 h2
        show walk M.2 a = none
        rw [hfail hr a]
        exact hnone a h1 h2
    rw [if_neg (not_not.2 hr)] at hbody
    obtain ⟨hout, hcovM⟩ := hsucc hr
    have eo : u32 (v.offset + c) = v.offset + c := by unfold u32; omega
    have eco : u32 (v.chunk_offset + c) = v.chunk_offset + c := by unfold u32; omega
    rw [eo, eco] at hbody
    have hcov1 : Covered M.2 va0 (va0 + (v.offset + c)) := by
      intro a h1 h2
      by_cases h3 : a < v.va
      · obtain ⟨lf, hw, b1, b2⟩ := hcov a h1 (by omega)
        exact ⟨lf, by rw [hout a (by omega) (Or.inl h3)]; exact hw, b1, by omega⟩
      · obtain ⟨lf, hw, b1, b2⟩ := hcovM a (by omega) (by omega)
        exact ⟨lf, hw, by omega, by omega⟩
    have hnone1 : ∀ a, va0 + (v.offset + c) ≤ a → a < va0 + len → walk M.2 a = none := by
      intro a h1 h2
      rw [hout a (by omega) (Or.inr (by omega))]
      exact hnone a (by omega) h2
    have hf1 : len ≤ (v.offset + c) + n * SZ_4K := by simp only [SZ_4K] at *; omega
    have hmod1 : (v.offset + c) % SZ_4K = 0 := by simp only [SZ_4K] at *; omega
    have hle1 : v.offset + c ≤ len := by omega
    by_cases hnext : v.chunk_offset + c ≥ sg.length ∧ v.offset + c < len
    · rw [if_pos hnext] at hbody
      cases hrest : rest with
      | nil =>
        exfalso
        rw [hrest, sg_total_nil] at hsum
        omega
      | cons sg1 rest1 =>
        rw [hrest] at hbody hsum hpages
        rw [sg_total_cons] at hsum
        have hp1 := sg_pages_tail sg (sg1 :: rest1) hpages
        obtain ⟨_, _, hpos1⟩ := hp1 sg1 (List.mem_cons_self _ _)
        obtain ⟨ret, v1, hrun, hpost⟩ := ih
          ⟨M.2, sg1 :: rest1, u32 (v.va + c), get_phys_addr sg1, v.offset + c, 0⟩
          hwfM hle1 hmod1 (fun h => by
            have h' : v.offset + c < len := h
            show u32 (v.va + c) = va0 + (v.offset + c)
            unfold u32
            omega)
          (fun _ => ⟨sg1, rest1, rfl, hpos1, Nat.zero_le _, rfl, hp1,
            by
              show sg1.length - 0 + sg_total rest1 = len - (v.offset + c)
              omega⟩)
          hcov1 hnone1 hf1
        refine ⟨ret, v1, ?_, hpost⟩
        simp only [map_range_loop, hlt, if_true, hbody]
        exact hrun
    · rw [if_neg hnext] at hbody
      obtain ⟨ret, v1, hrun, hpost⟩ := ih
        ⟨M.2, sg :: rest, u32 (v.va + c), phys_addr_t k (v.pa + c), v.offset + c,
          v.chunk_offset + c⟩
        hwfM hle1 hmod1 (fun h => by
            have h' : v.offset + c < len := h
            show u32 (v.va + c) = va0 + (v.offset + c)
            unfold u32
            omega)
        (fun h => ⟨sg, rest, rfl, by
            have h' : v.offset + c < len := h
            show v.chunk_offset + c < sg.length
            omega, by
            show v.chunk_offset + c ≤ v.offset + c
            omega, by
            show (v.chunk_offset + c) % SZ_4K = 0
            simp only [SZ_4K] at *; omega, hpages, by
            show sg.length - (v.chunk_offset + c) + sg_total rest = len - (v.offset + c)
            omega⟩)
        hcov1 hnone1 hf1
      refine ⟨ret, v1, ?_, hpost⟩
      simp only [map_range_loop, hlt, if_true, hbody]
      exact hrun

end MsmLpae

namespace MsmLpae

/-! ## Rollback of a failed range mapping -/

/-- What the rollback of `msm_iommu_pagetable_map_range` does reach. For a
well-formed state in which no address of `[va, va + len)` is mapped, a scatter
list (not empty) of 4 KiB-aligned segments whose lengths are multiples of
4 KiB, not zero, and sum to `len`, `va` 4 KiB-aligned and `va + len ≤ 2^32`
(`len` is a 32-bit value), the call returns when it is given more fuel than the
range has pages, and when it returns an error the translation walk finds no
leaf for an address of `[va, va + len)` in the state it leaves. -/
theorem map_range_rollback (k : Build) (s : PtState) (va : Nat) (sg : List scatterlist)
    (len prot fuel : Nat) (hwf : WellFormed s)
    (hun : ∀ a, va ≤ a → a < va + len → walk s a = none)
    (hsg : sg_pages sg) (hne : sg ≠ []) (htot : sg_total sg = len)
    (hva : va % SZ_4K = 0) (h32 : va + len ≤ 2 ^ 32) (hlen32 : len < 2 ^ 32)
    (hfuel : len / SZ_4K < fuel) :
    ∃ ret s1, msm_iommu_pagetable_map_range k fuel s va sg len prot = some (ret, s1) ∧
      (ret ≠ 0 → ∀ a, va ≤ a → a < va + len → walk s1 a = none) := by
  have hlenmod : len % SZ_4K = 0 := by rw [← htot]; exact sg_total_mod sg hsg
  have hand : ∀ n, n % SZ_4K = 0 → n &&& (SZ_4K - 1) = 0 := by
    intro n hn
    show n &&& (2 ^ 12 - 1) = 0
    rw [Nat.and_pow_two_sub_one_eq_mod]
    exact hn
  have hfuel2 : len ≤ fuel * SZ_4K := by simp only [SZ_4K] at *; omega
  cases sg with
  | nil => exact absurd rfl hne
  | cons sg0 rest0 =>
    obtain ⟨_, _, hpos0⟩ := hsg sg0 (List.mem_cons_self _ _)
    rw [sg_total_cons] at htot
    obtain ⟨ret, v1, hrun, hwf1, hle1, hmod1, hcov1, hnone1⟩ :=
      map_range_loop_inv k prot va len hva h32 hlen32 fuel
        ⟨s, sg0 :: rest0, va, get_phys_addr sg0, 0, 0⟩ hwf (Nat.zero_le _) rfl (fun _ => rfl)
        (fun _ => ⟨sg0, rest0, rfl, hpos0, le_refl _, rfl, hsg, by
          show sg0.length - 0 + sg_total rest0 = len - 0
          omega⟩)
        (fun a h1 h2 => by
          have h2' : a < va + 0 := h2
          omega)
        (fun a h1 h2 => hun a (by have h1' : va + 0 ≤ a := h1; omega) h2)
        (by show len ≤ 0 + fuel * SZ_4K; omega)
    unfold msm_iommu_pagetable_map_range
    simp only [hand len hlenmod, ne_eq, not_true_eq_false, if_false, hwf.root, hrun]
    by_cases hc : ret ≠ 0 ∧ v1.offset > 0
    · obtain ⟨s2, hloop, hcl, hnone2⟩ := unmap_loop_covered va v1.offset (by omega) (by omega)
        fuel v1.s 0 va hwf1.tree (Nat.zero_le _) (fun _ => rfl) (by omega)
        (by rw [Nat.add_zero]; exact hcov1)
      have hu : __msm_iommu_pagetable_unmap_range fuel v1.s va v1.offset 1 = some s2 := by
        unfold __msm_iommu_pagetable_unmap_range
        simp only [hand v1.offset hmod1, ne_eq, not_true_eq_false, if_false]
        exact hloop
      refine ⟨ret, s2, ?_, ?_⟩
      · simp only [hc, ne_eq, not_false_eq_true, gt_iff_lt, and_self, if_true, hu]
      · intro _ a h1 h2
        by_cases h3 : a < va + v1.offset
        · exact hnone2 a (by omega) h3
        · exact walk_none_cleared hcl a (hnone1 a (by omega) h2)
    · refine ⟨ret, v1.s, ?_, ?_⟩
      · rw [if_neg hc]
      · intro hret a h1 h2
        have h0 : v1.offset = 0 := by
          by_contra h
          exact hc ⟨hret, Nat.pos_of_ne_zero h⟩
        exact hnone1 a (by omega) h2

set_option maxRecDepth 100000 in
/-- Two pages across the end of a third-level table, with an allocator that
fails on the third page frame: the walk finds nothing afterwards. -/
theorem map_range_rollback_instance :
    WellFormed (fresh_pt [0x80000000, 0x80001000, 0]) ∧
    (∀ a, 0x1FF000 ≤ a → a < 0x1FF000 + 0x2000 →
      walk (fresh_pt [0x80000000, 0x80001000, 0]) a = none) ∧
    sg_pages [⟨0, 0x5000, 0x2000⟩] ∧ [(⟨0, 0x5000, 0x2000⟩ : scatterlist)] ≠ [] ∧
    sg_total [⟨0, 0x5000, 0x2000⟩] = 0x2000 ∧ 0x1FF000 % SZ_4K = 0 ∧
    0x1FF000 + 0x2000 ≤ 2 ^ 32 ∧ 0x2000 < 2 ^ 32 ∧ 0x2000 / SZ_4K < 3 ∧
    (msm_iommu_pagetable_map_range k0 3 (fresh_pt [0x80000000, 0x80001000, 0]) 0x1FF000
      [⟨0, 0x5000, 0x2000⟩] 0x2000 3).map Prod.fst = some (-ENOMEM) ∧
    ∃ ret s1, msm_iommu_pagetable_map_range k0 3 (fresh_pt [0x80000000, 0x80001000, 0])
        0x1FF000 [⟨0, 0x5000, 0x2000⟩] 0x2000 3 = some (ret, s1) ∧
      (ret ≠ 0 → ∀ a, 0x1FF000 ≤ a → a < 0x1FF000 + 0x2000 → walk s1 a = none) :=
  ⟨wf_fresh _ (by decide) (by decide), fun a _ _ => walk_none_of_empty_fl _ a rfl,
    by decide, List.cons_ne_nil _ _, by decide, by decide, by decide, by decide, by decide,
    by decide,
    map_range_rollback k0 (fresh_pt [0x80000000, 0x80001000, 0]) 0x1FF000
      [⟨0, 0x5000, 0x2000⟩] 0x2000 3 3 (wf_fresh _ (by decide) (by decide))
      (fun a _ _ => walk_none_of_empty_fl _ a rfl) (by decide) (List.cons_ne_nil _ _)
      (by decide) (by decide) (by decide) (by decide) (by decide)⟩

end MsmLpae

namespace MsmLpae

/-! ## When a mapping of pages succeeds -/

theorem handle_1st_lvl_alloc (s : PtState) (pte : PtePtr) (pa u l len p : Nat)
    (rest : List Nat) (hl : len ≠ SZ_1G) (h0 : s.mem pte = 0) (hpool : s.pool = p :: rest)
    (hp : p ≠ 0) : handle_1st_lvl s pte pa u l len = (0, link_table s pte p) := by
  have hmk := make_second_level_tbl_ok s pte p rest hpool hp
  have hT : (link_table s pte p).mem pte &&& FLSL_TYPE_TABLE = FLSL_TYPE_TABLE := by
    have h : isTable ((link_table s pte p).mem pte) := by
      rw [link_table_self]; exact isTable_link p
    exact h
  unfold handle_1st_lvl
  simp only [hl, if_false, h0, if_true, hmk, hp, hT, ne_eq, not_true_eq_false]

/-- `handle_1st_lvl` below 1 GiB succeeds on a slot that is `Empty`, when the
allocator has a page frame, or links a table; it takes at most one page
frame. -/
theorem handle_1st_lvl_succeeds (s : PtState) (pte : PtePtr) (pa u l len : Nat)
    (hl : len ≠ SZ_1G) (hkind : s.mem pte = 0 ∨ isTable (s.mem pte))
    (hpool : ∃ p rest, s.pool = p :: rest ∧ p ≠ 0) :
    (handle_1st_lvl s pte pa u l len).1 = 0 ∧
      ((handle_1st_lvl s pte pa u l len).2.pool = s.pool ∨
       (handle_1st_lvl s pte pa u l len).2.pool = s.pool.tail) := by
  obtain ⟨p, rest, hp, hp0⟩ := hpool
  by_cases h0 : s.mem pte = 0
  · rw [handle_1st_lvl_alloc s pte pa u l len p rest hl h0 hp hp0]
    exact ⟨rfl, Or.inr rfl⟩
  · rw [handle_1st_lvl_occupied s pte pa u l len h0 hl, if_pos (hkind.resolve_left h0)]
    exact ⟨rfl, Or.inl rfl⟩

theorem offsets_run_tl (va G x : Nat) (hG : G = SZ_64K ∨ G = SZ_4K) (hva : va % G = 0)
    (hx : x < run_len G) :
    va ≤ va + x * SZ_4K ∧ va + x * SZ_4K < va + G ∧
    FL_OFFSET (va + x * SZ_4K) = FL_OFFSET va ∧ SL_OFFSET (va + x * SZ_4K) = SL_OFFSET va ∧
    TL_OFFSET (va + x * SZ_4K) = TL_OFFSET va + x := by
  have r1 : run_len SZ_64K = 16 := rfl
  have r2 : run_len SZ_4K = 1 := rfl
  rcases hG with e | e <;> subst e
  · rw [r1] at hx
    simp only [FL_OFFSET_eq, SL_OFFSET_eq, TL_OFFSET_eq, SZ_64K, SZ_4K] at *
    omega
  · rw [r2] at hx
    simp only [FL_OFFSET_eq, SL_OFFSET_eq, TL_OFFSET_eq, SZ_4K] at *
    omega

/-- A mapping of 64 KiB or 4 KiB succeeds in a well-formed state where nothing
of the granule is mapped and the allocator has two page frames; it takes at
most two page frames. -/
theorem map_L3_succeeds (k : Build) (s : PtState) (va pa G prot : Nat) (hwf : WellFormed s)
    (hG : G = SZ_64K ∨ G = SZ_4K) (hva : va % G = 0)
    (hun : ∀ a, va ≤ a → a < va + G → walk s a = none)
    (p q : Nat) (rest : List Nat) (hpool : s.pool = p :: q :: rest) (hp : p ≠ 0) (hq : q ≠ 0) :
    (msm_iommu_pagetable_map k s va pa G prot).1 = 0 ∧
    ((msm_iommu_pagetable_map k s va pa G prot).2.pool = p :: q :: rest ∨
     (msm_iommu_pagetable_map k s va pa G prot).2.pool = q :: rest ∨
     (msm_iommu_pagetable_map k s va pa G prot).2.pool = rest) := by
  obtain ⟨d12, d13, d14, d15, d23, d24, d25, d34, d35, d45⟩ := SZ_distinct
  have hGm : G ∈ granules := by rcases hG with e | e <;> simp [granules, e]
  have hl : G ≠ SZ_1G := by rcases hG with e | e <;> rw [e] <;> decide
  have h32m : G ≠ SZ_32M := by rcases hG with e | e <;> rw [e] <;> decide
  have h2m : G ≠ SZ_2M := by rcases hG with e | e <;> rw [e] <;> decide
  have hi := FL_OFFSET_lt va
  have hj := SL_OFFSET_lt va
  have hGpos : 0 < G := by rcases hG with e | e <;> rw [e] <;> decide
  have hself : walk s va = none := hun va (le_refl _) (by omega)
  rw [map_of_valid k s va pa G prot hGm hwf.root]
  simp only [h32m, h2m, hG, if_false, if_true, handle_3rd_lvl_eq]
  -- the first level
  have hk1 : s.mem (.fl (FL_OFFSET va)) = 0 ∨ isTable (s.mem (.fl (FL_OFFSET va))) := by
    rcases hwf.fl_kind _ hi with h | h | h
    · exact Or.inl h
    · rw [walk_fl_block s va h] at hself
      exact absurd hself (by simp)
    · exact Or.inr h
  obtain ⟨e1, hp1⟩ := handle_1st_lvl_succeeds s (.fl (FL_OFFSET va)) pa (__get_attr k prot).1
    (__get_attr k prot).2 G hl hk1 ⟨p, _, hpool, hp⟩
  obtain ⟨hwf1, hw1, hT1, _⟩ := handle_1st_lvl_quiet s hwf (.fl (FL_OFFSET va)) pa
    (__get_attr k prot).1 (__get_attr k prot).2 G hl (Or.inl ⟨_, rfl⟩)
  generalize handle_1st_lvl s (.fl (FL_OFFSET va)) pa (__get_attr k prot).1
    (__get_attr k prot).2 G = r1 at e1 hp1 hwf1 hw1 hT1 ⊢
  rw [if_neg (not_not.2 e1)]
  have hT := hT1 e1
  have hpool1 : ∃ p1 rest1, r1.2.pool = p1 :: rest1 ∧ p1 ≠ 0 := by
    rcases hp1 with e | e
    · exact ⟨p, _, by rw [e, hpool], hp⟩
    · exact ⟨q, rest, by rw [e, hpool]; rfl, hq⟩
  -- the second level
  have hk2 : r1.2.mem (.pg (FOLLOW_TO_NEXT_TABLE r1.2 (.fl (FL_OFFSET va))) (SL_OFFSET va)) = 0 ∨
      isTable (r1.2.mem (.pg (FOLLOW_TO_NEXT_TABLE r1.2 (.fl (FL_OFFSET va)))
        (SL_OFFSET va))) := by
    rcases hwf1.sl_kind _ hi hT _ hj with h | h | h
    · exact Or.inl h
    · have := walk_sl_block r1.2 va hT h
      rw [hw1 va, hself] at this
      exact absurd this (by simp)
    · exact Or.inr h
  obtain ⟨e2, hp2⟩ := handle_1st_lvl_succeeds r1.2
    (.pg (FOLLOW_TO_NEXT_TABLE r1.2 (.fl (FL_OFFSET va))) (SL_OFFSET va)) pa
    (__get_attr k prot).1 (__get_attr k prot).2 SZ_4K (by decide) hk2 hpool1
  obtain ⟨hwf2, hw2, hT2, hfl2⟩ := handle_1st_lvl_quiet r1.2 hwf1
    (.pg (FOLLOW_TO_NEXT_TABLE r1.2 (.fl (FL_OFFSET va))) (SL_OFFSET va)) pa
    (__get_attr k prot).1 (__get_attr k prot).2 SZ_4K (by decide)
    (Or.inr ⟨FL_OFFSET va, hi, SL_OFFSET va, hT, rfl⟩)
  generalize handle_1st_lvl r1.2
    (.pg (FOLLOW_TO_NEXT_TABLE r1.2 (.fl (FL_OFFSET va))) (SL_OFFSET va)) pa
    (__get_attr k prot).1 (__get_attr k prot).2 SZ_4K = r2 at e2 hp2 hwf2 hw2 hT2 hfl2 ⊢
  rw [if_neg (not_not.2 e2)]
  have hpf : r2.2.pool = p :: q :: rest ∨ r2.2.pool = q :: rest ∨ r2.2.pool = rest := by
    rcases hp1 with a | a <;> rcases hp2 with b | b <;> rw [b, a, hpool]
    · exact Or.inl rfl
    · exact Or.inr (Or.inl rfl)
    · exact Or.inr (Or.inl rfl)
    · exact Or.inr (Or.inr rfl)
  -- the third level
  have e1' : r2.2.mem (.fl (FL_OFFSET va)) = r1.2.mem (.fl (FL_OFFSET va)) :=
    hfl2 _ (fun e => PtePtr.noConfusion e)
  have esl : sl_of r2.2 (FL_OFFSET va) = sl_of r1.2 (FL_OFFSET va) := by
    show r2.2.mem (.fl (FL_OFFSET va)) &&& FLSL_BASE_MASK =
      r1.2.mem (.fl (FL_OFFSET va)) &&& FLSL_BASE_MASK
    rw [e1']
  have hlk : linksTl r2.2 (FL_OFFSET va) (SL_OFFSET va) := by
    refine ⟨by rw [e1']; exact hT, ?_⟩
    rw [esl]
    exact hT2 e2
  have etl : FOLLOW_TO_NEXT_TABLE r2.2 (.pg (FOLLOW_TO_NEXT_TABLE r1.2 (.fl (FL_OFFSET va)))
      (SL_OFFSET va)) = tl_of r2.2 (FL_OFFSET va) (SL_OFFSET va) := by
    show _ = FOLLOW_TO_NEXT_TABLE r2.2 (.pg (sl_of r2.2 (FL_OFFSET va)) (SL_OFFSET va))
    rw [esl]
    rfl
  rw [etl]
  have hz : ∀ x < run_len G,
      r2.2.mem (.pg (tl_of r2.2 (FL_OFFSET va) (SL_OFFSET va)) (TL_OFFSET va + x)) = 0 := by
    intro x hx
    obtain ⟨a1, a2, aF, aS, aT⟩ := offsets_run_tl va G x hG hva hx
    obtain ⟨hfit, _, _⟩ := run_fits_tl va G hG hva
    have hb : TL_OFFSET va + x < NUM_TL_PTE := by
      show TL_OFFSET va + x < 512
      omega
    rcases hwf2.tl_kind _ hi hlk.1 _ hj hlk (TL_OFFSET va + x) hb with h | h
    · exact h
    · exfalso
      have hw := walk_tl_page r2.2 (va + x * SZ_4K) (by rw [aF]; exact hlk.1)
        (by rw [aF, aS]; exact hlk.2) (by rw [aF, aS, aT]; exact h)
      rw [hw2, hw1, hun _ a1 a2] at hw
      exact absurd hw (by simp)
  rcases hG with e | e <;> subst e
  · rw [if_pos rfl]
    have hb : any_busy r2.2 (.pg (tl_of r2.2 (FL_OFFSET va) (SL_OFFSET va)) (TL_OFFSET va)) 16 =
        false := (any_busy_eq_false _ _ _).2 (fun x hx => by rw [add_pg]; exact hz x hx)
    unfold tl_64k_map
    simp only [hb, Bool.false_eq_true, if_false, write_run_pool]
    exact ⟨trivial, hpf⟩
  · rw [if_neg d45.symm]
    have h0 := hz 0 (by decide)
    rw [Nat.add_zero] at h0
    unfold tl_4k_map
    simp only [h0, ne_eq, not_true_eq_false, if_false, write_pool]
    exact ⟨trivial, hpf⟩

end MsmLpae

namespace MsmLpae

/-! ## Steps of the mapping loop -/

theorem map_range_loop_again (k : Build) (L u l fuel : Nat) (v v1 : RangeVars) (hlt : v.offset < L)
    (h : map_range_body k v L u l = some (.inr v1)) :
    map_range_loop k L u l (fuel + 1) v = map_range_loop k L u l fuel v1 := by
  simp only [map_range_loop, hlt, if_true, h]

theorem map_range_loop_fail (k : Build) (L u l fuel : Nat) (v : RangeVars) (r : Int × RangeVars)
    (hlt : v.offset < L) (h : map_range_body k v L u l = some (.inl r)) :
    map_range_loop k L u l (fuel + 1) v = some r := by
  simp only [map_range_loop, hlt, if_true, h]

end MsmLpae

namespace MsmLpae

/-! ## The states of the worked examples are well formed -/

theorem wf_pt_2M : WellFormed pt_2M :=
  (map_step k0 (fresh_pt pool3) 0 0 SZ_2M 3 wf_fresh_pool3 (by simp [granules]) (by decide)
    (by decide)).1

theorem wf_pt_4K : WellFormed pt_4K :=
  (map_step k0 (fresh_pt pool3) 0 0 SZ_4K 3 wf_fresh_pool3 (by simp [granules]) (by decide)
    (by decide)).1

theorem wf_pt_mixed : WellFormed pt_mixed :=
  (map_step k0 pt_2M 0x200000 0x200000 SZ_4K 3 wf_pt_2M (by simp [granules]) (by decide)
    (by decide)).1

end MsmLpae

namespace MsmLpae

/-! ## Slot indices stay inside the tables -/

theorem write_out (s : PtState) (p : PtePtr) (v : Nat) (q : PtePtr) (hp : in_table p)
    (hq : ¬ in_table q) : (write s p v).mem q = s.mem q := by
  rw [write_mem, if_neg]
  rintro rfl
  exact hq hp

theorem write_run_out (s : PtState) (pte : PtePtr) (n v : Nat) (q : PtePtr)
    (h : ∀ i < n, in_table (pte.add i)) (hq : ¬ in_table q) :
    (write_run s pte n v).mem q = s.mem q := by
  rw [write_run_mem, if_neg]
  rintro ⟨i, hi, rfl⟩
  exact hq (h i hi)

theorem memset_zero_out (s : PtState) (t a n : Nat) (q : PtePtr) (h : a + n ≤ 512)
    (hq : ¬ in_table q) : (memset_zero s t a n).mem q = s.mem q := by
  cases q with
  | fl i => rfl
  | pg p j =>
    rw [memset_zero_pg, if_neg]
    rintro ⟨_, _, h2⟩
    apply hq
    show j < 512
    omega

theorem in_table_fl (va : Nat) : in_table (.fl (FL_OFFSET va)) := FL_OFFSET_lt va

theorem in_table_sl (p va : Nat) : in_table (.pg p (SL_OFFSET va)) := SL_OFFSET_lt va

theorem in_table_tl (p va : Nat) : in_table (.pg p (TL_OFFSET va)) := TL_OFFSET_lt va

theorem in_table_run (p j n : Nat) (h : j + n ≤ 512) : ∀ i < n, in_table ((PtePtr.pg p j).add i) := by
  intro i hi
  show j + i < 512
  omega

theorem make_second_level_tbl_out (s : PtState) (pte q : PtePtr) (hp : in_table pte)
    (hq : ¬ in_table q) : (make_second_level_tbl s pte).2.mem q = s.mem q := by
  unfold make_second_level_tbl
  dsimp only
  split
  · rw [get_free_page_mem]
  · rw [write_out _ _ _ _ hp hq, memset_zero_out _ _ _ _ _ (by decide) hq, get_free_page_mem]

theorem make_third_level_tbl_out (s : PtState) (pte q : PtePtr) (hp : in_table pte)
    (hq : ¬ in_table q) : (make_third_level_tbl s pte).2.mem q = s.mem q :=
  make_second_level_tbl_out s pte q hp hq

theorem handle_1st_lvl_out (s : PtState) (pte : PtePtr) (pa u l len : Nat) (q : PtePtr)
    (hp : in_table pte) (hq : ¬ in_table q) :
    (handle_1st_lvl s pte pa u l len).2.mem q = s.mem q := by
  unfold handle_1st_lvl fl_1G_map
  dsimp only
  have hm := make_second_level_tbl_out s pte q hp hq
  split_ifs <;> first | rfl | exact hm | exact write_out _ _ _ _ hp hq

theorem tl_4k_map_out (s : PtState) (p va pa u l : Nat) (q : PtePtr) (hq : ¬ in_table q) :
    (tl_4k_map s (.pg p (TL_OFFSET va)) pa u l).2.mem q = s.mem q := by
  unfold tl_4k_map
  split
  · rfl
  · exact write_out _ _ _ _ (in_table_tl p va) hq

theorem tl_64k_map_out (s : PtState) (p va pa u l : Nat) (q : PtePtr)
    (h : TL_OFFSET va + 16 ≤ 512) (hq : ¬ in_table q) :
    (tl_64k_map s (.pg p (TL_OFFSET va)) pa u l).2.mem q = s.mem q := by
  unfold tl_64k_map
  split
  · rfl
  · exact write_run_out _ _ _ _ _ (in_table_run _ _ _ h) hq

theorem sl_2m_map_out (s : PtState) (p va pa u l : Nat) (q : PtePtr) (hq : ¬ in_table q) :
    (sl_2m_map s (.pg p (SL_OFFSET va)) pa u l).2.mem q = s.mem q := by
  unfold sl_2m_map
  split
  · rfl
  · exact write_out _ _ _ _ (in_table_sl p va) hq

theorem sl_32m_map_out (s : PtState) (p va pa u l : Nat) (q : PtePtr)
    (h : SL_OFFSET va + 16 ≤ 512) (hq : ¬ in_table q) :
    (sl_32m_map s (.pg p (SL_OFFSET va)) pa u l).2.mem q = s.mem q := by
  unfold sl_32m_map
  split
  · rfl
  · exact write_run_out _ _ _ _ _ (in_table_run _ _ _ h) hq

theorem handle_3rd_lvl_out (s : PtState) (p va pa u l len : Nat) (q : PtePtr)
    (h64 : len = SZ_64K → TL_OFFSET va + 16 ≤ 512) (hq : ¬ in_table q) :
    (handle_3rd_lvl s (.pg p (SL_OFFSET va)) va pa u l len).2.mem q = s.mem q := by
  have h1 := handle_1st_lvl_out s (.pg p (SL_OFFSET va)) pa u l SZ_4K q (in_table_sl p va) hq
  rw [handle_3rd_lvl_eq]
  generalize handle_1st_lvl s (.pg p (SL_OFFSET va)) pa u l SZ_4K = r at h1
  split_ifs with c1 c2
  · exact h1
  · rw [tl_64k_map_out _ _ va pa u l q (h64 c2) hq]
    exact h1
  · rw [tl_4k_map_out _ _ va pa u l q hq]
    exact h1

/-- `msm_iommu_pagetable_map` at an address aligned to the length stores to no
slot outside a table. -/
theorem map_out (k : Build) (s : PtState) (va pa len prot : Nat) (q : PtePtr)
    (hva : va % len = 0) (hq : ¬ in_table q) :
    (msm_iommu_pagetable_map k s va pa len prot).2.mem q = s.mem q := by
  by_cases hv : len ∈ granules ∧ s.fl_table ≠ 0
  swap
  · have : len ∉ granules ∨ s.fl_table = 0 := by
      by_cases h1 : len ∈ granules
      · right; by_contra h2; exact hv ⟨h1, h2⟩
      · left; exact h1
    rw [map_of_invalid k s va pa len prot this]
  have h1 := handle_1st_lvl_out s (.fl (FL_OFFSET va)) pa (__get_attr k prot).1
    (__get_attr k prot).2 len q (in_table_fl va) hq
  have h64 : len = SZ_64K → TL_OFFSET va + 16 ≤ 512 := by
    intro e
    have := (run_fits_tl va len (Or.inl e) hva).1
    rw [e] at this
    exact this
  have h32 : len = SZ_32M → SL_OFFSET va + 16 ≤ 512 := by
    intro e
    have := (run_fits_sl va len (Or.inl e) hva).1
    rw [e] at this
    exact this
  rw [map_of_valid k s va pa len prot hv.1 hv.2]
  dsimp only
  generalize handle_1st_lvl s (.fl (FL_OFFSET va)) pa (__get_attr k prot).1
    (__get_attr k prot).2 len = r at h1
  split_ifs with c1 c2 c3 c4
  · exact h1
  · rw [sl_32m_map_out _ _ va pa _ _ q (h32 c2) hq]
    exact h1
  · rw [sl_2m_map_out _ _ va pa _ _ q hq]
    exact h1
  · rw [handle_3rd_lvl_out _ _ va pa _ _ len q h64 hq]
    exact h1
  · exact h1

theorem free_table_out (s : PtState) (prev : PtePtr) (t len : Nat) (c : Bool) (q : PtePtr)
    (hp : in_table prev) (hq : ¬ in_table q) :
    (free_table s prev t len c).2.mem q = s.mem q := by
  rw [free_table_eq]
  split
  · rfl
  · rw [write_out _ _ _ _ hp hq, free_page_mem]

/-- One pass of the unmapping loop stores to no slot outside a table. -/
theorem unmap_body_out (s : PtState) (va len offset : Nat) (q : PtePtr) (hq : ¬ in_table q) :
    (unmap_body s va len offset).state.mem q = s.mem q := by
  by_cases h0 : s.mem (.fl (FL_OFFSET va)) = 0
  · rw [unmap_body_empty s va len offset h0]
    rfl
  by_cases hB : isBlock (s.mem (.fl (FL_OFFSET va)))
  · rw [unmap_body_fl_block s va len offset hB]
    exact write_out _ _ _ _ (in_table_fl va) hq
  by_cases hT : isTable (s.mem (.fl (FL_OFFSET va)))
  swap
  · rw [unmap_body_fl_stuck s va len offset h0 hB hT]
    rfl
  by_cases hB2 : isBlock (s.mem (.pg (sl_of s (FL_OFFSET va)) (SL_OFFSET va)))
  · rw [unmap_body_sl_block s va len offset hT hB2]
    show (unmap_sl_run s va (len - offset)).mem q = s.mem q
    unfold unmap_sl_run
    dsimp only
    rw [free_table_out _ _ _ _ _ _ (in_table_fl va) hq,
      memset_zero_out _ _ _ _ _ (sl_entries_le va (len - offset)).2 hq]
  by_cases hT2 : isTable (s.mem (.pg (sl_of s (FL_OFFSET va)) (SL_OFFSET va)))
  swap
  · rw [unmap_body_sl_stuck s va len offset hT hB2 hT2]
    rfl
  rw [unmap_body_sl_table s va len offset hT hT2]
  show (unmap_tl_run s va (len - offset)).mem q = s.mem q
  unfold unmap_tl_run
  dsimp only
  split
  · rw [free_table_out _ _ _ _ _ _ (in_table_fl va) hq,
      free_table_out _ _ _ _ _ _ (in_table_sl _ va) hq,
      memset_zero_out _ _ _ _ _ (tl_entries_le va (len - offset)).2 hq]
  · rw [free_table_out _ _ _ _ _ _ (in_table_sl _ va) hq,
      memset_zero_out _ _ _ _ _ (tl_entries_le va (len - offset)).2 hq]

theorem unmap_trace_out (len : Nat) (q : PtePtr) (hq : ¬ in_table q) :
    ∀ (n : Nat) (s : PtState) (va offset : Nat),
      (unmap_trace len n s va offset).mem q = s.mem q := by
  intro n
  induction n with
  | zero => intro s va offset; rfl
  | succ n ih =>
    intro s va offset
    have hb := unmap_body_out s va len offset q hq
    unfold unmap_trace
    split
    · cases hbody : unmap_body s va len offset with
      | ret s1 =>
        rw [hbody] at hb
        exact hb
      | again s1 va1 offset1 =>
        rw [hbody] at hb
        show (unmap_trace len n s1 va1 offset1).mem q = s.mem q
        rw [ih s1 va1 offset1]
        exact hb
    · rfl

/-- Claim C20: slot indices stay inside their tables. For every `va` the three
offsets are below the table lengths 4, 512 and 512; a 64 KiB-aligned `va` has
`TL_OFFSET va + 15 < 512` and a 32 MiB-aligned `va` has
`SL_OFFSET va + 15 < 512`; the run `[start, end)` that a pass of the unmapping
loop clears at the second or at the third level, for any number `left` of bytes
left, has `start ≤ end ≤ 512`. Hence `msm_iommu_pagetable_map` at an address
aligned to its length, a pass of the unmapping loop, and any number of passes
of it, leave every slot outside the tables as it was. -/
theorem slot_indices_in_bounds :
    (∀ va, FL_OFFSET va < 4 ∧ SL_OFFSET va < 512 ∧ TL_OFFSET va < 512) ∧
    (∀ va, va % SZ_64K = 0 → TL_OFFSET va + 15 < 512) ∧
    (∀ va, va % SZ_32M = 0 → SL_OFFSET va + 15 < 512) ∧
    (∀ va left,
      SL_OFFSET va ≤ (if left / SZ_2M + SL_OFFSET va > NUM_TL_PTE then NUM_TL_PTE
        else left / SZ_2M + SL_OFFSET va) ∧
      (if left / SZ_2M + SL_OFFSET va > NUM_TL_PTE then NUM_TL_PTE
        else left / SZ_2M + SL_OFFSET va) ≤ 512 ∧
      SL_OFFSET va + sl_entries va left ≤ 512) ∧
    (∀ va left,
      TL_OFFSET va ≤ (if left / SZ_4K + TL_OFFSET va > NUM_TL_PTE then NUM_TL_PTE
        else left / SZ_4K + TL_OFFSET va) ∧
      (if left / SZ_4K + TL_OFFSET va > NUM_TL_PTE then NUM_TL_PTE
        else left / SZ_4K + TL_OFFSET va) ≤ 512 ∧
      TL_OFFSET va + tl_entries va left ≤ 512) ∧
    (∀ k s va pa len prot q, va % len = 0 → ¬ in_table q →
      (msm_iommu_pagetable_map k s va pa len prot).2.mem q = s.mem q) ∧
    (∀ s va len offset q, ¬ in_table q →
      (unmap_body s va len offset).state.mem q = s.mem q) ∧
    (∀ len n s va offset q, ¬ in_table q →
      (unmap_trace len n s va offset).mem q = s.mem q) := by
  refine ⟨fun va => ⟨FL_OFFSET_lt va, SL_OFFSET_lt va, TL_OFFSET_lt va⟩, ?_, ?_, ?_, ?_,
    fun k s va pa len prot q hva hq => map_out k s va pa len prot q hva hq,
    fun s va len offset q hq => unmap_body_out s va len offset q hq,
    fun len n s va offset q hq => unmap_trace_out len q hq n s va offset⟩
  · intro va hva
    have := (run_fits_tl va SZ_64K (Or.inl rfl) hva).1
    have e : run_len SZ_64K = 16 := rfl
    omega
  · intro va hva
    have := (run_fits_sl va SZ_32M (Or.inl rfl) hva).1
    have e : run_len SZ_32M = 16 := rfl
    omega
  · intro va left
    have h1 := SL_OFFSET_lt va
    have h2 := (sl_entries_le va left).2
    simp only [NUM_TL_PTE, NUM_SL_PTE, SZ_2M] at *
    refine ⟨?_, ?_, h2⟩ <;> split <;> omega
  · intro va left
    have h1 := TL_OFFSET_lt va
    have h2 := (tl_entries_le va left).2
    simp only [NUM_TL_PTE, SZ_4K] at *
    refine ⟨?_, ?_, h2⟩ <;> split <;> omega

/-- An instance of C20 at `va = 0x10000`, for a mapping of 64 KiB on a fresh
table and a slot behind the end of a table. -/
theorem slot_indices_in_bounds_witness :
    TL_OFFSET 0x10000 + 15 < 512 ∧
    (msm_iommu_pagetable_map k0 (fresh_pt pool3) 0x10000 0 SZ_64K 3).2.mem (.pg 0x80001000 512) =
      (fresh_pt pool3).mem (.pg 0x80001000 512) :=
  ⟨slot_indices_in_bounds.2.1 0x10000 (by decide),
    slot_indices_in_bounds.2.2.2.2.2.1 k0 (fresh_pt pool3) 0x10000 0 SZ_64K 3 (.pg 0x80001000 512)
      (by decide) (by decide)⟩

end MsmLpae

namespace MsmLpae

/-! ## The fields of a leaf descriptor -/

/-- A value below `2 ^ n` shares no bit with a multiple of `2 ^ n`. -/
theorem land_low_high (x m n : Nat) (hx : x < 2 ^ n) (hm : m % 2 ^ n = 0) : x &&& m = 0 := by
  apply Nat.eq_of_testBit_eq
  intro i
  rw [Nat.testBit_and, Nat.zero_testBit]
  by_cases h : i < n
  · have h1 : (m % 2 ^ n).testBit i = false := by rw [hm]; exact Nat.zero_testBit i
    rw [Nat.testBit_mod_two_pow] at h1
    simp only [h, decide_True, Bool.true_and] at h1
    rw [h1, Bool.and_false]
  · have h1 : x.testBit i = false :=
      Nat.testBit_lt_two_pow (Nat.lt_of_lt_of_le hx (Nat.pow_le_pow_right (by decide) (by omega)))
    rw [h1, Bool.false_and]

/-- The lower attributes lie in bits 2 to 11. -/
theorem lower_attr_lt (k : Build) (prot : Nat) : (__get_attr k prot).2 < 2 ^ 12 := by
  rw [(get_attr_eq k prot).2]
  have hc : __get_cache_attr k < 2 ^ 12 := by
    unfold __get_cache_attr
    split
    · exact Nat.and_lt_two_pow _ (by decide)
    · decide
  refine Nat.or_lt_two_pow (Nat.or_lt_two_pow (Nat.or_lt_two_pow ?_ (by decide)) ?_) ?_
  · split
    · decide
    · exact hc
  · split <;> decide
  · split <;> decide

/-- The three fields of a leaf descriptor occupy disjoint bits, so each of them
reads back. -/
theorem leaf_fields (k : Build) (prot pa m ty : Nat) (hm : m % 2 ^ 12 = 0)
    (hty : ty = 1 ∨ ty = 3) :
    (pa &&& m) &&& (__get_attr k prot).2 = 0 ∧ (pa &&& m) &&& 3 = 0 ∧
    (__get_attr k prot).2 &&& 3 = 0 ∧
    (pa &&& m) ||| (__get_attr k prot).2 ||| ty ≠ 0 ∧
    ((pa &&& m) ||| (__get_attr k prot).2 ||| ty) &&& 3 = ty ∧
    ((pa &&& m) ||| (__get_attr k prot).2 ||| ty) &&& m = pa &&& m := by
  have hl := lower_attr_lt k prot
  have hl4 := lower_attr_mod4 k prot
  have hty12 : ty < 2 ^ 12 := by rcases hty with e | e <;> rw [e] <;> decide
  have h3 : (3 : Nat) < 2 ^ 12 := by decide
  have hm4 : m % 4 = 0 := by
    have : m % 2 ^ 12 % 4 = 0 := by rw [hm]
    rw [Nat.mod_mod_of_dvd _ (by decide : 4 ∣ 2 ^ 12)] at this
    exact this
  have e1 : (__get_attr k prot).2 &&& m = 0 := land_low_high _ m 12 hl hm
  have e2 : ty &&& m = 0 := land_low_high _ m 12 hty12 hm
  have e3 : 3 &&& m = 0 := land_low_high _ m 12 h3 hm
  have e4 : ((pa &&& m) ||| (__get_attr k prot).2 ||| ty) &&& 3 = ty := by
    rw [land3_eq_mod, lor_mod4, lor_mod4, land_mod4, hm4, Nat.and_zero, hl4]
    rcases hty with e | e <;> rw [e] <;> rfl
  refine ⟨?_, ?_, ?_, ?_, e4, ?_⟩
  · rw [Nat.and_assoc, Nat.and_comm m, e1, Nat.and_zero]
  · rw [Nat.and_assoc, Nat.and_comm m, e3, Nat.and_zero]
  · rw [land3_eq_mod, hl4]
  · intro h
    rw [h] at e4
    rcases hty with e | e <;> rw [e] at e4 <;> exact absurd e4 (by decide)
  · rw [Nat.and_distrib_right, Nat.and_distrib_right, e1, e2, Nat.and_assoc, Nat.and_self,
      Nat.or_zero, Nat.or_zero]

theorem leaf_desc_1G (k : Build) (prot pa : Nat) :
    leaf_desc k prot pa SZ_1G = (pa &&& FLSL_1G_BLOCK_MASK) ||| (__get_attr k prot).2 ||| 1 := by
  unfold leaf_desc
  simp only [if_true, upper_attr_eq, Nat.zero_or]
  rfl

theorem leaf_desc_2M (k : Build) (prot pa : Nat) :
    leaf_desc k prot pa SZ_2M = (pa &&& FLSL_BLOCK_MASK) ||| (__get_attr k prot).2 ||| 1 := by
  have d1 : SZ_2M ≠ SZ_1G := by decide
  have d2 : SZ_2M ≠ SZ_32M := by decide
  unfold leaf_desc
  simp only [d1, d2, if_false, if_true, upper_attr_eq, Nat.zero_or]
  rfl

theorem leaf_desc_4K (k : Build) (prot pa : Nat) :
    leaf_desc k prot pa SZ_4K = (pa &&& TL_PAGE_MASK) ||| (__get_attr k prot).2 ||| 3 := by
  have d1 : SZ_4K ≠ SZ_1G := by decide
  have d2 : SZ_4K ≠ SZ_32M := by decide
  have d3 : SZ_4K ≠ SZ_2M := by decide
  have d4 : SZ_4K ≠ SZ_64K := by decide
  unfold leaf_desc
  simp only [d1, d2, d3, d4, if_false, upper_attr_eq, Nat.zero_or]
  rfl

/-- Linking a table at a slot of a page frame leaves the first-level slots as
they were. -/
theorem linked_fl (s t : PtState) (p j i : Nat) (h : Linked s (.pg p j) t) :
    t.mem (.fl i) = s.mem (.fl i) := by
  rcases h with ⟨_, e⟩ | ⟨_, p1, rest, _, _, e⟩
  · rw [e]
  · rw [e, link_table_fl]

/-- The slot that a successful 2 MiB mapping wrote, found from the root. -/
theorem map_2M_readback (k : Build) (s : PtState) (va pa prot : Nat)
    (h : (msm_iommu_pagetable_map k s va pa SZ_2M prot).1 = 0) :
    isTable ((msm_iommu_pagetable_map k s va pa SZ_2M prot).2.mem (.fl (FL_OFFSET va))) ∧
    (msm_iommu_pagetable_map k s va pa SZ_2M prot).2.mem
      (.pg (sl_of (msm_iommu_pagetable_map k s va pa SZ_2M prot).2 (FL_OFFSET va))
        (SL_OFFSET va)) = leaf_desc k prot pa SZ_2M := by
  obtain ⟨t, _, hT, _, he⟩ := map_ok_L2 k s va pa SZ_2M prot (Or.inr rfl) h
  have hn : run_len SZ_2M = 1 := rfl
  rw [he, hn, write_run_one]
  have hfl : (write t (.pg (FOLLOW_TO_NEXT_TABLE t (.fl (FL_OFFSET va))) (SL_OFFSET va))
      (leaf_desc k prot pa SZ_2M)).mem (.fl (FL_OFFSET va)) = t.mem (.fl (FL_OFFSET va)) := by
    rw [write_mem, if_neg (by simp)]
  refine ⟨by rw [hfl]; exact hT, ?_⟩
  have hsl : sl_of (write t (.pg (FOLLOW_TO_NEXT_TABLE t (.fl (FL_OFFSET va))) (SL_OFFSET va))
      (leaf_desc k prot pa SZ_2M)) (FL_OFFSET va) = FOLLOW_TO_NEXT_TABLE t (.fl (FL_OFFSET va)) := by
    show (write t _ _).mem (.fl (FL_OFFSET va)) &&& FLSL_BASE_MASK = _
    rw [hfl]
    rfl
  rw [hsl, write_mem, if_pos rfl]

/-- The slot that a successful 4 KiB mapping wrote, found from the root. -/
theorem map_4K_readback (k : Build) (s : PtState) (va pa prot : Nat)
    (h : (msm_iommu_pagetable_map k s va pa SZ_4K prot).1 = 0) :
    linksTl (msm_iommu_pagetable_map k s va pa SZ_4K prot).2 (FL_OFFSET va) (SL_OFFSET va) ∧
    (msm_iommu_pagetable_map k s va pa SZ_4K prot).2.mem
      (.pg (tl_of (msm_iommu_pagetable_map k s va pa SZ_4K prot).2 (FL_OFFSET va) (SL_OFFSET va))
        (TL_OFFSET va)) = leaf_desc k prot pa SZ_4K := by
  obtain ⟨t, t2, _, hT, hL2, hT2, hz, he⟩ := map_ok_L3 k s va pa SZ_4K prot (Or.inr rfl) h
  have hn : run_len SZ_4K = 1 := rfl
  rw [hn] at hz he
  rw [write_run_one] at he
  have hz0 := hz 0 (by decide)
  rw [Nat.add_zero] at hz0
  generalize hp2 : FOLLOW_TO_NEXT_TABLE t (.fl (FL_OFFSET va)) = p2 at hL2 hT2 hz0 he
  generalize hp3 : FOLLOW_TO_NEXT_TABLE t2 (.pg p2 (SL_OFFSET va)) = p3 at hz0 he
  have hfl2 : t2.mem (.fl (FL_OFFSET va)) = t.mem (.fl (FL_OFFSET va)) :=
    linked_fl t t2 p2 _ _ hL2
  have hne : PtePtr.pg p2 (SL_OFFSET va) ≠ PtePtr.pg p3 (TL_OFFSET va) := by
    intro e
    rw [e] at hT2
    exact isTable_ne_zero hT2 hz0
  rw [he]
  have hfl : (write t2 (.pg p3 (TL_OFFSET va)) (leaf_desc k prot pa SZ_4K)).mem
      (.fl (FL_OFFSET va)) = t.mem (.fl (FL_OFFSET va)) := by
    rw [write_mem, if_neg (by simp), hfl2]
  have hsl : sl_of (write t2 (.pg p3 (TL_OFFSET va)) (leaf_desc k prot pa SZ_4K))
      (FL_OFFSET va) = p2 := by
    show (write t2 _ _).mem (.fl (FL_OFFSET va)) &&& FLSL_BASE_MASK = _
    rw [hfl]
    exact hp2
  have hm2 : (write t2 (.pg p3 (TL_OFFSET va)) (leaf_desc k prot pa SZ_4K)).mem
      (.pg p2 (SL_OFFSET va)) = t2.mem (.pg p2 (SL_OFFSET va)) := by
    rw [write_mem, if_neg hne]
  have htl : tl_of (write t2 (.pg p3 (TL_OFFSET va)) (leaf_desc k prot pa SZ_4K))
      (FL_OFFSET va) (SL_OFFSET va) = p3 := by
    show (write t2 _ _).mem (.pg (sl_of (write t2 _ _) (FL_OFFSET va)) (SL_OFFSET va)) &&&
      FLSL_BASE_MASK = _
    rw [hsl, hm2]
    exact hp3
  refine ⟨⟨by rw [hfl]; exact hT, by rw [hsl, hm2]; exact hT2⟩, ?_⟩
  rw [htl, write_mem, if_pos rfl]

end MsmLpae

namespace MsmLpae

/-! ## A failed table allocation in `msm_iommu_pagetable_map` -/

theorem get_free_page_fail_live (s : PtState) (h : (__get_free_page s).1 = 0) :
    (__get_free_page s).2.live = s.live := by
  unfold __get_free_page at h ⊢
  split
  · rfl
  · rename_i p rest hs
    by_cases hp : p = 0
    · simp only [hp, if_true]
    · simp only [hs, hp, if_false] at h

/-- With an empty slot and no page to be had, `handle_1st_lvl` fails with
`-ENOMEM` and has only consulted the allocator. -/
theorem handle_1st_lvl_oom (s : PtState) (pte : PtePtr) (pa u l len : Nat) (hl : len ≠ SZ_1G)
    (h0 : s.mem pte = 0) (ha : (__get_free_page s).1 = 0) :
    handle_1st_lvl s pte pa u l len = (-ENOMEM, (__get_free_page s).2) := by
  have hm : make_second_level_tbl s pte = (0, (__get_free_page s).2) := by
    unfold make_second_level_tbl
    simp only [ha, if_true]
  have hne : ¬ (-ENOMEM : Int) = 0 := by decide
  unfold handle_1st_lvl
  simp only [hl, if_false, h0, if_true, hm, hne]

theorem handle_3rd_lvl_oom (s : PtState) (pte : PtePtr) (va pa u l len : Nat)
    (h0 : s.mem pte = 0) (ha : (__get_free_page s).1 = 0) :
    handle_3rd_lvl s pte va pa u l len = (-ENOMEM, (__get_free_page s).2) := by
  have h1 := handle_1st_lvl_oom s pte pa u l SZ_4K (by decide) h0 ha
  have hne : (-ENOMEM : Int) ≠ 0 := by decide
  rw [handle_3rd_lvl_eq, h1]
  simp only [hne, ne_eq, not_false_eq_true, if_true]

/-- With a table link in the slot, `handle_1st_lvl` for a length below 1 GiB
does nothing. -/
theorem handle_1st_lvl_linked (s : PtState) (pte : PtePtr) (pa u l len : Nat) (hl : len ≠ SZ_1G)
    (hT : isTable (s.mem pte)) : handle_1st_lvl s pte pa u l len = (0, s) := by
  have h0 := isTable_ne_zero hT
  have hT' : s.mem pte &&& FLSL_TYPE_TABLE = FLSL_TYPE_TABLE := hT
  unfold handle_1st_lvl
  simp only [hl, if_false, h0, if_true, hT', ne_eq, not_true_eq_false]

theorem below_1G {len : Nat} (h : len ∈ [SZ_32M, SZ_2M, SZ_64K, SZ_4K]) :
    len ∈ granules ∧ len ≠ SZ_1G := by
  simp only [List.mem_cons, List.mem_singleton, List.not_mem_nil, or_false] at h
  rcases h with e | e | e | e <;> rw [e] <;> exact ⟨by simp [granules], by decide⟩

theorem third_level {len : Nat} (h : len ∈ [SZ_64K, SZ_4K]) :
    len ∈ granules ∧ len ≠ SZ_1G ∧ len ≠ SZ_32M ∧ len ≠ SZ_2M ∧ (len = SZ_64K ∨ len = SZ_4K) := by
  simp only [List.mem_cons, List.mem_singleton, List.not_mem_nil, or_false] at h
  rcases h with e | e <;> rw [e] <;>
    exact ⟨by simp [granules], by decide, by decide, by decide, by simp⟩

/-- Claim C13: out of memory in `msm_iommu_pagetable_map`. On a table with a
root, (1) for a length below 1 GiB with the first-level slot `Empty`, if the
page allocation fails then map returns `-ENOMEM`, and every slot, the
first-level slot included, and the pages in use are as before; (2) for 64 KiB
or 4 KiB with a second-level table linked and its slot `Empty`, if the page
allocation fails then map returns `-ENOMEM` and every slot and the pages in use
are as before; (3) for 64 KiB or 4 KiB with the first-level slot `Empty`, if
the first allocation hands out an aligned page `p` and the second allocation
fails then map returns `-ENOMEM`, slot `SL_OFFSET va` of the new second-level
table `p` is zero, and the slots are those left by linking `p` alone: the link
in the first-level slot, zeroes in `p`, every other slot as before. -/
theorem map_out_of_memory (k : Build) (s : PtState) (va pa len prot : Nat)
    (hroot : s.fl_table ≠ 0) :
    (len ∈ [SZ_32M, SZ_2M, SZ_64K, SZ_4K] → s.mem (.fl (FL_OFFSET va)) = 0 →
      (__get_free_page s).1 = 0 →
      (msm_iommu_pagetable_map k s va pa len prot).1 = -ENOMEM ∧
      (msm_iommu_pagetable_map k s va pa len prot).2.mem = s.mem ∧
      (msm_iommu_pagetable_map k s va pa len prot).2.mem (.fl (FL_OFFSET va)) = 0 ∧
      (msm_iommu_pagetable_map k s va pa len prot).2.live = s.live) ∧
    (len ∈ [SZ_64K, SZ_4K] → isTable (s.mem (.fl (FL_OFFSET va))) →
      s.mem (.pg (sl_of s (FL_OFFSET va)) (SL_OFFSET va)) = 0 →
      (__get_free_page s).1 = 0 →
      (msm_iommu_pagetable_map k s va pa len prot).1 = -ENOMEM ∧
      (msm_iommu_pagetable_map k s va pa len prot).2.mem = s.mem ∧
      (msm_iommu_pagetable_map k s va pa len prot).2.mem
        (.pg (sl_of s (FL_OFFSET va)) (SL_OFFSET va)) = 0 ∧
      (msm_iommu_pagetable_map k s va pa len prot).2.live = s.live) ∧
    (len ∈ [SZ_64K, SZ_4K] → s.mem (.fl (FL_OFFSET va)) = 0 →
      ∀ p, (__get_free_page s).1 = p → p ≠ 0 → p &&& FLSL_BASE_MASK = p →
      (__get_free_page (make_second_level_tbl s (.fl (FL_OFFSET va))).2).1 = 0 →
      (msm_iommu_pagetable_map k s va pa len prot).1 = -ENOMEM ∧
      (msm_iommu_pagetable_map k s va pa len prot).2.mem (.pg p (SL_OFFSET va)) = 0 ∧
      ∀ q, (msm_iommu_pagetable_map k s va pa len prot).2.mem q =
        if q = .fl (FL_OFFSET va) then (p &&& FLSL_BASE_MASK) ||| FLSL_TYPE_TABLE
        else match q with
          | .fl _ => s.mem q
          | .pg p1 j => if p1 = p ∧ j < 512 then 0 else s.mem q) := by
  have hne : (-ENOMEM : Int) ≠ 0 := by decide
  refine ⟨?_, ?_, ?_⟩
  · intro hlen h0 ha
    obtain ⟨hg, hl⟩ := below_1G hlen
    rw [map_of_valid k s va pa len prot hg hroot]
    dsimp only
    rw [handle_1st_lvl_oom s _ pa _ _ len hl h0 ha]
    simp only [hne, ne_eq, not_false_eq_true, if_true, get_free_page_mem]
    exact ⟨trivial, trivial, h0, get_free_page_fail_live s ha⟩
  · intro hlen hT h0 ha
    obtain ⟨hg, hl, hl2, hl3, hl4⟩ := third_level hlen
    rw [map_of_valid k s va pa len prot hg hroot]
    dsimp only
    rw [handle_1st_lvl_linked s _ pa _ _ len hl hT]
    simp only [ne_eq, not_true_eq_false, if_false, hl2, hl3, hl4, if_true]
    have h0' : s.mem (.pg (FOLLOW_TO_NEXT_TABLE s (.fl (FL_OFFSET va))) (SL_OFFSET va)) = 0 := h0
    rw [handle_3rd_lvl_oom s _ va pa _ _ len h0' ha]
    simp only [get_free_page_mem]
    exact ⟨trivial, trivial, h0, get_free_page_fail_live s ha⟩
  · intro hlen h0 p hp hp0 hpa ha
    obtain ⟨hg, hl, hl2, hl3, hl4⟩ := third_level hlen
    obtain ⟨p1, rest, hpool, hp1⟩ := get_free_page_nonzero s (by rw [hp]; exact hp0)
    have e1 : p1 = p := by
      rw [get_free_page_cons s p1 rest hpool hp1] at hp
      exact hp
    subst e1
    have hmk := make_second_level_tbl_ok s (.fl (FL_OFFSET va)) p1 rest hpool hp1
    rw [hmk] at ha
    have hT : isTable ((link_table s (.fl (FL_OFFSET va)) p1).mem (.fl (FL_OFFSET va))) := by
      rw [link_table_self]; exact isTable_link p1
    have hT' : (link_table s (.fl (FL_OFFSET va)) p1).mem (.fl (FL_OFFSET va)) &&&
        FLSL_TYPE_TABLE = FLSL_TYPE_TABLE := hT
    have h1 : handle_1st_lvl s (.fl (FL_OFFSET va)) pa (__get_attr k prot).1
        (__get_attr k prot).2 len = (0, link_table s (.fl (FL_OFFSET va)) p1) := by
      unfold handle_1st_lvl
      simp only [hl, if_false, h0, if_true, hmk, hp1, hT', ne_eq, not_true_eq_false]
    have hf : FOLLOW_TO_NEXT_TABLE (link_table s (.fl (FL_OFFSET va)) p1) (.fl (FL_OFFSET va)) =
        p1 := by
      show (link_table s (.fl (FL_OFFSET va)) p1).mem (.fl (FL_OFFSET va)) &&& FLSL_BASE_MASK = p1
      rw [link_table_self]
      exact next_link p1 hpa
    have hz : (link_table s (.fl (FL_OFFSET va)) p1).mem (.pg p1 (SL_OFFSET va)) = 0 := by
      have hlt : SL_OFFSET va < 512 := SL_OFFSET_lt va
      simp [link_table_mem, hlt]
    rw [map_of_valid k s va pa len prot hg hroot]
    dsimp only
    rw [h1]
    simp only [ne_eq, not_true_eq_false, if_false, hl2, hl3, hl4, if_true, hf]
    rw [handle_3rd_lvl_oom _ _ va pa _ _ len hz ha]
    simp only [get_free_page_mem]
    exact ⟨trivial, hz, fun q => link_table_mem s _ p1 q⟩

/-- An instance of C13: a 4 KiB mapping on a fresh table whose allocator has no
page fails with `-ENOMEM` and leaves the first-level slot `Empty`; with one
page, the second-level table is linked and the call fails at the third-level
table. -/
theorem map_out_of_memory_witness :
    ((msm_iommu_pagetable_map k0 (fresh_pt []) 0x1000 0x9000 SZ_4K 3).1 = -ENOMEM ∧
      (msm_iommu_pagetable_map k0 (fresh_pt []) 0x1000 0x9000 SZ_4K 3).2.mem = (fresh_pt []).mem ∧
      (msm_iommu_pagetable_map k0 (fresh_pt []) 0x1000 0x9000 SZ_4K 3).2.mem
        (.fl (FL_OFFSET 0x1000)) = 0 ∧
      (msm_iommu_pagetable_map k0 (fresh_pt []) 0x1000 0x9000 SZ_4K 3).2.live =
        (fresh_pt []).live) ∧
    (msm_iommu_pagetable_map k0 (fresh_pt [0x80000000]) 0x1000 0x9000 SZ_4K 3).1 = -ENOMEM :=
  ⟨(map_out_of_memory k0 (fresh_pt []) 0x1000 0x9000 SZ_4K 3 (by decide)).1
      (by decide) (by decide) (by decide),
    ((map_out_of_memory k0 (fresh_pt [0x80000000]) 0x1000 0x9000 SZ_4K 3 (by decide)).2.2
      (by decide) (by decide) 0x80000000 (by decide) (by decide) (by decide) (by decide)).1⟩

end MsmLpae

namespace MsmLpae

/-! ## Teardown -/

/-- The loop of `msm_iommu_pagetable_free` over the first-level slots `is`. -/
theorem free_loop (is : List Nat) :
    ∀ s : PtState,
      (is.foldl (fun st i =>
        if st.mem (.fl i) &&& FLSL_TYPE_TABLE = FLSL_TYPE_TABLE then
          free_page st (st.mem (.fl i) &&& FLSL_BASE_MASK)
        else st) s).mem = s.mem ∧
      (is.foldl (fun st i =>
        if st.mem (.fl i) &&& FLSL_TYPE_TABLE = FLSL_TYPE_TABLE then
          free_page st (st.mem (.fl i) &&& FLSL_BASE_MASK)
        else st) s).pool = s.pool ∧
      (is.foldl (fun st i =>
        if st.mem (.fl i) &&& FLSL_TYPE_TABLE = FLSL_TYPE_TABLE then
          free_page st (st.mem (.fl i) &&& FLSL_BASE_MASK)
        else st) s).live =
        s.live.filter (fun p => decide (p ∉
          (is.filter (fun i => decide (isTable (s.mem (.fl i))))).map (fun i => sl_of s i))) := by
  induction is with
  | nil =>
    intro s
    simp
  | cons i rest ih =>
    intro s
    rw [List.foldl_cons]
    by_cases hT : s.mem (.fl i) &&& FLSL_TYPE_TABLE = FLSL_TYPE_TABLE
    · have hT' : isTable (s.mem (.fl i)) := hT
      rw [if_pos hT]
      obtain ⟨h1, h2, h3⟩ := ih (free_page s (s.mem (.fl i) &&& FLSL_BASE_MASK))
      rw [h1, h2, h3]
      refine ⟨rfl, rfl, ?_⟩
      have e : (free_page s (s.mem (.fl i) &&& FLSL_BASE_MASK)).live =
          s.live.filter (fun q => q ≠ s.mem (.fl i) &&& FLSL_BASE_MASK) := rfl
      rw [e, List.filter_filter]
      apply List.filter_congr
      intro p _
      simp only [free_page_mem, List.filter_cons, hT', decide_True, if_true, List.map_cons,
        List.mem_cons, sl_of, FOLLOW_TO_NEXT_TABLE]
      by_cases hp : p = s.mem (.fl i) &&& FLSL_BASE_MASK <;> simp [hp]
    · have hT' : ¬ isTable (s.mem (.fl i)) := hT
      rw [if_neg hT]
      obtain ⟨h1, h2, h3⟩ := ih s
      rw [h1, h2, h3]
      refine ⟨rfl, rfl, ?_⟩
      simp only [List.filter_cons, hT', decide_False, Bool.false_eq_true, if_false]

theorem mem_l2_tables (s : PtState) (p : Nat) :
    p ∈ l2_tables s ↔ ∃ i < NUM_FL_PTE, isTable (s.mem (.fl i)) ∧
      p = s.mem (.fl i) &&& FLSL_BASE_MASK := by
  unfold l2_tables
  simp only [List.mem_map, List.mem_filter, List.mem_range, decide_eq_true_eq, sl_of,
    FOLLOW_TO_NEXT_TABLE]
  constructor
  · rintro ⟨i, ⟨h1, h2⟩, e⟩
    exact ⟨i, h1, h2, e.symm⟩
  · rintro ⟨i, h1, h2, e⟩
    exact ⟨i, ⟨h1, h2⟩, e.symm⟩

/-- Claim C14: teardown by `msm_iommu_pagetable_free`. For every table state,
the pages in use afterwards are those in use before that are no second-level
table linked from the first-level table: exactly the pages addressed by the
first-level entries whose type bits are `Table` are freed. First-level entries
of another type cause no free: with no `Table` entry the pages in use are as
before. In a well-formed state every third-level table linked beneath a
second-level table is still in use afterwards. Both root pointers are null
afterwards, and no descriptor and no coming allocation has changed. -/
theorem pagetable_free_spec (s : PtState) :
    (msm_iommu_pagetable_free s).live = s.live.filter (fun p => decide (p ∉ l2_tables s)) ∧
    (∀ p, p ∈ l2_tables s ↔ ∃ i < NUM_FL_PTE, isTable (s.mem (.fl i)) ∧
      p = s.mem (.fl i) &&& FLSL_BASE_MASK) ∧
    ((∀ i < NUM_FL_PTE, ¬ isTable (s.mem (.fl i))) →
      (msm_iommu_pagetable_free s).live = s.live) ∧
    (WellFormed s → ∀ i < NUM_FL_PTE, ∀ j < NUM_SL_PTE, linksTl s i j →
      tl_of s i j ∈ (msm_iommu_pagetable_free s).live) ∧
    (msm_iommu_pagetable_free s).fl_table = 0 ∧
    (msm_iommu_pagetable_free s).unaligned_fl_table = 0 ∧
    (msm_iommu_pagetable_free s).mem = s.mem ∧
    (msm_iommu_pagetable_free s).pool = s.pool := by
  obtain ⟨h1, h2, h3⟩ := free_loop (List.range NUM_FL_PTE) s
  have hlive : (msm_iommu_pagetable_free s).live =
      s.live.filter (fun p => decide (p ∉ l2_tables s)) := h3
  refine ⟨hlive, mem_l2_tables s, ?_, ?_, rfl, rfl, h1, h2⟩
  · intro hno
    rw [hlive]
    apply List.filter_eq_self.2
    intro p _
    rw [decide_eq_true_eq, mem_l2_tables]
    rintro ⟨i, hi, hT, _⟩
    exact hno i hi hT
  · intro hwf i hi j hj hl
    rw [hlive, List.mem_filter, decide_eq_true_eq, mem_l2_tables]
    refine ⟨hwf.tl_live i hi hl.1 j hj hl, ?_⟩
    rintro ⟨i1, hi1, hT1, e⟩
    exact hwf.tree.tl_ne_sl i hi hl.1 j hj hl i1 hi1 hT1 e

/-- An instance of C14: teardown of the table with a 2 MiB block and a 4 KiB
page frees the second-level table `0x80000000` and leaves the third-level
table `0x80001000` in use. -/
theorem pagetable_free_spec_witness :
    tl_of pt_mixed 0 1 ∈ (msm_iommu_pagetable_free pt_mixed).live ∧
    (msm_iommu_pagetable_free pt_mixed).live = [0x80001000] ∧
    pt_mixed.live = [0x80001000, 0x80000000] :=
  ⟨(pagetable_free_spec pt_mixed).2.2.2.1 wf_pt_mixed 0 (by decide) 1 (by decide) (by decide),
    by decide, by decide⟩

/-! ## Single unmapping -/

/-- Claim C15: `msm_iommu_pagetable_unmap` reports the requested length
whatever work was done. Whenever the walk of `msm_iommu_pagetable_unmap_range`
returns, with state `s1`, unmap returns `len` with state `s1`; and when `len`
is a multiple of 4 KiB and the first-level slot for `va` is `Empty`, unmap
returns `len` and the state is as before: no descriptor changed, no page
freed. -/
theorem unmap_reports_len (fuel : Nat) (s : PtState) (va len : Nat) :
    (∀ s1, msm_iommu_pagetable_unmap_range fuel s va len = some s1 →
      msm_iommu_pagetable_unmap fuel s va len = some (len, s1)) ∧
    (len % SZ_4K = 0 → s.mem (.fl (FL_OFFSET va)) = 0 →
      msm_iommu_pagetable_unmap (fuel + 1) s va len = some (len, s)) := by
  constructor
  · intro s1 h
    unfold msm_iommu_pagetable_unmap
    rw [h]
  · intro hlen h0
    have hl : len &&& (SZ_4K - 1) = 0 := by
      have e : SZ_4K - 1 = 2 ^ 12 - 1 := by decide
      rw [e, Nat.and_pow_two_sub_one_eq_mod]
      exact hlen
    have hr : msm_iommu_pagetable_unmap_range (fuel + 1) s va len = some s := by
      rw [unmap_range_eq _ s va len hl]
      unfold unmap_loop
      split
      · rw [unmap_body_empty s va len 0 h0]
      · rfl
    unfold msm_iommu_pagetable_unmap
    rw [hr]

/-- An instance of C15: unmapping 8 KiB at `0x40000000` of the table that maps
one page at `0`: the first-level slot 1 is `Empty`. -/
theorem unmap_reports_len_witness :
    msm_iommu_pagetable_unmap 1 pt_4K 0x40000000 0x2000 = some (0x2000, pt_4K) :=
  (unmap_reports_len 0 pt_4K 0x40000000 0x2000).2 (by decide) (by decide)

end MsmLpae

namespace MsmLpae

/-! ## Skipping the emptiness scan -/

/-- After a clear of 512 slots that ends inside the table, the table is empty. -/
theorem empty_after_full_clear (s : PtState) (t start n : Nat) (hn : n = 512)
    (hle : start + n ≤ 512) : any_busy (memset_zero s t start n) (.pg t 0) 512 = false := by
  rw [any_busy_eq_false]
  intro i hi
  rw [add_pg, memset_zero_pg, if_pos]
  exact ⟨rfl, by omega, by omega⟩

/-- When the run just cleared ends inside the table, the `check` argument that
the loop passes makes no difference. -/
theorem free_table_check (s : PtState) (prev : PtePtr) (t start n : Nat)
    (hle : start + n ≤ 512) :
    free_table (memset_zero s t start n) prev t 512 (decide (n ≠ 512)) =
      free_table (memset_zero s t start n) prev t 512 true := by
  by_cases hn : n = 512
  · rw [free_table_empty _ _ _ _ _ (empty_after_full_clear s t start n hn hle),
      free_table_empty _ _ _ _ _ (empty_after_full_clear s t start n hn hle)]
  · simp only [ne_eq, hn, not_false_eq_true, decide_True]

theorem sl_end_le (va left : Nat) :
    SL_OFFSET va + ((if left / SZ_2M + SL_OFFSET va > NUM_TL_PTE then NUM_TL_PTE
      else left / SZ_2M + SL_OFFSET va) - SL_OFFSET va) ≤ 512 := by
  have := SL_OFFSET_lt va
  simp only [NUM_TL_PTE, NUM_SL_PTE, SZ_2M] at *
  split <;> omega

theorem tl_end_le (va left : Nat) :
    TL_OFFSET va + ((if left / SZ_4K + TL_OFFSET va > NUM_TL_PTE then NUM_TL_PTE
      else left / SZ_4K + TL_OFFSET va) - TL_OFFSET va) ≤ 512 := by
  have := TL_OFFSET_lt va
  simp only [NUM_TL_PTE, SZ_4K] at *
  split <;> omega

/-- One pass of the loop is the same with and without the shortcut. -/
theorem unmap_body_scan_eq (s : PtState) (va len offset : Nat) :
    unmap_body s va len offset = unmap_body_scan s va len offset := by
  have h2 := free_table_check s (.fl (FL_OFFSET va)) (FOLLOW_TO_NEXT_TABLE s (.fl (FL_OFFSET va)))
    (SL_OFFSET va) _ (sl_end_le va (len - offset))
  have h3 := free_table_check s
    (.pg (FOLLOW_TO_NEXT_TABLE s (.fl (FL_OFFSET va))) (SL_OFFSET va))
    (FOLLOW_TO_NEXT_TABLE s (.pg (FOLLOW_TO_NEXT_TABLE s (.fl (FL_OFFSET va))) (SL_OFFSET va)))
    (TL_OFFSET va) _ (tl_end_le va (len - offset))
  unfold unmap_body unmap_body_scan
  simp only [NUM_SL_PTE, NUM_TL_PTE] at h2 h3 ⊢
  simp only [h2, h3]

theorem unmap_loop_scan_eq (len : Nat) :
    ∀ (fuel : Nat) (s : PtState) (va offset : Nat),
      unmap_loop len fuel s va offset = unmap_loop_scan len fuel s va offset := by
  intro fuel
  induction fuel with
  | zero => intro s va offset; rfl
  | succ n ih =>
    intro s va offset
    unfold unmap_loop unmap_loop_scan
    rw [unmap_body_scan_eq]
    split
    · cases unmap_body_scan s va len offset with
      | ret s1 => rfl
      | again s1 va1 offset1 => exact ih s1 va1 offset1
    · rfl

/-- Claim C19: skipping the emptiness scan is sound. Whenever the loop of
`msm_iommu_pagetable_unmap_range` calls `free_table` with `check = 0`, that is,
the run just cleared at the second or at the third level has 512 entries,
every one of the 512 entries of the table is zero; so one pass of the loop, and
the whole walk for every state, address, length and number of passes, gives
the same result as the variant that always calls `free_table` with
`check = 1`. -/
theorem skipping_scan_is_sound :
    (∀ (s : PtState) (t va left : Nat), sl_entries va left = NUM_SL_PTE →
      ∀ x < NUM_SL_PTE,
        (memset_zero s t (SL_OFFSET va) (sl_entries va left)).mem (.pg t x) = 0) ∧
    (∀ (s : PtState) (t va left : Nat), tl_entries va left = NUM_TL_PTE →
      ∀ x < NUM_TL_PTE,
        (memset_zero s t (TL_OFFSET va) (tl_entries va left)).mem (.pg t x) = 0) ∧
    (∀ s va len offset, unmap_body s va len offset = unmap_body_scan s va len offset) ∧
    (∀ fuel s va len,
      msm_iommu_pagetable_unmap_range fuel s va len = unmap_range_scan fuel s va len) := by
  refine ⟨?_, ?_, unmap_body_scan_eq, ?_⟩
  · intro s t va left h x hx
    have h1 := (sl_entries_le va left).2
    rw [memset_zero_pg, if_pos]
    simp only [NUM_SL_PTE] at *
    exact ⟨trivial, by omega, by omega⟩
  · intro s t va left h x hx
    have h1 := (tl_entries_le va left).2
    rw [memset_zero_pg, if_pos]
    simp only [NUM_TL_PTE] at *
    exact ⟨trivial, by omega, by omega⟩
  · intro fuel s va len
    unfold msm_iommu_pagetable_unmap_range __msm_iommu_pagetable_unmap_range unmap_range_scan
    split
    · rfl
    · exact unmap_loop_scan_eq len fuel s va 0

/-- An instance of C19: a run of 512 third-level entries starts at slot 0 and
leaves an empty table. -/
theorem skipping_scan_is_sound_witness :
    tl_entries 0 SZ_2M = NUM_TL_PTE ∧
    (memset_zero pt_4K 0x80001000 (TL_OFFSET 0) (tl_entries 0 SZ_2M)).mem (.pg 0x80001000 0) = 0 :=
  ⟨by decide, skipping_scan_is_sound.2.1 pt_4K 0x80001000 0 SZ_2M (by decide) 0 (by decide)⟩

end MsmLpae

namespace MsmLpae

/-! ## When the walk frees a third-level table -/

theorem any_busy_false_iff (s : PtState) (t n : Nat) :
    any_busy s (.pg t 0) n = false ↔ ∀ x < n, s.mem (.pg t x) = 0 := by
  rw [any_busy_eq_false]
  constructor
  · intro h x hx
    have := h x hx
    rw [add_pg, Nat.zero_add] at this
    exact this
  · intro h x hx
    rw [add_pg, Nat.zero_add]
    exact h x hx

/-- The state after a pass that clears a run of third-level slots, by what the
two scans find. -/
theorem unmap_tl_run_cases (s : PtState) (va left : Nat) :
    (¬ (∀ x < 512, (memset_zero s (tl_of s (FL_OFFSET va) (SL_OFFSET va)) (TL_OFFSET va)
        (tl_entries va left)).mem (.pg (tl_of s (FL_OFFSET va) (SL_OFFSET va)) x) = 0) ∧
      unmap_tl_run s va left = memset_zero s (tl_of s (FL_OFFSET va) (SL_OFFSET va))
        (TL_OFFSET va) (tl_entries va left)) ∨
    ((∀ x < 512, (memset_zero s (tl_of s (FL_OFFSET va) (SL_OFFSET va)) (TL_OFFSET va)
        (tl_entries va left)).mem (.pg (tl_of s (FL_OFFSET va) (SL_OFFSET va)) x) = 0) ∧
      ((¬ (∀ x < 512, (write (free_page (memset_zero s (tl_of s (FL_OFFSET va) (SL_OFFSET va))
            (TL_OFFSET va) (tl_entries va left)) (tl_of s (FL_OFFSET va) (SL_OFFSET va)))
            (.pg (sl_of s (FL_OFFSET va)) (SL_OFFSET va)) 0).mem
            (.pg (sl_of s (FL_OFFSET va)) x) = 0) ∧
          unmap_tl_run s va left =
            write (free_page (memset_zero s (tl_of s (FL_OFFSET va) (SL_OFFSET va))
              (TL_OFFSET va) (tl_entries va left)) (tl_of s (FL_OFFSET va) (SL_OFFSET va)))
              (.pg (sl_of s (FL_OFFSET va)) (SL_OFFSET va)) 0) ∨
        ((∀ x < 512, (write (free_page (memset_zero s (tl_of s (FL_OFFSET va) (SL_OFFSET va))
            (TL_OFFSET va) (tl_entries va left)) (tl_of s (FL_OFFSET va) (SL_OFFSET va)))
            (.pg (sl_of s (FL_OFFSET va)) (SL_OFFSET va)) 0).mem
            (.pg (sl_of s (FL_OFFSET va)) x) = 0) ∧
          unmap_tl_run s va left =
            write (free_page (write (free_page (memset_zero s
              (tl_of s (FL_OFFSET va) (SL_OFFSET va)) (TL_OFFSET va) (tl_entries va left))
              (tl_of s (FL_OFFSET va) (SL_OFFSET va)))
              (.pg (sl_of s (FL_OFFSET va)) (SL_OFFSET va)) 0) (sl_of s (FL_OFFSET va)))
              (.fl (FL_OFFSET va)) 0))) := by
  have hc := free_table_check s (.pg (sl_of s (FL_OFFSET va)) (SL_OFFSET va))
    (tl_of s (FL_OFFSET va) (SL_OFFSET va)) (TL_OFFSET va) (tl_entries va left)
    (tl_entries_le va left).2
  have hrun : unmap_tl_run s va left =
      if (free_table (memset_zero s (tl_of s (FL_OFFSET va) (SL_OFFSET va)) (TL_OFFSET va)
          (tl_entries va left)) (.pg (sl_of s (FL_OFFSET va)) (SL_OFFSET va))
          (tl_of s (FL_OFFSET va) (SL_OFFSET va)) 512
          (decide (tl_entries va left ≠ 512))).1 then
        (free_table (free_table (memset_zero s (tl_of s (FL_OFFSET va) (SL_OFFSET va))
          (TL_OFFSET va) (tl_entries va left)) (.pg (sl_of s (FL_OFFSET va)) (SL_OFFSET va))
          (tl_of s (FL_OFFSET va) (SL_OFFSET va)) 512
          (decide (tl_entries va left ≠ 512))).2 (.fl (FL_OFFSET va))
          (sl_of s (FL_OFFSET va)) 512 true).2
      else (free_table (memset_zero s (tl_of s (FL_OFFSET va) (SL_OFFSET va)) (TL_OFFSET va)
          (tl_entries va left)) (.pg (sl_of s (FL_OFFSET va)) (SL_OFFSET va))
          (tl_of s (FL_OFFSET va) (SL_OFFSET va)) 512
          (decide (tl_entries va left ≠ 512))).2 := rfl
  rw [hrun, hc]
  generalize memset_zero s (tl_of s (FL_OFFSET va) (SL_OFFSET va)) (TL_OFFSET va)
    (tl_entries va left) = c
  generalize tl_of s (FL_OFFSET va) (SL_OFFSET va) = p3
  generalize sl_of s (FL_OFFSET va) = p2
  rw [← any_busy_false_iff, ← any_busy_false_iff]
  by_cases h3 : any_busy c (.pg p3 0) 512 = false
  · right
    refine ⟨h3, ?_⟩
    rw [free_table_empty c (.pg p2 (SL_OFFSET va)) p3 512 true h3]
    dsimp only
    rw [if_pos rfl]
    by_cases h2 : any_busy (write (free_page c p3) (.pg p2 (SL_OFFSET va)) 0) (.pg p2 0) 512 =
        false
    · right
      exact ⟨h2, by rw [free_table_empty _ _ _ _ _ h2]⟩
    · left
      refine ⟨h2, ?_⟩
      rw [free_table_eq, if_pos ⟨rfl, by simpa using h2⟩]
  · left
    refine ⟨h3, ?_⟩
    have hf : free_table c (.pg p2 (SL_OFFSET va)) p3 512 true = (false, c) := by
      rw [free_table_eq, if_pos ⟨rfl, by simpa using h3⟩]
    rw [hf]
    dsimp only
    rw [if_neg (by decide)]

/-- Claim C16: a third-level table is destroyed exactly when its last leaf is
cleared. In a well-formed state, for the pass of the loop of
`msm_iommu_pagetable_unmap_range` at an address `va` whose second-level slot
links a third-level table, with `c` the state right after the clear of the run:
after the pass the third-level table is no longer in use and its second-level
slot is zero if and only if all 512 entries of the table are zero in `c`; the
second-level table is no longer in use and its first-level slot is zero if and
only if the third-level table was freed so and all 512 entries of the
second-level table are zero; and the entries of the third-level table after
the pass are those of `c`. -/
theorem l3_table_freed_iff (s : PtState) (va len offset : Nat) (hwf : WellFormed s)
    (hl : linksTl s (FL_OFFSET va) (SL_OFFSET va)) :
    ((tl_of s (FL_OFFSET va) (SL_OFFSET va) ∉ (unmap_body s va len offset).state.live ∧
        (unmap_body s va len offset).state.mem
          (.pg (sl_of s (FL_OFFSET va)) (SL_OFFSET va)) = 0) ↔
      ∀ x < NUM_TL_PTE,
        (memset_zero s (tl_of s (FL_OFFSET va) (SL_OFFSET va)) (TL_OFFSET va)
          (tl_entries va (len - offset))).mem
          (.pg (tl_of s (FL_OFFSET va) (SL_OFFSET va)) x) = 0) ∧
    ((sl_of s (FL_OFFSET va) ∉ (unmap_body s va len offset).state.live ∧
        (unmap_body s va len offset).state.mem (.fl (FL_OFFSET va)) = 0) ↔
      (tl_of s (FL_OFFSET va) (SL_OFFSET va) ∉ (unmap_body s va len offset).state.live ∧
        (unmap_body s va len offset).state.mem
          (.pg (sl_of s (FL_OFFSET va)) (SL_OFFSET va)) = 0) ∧
      ∀ x < NUM_SL_PTE,
        (unmap_body s va len offset).state.mem (.pg (sl_of s (FL_OFFSET va)) x) = 0) ∧
    (∀ x < NUM_TL_PTE,
      (unmap_body s va len offset).state.mem (.pg (tl_of s (FL_OFFSET va) (SL_OFFSET va)) x) =
        (memset_zero s (tl_of s (FL_OFFSET va) (SL_OFFSET va)) (TL_OFFSET va)
          (tl_entries va (len - offset))).mem
          (.pg (tl_of s (FL_OFFSET va) (SL_OFFSET va)) x)) := by
  have hi := FL_OFFSET_lt va
  have hj := SL_OFFSET_lt va
  have hne : tl_of s (FL_OFFSET va) (SL_OFFSET va) ≠ sl_of s (FL_OFFSET va) :=
    hwf.tree.tl_ne_sl _ hi hl.1 _ hj hl _ hi hl.1
  have hlive3 := hwf.tl_live _ hi hl.1 _ hj hl
  have hlive2 := hwf.sl_live _ hi hl.1
  have hfl0 := isTable_ne_zero hl.1
  have hsl0 := isTable_ne_zero hl.2
  rw [unmap_body_sl_table s va len offset hl.1 hl.2]
  show ((_ ∉ (unmap_tl_run s va (len - offset)).live ∧
      (unmap_tl_run s va (len - offset)).mem _ = 0) ↔ _) ∧
    ((_ ∉ (unmap_tl_run s va (len - offset)).live ∧
      (unmap_tl_run s va (len - offset)).mem _ = 0) ↔
      (_ ∉ (unmap_tl_run s va (len - offset)).live ∧
        (unmap_tl_run s va (len - offset)).mem _ = 0) ∧
      ∀ x < NUM_SL_PTE, (unmap_tl_run s va (len - offset)).mem _ = 0) ∧
    (∀ x < NUM_TL_PTE, (unmap_tl_run s va (len - offset)).mem _ = _)
  simp only [NUM_TL_PTE, NUM_SL_PTE]
  generalize hp3 : tl_of s (FL_OFFSET va) (SL_OFFSET va) = p3 at hne hlive3
  generalize hp2 : sl_of s (FL_OFFSET va) = p2 at hne hlive2 hsl0
  have hcases := unmap_tl_run_cases s va (len - offset)
  rw [hp3, hp2] at hcases
  have hcsl : (memset_zero s p3 (TL_OFFSET va) (tl_entries va (len - offset))).mem
      (.pg p2 (SL_OFFSET va)) = s.mem (.pg p2 (SL_OFFSET va)) := by
    rw [memset_zero_pg, if_neg (fun h => hne h.1.symm)]
  rcases hcases with ⟨hn3, e⟩ | ⟨h3, ⟨hn2, e⟩ | ⟨h2, e⟩⟩ <;> rw [e]
  · refine ⟨?_, ?_, fun x _ => rfl⟩
    · constructor
      · rintro ⟨h, _⟩
        exact absurd hlive3 h
      · intro h
        exact absurd h hn3
    · constructor
      · rintro ⟨h, _⟩
        exact absurd hlive2 h
      · rintro ⟨⟨h, _⟩, _⟩
        exact absurd hlive3 h
  · have hw3 : ∀ x, (write (free_page (memset_zero s p3 (TL_OFFSET va)
        (tl_entries va (len - offset))) p3) (.pg p2 (SL_OFFSET va)) 0).mem (.pg p3 x) =
        (memset_zero s p3 (TL_OFFSET va) (tl_entries va (len - offset))).mem (.pg p3 x) := by
      intro x
      rw [write_mem, if_neg (by simp [hne]), free_page_mem]
    refine ⟨?_, ?_, fun x _ => hw3 x⟩
    · constructor
      · intro _
        exact h3
      · intro _
        refine ⟨?_, by rw [write_mem, if_pos rfl]⟩
        rw [write_live, mem_free_page]
        exact fun h => h.2 rfl
    · constructor
      · rintro ⟨h, _⟩
        exfalso
        apply h
        rw [write_live, mem_free_page]
        exact ⟨hlive2, fun e => hne e.symm⟩
      · rintro ⟨_, h⟩
        exact absurd h hn2
  · have hw3 : ∀ x, (write (free_page (write (free_page (memset_zero s p3 (TL_OFFSET va)
        (tl_entries va (len - offset))) p3) (.pg p2 (SL_OFFSET va)) 0) p2)
        (.fl (FL_OFFSET va)) 0).mem (.pg p3 x) =
        (memset_zero s p3 (TL_OFFSET va) (tl_entries va (len - offset))).mem (.pg p3 x) := by
      intro x
      rw [write_mem, if_neg (by simp), free_page_mem, write_mem, if_neg (by simp [hne]),
        free_page_mem]
    have hA : p3 ∉ (write (free_page (write (free_page (memset_zero s p3 (TL_OFFSET va)
        (tl_entries va (len - offset))) p3) (.pg p2 (SL_OFFSET va)) 0) p2)
        (.fl (FL_OFFSET va)) 0).live ∧
        (write (free_page (write (free_page (memset_zero s p3 (TL_OFFSET va)
        (tl_entries va (len - offset))) p3) (.pg p2 (SL_OFFSET va)) 0) p2)
        (.fl (FL_OFFSET va)) 0).mem (.pg p2 (SL_OFFSET va)) = 0 := by
      constructor
      · rw [write_live, mem_free_page, write_live, mem_free_page]
        exact fun h => h.1.2 rfl
      · rw [write_mem, if_neg (by simp), free_page_mem, write_mem, if_pos rfl]
    refine ⟨?_, ?_, fun x _ => hw3 x⟩
    · exact ⟨fun _ => h3, fun _ => hA⟩
    · constructor
      · intro _
        refine ⟨hA, fun x hx => ?_⟩
        rw [write_mem, if_neg (by simp), free_page_mem]
        exact h2 x hx
      · intro _
        refine ⟨?_, by rw [write_mem, if_pos rfl]⟩
        rw [write_live, mem_free_page]
        exact fun h => h.2 rfl

theorem wf_pt_two_pages : WellFormed pt_two_pages :=
  (map_step k0 _ 0x2000 0xA000 SZ_4K 7
    (map_step k0 (fresh_pt pool3) 0x1000 0x9000 SZ_4K 7 wf_fresh_pool3 (by simp [granules])
      (by decide) (by decide)).1
    (by simp [granules]) (by decide) (by decide)).1

set_option maxRecDepth 100000 in
/-- An instance of C16: two 4 KiB pages at `0x1000` and `0x2000`. The pass that
unmaps the first page leaves the third-level table `0x80001000` in use, since
its entry 2 is not zero after the clear; unmapping the first page leaves both
table links and the second page as they were, and unmapping the second page
then frees the third-level table and clears its second-level slot (and, the
second-level table being empty by then, frees that one too). -/
theorem l3_table_freed_iff_witness :
    ((tl_of pt_two_pages (FL_OFFSET 0x1000) (SL_OFFSET 0x1000) ∉
          (unmap_body pt_two_pages 0x1000 0x1000 0).state.live ∧
        (unmap_body pt_two_pages 0x1000 0x1000 0).state.mem
          (.pg (sl_of pt_two_pages (FL_OFFSET 0x1000)) (SL_OFFSET 0x1000)) = 0) ↔
      ∀ x < NUM_TL_PTE,
        (memset_zero pt_two_pages (tl_of pt_two_pages (FL_OFFSET 0x1000) (SL_OFFSET 0x1000))
          (TL_OFFSET 0x1000) (tl_entries 0x1000 (0x1000 - 0))).mem
          (.pg (tl_of pt_two_pages (FL_OFFSET 0x1000) (SL_OFFSET 0x1000)) x) = 0) ∧
    (pt_two_pages.mem (.fl 0), pt_two_pages.mem (.pg 0x80000000 0),
      pt_two_pages.mem (.pg 0x80001000 1), pt_two_pages.mem (.pg 0x80001000 2),
      pt_two_pages.live) =
      (0x80000003, 0x80001003, 0x9F5F, 0xAF5F, [0x80001000, 0x80000000]) ∧
    (msm_iommu_pagetable_unmap_range 1 pt_two_pages 0x1000 0x1000).map
      (fun t => (t.mem (.fl 0), t.mem (.pg 0x80000000 0), t.mem (.pg 0x80001000 1),
        t.mem (.pg 0x80001000 2), t.live)) =
      some (0x80000003, 0x80001003, 0, 0xAF5F, [0x80001000, 0x80000000]) ∧
    ((msm_iommu_pagetable_unmap_range 1 pt_two_pages 0x1000 0x1000).bind
      (fun t => msm_iommu_pagetable_unmap_range 1 t 0x2000 0x1000)).map
      (fun t => (t.mem (.fl 0), t.mem (.pg 0x80000000 0), t.mem (.pg 0x80001000 1),
        t.mem (.pg 0x80001000 2), t.live)) =
      some (0, 0, 0, 0, []) :=
  ⟨(l3_table_freed_iff pt_two_pages 0x1000 0x1000 0 wf_pt_two_pages (by decide)).1,
    by decide, by decide, by decide⟩

end MsmLpae

namespace MsmLpae

/-! ## Range mapping of whole gigabytes -/

/-- A 1 GiB mapping into an `Empty` first-level slot writes the block
descriptor and nothing else. -/
theorem map_1G_empty (k : Build) (s : PtState) (va pa prot : Nat) (hfl : s.fl_table ≠ 0)
    (h0 : s.mem (.fl (FL_OFFSET va)) = 0) :
    msm_iommu_pagetable_map k s va pa SZ_1G prot =
      (0, write s (.fl (FL_OFFSET va)) (leaf_desc k prot pa SZ_1G)) := by
  rw [map_of_valid k s va pa SZ_1G prot (by simp [granules]) hfl]
  have e1 : handle_1st_lvl s (.fl (FL_OFFSET va)) pa (__get_attr k prot).1 (__get_attr k prot).2
      SZ_1G = (0, write s (.fl (FL_OFFSET va)) (leaf_desc k prot pa SZ_1G)) := by
    unfold handle_1st_lvl fl_1G_map
    simp only [if_true, h0, ne_eq, not_true_eq_false, if_false]
    rfl
  have d2 : SZ_1G ≠ SZ_32M := by decide
  have d3 : SZ_1G ≠ SZ_2M := by decide
  have d4 : SZ_1G ≠ SZ_64K := by decide
  have d5 : SZ_1G ≠ SZ_4K := by decide
  simp only [e1, ne_eq, not_true_eq_false, if_false, d2, d3, d4, d5, or_self]

end MsmLpae

namespace MsmLpae

/-! ## Mapping into tables that exist -/

/-- A mapping of 32 MiB or 2 MiB under a linked second-level table whose
target slots are `Empty` writes its run of block descriptors. -/
theorem map_L2_in_table (k : Build) (s : PtState) (va pa len prot : Nat)
    (hlen : len = SZ_32M ∨ len = SZ_2M) (hroot : s.fl_table ≠ 0)
    (hT : isTable (s.mem (.fl (FL_OFFSET va))))
    (hz : ∀ x < run_len len, s.mem (.pg (sl_of s (FL_OFFSET va)) (SL_OFFSET va + x)) = 0) :
    msm_iommu_pagetable_map k s va pa len prot =
      (0, write_run s (.pg (sl_of s (FL_OFFSET va)) (SL_OFFSET va)) (run_len len)
        (leaf_desc k prot pa len)) := by
  obtain ⟨d12, d13, d14, d15, d23, d24, d25, d34, d35, d45⟩ := SZ_distinct
  have hg : len ∈ granules := by rcases hlen with e | e <;> simp [granules, e]
  have hl : len ≠ SZ_1G := by rcases hlen with e | e <;> rw [e] <;> decide
  rw [map_of_valid k s va pa len prot hg hroot]
  dsimp only
  rw [handle_1st_lvl_linked s _ pa _ _ len hl hT]
  simp only [ne_eq, not_true_eq_false, if_false]
  rcases hlen with e | e
  · subst e
    have hn : run_len SZ_32M = 16 := rfl
    rw [hn] at hz ⊢
    have hb : any_busy s (.pg (FOLLOW_TO_NEXT_TABLE s (.fl (FL_OFFSET va))) (SL_OFFSET va)) 16 =
        false := by
      rw [any_busy_eq_false]
      intro x hx
      rw [add_pg]
      exact hz x hx
    unfold sl_32m_map
    simp only [if_true, hb, Bool.false_eq_true, if_false]
    rfl
  · subst e
    have hn : run_len SZ_2M = 1 := rfl
    rw [hn] at hz ⊢
    have h0 := hz 0 (by decide)
    rw [Nat.add_zero] at h0
    have h0' : s.mem (.pg (FOLLOW_TO_NEXT_TABLE s (.fl (FL_OFFSET va))) (SL_OFFSET va)) = 0 := h0
    unfold sl_2m_map
    simp only [d23.symm, if_false, if_true, h0', ne_eq, not_true_eq_false, write_run_one]
    have hd : leaf_desc k prot pa SZ_2M = (__get_attr k prot).1 |||
        (pa &&& FLSL_BLOCK_MASK) ||| (__get_attr k prot).2 ||| FLSL_TYPE_BLOCK := rfl
    rw [hd]
    rfl

/-- A mapping of 64 KiB or 4 KiB under a linked third-level table whose target
slots are `Empty` writes its run of page descriptors. -/
theorem map_L3_in_table (k : Build) (s : PtState) (va pa len prot : Nat)
    (hlen : len = SZ_64K ∨ len = SZ_4K) (hroot : s.fl_table ≠ 0)
    (hl : linksTl s (FL_OFFSET va) (SL_OFFSET va))
    (hz : ∀ x < run_len len,
      s.mem (.pg (tl_of s (FL_OFFSET va) (SL_OFFSET va)) (TL_OFFSET va + x)) = 0) :
    msm_iommu_pagetable_map k s va pa len prot =
      (0, write_run s (.pg (tl_of s (FL_OFFSET va) (SL_OFFSET va)) (TL_OFFSET va)) (run_len len)
        (leaf_desc k prot pa len)) := by
  obtain ⟨d12, d13, d14, d15, d23, d24, d25, d34, d35, d45⟩ := SZ_distinct
  have hg : len ∈ granules := by rcases hlen with e | e <;> simp [granules, e]
  have hl1 : len ≠ SZ_1G := by rcases hlen with e | e <;> rw [e] <;> decide
  have hl2 : len ≠ SZ_32M := by rcases hlen with e | e <;> rw [e] <;> decide
  have hl3 : len ≠ SZ_2M := by rcases hlen with e | e <;> rw [e] <;> decide
  have hT2 : isTable (s.mem (.pg (FOLLOW_TO_NEXT_TABLE s (.fl (FL_OFFSET va))) (SL_OFFSET va))) :=
    hl.2
  rw [map_of_valid k s va pa len prot hg hroot]
  dsimp only
  rw [handle_1st_lvl_linked s _ pa _ _ len hl1 hl.1]
  simp only [ne_eq, not_true_eq_false, if_false, hl2, hl3, hlen, if_true]
  rw [handle_3rd_lvl_eq, handle_1st_lvl_linked s _ pa _ _ SZ_4K (by decide) hT2]
  simp only [ne_eq, not_true_eq_false, if_false]
  rcases hlen with e | e
  · subst e
    have hn : run_len SZ_64K = 16 := rfl
    rw [hn] at hz ⊢
    have hb : any_busy s (.pg (FOLLOW_TO_NEXT_TABLE s
        (.pg (FOLLOW_TO_NEXT_TABLE s (.fl (FL_OFFSET va))) (SL_OFFSET va))) (TL_OFFSET va)) 16 =
        false := by
      rw [any_busy_eq_false]
      intro x hx
      rw [add_pg]
      exact hz x hx
    unfold tl_64k_map
    simp only [if_true, hb, Bool.false_eq_true, if_false]
    rfl
  · subst e
    have hn : run_len SZ_4K = 1 := rfl
    rw [hn] at hz ⊢
    have h0 := hz 0 (by decide)
    rw [Nat.add_zero] at h0
    have h0' : s.mem (.pg (FOLLOW_TO_NEXT_TABLE s
        (.pg (FOLLOW_TO_NEXT_TABLE s (.fl (FL_OFFSET va))) (SL_OFFSET va))) (TL_OFFSET va)) = 0 :=
      h0
    unfold tl_4k_map
    simp only [d45.symm, if_false, h0', ne_eq, not_true_eq_false, write_run_one]
    have hd : leaf_desc k prot pa SZ_4K = (__get_attr k prot).1 |||
        (pa &&& TL_PAGE_MASK) ||| (__get_attr k prot).2 ||| TL_TYPE_PAGE := by
      unfold leaf_desc
      simp only [d15.symm, d25.symm, d35.symm, d45.symm, if_false]
    rw [hd]
    rfl

/-! ## Repeated single mapping under one table -/

/-- Calling the single-mapping step for a list of 2 MiB chunks that lie under
one linked second-level table, at distinct `Empty` slots: every call succeeds
and writes the block descriptor of its chunk. -/
theorem map_chunks_blocks (k : Build) (prot i : Nat) :
    ∀ (cs : List Chunk) (s : PtState), s.fl_table ≠ 0 → isTable (s.mem (.fl i)) →
      (∀ c ∈ cs, c.size = SZ_2M ∧ FL_OFFSET c.va = i ∧
        s.mem (.pg (sl_of s i) (SL_OFFSET c.va)) = 0) →
      (cs.map (fun c => SL_OFFSET c.va)).Nodup →
      (map_chunks k prot s cs).1 = 0 ∧
      (map_chunks k prot s cs).2.live = s.live ∧
      (map_chunks k prot s cs).2.pool = s.pool ∧
      (∀ c ∈ cs, (map_chunks k prot s cs).2.mem (.pg (sl_of s i) (SL_OFFSET c.va)) =
        leaf_desc k prot c.pa SZ_2M) ∧
      (∀ q, (∀ c ∈ cs, q ≠ .pg (sl_of s i) (SL_OFFSET c.va)) →
        (map_chunks k prot s cs).2.mem q = s.mem q) := by
  intro cs
  induction cs with
  | nil =>
    intro s _ _ _ _
    exact ⟨rfl, rfl, rfl, fun c hc => absurd hc (List.not_mem_nil c), fun q _ => rfl⟩
  | cons c rest ih =>
    intro s hroot hT hcs hnd
    obtain ⟨hsize, hFL, hz⟩ := hcs c (List.mem_cons_self _ _)
    rw [List.map_cons, List.nodup_cons] at hnd
    have hn : run_len SZ_2M = 1 := rfl
    have hmap := map_L2_in_table k s c.va c.pa SZ_2M prot (Or.inr rfl) hroot (by rw [hFL]; exact hT)
      (by
        intro x hx
        rw [hn] at hx
        have : x = 0 := by omega
        subst this
        rw [hFL, Nat.add_zero]
        exact hz)
    rw [hn, write_run_one, hFL] at hmap
    have hstep : map_chunks k prot s (c :: rest) =
        map_chunks k prot (write s (.pg (sl_of s i) (SL_OFFSET c.va))
          (leaf_desc k prot c.pa SZ_2M)) rest := by
      show (if (msm_iommu_pagetable_map k s c.va c.pa c.size prot).1 ≠ 0 then _ else _) = _
      rw [hsize, hmap]
      simp only [ne_eq, not_true_eq_false, if_false]
    generalize hs1 : write s (.pg (sl_of s i) (SL_OFFSET c.va)) (leaf_desc k prot c.pa SZ_2M) =
      s1 at hstep
    have hfl : ∀ x, s1.mem (.fl x) = s.mem (.fl x) := by
      intro x
      rw [← hs1, write_mem, if_neg (by simp)]
    have hsl : sl_of s1 i = sl_of s i := by
      show s1.mem (.fl i) &&& FLSL_BASE_MASK = s.mem (.fl i) &&& FLSL_BASE_MASK
      rw [hfl]
    obtain ⟨r1, r2, r3, r4, r5⟩ := ih s1 (by rw [← hs1]; exact hroot) (by rw [hfl]; exact hT)
      (by
        intro c1 hc1
        obtain ⟨a1, a2, a3⟩ := hcs c1 (List.mem_cons_of_mem _ hc1)
        refine ⟨a1, a2, ?_⟩
        rw [hsl, ← hs1, write_mem, if_neg, a3]
        intro e
        simp only [PtePtr.pg.injEq, true_and] at e
        exact hnd.1 (List.mem_map.2 ⟨c1, hc1, e⟩))
      hnd.2
    rw [hstep]
    rw [hsl] at r4 r5
    refine ⟨r1, by rw [r2, ← hs1]; rfl, by rw [r3, ← hs1]; rfl, ?_, ?_⟩
    · intro c1 hc1
      rcases List.mem_cons.1 hc1 with e | hc1
      · subst e
        rw [r5 _ (fun c2 hc2 e => by
          simp only [PtePtr.pg.injEq, true_and] at e
          exact hnd.1 (List.mem_map.2 ⟨c2, hc2, e.symm⟩)), ← hs1, write_mem, if_pos rfl]
      · exact r4 c1 hc1
    · intro q hq
      rw [r5 q (fun c2 hc2 => hq c2 (List.mem_cons_of_mem _ hc2)), ← hs1, write_mem,
        if_neg (hq c (List.mem_cons_self _ _))]

/-- Calling the single-mapping step for a list of 4 KiB chunks that lie under
one linked third-level table, at distinct `Empty` slots: every call succeeds
and writes the page descriptor of its chunk. -/
theorem map_chunks_pages (k : Build) (prot i j : Nat) :
    ∀ (cs : List Chunk) (s : PtState), s.fl_table ≠ 0 → linksTl s i j →
      (∀ c ∈ cs, c.size = SZ_4K ∧ FL_OFFSET c.va = i ∧ SL_OFFSET c.va = j ∧
        s.mem (.pg (tl_of s i j) (TL_OFFSET c.va)) = 0) →
      (cs.map (fun c => TL_OFFSET c.va)).Nodup →
      (map_chunks k prot s cs).1 = 0 ∧
      (map_chunks k prot s cs).2.live = s.live ∧
      (map_chunks k prot s cs).2.pool = s.pool ∧
      (∀ c ∈ cs, (map_chunks k prot s cs).2.mem (.pg (tl_of s i j) (TL_OFFSET c.va)) =
        leaf_desc k prot c.pa SZ_4K) ∧
      (∀ q, (∀ c ∈ cs, q ≠ .pg (tl_of s i j) (TL_OFFSET c.va)) →
        (map_chunks k prot s cs).2.mem q = s.mem q) := by
  intro cs
  induction cs with
  | nil =>
    intro s _ _ _ _
    exact ⟨rfl, rfl, rfl, fun c hc => absurd hc (List.not_mem_nil c), fun q _ => rfl⟩
  | cons c rest ih =>
    intro s hroot hl hcs hnd
    obtain ⟨hsize, hFL, hSL, hz⟩ := hcs c (List.mem_cons_self _ _)
    rw [List.map_cons, List.nodup_cons] at hnd
    have hn : run_len SZ_4K = 1 := rfl
    have hmap := map_L3_in_table k s c.va c.pa SZ_4K prot (Or.inr rfl) hroot
      (by rw [hFL, hSL]; exact hl)
      (by
        intro x hx
        rw [hn] at hx
        have : x = 0 := by omega
        subst this
        rw [hFL, hSL, Nat.add_zero]
        exact hz)
    rw [hn, write_run_one, hFL, hSL] at hmap
    have hstep : map_chunks k prot s (c :: rest) =
        map_chunks k prot (write s (.pg (tl_of s i j) (TL_OFFSET c.va))
          (leaf_desc k prot c.pa SZ_4K)) rest := by
      show (if (msm_iommu_pagetable_map k s c.va c.pa c.size prot).1 ≠ 0 then _ else _) = _
      rw [hsize, hmap]
      simp only [ne_eq, not_true_eq_false, if_false]
    have hslot : PtePtr.pg (sl_of s i) j ≠ .pg (tl_of s i j) (TL_OFFSET c.va) := by
      intro e
      have := isTable_ne_zero hl.2
      rw [e] at this
      exact this hz
    generalize hs1 : write s (.pg (tl_of s i j) (TL_OFFSET c.va)) (leaf_desc k prot c.pa SZ_4K) =
      s1 at hstep
    have hfl : ∀ x, s1.mem (.fl x) = s.mem (.fl x) := by
      intro x
      rw [← hs1, write_mem, if_neg (by simp)]
    have hsl : sl_of s1 i = sl_of s i := by
      show s1.mem (.fl i) &&& FLSL_BASE_MASK = s.mem (.fl i) &&& FLSL_BASE_MASK
      rw [hfl]
    have hm2 : s1.mem (.pg (sl_of s i) j) = s.mem (.pg (sl_of s i) j) := by
      rw [← hs1, write_mem, if_neg hslot]
    have htl : tl_of s1 i j = tl_of s i j := by
      show s1.mem (.pg (sl_of s1 i) j) &&& FLSL_BASE_MASK =
        s.mem (.pg (sl_of s i) j) &&& FLSL_BASE_MASK
      rw [hsl, hm2]
    have hl1 : linksTl s1 i j := by
      refine ⟨by rw [hfl]; exact hl.1, ?_⟩
      rw [hsl, hm2]
      exact hl.2
    obtain ⟨r1, r2, r3, r4, r5⟩ := ih s1 (by rw [← hs1]; exact hroot) hl1
      (by
        intro c1 hc1
        obtain ⟨a1, a2, a3, a4⟩ := hcs c1 (List.mem_cons_of_mem _ hc1)
        refine ⟨a1, a2, a3, ?_⟩
        rw [htl, ← hs1, write_mem, if_neg, a4]
        intro e
        simp only [PtePtr.pg.injEq, true_and] at e
        exact hnd.1 (List.mem_map.2 ⟨c1, hc1, e⟩))
      hnd.2
    rw [hstep]
    rw [htl] at r4 r5
    refine ⟨r1, by rw [r2, ← hs1]; rfl, by rw [r3, ← hs1]; rfl, ?_, ?_⟩
    · intro c1 hc1
      rcases List.mem_cons.1 hc1 with e | hc1
      · subst e
        rw [r5 _ (fun c2 hc2 e => by
          simp only [PtePtr.pg.injEq, true_and] at e
          exact hnd.1 (List.mem_map.2 ⟨c2, hc2, e.symm⟩)), ← hs1, write_mem, if_pos rfl]
      · exact r4 c1 hc1
    · intro q hq
      rw [r5 q (fun c2 hc2 => hq c2 (List.mem_cons_of_mem _ hc2)), ← hs1, write_mem,
        if_neg (hq c (List.mem_cons_self _ _))]

end MsmLpae

namespace MsmLpae

/-! ## A contiguous group against sixteen single mappings -/

theorem mem_pieces (va pa step : Nat) (c : Chunk) :
    c ∈ pieces va pa step ↔ ∃ x < 16, c = ⟨va + x * step, pa + x * step, step⟩ := by
  unfold pieces
  simp only [List.mem_map, List.mem_range]
  constructor
  · rintro ⟨x, hx, e⟩
    exact ⟨x, hx, e.symm⟩
  · rintro ⟨x, hx, e⟩
    exact ⟨x, hx, e.symm⟩

theorem pieces_nodup (va pa step : Nat) (f : Nat → Nat)
    (hf : ∀ x < 16, f (va + x * step) = f va + x) :
    ((pieces va pa step).map (fun c => f c.va)).Nodup := by
  unfold pieces
  rw [List.map_map]
  apply List.Nodup.map_on _ (List.nodup_range 16)
  intro x hx y hy e
  simp only [Function.comp_apply] at e
  rw [hf x (List.mem_range.1 hx), hf y (List.mem_range.1 hy)] at e
  omega

/-- A descriptor below bit 52 has no contiguous hint to clear. -/
theorem without_hint_of_lt (d : Nat) (h : d < 2 ^ 52) : without_hint d = d := by
  unfold without_hint
  have h1 : d &&& 0xFFEFFFFFFFFFFFFF < 2 ^ 52 := by
    rw [Nat.and_comm]
    exact Nat.and_lt_two_pow _ h
  have h2 := land_mod_two_pow d 0xFFEFFFFFFFFFFFFF 52
  rw [Nat.mod_eq_of_lt h1, Nat.mod_eq_of_lt h] at h2
  rw [h2]
  have e : 0xFFEFFFFFFFFFFFFF % 2 ^ 52 = 2 ^ 52 - 1 := by decide
  rw [e, Nat.and_pow_two_sub_one_eq_mod, Nat.mod_eq_of_lt h]

theorem without_hint_lor (d : Nat) (h : d < 2 ^ 52) : without_hint (TL_CH ||| d) = d := by
  have e : without_hint (TL_CH ||| d) = (TL_CH &&& 0xFFEFFFFFFFFFFFFF) ||| without_hint d := by
    unfold without_hint
    rw [Nat.and_distrib_right]
  have e0 : TL_CH &&& 0xFFEFFFFFFFFFFFFF = 0 := by decide
  rw [e, e0, Nat.zero_or, without_hint_of_lt d h]

/-- A leaf descriptor without the hint lies below bit 52. -/
theorem plain_desc_lt (k : Build) (prot pa m ty : Nat) (hm : m < 2 ^ 40) (hty : ty < 4) :
    (pa &&& m) ||| (__get_attr k prot).2 ||| ty < 2 ^ 52 := by
  have h1 : pa &&& m < 2 ^ 52 :=
    lt_of_lt_of_le (Nat.and_lt_two_pow _ hm) (Nat.pow_le_pow_right (by decide) (by decide))
  have h2 : (__get_attr k prot).2 < 2 ^ 52 :=
    lt_of_lt_of_le (lower_attr_lt k prot) (Nat.pow_le_pow_right (by decide) (by decide))
  have h3 : ty < 2 ^ 52 := lt_of_lt_of_le hty (by decide)
  exact Nat.or_lt_two_pow (Nat.or_lt_two_pow h1 h2) h3

theorem leaf_desc_64K (k : Build) (prot pa : Nat) :
    leaf_desc k prot pa SZ_64K =
      TL_CH ||| ((pa &&& TL_PAGE_MASK) ||| (__get_attr k prot).2 ||| 3) := by
  have d1 : SZ_64K ≠ SZ_1G := by decide
  have d2 : SZ_64K ≠ SZ_32M := by decide
  have d3 : SZ_64K ≠ SZ_2M := by decide
  unfold leaf_desc
  simp only [d1, d2, d3, if_false, if_true, upper_attr_eq, Nat.zero_or, Nat.or_assoc]
  rfl

theorem leaf_desc_32M (k : Build) (prot pa : Nat) :
    leaf_desc k prot pa SZ_32M =
      TL_CH ||| ((pa &&& FLSL_BLOCK_MASK) ||| (__get_attr k prot).2 ||| 1) := by
  have d1 : SZ_32M ≠ SZ_1G := by decide
  unfold leaf_desc
  simp only [d1, if_false, if_true, upper_attr_eq, Nat.zero_or, Nat.or_assoc]
  rfl

/-- Apart from the hint, the descriptor of a 64 KiB group is the 4 KiB page
descriptor for the same `pa`. -/
theorem without_hint_64K (k : Build) (prot pa : Nat) :
    without_hint (leaf_desc k prot pa SZ_64K) = leaf_desc k prot pa SZ_4K := by
  rw [leaf_desc_64K, leaf_desc_4K,
    without_hint_lor _ (plain_desc_lt k prot pa TL_PAGE_MASK 3 (by decide) (by decide))]

theorem without_hint_32M (k : Build) (prot pa : Nat) :
    without_hint (leaf_desc k prot pa SZ_32M) = leaf_desc k prot pa SZ_2M := by
  rw [leaf_desc_32M, leaf_desc_2M,
    without_hint_lor _ (plain_desc_lt k prot pa FLSL_BLOCK_MASK 1 (by decide) (by decide))]

theorem without_hint_4K (k : Build) (prot pa : Nat) :
    without_hint (leaf_desc k prot pa SZ_4K) = leaf_desc k prot pa SZ_4K := by
  rw [leaf_desc_4K]
  exact without_hint_of_lt _ (plain_desc_lt k prot pa TL_PAGE_MASK 3 (by decide) (by decide))

theorem without_hint_2M (k : Build) (prot pa : Nat) :
    without_hint (leaf_desc k prot pa SZ_2M) = leaf_desc k prot pa SZ_2M := by
  rw [leaf_desc_2M]
  exact without_hint_of_lt _ (plain_desc_lt k prot pa FLSL_BLOCK_MASK 1 (by decide) (by decide))

/-- The page descriptors for `pa` and for `pa + x * 4 KiB` differ in their
address field. -/
theorem page_desc_ne (k : Build) (prot pa x : Nat) (hpa : pa % SZ_64K = 0) (hx : x < 16)
    (h0 : 0 < x) : leaf_desc k prot pa SZ_4K ≠ leaf_desc k prot (pa + x * SZ_4K) SZ_4K := by
  intro e
  have f1 := (leaf_fields k prot pa TL_PAGE_MASK 3 (by decide) (Or.inr rfl)).2.2.2.2.2
  have f2 := (leaf_fields k prot (pa + x * SZ_4K) TL_PAGE_MASK 3 (by decide)
    (Or.inr rfl)).2.2.2.2.2
  rw [← leaf_desc_4K] at f1 f2
  rw [e, f2] at f1
  have g := congrArg (fun z => z % 2 ^ 16) f1
  simp only [land_mod_two_pow] at g
  have m : TL_PAGE_MASK % 2 ^ 16 = 0xF000 := by decide
  have e1 : (pa + x * SZ_4K) % 2 ^ 16 = x * 4096 := by simp only [SZ_64K, SZ_4K] at *; omega
  have e2 : pa % 2 ^ 16 = 0 := by simp only [SZ_64K] at *; omega
  have e3 : ∀ y < 16, (y * 4096) &&& 0xF000 = y * 4096 := by decide
  rw [m, e1, e2, e3 x hx, Nat.zero_and] at g
  omega

/-- The block descriptors for `pa` and for `pa + x * 2 MiB` differ in their
address field. -/
theorem block_desc_ne (k : Build) (prot pa x : Nat) (hpa : pa % SZ_32M = 0) (hx : x < 16)
    (h0 : 0 < x) : leaf_desc k prot pa SZ_2M ≠ leaf_desc k prot (pa + x * SZ_2M) SZ_2M := by
  intro e
  have f1 := (leaf_fields k prot pa FLSL_BLOCK_MASK 1 (by decide) (Or.inl rfl)).2.2.2.2.2
  have f2 := (leaf_fields k prot (pa + x * SZ_2M) FLSL_BLOCK_MASK 1 (by decide)
    (Or.inl rfl)).2.2.2.2.2
  rw [← leaf_desc_2M] at f1 f2
  rw [e, f2] at f1
  have g := congrArg (fun z => z % 2 ^ 25) f1
  simp only [land_mod_two_pow] at g
  have m : FLSL_BLOCK_MASK % 2 ^ 25 = 0x1E00000 := by decide
  have e1 : (pa + x * SZ_2M) % 2 ^ 25 = x * 2097152 := by simp only [SZ_32M, SZ_2M] at *; omega
  have e2 : pa % 2 ^ 25 = 0 := by simp only [SZ_32M] at *; omega
  have e3 : ∀ y < 16, (y * 2097152) &&& 0x1E00000 = y * 2097152 := by decide
  rw [m, e1, e2, e3 x hx, Nat.zero_and] at g
  omega

theorem offsets_run_sl (va x : Nat) (hva : va % SZ_32M = 0) (hx : x < 16) :
    FL_OFFSET (va + x * SZ_2M) = FL_OFFSET va ∧ SL_OFFSET (va + x * SZ_2M) = SL_OFFSET va + x := by
  simp only [FL_OFFSET_eq, SL_OFFSET_eq, SZ_32M, SZ_2M] at *
  omega

end MsmLpae

namespace MsmLpae

/-! ## The frames of a contiguous group -/

/-- Claim C11, as the code has it: the sixteen descriptors of a contiguous group
all carry the frame `pa`. On a table with a root: for `va` and `pa` aligned to
64 KiB under a linked third-level table whose 16 target slots are `Empty`, the
64 KiB mapping and the sixteen 4 KiB mappings of `va + x * 4 KiB` to
`pa + x * 4 KiB` both succeed and leave every slot outside the group equal; in
the group, slot `x` holds the same 64 KiB descriptor for every `x`, which
without the hint is the page descriptor for `pa`, while the sixteen mappings
leave the page descriptor for `pa + x * 4 KiB`; so for every `x` from 1 to 15
the two tables differ at slot `x` in more than the hint. The same holds for
32 MiB against sixteen 2 MiB mappings under a linked second-level table. -/
theorem contiguous_group_repeats_frame (k : Build) (s : PtState) (va pa prot : Nat)
    (hroot : s.fl_table ≠ 0) :
    (va % SZ_64K = 0 → pa % SZ_64K = 0 → linksTl s (FL_OFFSET va) (SL_OFFSET va) →
      (∀ x < 16, s.mem (.pg (tl_of s (FL_OFFSET va) (SL_OFFSET va)) (TL_OFFSET va + x)) = 0) →
      (msm_iommu_pagetable_map k s va pa SZ_64K prot).1 = 0 ∧
      (map_chunks k prot s (pieces va pa SZ_4K)).1 = 0 ∧
      (∀ q, (∀ x < 16, q ≠ .pg (tl_of s (FL_OFFSET va) (SL_OFFSET va)) (TL_OFFSET va + x)) →
        (msm_iommu_pagetable_map k s va pa SZ_64K prot).2.mem q =
          (map_chunks k prot s (pieces va pa SZ_4K)).2.mem q) ∧
      (∀ x < 16,
        (msm_iommu_pagetable_map k s va pa SZ_64K prot).2.mem
          (.pg (tl_of s (FL_OFFSET va) (SL_OFFSET va)) (TL_OFFSET va + x)) =
          leaf_desc k prot pa SZ_64K ∧
        without_hint ((msm_iommu_pagetable_map k s va pa SZ_64K prot).2.mem
          (.pg (tl_of s (FL_OFFSET va) (SL_OFFSET va)) (TL_OFFSET va + x))) =
          leaf_desc k prot pa SZ_4K ∧
        (map_chunks k prot s (pieces va pa SZ_4K)).2.mem
          (.pg (tl_of s (FL_OFFSET va) (SL_OFFSET va)) (TL_OFFSET va + x)) =
          leaf_desc k prot (pa + x * SZ_4K) SZ_4K ∧
        (0 < x →
          without_hint ((msm_iommu_pagetable_map k s va pa SZ_64K prot).2.mem
            (.pg (tl_of s (FL_OFFSET va) (SL_OFFSET va)) (TL_OFFSET va + x))) ≠
          without_hint ((map_chunks k prot s (pieces va pa SZ_4K)).2.mem
            (.pg (tl_of s (FL_OFFSET va) (SL_OFFSET va)) (TL_OFFSET va + x)))))) ∧
    (va % SZ_32M = 0 → pa % SZ_32M = 0 → isTable (s.mem (.fl (FL_OFFSET va))) →
      (∀ x < 16, s.mem (.pg (sl_of s (FL_OFFSET va)) (SL_OFFSET va + x)) = 0) →
      (msm_iommu_pagetable_map k s va pa SZ_32M prot).1 = 0 ∧
      (map_chunks k prot s (pieces va pa SZ_2M)).1 = 0 ∧
      (∀ q, (∀ x < 16, q ≠ .pg (sl_of s (FL_OFFSET va)) (SL_OFFSET va + x)) →
        (msm_iommu_pagetable_map k s va pa SZ_32M prot).2.mem q =
          (map_chunks k prot s (pieces va pa SZ_2M)).2.mem q) ∧
      (∀ x < 16,
        (msm_iommu_pagetable_map k s va pa SZ_32M prot).2.mem
          (.pg (sl_of s (FL_OFFSET va)) (SL_OFFSET va + x)) = leaf_desc k prot pa SZ_32M ∧
        without_hint ((msm_iommu_pagetable_map k s va pa SZ_32M prot).2.mem
          (.pg (sl_of s (FL_OFFSET va)) (SL_OFFSET va + x))) = leaf_desc k prot pa SZ_2M ∧
        (map_chunks k prot s (pieces va pa SZ_2M)).2.mem
          (.pg (sl_of s (FL_OFFSET va)) (SL_OFFSET va + x)) =
          leaf_desc k prot (pa + x * SZ_2M) SZ_2M ∧
        (0 < x →
          without_hint ((msm_iommu_pagetable_map k s va pa SZ_32M prot).2.mem
            (.pg (sl_of s (FL_OFFSET va)) (SL_OFFSET va + x))) ≠
          without_hint ((map_chunks k prot s (pieces va pa SZ_2M)).2.mem
            (.pg (sl_of s (FL_OFFSET va)) (SL_OFFSET va + x)))))) := by
  constructor
  · intro hva hpa hl hz
    have hoff : ∀ x < 16, FL_OFFSET (va + x * SZ_4K) = FL_OFFSET va ∧
        SL_OFFSET (va + x * SZ_4K) = SL_OFFSET va ∧
        TL_OFFSET (va + x * SZ_4K) = TL_OFFSET va + x := by
      intro x hx
      obtain ⟨_, _, a, b, c⟩ := offsets_run_tl va SZ_64K x (Or.inl rfl) hva hx
      exact ⟨a, b, c⟩
    have h64 := map_L3_in_table k s va pa SZ_64K prot (Or.inl rfl) hroot hl hz
    have hn : run_len SZ_64K = 16 := rfl
    rw [hn] at h64
    obtain ⟨r1, _, _, r4, r5⟩ := map_chunks_pages k prot (FL_OFFSET va) (SL_OFFSET va)
      (pieces va pa SZ_4K) s hroot hl
      (by
        intro c hc
        obtain ⟨x, hx, e⟩ := (mem_pieces va pa SZ_4K c).1 hc
        subst e
        obtain ⟨a, b, c⟩ := hoff x hx
        refine ⟨rfl, a, b, ?_⟩
        show s.mem (.pg _ (TL_OFFSET (va + x * SZ_4K))) = 0
        rw [c]
        exact hz x hx)
      (pieces_nodup va pa SZ_4K TL_OFFSET (fun x hx => (hoff x hx).2.2))
    have hslot : ∀ x < 16, (msm_iommu_pagetable_map k s va pa SZ_64K prot).2.mem
        (.pg (tl_of s (FL_OFFSET va) (SL_OFFSET va)) (TL_OFFSET va + x)) =
        leaf_desc k prot pa SZ_64K := by
      intro x hx
      rw [h64, write_run_pg, if_pos ⟨rfl, by omega, by omega⟩]
    have h16 : ∀ x < 16, (map_chunks k prot s (pieces va pa SZ_4K)).2.mem
        (.pg (tl_of s (FL_OFFSET va) (SL_OFFSET va)) (TL_OFFSET va + x)) =
        leaf_desc k prot (pa + x * SZ_4K) SZ_4K := by
      intro x hx
      have := r4 ⟨va + x * SZ_4K, pa + x * SZ_4K, SZ_4K⟩
        ((mem_pieces va pa SZ_4K _).2 ⟨x, hx, rfl⟩)
      rw [show TL_OFFSET (Chunk.mk (va + x * SZ_4K) (pa + x * SZ_4K) SZ_4K).va =
        TL_OFFSET va + x from (hoff x hx).2.2] at this
      exact this
    refine ⟨by rw [h64], r1, ?_, ?_⟩
    · intro q hq
      rw [r5 q (by
        intro c hc
        obtain ⟨x, hx, e⟩ := (mem_pieces va pa SZ_4K c).1 hc
        subst e
        show q ≠ .pg _ (TL_OFFSET (va + x * SZ_4K))
        rw [(hoff x hx).2.2]
        exact hq x hx)]
      rw [h64, write_run_mem, if_neg]
      rintro ⟨x, hx, e⟩
      exact hq x hx e
    · intro x hx
      refine ⟨hslot x hx, by rw [hslot x hx, without_hint_64K], h16 x hx, ?_⟩
      intro h0
      rw [hslot x hx, h16 x hx, without_hint_64K, without_hint_4K]
      exact page_desc_ne k prot pa x hpa hx h0
  · intro hva hpa hT hz
    have hoff : ∀ x < 16, FL_OFFSET (va + x * SZ_2M) = FL_OFFSET va ∧
        SL_OFFSET (va + x * SZ_2M) = SL_OFFSET va + x :=
      fun x hx => offsets_run_sl va x hva hx
    have h32 := map_L2_in_table k s va pa SZ_32M prot (Or.inl rfl) hroot hT hz
    have hn : run_len SZ_32M = 16 := rfl
    rw [hn] at h32
    obtain ⟨r1, _, _, r4, r5⟩ := map_chunks_blocks k prot (FL_OFFSET va)
      (pieces va pa SZ_2M) s hroot hT
      (by
        intro c hc
        obtain ⟨x, hx, e⟩ := (mem_pieces va pa SZ_2M c).1 hc
        subst e
        obtain ⟨a, b⟩ := hoff x hx
        refine ⟨rfl, a, ?_⟩
        show s.mem (.pg _ (SL_OFFSET (va + x * SZ_2M))) = 0
        rw [b]
        exact hz x hx)
      (pieces_nodup va pa SZ_2M SL_OFFSET (fun x hx => (hoff x hx).2))
    have hslot : ∀ x < 16, (msm_iommu_pagetable_map k s va pa SZ_32M prot).2.mem
        (.pg (sl_of s (FL_OFFSET va)) (SL_OFFSET va + x)) = leaf_desc k prot pa SZ_32M := by
      intro x hx
      rw [h32, write_run_pg, if_pos ⟨rfl, by omega, by omega⟩]
    have h16 : ∀ x < 16, (map_chunks k prot s (pieces va pa SZ_2M)).2.mem
        (.pg (sl_of s (FL_OFFSET va)) (SL_OFFSET va + x)) =
        leaf_desc k prot (pa + x * SZ_2M) SZ_2M := by
      intro x hx
      have := r4 ⟨va + x * SZ_2M, pa + x * SZ_2M, SZ_2M⟩
        ((mem_pieces va pa SZ_2M _).2 ⟨x, hx, rfl⟩)
      rw [show SL_OFFSET (Chunk.mk (va + x * SZ_2M) (pa + x * SZ_2M) SZ_2M).va =
        SL_OFFSET va + x from (hoff x hx).2] at this
      exact this
    refine ⟨by rw [h32], r1, ?_, ?_⟩
    · intro q hq
      rw [r5 q (by
        intro c hc
        obtain ⟨x, hx, e⟩ := (mem_pieces va pa SZ_2M c).1 hc
        subst e
        show q ≠ .pg _ (SL_OFFSET (va + x * SZ_2M))
        rw [(hoff x hx).2]
        exact hq x hx)]
      rw [h32, write_run_mem, if_neg]
      rintro ⟨x, hx, e⟩
      exact hq x hx e
    · intro x hx
      refine ⟨hslot x hx, by rw [hslot x hx, without_hint_32M], h16 x hx, ?_⟩
      intro h0
      rw [hslot x hx, h16 x hx, without_hint_32M, without_hint_2M]
      exact block_desc_ne k prot pa x hpa hx h0

/-- An instance for C11: the 64 KiB group at `0x10000` in the table that maps
one page at 0, mapped to `0x10000`. Its second slot holds frame `0x10000` with
the hint, where the sixteen single mappings leave frame `0x11000`. -/
theorem contiguous_group_repeats_frame_witness :
    without_hint ((msm_iommu_pagetable_map k0 pt_4K 0x10000 0x10000 SZ_64K 3).2.mem
        (.pg (tl_of pt_4K (FL_OFFSET 0x10000) (SL_OFFSET 0x10000)) (TL_OFFSET 0x10000 + 1))) ≠
      without_hint ((map_chunks k0 3 pt_4K (pieces 0x10000 0x10000 SZ_4K)).2.mem
        (.pg (tl_of pt_4K (FL_OFFSET 0x10000) (SL_OFFSET 0x10000)) (TL_OFFSET 0x10000 + 1))) ∧
    (msm_iommu_pagetable_map k0 pt_4K 0x10000 0x10000 SZ_64K 3).2.mem (.pg 0x80001000 17) =
      0x10000000010C47 ∧
    leaf_desc k0 3 (0x10000 + 1 * SZ_4K) SZ_4K = 0x11C47 :=
  ⟨(((contiguous_group_repeats_frame k0 pt_4K 0x10000 0x10000 3 (by decide)).1 (by decide)
      (by decide) (by decide) (by decide)).2.2.2 1 (by decide)).2.2.2 (by decide),
    by decide, by decide⟩

end MsmLpae

namespace MsmLpae

/-! ## The walk over a covered range that wraps at 4 GiB

The offsets of the table walk only look at the low 32 bits of an address, so a
range `[lo, hi)` with `hi` above 4 GiB stands for a range that wraps. -/

theorem u32_lt (x : Nat) : u32 x < 2 ^ 32 := Nat.mod_lt _ (by decide)

theorem u32_idem (x : Nat) : u32 (u32 x) = u32 x := by
  unfold u32; omega

theorem u32_of_lt {x : Nat} (h : x < 2 ^ 32) : u32 x = x := by
  unfold u32; omega

theorem u32_add_u32 (a x : Nat) : u32 (a + u32 x) = u32 (a + x) := by
  unfold u32; omega

/-- What a pass of the loop does depends on `len` and `offset` only through
what is left to unmap, and it adds the same number of bytes to the address and
to the offset. -/
theorem unmap_body_shape (s : PtState) (p left : Nat) (hp : p < 2 ^ 32) :
    (∀ L O, unmap_body s p L O = .ret s) ∨
    ∃ s1 X, X < 2 ^ 32 ∧ ∀ L O, O < 2 ^ 32 → L - O = left →
      unmap_body s p L O = .again s1 (u32 (p + X)) (u32 (O + X)) := by
  by_cases h0 : s.mem (.fl (FL_OFFSET p)) = 0
  · left
    intro L O
    exact unmap_body_empty s p L O h0
  right
  by_cases hB : isBlock (s.mem (.fl (FL_OFFSET p)))
  · refine ⟨write s (.fl (FL_OFFSET p)) 0, SZ_1G, by decide, fun L O _ _ => ?_⟩
    exact unmap_body_fl_block s p L O hB
  by_cases hT : isTable (s.mem (.fl (FL_OFFSET p)))
  swap
  · refine ⟨s, 0, by decide, fun L O hO _ => ?_⟩
    rw [unmap_body_fl_stuck s p L O h0 hB hT, Nat.add_zero, Nat.add_zero, u32_of_lt hp,
      u32_of_lt hO]
  by_cases hB2 : isBlock (s.mem (.pg (sl_of s (FL_OFFSET p)) (SL_OFFSET p)))
  · refine ⟨unmap_sl_run s p left, u32 (sl_entries p left * SZ_2M), u32_lt _, fun L O _ hL => ?_⟩
    rw [unmap_body_sl_block s p L O hT hB2, hL]
  by_cases hT2 : isTable (s.mem (.pg (sl_of s (FL_OFFSET p)) (SL_OFFSET p)))
  · refine ⟨unmap_tl_run s p left, u32 (tl_entries p left * SZ_4K), u32_lt _, fun L O _ hL => ?_⟩
    rw [unmap_body_sl_table s p L O hT hT2, hL]
  · refine ⟨s, 0, by decide, fun L O hO _ => ?_⟩
    rw [unmap_body_sl_stuck s p L O hT hB2 hT2, Nat.add_zero, Nat.add_zero, u32_of_lt hp,
      u32_of_lt hO]

theorem sl_entries_top (p left : Nat) (hp : p < 2 ^ 32) (hal : p % SZ_2M = 0)
    (h : 2 ^ 32 ≤ p + left) : sl_entries p left = 512 - SL_OFFSET p := by
  have := SL_OFFSET_eq p
  unfold sl_entries
  simp only [NUM_TL_PTE, SZ_2M] at *
  split <;> omega

theorem tl_entries_top (p left : Nat) (hp : p < 2 ^ 32) (hal : p % SZ_4K = 0)
    (h : 2 ^ 32 ≤ p + left) : tl_entries p left = 512 - TL_OFFSET p := by
  have := TL_OFFSET_eq p
  unfold tl_entries
  simp only [NUM_TL_PTE, SZ_4K] at *
  split <;> omega

/-- At a position where a leaf starts, a pass does the same for any two
numbers of bytes left that both reach 4 GiB: the run it clears ends with the
table. -/
theorem unmap_body_top (s : PtState) (p left1 left2 : Nat) (lf : Leaf) (hp : p < 2 ^ 32)
    (hw : walk s p = some lf) (hal : p ≤ p / lf.span * lf.span)
    (h1 : 2 ^ 32 ≤ p + left1) (h2 : 2 ^ 32 ≤ p + left2) :
    unmap_body s p left1 0 = unmap_body s p left2 0 := by
  rcases walk_some_cases s p lf hw with ⟨hB, hlf⟩ | ⟨hT, hB2, hlf⟩ | ⟨hT, hT2, _, hlf⟩ <;>
    subst hlf
  · rw [unmap_body_fl_block s p left1 0 hB, unmap_body_fl_block s p left2 0 hB]
  · have hal2 : p % SZ_2M = 0 := by
      have hal' : p ≤ p / SZ_2M * SZ_2M := hal
      simp only [SZ_2M] at *
      omega
    have e1 := sl_entries_top p left1 hp hal2 h1
    have e2 := sl_entries_top p left2 hp hal2 h2
    have er : unmap_sl_run s p left1 = unmap_sl_run s p left2 := by
      unfold unmap_sl_run
      rw [e1, e2]
    rw [unmap_body_sl_block s p left1 0 hT hB2, unmap_body_sl_block s p left2 0 hT hB2,
      Nat.sub_zero, Nat.sub_zero, er, e1, e2]
  · have hal2 : p % SZ_4K = 0 := by
      have hal' : p ≤ p / SZ_4K * SZ_4K := hal
      simp only [SZ_4K] at *
      omega
    have e1 := tl_entries_top p left1 hp hal2 h1
    have e2 := tl_entries_top p left2 hp hal2 h2
    have er : unmap_tl_run s p left1 = unmap_tl_run s p left2 := by
      unfold unmap_tl_run
      rw [e1, e2]
    rw [unmap_body_sl_table s p left1 0 hT hT2, unmap_body_sl_table s p left2 0 hT hT2,
      Nat.sub_zero, Nat.sub_zero, er, e1, e2]

/-- A pass of the loop over `[p0, p0 + m)`, a covered range that does not wrap,
inside a walk of `L` bytes that has done `O` of them and has at least as much
left as there is of the range: when the walk has exactly that much left, or
the range ends at 4 GiB, the pass is the pass of the walk over the range
alone. -/
theorem unmap_body_segment (s : PtState) (p0 m L off O : Nat) (hs : Tree s)
    (h32 : p0 + m ≤ 2 ^ 32) (hm : m < 2 ^ 32) (hL : L < 2 ^ 32) (hlt : off < m)
    (hO : O + (m - off) ≤ L) (hex : L - O = m - off ∨ p0 + m = 2 ^ 32)
    (hcov : Covered s (p0 + off) (p0 + m)) :
    ∃ s1 d, SZ_4K ≤ d ∧ off + d ≤ m ∧
      unmap_body s (p0 + off) L O = .again s1 (u32 (p0 + (off + d))) (O + d) ∧
      Cleared s s1 ∧
      (∀ a lf, a < 2 ^ 32 → walk s a = some lf → leaf_outside lf a p0 m →
        walk s1 a = some lf) ∧
      (∀ a, p0 + off ≤ a → a < p0 + off + d → walk s1 a = none) ∧
      Covered s1 (p0 + (off + d)) (p0 + m) := by
  have hp : p0 + off < 2 ^ 32 := by omega
  obtain ⟨s1, d, va1, hd, hle, hb, _, hc, hnone, hcov1⟩ :=
    unmap_body_covered s p0 m off hs hlt h32 hm hcov
  obtain ⟨s1', hb', _, hk, _, _⟩ := unmap_body_keeps s p0 m off hs hlt h32
  have hs1 : s1' = s1 := by
    rcases hb' with e | ⟨v, o, e, _⟩
    · rw [hb] at e; cases e
    · rw [hb] at e; cases e; rfl
  subst hs1
  refine ⟨s1', d, hd, hle, ?_, hc, hk, hnone, hcov1⟩
  -- the pass over the range alone, from offset 0
  rcases unmap_body_shape s (p0 + off) (m - off) hp with hret | ⟨t1, X, hX, hform⟩
  · rw [hret m off] at hb
    cases hb
  have f1 := hform m off (by omega) rfl
  rw [hb] at f1
  obtain ⟨e1, _, e3⟩ := Walk.again.inj f1
  subst e1
  have hXd : X = d := by
    unfold u32 at e3
    omega
  subst hXd
  have g0 := hform (m - off) 0 (Nat.two_pow_pos 32) rfl
  -- the pass of the whole walk
  rcases unmap_body_shape s (p0 + off) (L - O) hp with hret | ⟨t2, Y, hY, hform2⟩
  · exfalso
    have e : unmap_body s (p0 + off) (L - O) 0 = unmap_body s (p0 + off) (m - off) 0 := by
      rcases hex with e | e
      · rw [e]
      · obtain ⟨lf, hw, hlo, _⟩ := hcov (p0 + off) (le_refl _) (by omega)
        exact unmap_body_top s (p0 + off) _ _ lf hp hw hlo (by omega) (by omega)
    rw [hret, g0] at e
    cases e
  have g1 := hform2 (L - O) 0 (Nat.two_pow_pos 32) rfl
  have e : unmap_body s (p0 + off) (L - O) 0 = unmap_body s (p0 + off) (m - off) 0 := by
    rcases hex with e | e
    · rw [e]
    · obtain ⟨lf, hw, hlo, _⟩ := hcov (p0 + off) (le_refl _) (by omega)
      exact unmap_body_top s (p0 + off) _ _ lf hp hw hlo (by omega) (by omega)
  rw [g1, g0] at e
  obtain ⟨e1, _, e3⟩ := Walk.again.inj e
  subst e1
  have hYd : Y = X := by
    unfold u32 at e3
    omega
  subst hYd
  rw [hform2 L O (by omega) rfl, Nat.add_assoc]
  congr 1
  unfold u32
  omega

end MsmLpae

namespace MsmLpae

/-! ## The walk over a covered range returns, wrapped or not -/

theorem unmap_loop_done (L k : Nat) (s : PtState) (va off : Nat) (h : ¬ off < L) :
    unmap_loop L k s va off = some s := by
  cases k <;> simp [unmap_loop, h]

/-- The walk only looks at the low 32 bits of the address. -/
theorem walk_wrap (s : PtState) (a : Nat) : walk s (a + 2 ^ 32) = walk s a := by
  have e1 : FL_OFFSET (a + 2 ^ 32) = FL_OFFSET a := by
    rw [FL_OFFSET_eq, FL_OFFSET_eq]; omega
  have e2 : SL_OFFSET (a + 2 ^ 32) = SL_OFFSET a := by
    rw [SL_OFFSET_eq, SL_OFFSET_eq]; omega
  have e3 : TL_OFFSET (a + 2 ^ 32) = TL_OFFSET a := by
    rw [TL_OFFSET_eq, TL_OFFSET_eq]; omega
  unfold walk
  rw [e1, e2, e3]

theorem walk_u32 (s : PtState) (a : Nat) : walk s (u32 a) = walk s a := by
  have e1 : FL_OFFSET (u32 a) = FL_OFFSET a := by
    rw [FL_OFFSET_eq, FL_OFFSET_eq]; unfold u32; omega
  have e2 : SL_OFFSET (u32 a) = SL_OFFSET a := by
    rw [SL_OFFSET_eq, SL_OFFSET_eq]; unfold u32; omega
  have e3 : TL_OFFSET (u32 a) = TL_OFFSET a := by
    rw [TL_OFFSET_eq, TL_OFFSET_eq]; unfold u32; omega
  unfold walk
  rw [e1, e2, e3]

/-- The passes of a walk of `L` bytes over `[p0, p0 + m)`, a covered range
that does not wrap: they clear the range, keep the leaves outside it, and
leave the walk at the end of the range. -/
theorem unmap_loop_segment (p0 m L : Nat) (h32 : p0 + m ≤ 2 ^ 32) (hm : m < 2 ^ 32)
    (hL : L < 2 ^ 32) :
    ∀ (fuel : Nat) (s : PtState) (off O : Nat), Tree s → off ≤ m → O + (m - off) ≤ L →
      (L - O = m - off ∨ p0 + m = 2 ^ 32) → Covered s (p0 + off) (p0 + m) →
      m ≤ off + fuel * SZ_4K →
      ∃ n s2, n ≤ fuel ∧ off + n * SZ_4K ≤ m ∧
        (∀ k, unmap_loop L (n + k) s (u32 (p0 + off)) O =
          unmap_loop L k s2 (u32 (p0 + m)) (O + (m - off))) ∧
        Cleared s s2 ∧
        (∀ a lf, a < 2 ^ 32 → walk s a = some lf → leaf_outside lf a p0 m →
          walk s2 a = some lf) := by
  intro fuel
  induction fuel with
  | zero =>
    intro s off O _ hle _ _ _ hf
    have e : off = m := by omega
    subst e
    refine ⟨0, s, le_refl _, by omega, fun k => ?_, cleared_refl s, fun _ _ _ h _ => h⟩
    rw [Nat.zero_add, Nat.sub_self, Nat.add_zero]
  | succ n ih =>
    intro s off O hs hle hO hex hcov hf
    by_cases hlt : off < m
    swap
    · have e : off = m := by omega
      subst e
      refine ⟨0, s, Nat.zero_le _, by omega, fun k => ?_, cleared_refl s, fun _ _ _ h _ => h⟩
      rw [Nat.zero_add, Nat.sub_self, Nat.add_zero]
    obtain ⟨s1, d, hd, hle1, hbody, hc, hk, _, hcov1⟩ :=
      unmap_body_segment s p0 m L off O hs h32 hm hL hlt hO hex hcov
    obtain ⟨n1, s2, hn1, hn1b, hrun, hc2, hk2⟩ := ih s1 (off + d) (O + d) (tree_cleared hs hc)
      hle1 (by omega) (by omega) hcov1 (by simp only [SZ_4K] at *; omega)
    refine ⟨n1 + 1, s2, by omega, by simp only [SZ_4K] at *; omega, fun k => ?_,
      cleared_trans hc hc2, fun a lf ha hw ho => hk2 a lf ha (hk a lf ha hw ho) ho⟩
    have hOL : O < L := by omega
    have hp : u32 (p0 + off) = p0 + off := u32_of_lt (by omega)
    have e1 : n1 + 1 + k = (n1 + k) + 1 := by omega
    have e2 : O + d + (m - (off + d)) = O + (m - off) := by omega
    rw [e1, hp]
    simp only [unmap_loop, hOL, if_true, hbody]
    rw [hrun k, e2]

/-- A leaf found below 4 GiB ends below 4 GiB. -/
theorem leaf_below_top (s : PtState) (a : Nat) (lf : Leaf) (ha : a < 2 ^ 32)
    (hw : walk s a = some lf) : a / lf.span * lf.span + lf.span ≤ 2 ^ 32 := by
  rcases walk_span s a lf hw with e | e | e <;> rw [e]
  · simp only [SZ_1G]; omega
  · simp only [SZ_2M]; omega
  · simp only [SZ_4K]; omega

theorem leaf_shift (s : PtState) (a : Nat) (lf : Leaf) (hw : walk s a = some lf) :
    (a + 2 ^ 32) / lf.span * lf.span = a / lf.span * lf.span + 2 ^ 32 := by
  rcases walk_span s a lf hw with e | e | e <;> rw [e]
  · simp only [SZ_1G]; omega
  · simp only [SZ_2M]; omega
  · simp only [SZ_4K]; omega

/-- The walk of `msm_iommu_pagetable_unmap_range` over a covered range returns
when it may make one pass for each page, also when the range wraps at
4 GiB. -/
theorem unmap_covered_returns (s : PtState) (va L fuel : Nat) (hs : Tree s)
    (hva : va < 2 ^ 32) (hL : L < 2 ^ 32) (hcov : Covered s va (va + L))
    (hfuel : L ≤ fuel * SZ_4K) :
    ∃ s2, unmap_loop L fuel s va 0 = some s2 ∧ Cleared s s2 := by
  by_cases h32 : va + L ≤ 2 ^ 32
  · obtain ⟨s2, h, hc, _⟩ := unmap_loop_covered va L h32 hL fuel s 0 va hs (Nat.zero_le _)
      (fun _ => rfl) (by omega) (by rw [Nat.add_zero]; exact hcov)
    exact ⟨s2, h, hc⟩
  -- the part below 4 GiB
  have hcov1 : Covered s (va + 0) (va + (2 ^ 32 - va)) := by
    intro a h1 h2
    obtain ⟨lf, hw, b1, b2⟩ := hcov a (by omega) (by omega)
    exact ⟨lf, hw, by omega, by
      have := leaf_below_top s a lf (by omega) hw
      omega⟩
  obtain ⟨n1, s2, hn1, hn1b, hrun1, hc1, hk1⟩ := unmap_loop_segment va (2 ^ 32 - va) L
    (by omega) (by omega) hL fuel s 0 0 hs (Nat.zero_le _) (by omega) (Or.inr (by omega))
    hcov1 (by omega)
  -- the part from address 0 on
  have hcov2 : Covered s2 (0 + 0) (0 + (L - (2 ^ 32 - va))) := by
    intro a h1 h2
    obtain ⟨lf, hw, b1, b2⟩ := hcov (a + 2 ^ 32) (by omega) (by omega)
    rw [walk_wrap] at hw
    rw [leaf_shift s a lf hw] at b1 b2
    refine ⟨lf, hk1 a lf (by omega) hw ?_, by omega, by omega⟩
    unfold leaf_outside
    left
    omega
  obtain ⟨n2, s3, hn2, _, hrun2, hc2, _⟩ := unmap_loop_segment 0 (L - (2 ^ 32 - va)) L
    (by omega) (by omega) hL (fuel - n1) s2 0 (2 ^ 32 - va) (tree_cleared hs hc1)
    (Nat.zero_le _) (by omega) (Or.inl (by omega)) hcov2
    (by simp only [SZ_4K] at *; omega)
  refine ⟨s3, ?_, cleared_trans hc1 hc2⟩
  have e1 : fuel = n1 + (n2 + (fuel - n1 - n2)) := by omega
  have hv : u32 (va + 0) = va := u32_of_lt (by omega)
  have hz : u32 (va + (2 ^ 32 - va)) = 0 := by
    unfold u32
    omega
  have hz0 : u32 (0 + 0) = 0 := by
    unfold u32
    omega
  have h1 := hrun1 (n2 + (fuel - n1 - n2))
  rw [hv, hz, Nat.zero_add, Nat.sub_zero] at h1
  have h2 := hrun2 (fuel - n1 - n2)
  rw [hz0] at h2
  have hg : unmap_loop L fuel s va 0 =
      unmap_loop L (n1 + (n2 + (fuel - n1 - n2))) s va 0 := by
    rw [← e1]
  rw [hg, h1, h2]
  exact unmap_loop_done L _ s3 _ _ (by omega)

end MsmLpae

namespace MsmLpae

/-! ## The chunks of a scatter list -/

theorem seg_chunks_nothing (k : Build) (n va pa : Nat) : seg_chunks k n va pa 0 = [] := by
  cases n <;> simp [seg_chunks]

theorem seg_chunks_cons (k : Build) (n va pa left : Nat) (h : left ≠ 0) :
    seg_chunks k (n + 1) va pa left =
      ⟨va, pa, chunk_size va pa left⟩ ::
        seg_chunks k n (u32 (va + chunk_size va pa left))
          (phys_addr_t k (pa + chunk_size va pa left)) (left - chunk_size va pa left) := by
  simp [seg_chunks, h]

/-- With one unit of fuel for each page that is left, the chunks of a segment
do not depend on the fuel. -/
theorem seg_chunks_fuel (k : Build) :
    ∀ (n m va pa left : Nat), left % SZ_4K = 0 → va % SZ_4K = 0 → left / SZ_4K ≤ n →
      left / SZ_4K ≤ m → seg_chunks k n va pa left = seg_chunks k m va pa left := by
  intro n
  induction n with
  | zero =>
    intro m va pa left hl _ hn _
    have : left = 0 := by simp only [SZ_4K] at *; omega
    subst this
    rw [seg_chunks_nothing, seg_chunks_nothing]
  | succ n ih =>
    intro m va pa left hl hva hn hm
    by_cases h0 : left = 0
    · subst h0
      rw [seg_chunks_nothing, seg_chunks_nothing]
    · have h4 : SZ_4K ≤ left := by simp only [SZ_4K] at *; omega
      obtain ⟨m1, rfl⟩ : ∃ m1, m = m1 + 1 := ⟨m - 1, by simp only [SZ_4K] at *; omega⟩
      obtain ⟨_, _, hcle, hc4, hcm⟩ := chunk_size_ok va pa left hva h4
      rw [seg_chunks_cons k n va pa left h0, seg_chunks_cons k m1 va pa left h0]
      congr 1
      apply ih
      · simp only [SZ_4K] at *; omega
      · unfold u32; simp only [SZ_4K] at *; omega
      · simp only [SZ_4K] at *; omega
      · simp only [SZ_4K] at *; omega

theorem aligned_fits_32 (va G : Nat) (hG : G ∈ granules) (hva : va % G = 0)
    (h : va < 2 ^ 32) : va + G ≤ 2 ^ 32 := by
  simp only [granules, List.mem_cons, List.mem_singleton, List.not_mem_nil, or_false] at hG
  rcases hG with e | e | e | e | e <;> subst e
  · simp only [SZ_1G] at *; omega
  · simp only [SZ_32M] at *; omega
  · simp only [SZ_2M] at *; omega
  · simp only [SZ_64K] at *; omega
  · simp only [SZ_4K] at *; omega

/-- What was mapped so far stays covered, and the chunk just mapped is covered
too; the range may wrap at 4 GiB. -/
theorem covered_extend (s M : PtState) (va0 off c p : Nat) (hp : p = u32 (va0 + off))
    (hc32 : p + c ≤ 2 ^ 32) (hoc : off + c < 2 ^ 32)
    (hframe : ∀ a, a < 2 ^ 32 → (a < p ∨ p + c ≤ a) → walk M a = walk s a)
    (hcovM : Covered M p (p + c)) (hcov : Covered s va0 (va0 + off)) :
    Covered M va0 (va0 + (off + c)) := by
  intro x h1 h2
  by_cases h3 : x < va0 + off
  · obtain ⟨lf, hw, b1, b2⟩ := hcov x h1 h3
    refine ⟨lf, ?_, b1, by omega⟩
    rw [← walk_u32 M x, hframe (u32 x) (u32_lt x) (by
      rw [hp]
      unfold u32
      omega), walk_u32]
    exact hw
  · have hx : u32 x = p + (x - (va0 + off)) := by
      unfold u32 at hp ⊢
      omega
    obtain ⟨lf, hw, b1, b2⟩ := hcovM (u32 x) (by omega) (by omega)
    refine ⟨lf, by rw [← walk_u32 M x]; exact hw, ?_, ?_⟩ <;>
      rcases walk_span M _ lf hw with e | e | e <;> rw [e] at b1 b2 ⊢
    all_goals
      unfold u32 at hp hx b1 b2
      simp only [SZ_1G, SZ_2M, SZ_4K] at *
      omega

end MsmLpae

namespace MsmLpae

/-! ## The mapping loop against repeated single mapping -/

theorem map_chunks_nil (k : Build) (prot : Nat) (s : PtState) :
    map_chunks k prot s [] = (0, s) := rfl

theorem map_chunks_cons (k : Build) (prot : Nat) (s : PtState) (c : Chunk) (rest : List Chunk) :
    map_chunks k prot s (c :: rest) =
      if (msm_iommu_pagetable_map k s c.va c.pa c.size prot).1 ≠ 0 then
        msm_iommu_pagetable_map k s c.va c.pa c.size prot
      else map_chunks k prot (msm_iommu_pagetable_map k s c.va c.pa c.size prot).2 rest := rfl

/-- The invariant of the mapping loop on a scatter list of segments that hold
bytes: what the loop still does is what repeated single mapping does for the
chunks that are left, the state stays well formed and what was mapped so far
is covered. With enough fuel the loop is left. The range may wrap at 4 GiB. -/
theorem map_range_loop_chunks (k : Build) (prot va0 len : Nat) (hva0 : va0 % SZ_4K = 0)
    (hlen32 : len < 2 ^ 32) :
    ∀ (fuel : Nat) (v : RangeVars) (cs : List Chunk), WellFormed v.s → v.offset ≤ len →
      v.offset % SZ_4K = 0 → v.va = u32 (va0 + v.offset) →
      ((v.offset < len ∧ ∃ sg rest, v.sg = sg :: rest ∧ v.chunk_offset < sg.length ∧
          v.chunk_offset ≤ v.offset ∧ v.chunk_offset % SZ_4K = 0 ∧ sg_pages (sg :: rest) ∧
          (sg.length - v.chunk_offset) + sg_total rest = len - v.offset ∧
          cs = seg_chunks k ((sg.length - v.chunk_offset) / SZ_4K + 1) v.va v.pa
              (sg.length - v.chunk_offset) ++
            greedy_chunks k (u32 (v.va + (sg.length - v.chunk_offset))) rest) ∨
        (v.offset = len ∧ cs = [])) →
      Covered v.s va0 (va0 + v.offset) →
      len ≤ v.offset + fuel * SZ_4K →
      ∃ ret v1, map_range_loop k len (__get_attr k prot).1 (__get_attr k prot).2 fuel v =
          some (ret, v1) ∧
        (ret, v1.s) = map_chunks k prot v.s cs ∧
        WellFormed v1.s ∧ v1.offset ≤ len ∧ v1.offset % SZ_4K = 0 ∧
        Covered v1.s va0 (va0 + v1.offset) := by
  intro fuel
  induction fuel with
  | zero =>
    intro v cs hwf hle hmod _ hcs hcov hf
    have hge : ¬ v.offset < len := by omega
    rcases hcs with ⟨hlt, _⟩ | ⟨_, e⟩
    · exact absurd hlt hge
    · subst e
      exact ⟨0, v, by simp [map_range_loop, hge], rfl, hwf, hle, hmod, hcov⟩
  | succ n ih =>
    intro v cs hwf hle hmod hva hcs hcov hf
    rcases hcs with ⟨hlt, sg, rest, hsg, hco, hcoo, hcom, hpages, hsum, hcsdef⟩ | ⟨he, e⟩
    swap
    · subst e
      have hge : ¬ v.offset < len := by omega
      exact ⟨0, v, by simp [map_range_loop, hge], rfl, hwf, hle, hmod, hcov⟩
    obtain ⟨_, hsgm, hsgpos⟩ := hpages sg (List.mem_cons_self _ _)
    have hcl : u32 (sg.length + 2 ^ 32 - v.chunk_offset) = sg.length - v.chunk_offset := by
      unfold u32; omega
    have hcl4 : SZ_4K ≤ sg.length - v.chunk_offset := by simp only [SZ_4K] at *; omega
    have hvam : v.va % SZ_4K = 0 := by
      rw [hva]; unfold u32; simp only [SZ_4K] at *; omega
    have hva32 : v.va < 2 ^ 32 := by rw [hva]; exact u32_lt _
    obtain ⟨hcG, hcva, hcle, hc4, hcm⟩ :=
      chunk_size_ok v.va v.pa (sg.length - v.chunk_offset) hvam hcl4
    have hbody := map_range_body_eq k v len prot sg rest hsg hwf.root (by rw [hcl]; exact hcG)
    rw [hcl] at hbody
    have hleft0 : sg.length - v.chunk_offset ≠ 0 := by simp only [SZ_4K] at *; omega
    rw [seg_chunks_cons k _ v.va v.pa _ hleft0] at hcsdef
    generalize hcdef : chunk_size v.va v.pa (sg.length - v.chunk_offset) = c at *
    have hin : v.va + c ≤ 2 ^ 32 := aligned_fits_32 v.va c hcG hcva hva32
    obtain ⟨hwfM, hfail, hsucc⟩ := map_step k v.s v.va v.pa c prot hwf hcG hcva hin
    subst hcsdef
    rw [List.cons_append, map_chunks_cons]
    dsimp only
    generalize msm_iommu_pagetable_map k v.s v.va v.pa c prot = M at hwfM hfail hsucc hbody ⊢
    by_cases hr : M.1 = 0
    swap
    · rw [if_pos hr] at hbody
      rw [if_pos hr]
      refine ⟨M.1, { v with s := M.2 }, ?_, rfl, hwfM, hle, hmod, ?_⟩
      · simp only [map_range_loop, hlt, if_true, hbody]
      · exact covered_congr v.s M.2 _ _ (fun a _ _ => hfail hr a) hcov
    rw [if_neg (not_not.2 hr)] at hbody
    rw [if_neg (not_not.2 hr)]
    obtain ⟨hout, hcovM⟩ := hsucc hr
    have eo : u32 (v.offset + c) = v.offset + c := by unfold u32; omega
    have eco : u32 (v.chunk_offset + c) = v.chunk_offset + c := by unfold u32; omega
    rw [eo, eco] at hbody
    have hcov1 : Covered M.2 va0 (va0 + (v.offset + c)) :=
      covered_extend v.s M.2 va0 v.offset c v.va hva hin (by omega) hout hcovM hcov
    have hf1 : len ≤ (v.offset + c) + n * SZ_4K := by simp only [SZ_4K] at *; omega
    have hmod1 : (v.offset + c) % SZ_4K = 0 := by simp only [SZ_4K] at *; omega
    have hle1 : v.offset + c ≤ len := by omega
    have hva1 : u32 (v.va + c) = u32 (va0 + (v.offset + c)) := by
      rw [hva]; unfold u32; omega
    by_cases hnext : v.chunk_offset + c ≥ sg.length ∧ v.offset + c < len
    · rw [if_pos hnext] at hbody
      have hdone : sg.length - v.chunk_offset - c = 0 := by omega
      have hcc : c = sg.length - v.chunk_offset := by omega
      cases hrest : rest with
      | nil =>
        exfalso
        rw [hrest, sg_total_nil] at hsum
        omega
      | cons sg1 rest1 =>
        rw [hrest] at hbody hsum hpages
        rw [sg_total_cons] at hsum
        have hp1 := sg_pages_tail sg (sg1 :: rest1) hpages
        obtain ⟨_, _, hpos1'⟩ := hp1 sg1 (List.mem_cons_self _ _)
        obtain ⟨ret, v1, hrun, hpost⟩ := ih
          ⟨M.2, sg1 :: rest1, u32 (v.va + c), get_phys_addr sg1, v.offset + c, 0⟩
          (seg_chunks k (sg1.length / SZ_4K + 1) (u32 (v.va + c)) (get_phys_addr sg1)
              sg1.length ++
            greedy_chunks k (u32 (u32 (v.va + c) + sg1.length)) rest1)
          hwfM hle1 hmod1 hva1
          (Or.inl ⟨hnext.2, sg1, rest1, rfl, hpos1', Nat.zero_le _, rfl, hp1, by
              show sg1.length - 0 + sg_total rest1 = len - (v.offset + c)
              omega, rfl⟩)
          hcov1 hf1
        refine ⟨ret, v1, ?_, ?_⟩
        · simp only [map_range_loop, hlt, if_true, hbody]
          exact hrun
        · rw [hdone, seg_chunks_nothing, List.nil_append, ← hcc]
          exact hpost
    · rw [if_neg hnext] at hbody
      by_cases hend : v.offset + c < len
      · -- the segment goes on
        have hmore : v.chunk_offset + c < sg.length := by omega
        obtain ⟨ret, v1, hrun, hpost⟩ := ih
          ⟨M.2, sg :: rest, u32 (v.va + c), phys_addr_t k (v.pa + c), v.offset + c,
            v.chunk_offset + c⟩
          (seg_chunks k ((sg.length - (v.chunk_offset + c)) / SZ_4K + 1) (u32 (v.va + c))
              (phys_addr_t k (v.pa + c)) (sg.length - (v.chunk_offset + c)) ++
            greedy_chunks k (u32 (u32 (v.va + c) + (sg.length - (v.chunk_offset + c)))) rest)
          hwfM hle1 hmod1 hva1
          (Or.inl ⟨hend, sg, rest, rfl, hmore, by
              show v.chunk_offset + c ≤ v.offset + c
              omega, by
              show (v.chunk_offset + c) % SZ_4K = 0
              simp only [SZ_4K] at *; omega, hpages, by
              show sg.length - (v.chunk_offset + c) + sg_total rest = len - (v.offset + c)
              omega, rfl⟩)
          hcov1 hf1
        refine ⟨ret, v1, ?_, ?_⟩
        · simp only [map_range_loop, hlt, if_true, hbody]
          exact hrun
        · have e1 : sg.length - v.chunk_offset - c = sg.length - (v.chunk_offset + c) := by omega
          have e2 : u32 (u32 (v.va + c) + (sg.length - (v.chunk_offset + c))) =
              u32 (v.va + (sg.length - v.chunk_offset)) := by
            unfold u32; omega
          have e3 := seg_chunks_fuel k ((sg.length - v.chunk_offset) / SZ_4K)
            ((sg.length - (v.chunk_offset + c)) / SZ_4K + 1) (u32 (v.va + c))
            (phys_addr_t k (v.pa + c))
            (sg.length - (v.chunk_offset + c)) (by simp only [SZ_4K] at *; omega)
            (by unfold u32; simp only [SZ_4K] at *; omega)
            (by simp only [SZ_4K] at *; omega) (by omega)
          rw [e1, e3, ← e2]
          exact hpost
      · -- the last chunk
        have hoff : v.offset + c = len := by omega
        have hdone : sg.length - v.chunk_offset - c = 0 := by omega
        have hrest : rest = [] := by
          cases hrest : rest with
          | nil => rfl
          | cons sg1 rest1 =>
            exfalso
            rw [hrest] at hsum hpages
            rw [sg_total_cons] at hsum
            obtain ⟨_, _, hpos1⟩ := sg_pages_tail sg (sg1 :: rest1) hpages sg1
              (List.mem_cons_self _ _)
            omega
        obtain ⟨ret, v1, hrun, hpost⟩ := ih
          ⟨M.2, sg :: rest, u32 (v.va + c), phys_addr_t k (v.pa + c), v.offset + c,
            v.chunk_offset + c⟩ []
          hwfM hle1 hmod1 hva1 (Or.inr ⟨hoff, rfl⟩) hcov1 hf1
        refine ⟨ret, v1, ?_, ?_⟩
        · simp only [map_range_loop, hlt, if_true, hbody]
          exact hrun
        · rw [hdone, seg_chunks_nothing, List.nil_append, hrest]
          exact hpost

end MsmLpae

namespace MsmLpae

/-! ## Range mapping is repeated single mapping -/

/-- Claim C18, amended: `msm_iommu_pagetable_map_range` is repeated single
mapping. For a well-formed state, a 32-bit `va` that is 4 KiB-aligned, a
scatter list (not empty) of 4 KiB-aligned segments whose lengths are multiples
of 4 KiB, not zero, and sum to the 32-bit `len`, the call returns when it is
given more fuel than the range has pages, and it returns the code that
`map_chunks` returns: calling `msm_iommu_pagetable_map` once for each greedily
chosen chunk, in order, up to the first call that fails. So it returns 0 if and
only if every one of these calls succeeds, it returns the error code of the
first failing call otherwise, and when it returns 0 the state it leaves is the
state that the calls leave. The range may wrap at 4 GiB. -/
theorem map_range_is_repeated_map (k : Build) (s : PtState) (va : Nat) (sg : List scatterlist)
    (len prot fuel : Nat) (hwf : WellFormed s) (hsg : sg_pages sg) (hne : sg ≠ [])
    (htot : sg_total sg = len) (hva : va % SZ_4K = 0) (hva32 : va < 2 ^ 32)
    (hlen32 : len < 2 ^ 32) (hfuel : len / SZ_4K < fuel) :
    ∃ ret s1, msm_iommu_pagetable_map_range k fuel s va sg len prot = some (ret, s1) ∧
      ret = (map_chunks k prot s (greedy_chunks k va sg)).1 ∧
      (ret = 0 ↔ (map_chunks k prot s (greedy_chunks k va sg)).1 = 0) ∧
      (ret = 0 → s1 = (map_chunks k prot s (greedy_chunks k va sg)).2) := by
  have hlenmod : len % SZ_4K = 0 := by rw [← htot]; exact sg_total_mod sg hsg
  have hand : ∀ n, n % SZ_4K = 0 → n &&& (SZ_4K - 1) = 0 := by
    intro n hn
    show n &&& (2 ^ 12 - 1) = 0
    rw [Nat.and_pow_two_sub_one_eq_mod]
    exact hn
  have hfuel2 : len ≤ fuel * SZ_4K := by simp only [SZ_4K] at *; omega
  cases sg with
  | nil => exact absurd rfl hne
  | cons sg0 rest0 =>
    obtain ⟨_, _, hpos0⟩ := hsg sg0 (List.mem_cons_self _ _)
    rw [sg_total_cons] at htot
    obtain ⟨ret, v1, hrun, heq, hwf1, hle1, hmod1, hcov1⟩ :=
      map_range_loop_chunks k prot va len hva hlen32 fuel
        ⟨s, sg0 :: rest0, va, get_phys_addr sg0, 0, 0⟩ (greedy_chunks k va (sg0 :: rest0))
        hwf (Nat.zero_le _) rfl
        (by
          show va = u32 (va + 0)
          rw [Nat.add_zero, u32_of_lt hva32])
        (Or.inl ⟨by
            show 0 < len
            omega, sg0, rest0, rfl, hpos0, le_refl _, rfl, hsg, by
            show sg0.length - 0 + sg_total rest0 = len - 0
            omega, rfl⟩)
        (fun a h1 h2 => by
          have h2' : a < va + 0 := h2
          omega)
        (by show len ≤ 0 + fuel * SZ_4K; omega)
    have hret : ret = (map_chunks k prot s (greedy_chunks k va (sg0 :: rest0))).1 :=
      congrArg Prod.fst heq
    have hst : v1.s = (map_chunks k prot s (greedy_chunks k va (sg0 :: rest0))).2 :=
      congrArg Prod.snd heq
    unfold msm_iommu_pagetable_map_range
    simp only [hand len hlenmod, ne_eq, not_true_eq_false, if_false, hwf.root, hrun]
    by_cases hc : ret ≠ 0 ∧ v1.offset > 0
    · obtain ⟨s2, hloop, _⟩ := unmap_covered_returns v1.s va v1.offset fuel hwf1.tree hva32
        (by omega) hcov1 (by omega)
      have hu : __msm_iommu_pagetable_unmap_range fuel v1.s va v1.offset 1 = some s2 := by
        unfold __msm_iommu_pagetable_unmap_range
        simp only [hand v1.offset hmod1, ne_eq, not_true_eq_false, if_false]
        exact hloop
      refine ⟨ret, s2, ?_, hret, by rw [hret], fun h => absurd h hc.1⟩
      simp only [hc, ne_eq, not_false_eq_true, gt_iff_lt, and_self, if_true, hu]
    · refine ⟨ret, v1.s, ?_, hret, by rw [hret], fun _ => hst⟩
      rw [if_neg hc]

set_option maxRecDepth 100000 in
/-- An instance of C18: two pages at `0x1FF000`, across the end of a
third-level table, on a fresh table. -/
theorem map_range_is_repeated_map_witness :
    greedy_chunks k0 0x1FF000 [⟨0, 0x5000, 0x2000⟩] =
      [⟨0x1FF000, 0x5000, 0x1000⟩, ⟨0x200000, 0x6000, 0x1000⟩] ∧
    (msm_iommu_pagetable_map_range k0 3 (fresh_pt pool3) 0x1FF000 [⟨0, 0x5000, 0x2000⟩]
      0x2000 3).map Prod.fst = some 0 ∧
    ∃ ret s1, msm_iommu_pagetable_map_range k0 3 (fresh_pt pool3) 0x1FF000
        [⟨0, 0x5000, 0x2000⟩] 0x2000 3 = some (ret, s1) ∧
      ret = (map_chunks k0 3 (fresh_pt pool3)
        (greedy_chunks k0 0x1FF000 [⟨0, 0x5000, 0x2000⟩])).1 ∧
      (ret = 0 ↔ (map_chunks k0 3 (fresh_pt pool3)
        (greedy_chunks k0 0x1FF000 [⟨0, 0x5000, 0x2000⟩])).1 = 0) ∧
      (ret = 0 → s1 = (map_chunks k0 3 (fresh_pt pool3)
        (greedy_chunks k0 0x1FF000 [⟨0, 0x5000, 0x2000⟩])).2) :=
  ⟨by decide, by decide,
    map_range_is_repeated_map k0 (fresh_pt pool3) 0x1FF000 [⟨0, 0x5000, 0x2000⟩] 0x2000 3 3
      wf_fresh_pool3 (by decide) (List.cons_ne_nil _ _) (by decide) (by decide) (by norm_num)
      (by norm_num) (by decide)⟩

set_option maxRecDepth 100000 in
/-- Claim C18 as stated fails for a segment of length 0. The scatter list
`sg_empty_head` has 4 KiB-aligned segments whose lengths, 0 and 4 KiB, are
multiples of 4 KiB and sum to 4 KiB. Its only chunk is the page of the second
segment, at physical address `0x9000`, and mapping that chunk succeeds with the
page descriptor for `0x9000`. Range mapping at virtual address 0 of a fresh
table returns 0 too, but has mapped the page to `0x5000`, the address of the
segment that holds no bytes. For the list without segments, of 0 bytes, there
is no chunk and nothing to fail, while range mapping reads the address of the
first segment before its loop and does not return. -/
theorem map_range_maps_empty_segment :
    WellFormed (fresh_pt pool3) ∧
    (∀ x ∈ sg_empty_head, get_phys_addr x % SZ_4K = 0 ∧ x.length % SZ_4K = 0) ∧
    sg_total sg_empty_head = 0x1000 ∧
    greedy_chunks k0 0 sg_empty_head = [⟨0, 0x9000, 0x1000⟩] ∧
    ((map_chunks k0 3 (fresh_pt pool3) (greedy_chunks k0 0 sg_empty_head)).1,
      (map_chunks k0 3 (fresh_pt pool3) (greedy_chunks k0 0 sg_empty_head)).2.mem
        (.pg 0x80001000 0)) = (0, 0x9C47) ∧
    (msm_iommu_pagetable_map_range k0 2 (fresh_pt pool3) 0 sg_empty_head 0x1000 3).map
      (fun r => (r.1, r.2.mem (.pg 0x80001000 0))) = some (0, 0x5C47) ∧
    sg_total [] = 0 ∧
    (map_chunks k0 3 (fresh_pt pool3) (greedy_chunks k0 0 [])).1 = 0 ∧
    ∀ fuel, msm_iommu_pagetable_map_range k0 fuel (fresh_pt pool3) 0 [] 0 3 = none :=
  ⟨wf_fresh_pool3, by decide, by decide, by decide, by decide, by decide, rfl, rfl,
    fun _ => rfl⟩

end MsmLpae

namespace MsmLpae

/-! ## The leaf encoding of a single-descriptor map -/

/-- Claim C17: the leaf encoding of a successful single-descriptor map. With
`lower` the lower attributes of `__get_attr`: a successful map of 1 GiB leaves
`(pa & 0xFFC0000000) | lower | 1` in first-level slot `FL_OFFSET va`; a
successful map of 2 MiB leaves a table link in that slot and
`(pa & 0xFFFFE00000) | lower | 1` in slot `SL_OFFSET va` of the linked table; a
successful map of 4 KiB leaves table links at the first and second level and
`(pa & 0xFFFFFFF000) | lower | 3` in slot `TL_OFFSET va` of the third-level
table. For each of the three address masks and both type values, the address
field, the attributes and the type share no bit, the descriptor is not zero,
its type bits read back and its address field reads back as the masked `pa`.
Such maps do succeed: on a table with a root, the map of 1 GiB when its
first-level slot is `Empty`, the map of 2 MiB when its second-level slot, in a
linked table, is `Empty`, and the map of 4 KiB when its third-level slot, in a
linked table, is `Empty`. -/
theorem leaf_encoding (k : Build) (s : PtState) (va pa prot : Nat) :
    ((msm_iommu_pagetable_map k s va pa SZ_1G prot).1 = 0 →
      (msm_iommu_pagetable_map k s va pa SZ_1G prot).2.mem (.fl (FL_OFFSET va)) =
        (pa &&& 0xFFC0000000) ||| (__get_attr k prot).2 ||| 1) ∧
    ((msm_iommu_pagetable_map k s va pa SZ_2M prot).1 = 0 →
      isTable ((msm_iommu_pagetable_map k s va pa SZ_2M prot).2.mem (.fl (FL_OFFSET va))) ∧
      (msm_iommu_pagetable_map k s va pa SZ_2M prot).2.mem
        (.pg (sl_of (msm_iommu_pagetable_map k s va pa SZ_2M prot).2 (FL_OFFSET va))
          (SL_OFFSET va)) = (pa &&& 0xFFFFE00000) ||| (__get_attr k prot).2 ||| 1) ∧
    ((msm_iommu_pagetable_map k s va pa SZ_4K prot).1 = 0 →
      linksTl (msm_iommu_pagetable_map k s va pa SZ_4K prot).2 (FL_OFFSET va) (SL_OFFSET va) ∧
      (msm_iommu_pagetable_map k s va pa SZ_4K prot).2.mem
        (.pg (tl_of (msm_iommu_pagetable_map k s va pa SZ_4K prot).2 (FL_OFFSET va)
          (SL_OFFSET va)) (TL_OFFSET va)) =
        (pa &&& 0xFFFFFFF000) ||| (__get_attr k prot).2 ||| 3) ∧
    (∀ m ∈ [0xFFC0000000, 0xFFFFE00000, 0xFFFFFFF000], ∀ ty ∈ [1, 3],
      (pa &&& m) &&& (__get_attr k prot).2 = 0 ∧ (pa &&& m) &&& 3 = 0 ∧
      (__get_attr k prot).2 &&& 3 = 0 ∧
      (pa &&& m) ||| (__get_attr k prot).2 ||| ty ≠ 0 ∧
      ((pa &&& m) ||| (__get_attr k prot).2 ||| ty) &&& 3 = ty ∧
      ((pa &&& m) ||| (__get_attr k prot).2 ||| ty) &&& m = pa &&& m) ∧
    (s.fl_table ≠ 0 → s.mem (.fl (FL_OFFSET va)) = 0 →
      (msm_iommu_pagetable_map k s va pa SZ_1G prot).1 = 0) ∧
    (s.fl_table ≠ 0 → isTable (s.mem (.fl (FL_OFFSET va))) →
      s.mem (.pg (sl_of s (FL_OFFSET va)) (SL_OFFSET va)) = 0 →
      (msm_iommu_pagetable_map k s va pa SZ_2M prot).1 = 0) ∧
    (s.fl_table ≠ 0 → linksTl s (FL_OFFSET va) (SL_OFFSET va) →
      s.mem (.pg (tl_of s (FL_OFFSET va) (SL_OFFSET va)) (TL_OFFSET va)) = 0 →
      (msm_iommu_pagetable_map k s va pa SZ_4K prot).1 = 0) := by
  refine ⟨?_, ?_, ?_, ?_, ?_, ?_, ?_⟩
  · intro h
    rw [(map_ok_1G k s va pa prot h).2, write_mem, if_pos rfl, leaf_desc_1G]
    rfl
  · intro h
    obtain ⟨h1, h2⟩ := map_2M_readback k s va pa prot h
    refine ⟨h1, ?_⟩
    rw [h2, leaf_desc_2M]
    rfl
  · intro h
    obtain ⟨h1, h2⟩ := map_4K_readback k s va pa prot h
    refine ⟨h1, ?_⟩
    rw [h2, leaf_desc_4K]
    rfl
  · intro m hm ty hty
    apply leaf_fields k prot pa m ty
    · simp only [List.mem_cons, List.mem_singleton, List.not_mem_nil, or_false] at hm
      rcases hm with e | e | e <;> rw [e] <;> decide
    · simp only [List.mem_cons, List.mem_singleton, List.not_mem_nil, or_false] at hty
      exact hty
  · intro hr h0
    rw [map_1G_empty k s va pa prot hr h0]
  · intro hr hT h0
    rw [map_L2_in_table k s va pa SZ_2M prot (Or.inr rfl) hr hT (fun x hx => by
      have hn : run_len SZ_2M = 1 := rfl
      rw [hn] at hx
      have : x = 0 := by omega
      rw [this, Nat.add_zero]
      exact h0)]
  · intro hr hl h0
    rw [map_L3_in_table k s va pa SZ_4K prot (Or.inr rfl) hr hl (fun x hx => by
      have hn : run_len SZ_4K = 1 := rfl
      rw [hn] at hx
      have : x = 0 := by omega
      rw [this, Nat.add_zero]
      exact h0)]

set_option maxRecDepth 100000 in
/-- Instances of C17 on a fresh table, readable, writable and cacheable: a
1 GiB block at virtual address 1 GiB for physical address 2 GiB, descriptor
`0x80000F5D` in first-level slot 1; a 2 MiB block at virtual address 2 MiB for
physical address 6 MiB, descriptor `0x600F5D` in slot 1 of the second-level
table in page `0x80000000`; and a 4 KiB page at `0x1000` for `0x9000`,
descriptor `0x9F5F` in slot 1 of the third-level table in page
`0x80001000`. -/
theorem leaf_encoding_witness :
    ((msm_iommu_pagetable_map k0 (fresh_pt pool3) 0x40000000 0x80000000 SZ_1G 7).1 = 0 ∧
      (msm_iommu_pagetable_map k0 (fresh_pt pool3) 0x40000000 0x80000000 SZ_1G 7).2.mem
        (.fl 1) = 0x80000F5D ∧
      (msm_iommu_pagetable_map k0 (fresh_pt pool3) 0x40000000 0x80000000 SZ_1G 7).2.mem
        (.fl (FL_OFFSET 0x40000000)) =
          (0x80000000 &&& 0xFFC0000000) ||| (__get_attr k0 7).2 ||| 1) ∧
    ((msm_iommu_pagetable_map k0 (fresh_pt pool3) 0x200000 0x600000 SZ_2M 7).1 = 0 ∧
      (msm_iommu_pagetable_map k0 (fresh_pt pool3) 0x200000 0x600000 SZ_2M 7).2.mem
        (.fl 0) = 0x80000003 ∧
      (msm_iommu_pagetable_map k0 (fresh_pt pool3) 0x200000 0x600000 SZ_2M 7).2.mem
        (.pg 0x80000000 1) = 0x600F5D ∧
      (isTable ((msm_iommu_pagetable_map k0 (fresh_pt pool3) 0x200000 0x600000 SZ_2M 7).2.mem
          (.fl (FL_OFFSET 0x200000))) ∧
        (msm_iommu_pagetable_map k0 (fresh_pt pool3) 0x200000 0x600000 SZ_2M 7).2.mem
          (.pg (sl_of (msm_iommu_pagetable_map k0 (fresh_pt pool3) 0x200000 0x600000 SZ_2M 7).2
            (FL_OFFSET 0x200000)) (SL_OFFSET 0x200000)) =
          (0x600000 &&& 0xFFFFE00000) ||| (__get_attr k0 7).2 ||| 1)) ∧
    ((msm_iommu_pagetable_map k0 (fresh_pt pool3) 0x1000 0x9000 SZ_4K 7).1 = 0 ∧
      (msm_iommu_pagetable_map k0 (fresh_pt pool3) 0x1000 0x9000 SZ_4K 7).2.mem
        (.pg 0x80000000 0) = 0x80001003 ∧
      (msm_iommu_pagetable_map k0 (fresh_pt pool3) 0x1000 0x9000 SZ_4K 7).2.mem
        (.pg 0x80001000 1) = 0x9F5F ∧
      (linksTl (msm_iommu_pagetable_map k0 (fresh_pt pool3) 0x1000 0x9000 SZ_4K 7).2
          (FL_OFFSET 0x1000) (SL_OFFSET 0x1000) ∧
        (msm_iommu_pagetable_map k0 (fresh_pt pool3) 0x1000 0x9000 SZ_4K 7).2.mem
          (.pg (tl_of (msm_iommu_pagetable_map k0 (fresh_pt pool3) 0x1000 0x9000 SZ_4K 7).2
            (FL_OFFSET 0x1000) (SL_OFFSET 0x1000)) (TL_OFFSET 0x1000)) =
          (0x9000 &&& 0xFFFFFFF000) ||| (__get_attr k0 7).2 ||| 3)) ∧
    (msm_iommu_pagetable_map k0 (fresh_pt pool3) 0x40000000 0x80000000 SZ_1G 7).1 = 0 :=
  ⟨⟨by decide, by decide,
      (leaf_encoding k0 (fresh_pt pool3) 0x40000000 0x80000000 7).1 (by decide)⟩,
    ⟨by decide, by decide, by decide,
      (leaf_encoding k0 (fresh_pt pool3) 0x200000 0x600000 7).2.1 (by decide)⟩,
    ⟨by decide, by decide, by decide,
      (leaf_encoding k0 (fresh_pt pool3) 0x1000 0x9000 7).2.2.1 (by decide)⟩,
    (leaf_encoding k0 (fresh_pt pool3) 0x40000000 0x80000000 7).2.2.2.2.1 (by decide) rfl⟩

end MsmLpae

namespace MsmLpae

/-! ## Unmapping across two second-level tables -/

theorem wf_pt_two_tables : WellFormed pt_two_tables :=
  (map_step k0 _ 0x40200000 0x40200000 SZ_2M 3
    (map_step k0 _ 0x40000000 0x40000000 SZ_2M 3
      (map_step k0 (fresh_pt pool3) 0x3FE00000 0x3FE00000 SZ_2M 3 wf_fresh_pool3
        (by simp [granules]) (by decide) (by decide)).1
      (by simp [granules]) (by decide) (by decide)).1
    (by simp [granules]) (by decide) (by decide)).1

set_option maxRecDepth 100000 in
/-- An instance of C8 where the range spans two second-level tables. In
`pt_two_tables` the table in page `0x80000000`, linked from first-level slot 0,
holds one 2 MiB block at `0x3FE00000`, and the table in page `0x80001000`,
linked from first-level slot 1, holds 2 MiB blocks at `0x40000000` and at
`0x40200000`. Unmapping the 4 MiB at `0x3FE00000` takes two passes: the first
clears slot 511 of the first table, which is empty then and is freed, its link
cleared; the second clears slot 0 of the second table, which stays in use. The
block at `0x40200000`, outside the range, is found in its slot with its value
`0x40200C45` in every state of the walk and on return. -/
theorem unmap_range_keeps_siblings_witness :
    WellFormed pt_two_tables ∧ 0x400000 % SZ_4K = 0 ∧ 0x3FE00000 + 0x400000 ≤ 2 ^ 32 ∧
    observe pt_two_tables = ([0x80000003, 0x80001003, 0, 0], [0x80001000, 0x80000000]) ∧
    (pt_two_tables.mem (.pg 0x80000000 511), pt_two_tables.mem (.pg 0x80001000 0)) =
      (0x3FE00C45, 0x40000C45) ∧
    walk pt_two_tables 0x40200000 = some ⟨SZ_2M, .pg 0x80001000 1, 0x40200C45⟩ ∧
    leaf_outside ⟨SZ_2M, .pg 0x80001000 1, 0x40200C45⟩ 0x40200000 0x3FE00000 0x400000 ∧
    (msm_iommu_pagetable_unmap_range 2 pt_two_tables 0x3FE00000 0x400000).map
      (fun s2 => (observe s2, s2.mem (.pg 0x80001000 0), s2.mem (.pg 0x80001000 1),
        walk s2 0x3FE00000, walk s2 0x40000000)) =
      some (([0, 0x80001003, 0, 0], [0x80001000]), 0, 0x40200C45, none, none) ∧
    ((∀ n, walk (unmap_trace 0x400000 n pt_two_tables 0x3FE00000 0) 0x40200000 =
        some ⟨SZ_2M, .pg 0x80001000 1, 0x40200C45⟩) ∧
      (∀ fuel s2, msm_iommu_pagetable_unmap_range fuel pt_two_tables 0x3FE00000 0x400000 =
          some s2 → walk s2 0x40200000 = some ⟨SZ_2M, .pg 0x80001000 1, 0x40200C45⟩) ∧
      (∀ n p, p ∈ pt_two_tables.live →
        p ∉ (unmap_trace 0x400000 n pt_two_tables 0x3FE00000 0).live →
        ∀ j < NUM_TL_PTE, (unmap_trace 0x400000 n pt_two_tables 0x3FE00000 0).mem (.pg p j) =
          0)) :=
  ⟨wf_pt_two_tables, by decide, by decide, by decide, by decide, by decide, by decide,
    by decide,
    unmap_range_keeps_siblings pt_two_tables 0x3FE00000 0x400000 wf_pt_two_tables (by decide)
      (by decide) 0x40200000 ⟨SZ_2M, .pg 0x80001000 1, 0x40200C45⟩ (by decide) (by decide)
      (by decide)⟩

end MsmLpae

namespace MsmLpae

/-! ## A rollback that leaves a table behind -/

/-- A 2 MiB mapping under an `Empty` first-level slot, with a page frame at
hand: the second-level table is made and the block descriptor written. -/
theorem map_2M_alloc (k : Build) (s : PtState) (va pa prot p : Nat) (rest : List Nat)
    (hr : s.fl_table ≠ 0) (h0 : s.mem (.fl (FL_OFFSET va)) = 0) (hpool : s.pool = p :: rest)
    (hp : p ≠ 0) (hal : p &&& FLSL_BASE_MASK = p) :
    msm_iommu_pagetable_map k s va pa SZ_2M prot =
      (0, write (link_table s (.fl (FL_OFFSET va)) p) (.pg p (SL_OFFSET va))
        (leaf_desc k prot pa SZ_2M)) := by
  have hT : isTable ((link_table s (.fl (FL_OFFSET va)) p).mem (.fl (FL_OFFSET va))) := by
    rw [link_table_self]
    exact isTable_link p
  have hz : ∀ x < run_len SZ_2M, (link_table s (.fl (FL_OFFSET va)) p).mem
      (.pg (sl_of (link_table s (.fl (FL_OFFSET va)) p) (FL_OFFSET va)) (SL_OFFSET va + x)) =
        0 := by
    intro x hx
    have hn : run_len SZ_2M = 1 := rfl
    rw [hn] at hx
    have hx0 : x = 0 := by omega
    have hsl : sl_of (link_table s (.fl (FL_OFFSET va)) p) (FL_OFFSET va) = p :=
      follow_link s _ p hal
    have hlt : SL_OFFSET va < 512 := SL_OFFSET_lt va
    rw [hsl, hx0, Nat.add_zero, link_table_mem]
    simp [hlt]
  have hroot : (link_table s (.fl (FL_OFFSET va)) p).fl_table ≠ 0 := hr
  have h2 := map_L2_in_table k (link_table s (.fl (FL_OFFSET va)) p) va pa SZ_2M prot
    (Or.inr rfl) hroot hT hz
  have hn : run_len SZ_2M = 1 := rfl
  have hsl : sl_of (link_table s (.fl (FL_OFFSET va)) p) (FL_OFFSET va) = p :=
    follow_link s _ p hal
  rw [hn, write_run_one, hsl] at h2
  rw [← h2, map_of_valid k s va pa SZ_2M prot (by simp [granules]) hr,
    map_of_valid k _ va pa SZ_2M prot (by simp [granules]) hroot]
  dsimp only
  rw [handle_1st_lvl_alloc s _ pa _ _ SZ_2M p rest (by decide) h0 hpool hp,
    handle_1st_lvl_linked _ _ pa _ _ SZ_2M (by decide) hT]

/-- A 4 KiB mapping under an `Empty` slot of a linked second-level table, with
a page frame at hand: the third-level table is made and the page descriptor
written. -/
theorem map_4K_alloc (k : Build) (s : PtState) (va pa prot p : Nat) (rest : List Nat)
    (hr : s.fl_table ≠ 0) (hT : isTable (s.mem (.fl (FL_OFFSET va))))
    (h0 : s.mem (.pg (sl_of s (FL_OFFSET va)) (SL_OFFSET va)) = 0) (hpool : s.pool = p :: rest)
    (hp : p ≠ 0) (hal : p &&& FLSL_BASE_MASK = p) (hne : p ≠ sl_of s (FL_OFFSET va)) :
    msm_iommu_pagetable_map k s va pa SZ_4K prot =
      (0, write (link_table s (.pg (sl_of s (FL_OFFSET va)) (SL_OFFSET va)) p)
        (.pg p (TL_OFFSET va)) (leaf_desc k prot pa SZ_4K)) := by
  generalize hp2 : sl_of s (FL_OFFSET va) = p2 at h0 hne
  have hfl : (link_table s (.pg p2 (SL_OFFSET va)) p).mem (.fl (FL_OFFSET va)) =
      s.mem (.fl (FL_OFFSET va)) := link_table_fl s p2 _ _ p
  have hsl : sl_of (link_table s (.pg p2 (SL_OFFSET va)) p) (FL_OFFSET va) = p2 := by
    show (link_table s (.pg p2 (SL_OFFSET va)) p).mem (.fl (FL_OFFSET va)) &&&
      FLSL_BASE_MASK = p2
    rw [hfl]
    exact hp2
  have hT1 : isTable ((link_table s (.pg p2 (SL_OFFSET va)) p).mem (.fl (FL_OFFSET va))) := by
    rw [hfl]; exact hT
  have hT2 : isTable ((link_table s (.pg p2 (SL_OFFSET va)) p).mem
      (.pg p2 (SL_OFFSET va))) := by
    rw [link_table_self]
    exact isTable_link p
  have htl : tl_of (link_table s (.pg p2 (SL_OFFSET va)) p) (FL_OFFSET va) (SL_OFFSET va) =
      p := by
    show FOLLOW_TO_NEXT_TABLE _ (.pg (sl_of (link_table s (.pg p2 (SL_OFFSET va)) p)
      (FL_OFFSET va)) (SL_OFFSET va)) = p
    rw [hsl]
    exact follow_link s _ p hal
  have hl : linksTl (link_table s (.pg p2 (SL_OFFSET va)) p) (FL_OFFSET va) (SL_OFFSET va) :=
    ⟨hT1, by rw [hsl]; exact hT2⟩
  have hz : ∀ x < run_len SZ_4K, (link_table s (.pg p2 (SL_OFFSET va)) p).mem
      (.pg (tl_of (link_table s (.pg p2 (SL_OFFSET va)) p) (FL_OFFSET va) (SL_OFFSET va))
        (TL_OFFSET va + x)) = 0 := by
    intro x hx
    have hn : run_len SZ_4K = 1 := rfl
    rw [hn] at hx
    have hx0 : x = 0 := by omega
    have hlt : TL_OFFSET va < 512 := TL_OFFSET_lt va
    rw [htl, hx0, Nat.add_zero, link_table_mem]
    simp [hlt, hne]
  have hroot : (link_table s (.pg p2 (SL_OFFSET va)) p).fl_table ≠ 0 := hr
  have h2 := map_L3_in_table k _ va pa SZ_4K prot (Or.inr rfl) hroot hl hz
  have hn : run_len SZ_4K = 1 := rfl
  rw [hn, write_run_one, htl] at h2
  rw [← h2, map_of_valid k s va pa SZ_4K prot (by simp [granules]) hr,
    map_of_valid k _ va pa SZ_4K prot (by simp [granules]) hroot]
  dsimp only
  rw [handle_1st_lvl_linked s _ pa _ _ SZ_4K (by decide) hT,
    handle_1st_lvl_linked _ _ pa _ _ SZ_4K (by decide) hT1]
  have d2 : SZ_4K ≠ SZ_32M := by decide
  have d3 : SZ_4K ≠ SZ_2M := by decide
  simp only [ne_eq, not_true_eq_false, if_false, d2, d3, or_true, if_true]
  have hf1 : FOLLOW_TO_NEXT_TABLE s (.fl (FL_OFFSET va)) = p2 := hp2
  have hf2 : FOLLOW_TO_NEXT_TABLE (link_table s (.pg p2 (SL_OFFSET va)) p)
      (.fl (FL_OFFSET va)) = p2 := hsl
  rw [hf1, hf2, handle_3rd_lvl_eq, handle_3rd_lvl_eq,
    handle_1st_lvl_alloc s _ pa _ _ SZ_4K p rest (by decide) h0 hpool hp,
    handle_1st_lvl_linked _ _ pa _ _ SZ_4K (by decide) hT2]

/-- A 4 KiB mapping under an `Empty` slot of a linked second-level table when
the allocator has no page frame left: `-ENOMEM`, and the state is as it was. -/
theorem map_4K_no_page (k : Build) (s : PtState) (va pa prot : Nat)
    (hr : s.fl_table ≠ 0) (hT : isTable (s.mem (.fl (FL_OFFSET va))))
    (h0 : s.mem (.pg (sl_of s (FL_OFFSET va)) (SL_OFFSET va)) = 0) (hpool : s.pool = []) :
    msm_iommu_pagetable_map k s va pa SZ_4K prot = (-ENOMEM, s) := by
  have hg : __get_free_page s = (0, s) := by
    unfold __get_free_page
    rw [hpool]
  rw [map_of_valid k s va pa SZ_4K prot (by simp [granules]) hr]
  dsimp only
  rw [handle_1st_lvl_linked s _ pa _ _ SZ_4K (by decide) hT]
  have d2 : SZ_4K ≠ SZ_32M := by decide
  have d3 : SZ_4K ≠ SZ_2M := by decide
  simp only [ne_eq, not_true_eq_false, if_false, d2, d3, or_true, if_true]
  have h0' : s.mem (.pg (FOLLOW_TO_NEXT_TABLE s (.fl (FL_OFFSET va))) (SL_OFFSET va)) = 0 := h0
  rw [handle_3rd_lvl_oom s _ va pa _ _ SZ_4K h0' (by rw [hg]), hg]

end MsmLpae

namespace MsmLpae

/-! ## The passes of the mapping loop on `sg_block_pages` -/

/-- One pass of the mapping loop, given the chunk and what the single mapping
of the chunk returns. -/
theorem map_range_pass (k : Build) (v : RangeVars) (len prot c : Nat) (sg : scatterlist)
    (rest : List scatterlist) (r : Int) (t : PtState) (hsg : v.sg = sg :: rest)
    (hfl : v.s.fl_table ≠ 0)
    (hc : chunk_size v.va v.pa (u32 (sg.length + 2 ^ 32 - v.chunk_offset)) = c)
    (hcG : c ∈ granules) (hmap : msm_iommu_pagetable_map k v.s v.va v.pa c prot = (r, t)) :
    map_range_body k v len (__get_attr k prot).1 (__get_attr k prot).2 =
      if r ≠ 0 then some (.inl (r, { v with s := t }))
      else if u32 (v.chunk_offset + c) ≥ sg.length ∧ u32 (v.offset + c) < len then
        match rest with
        | [] => none
        | sg1 :: _ =>
          some (.inr ⟨t, rest, u32 (v.va + c), get_phys_addr sg1, u32 (v.offset + c), 0⟩)
      else
        some (.inr ⟨t, sg :: rest, u32 (v.va + c), phys_addr_t k (v.pa + c),
          u32 (v.offset + c), u32 (v.chunk_offset + c)⟩) := by
  have h := map_range_body_eq k v len prot sg rest hsg hfl (by rw [hc]; exact hcG)
  rw [hc, hmap] at h
  exact h

/-- Where the two addresses are not both 64 KiB-aligned the chunk is a page. -/
theorem chunk_size_4K (va pa cl : Nat) (h : va % 0x10000 ≠ 0 ∨ pa % 0x10000 ≠ 0) :
    chunk_size va pa cl = SZ_4K := by
  rcases chunk_size_cases va pa cl with ⟨f, _⟩ | ⟨_, f, _⟩ | ⟨_, _, f, _⟩ | ⟨_, _, _, f, _⟩ |
    ⟨_, _, _, _, e⟩
  · exfalso
    unfold Fits at f
    simp only [SZ_1G] at f
    omega
  · exfalso
    unfold Fits at f
    simp only [SZ_32M] at f
    omega
  · exfalso
    unfold Fits at f
    simp only [SZ_2M] at f
    omega
  · exfalso
    unfold Fits at f
    simp only [SZ_64K] at f
    omega
  · exact e

/-- The links that `BlockAndPages` fixes. -/
theorem block_and_pages_links (j : Nat) (s : PtState) (h : BlockAndPages j s) :
    isTable (s.mem (.fl 0)) ∧ sl_of s 0 = 0x80000000 ∧ isBlock (s.mem (.pg 0x80000000 0)) ∧
    linksTl s 0 1 ∧ tl_of s 0 1 = 0x80001000 := by
  obtain ⟨_, h0, _, hb, ht, _⟩ := h
  have e1 : sl_of s 0 = 0x80000000 := by
    show s.mem (.fl 0) &&& FLSL_BASE_MASK = 0x80000000
    rw [h0]
    decide
  have e2 : isTable (s.mem (.fl 0)) := by rw [h0]; decide
  have e3 : isTable (s.mem (.pg (sl_of s 0) 1)) := by rw [e1, ht]; decide
  refine ⟨e2, e1, by rw [hb]; decide, ⟨e2, e3⟩, ?_⟩
  show s.mem (.pg (sl_of s 0) 1) &&& FLSL_BASE_MASK = 0x80001000
  rw [e1, ht]
  decide

/-- Writing the descriptor of page `j` takes `BlockAndPages j` to
`BlockAndPages (j + 1)`. -/
theorem block_and_pages_write (j : Nat) (s : PtState) (h : BlockAndPages j s) :
    BlockAndPages (j + 1)
      (write s (.pg 0x80001000 j) (leaf_desc k0 3 (0x10001000 + j * 0x1000) SZ_4K)) := by
  obtain ⟨h1, h2, h3, h4, h5, h6, h7, h8, h9, h10⟩ := h
  refine ⟨h1, ?_, ?_, ?_, ?_, ?_, ?_, ?_, h9, h10⟩
  · rw [write_mem, if_neg (by simp)]; exact h2
  · intro i hi
    rw [write_mem, if_neg (by simp)]; exact h3 i hi
  · rw [write_mem, if_neg (by simp)]; exact h4
  · rw [write_mem, if_neg (by simp)]; exact h5
  · intro i hi
    rw [write_mem, if_neg (by simp)]; exact h6 i hi
  · intro i hi
    rw [write_mem]
    by_cases e : i = j
    · subst e
      rw [if_pos rfl]
    · rw [if_neg (by simp [e])]
      exact h7 i (by omega)
  · intro i hi
    rw [write_mem, if_neg (by simp; omega)]
    exact h8 i (by omega)

/-- The single mapping of page `j` of the second segment of `sg_block_pages`
writes one descriptor into the third-level table. -/
theorem page_map (j : Nat) (s : PtState) (va pa : Nat) (hj2 : j < 512)
    (hva : va = 0x200000 + j * 0x1000) (hpa : pa = 0x10001000 + j * 0x1000)
    (hs : BlockAndPages j s) :
    msm_iommu_pagetable_map k0 s va pa SZ_4K 3 =
      (0, write s (.pg 0x80001000 j) (leaf_desc k0 3 (0x10001000 + j * 0x1000) SZ_4K)) := by
  obtain ⟨hT, hsl, _, hl, htl⟩ := block_and_pages_links j s hs
  have hfl : FL_OFFSET va = 0 := by rw [hva, FL_OFFSET_eq]; omega
  have hslo : SL_OFFSET va = 1 := by rw [hva, SL_OFFSET_eq]; omega
  have htlo : TL_OFFSET va = j := by rw [hva, TL_OFFSET_eq]; omega
  have h8 : s.mem (.pg 0x80001000 j) = 0 := hs.2.2.2.2.2.2.2.1 j (le_refl _)
  have hl' : linksTl s (FL_OFFSET va) (SL_OFFSET va) := by rw [hfl, hslo]; exact hl
  have hz : ∀ x < run_len SZ_4K,
      s.mem (.pg (tl_of s (FL_OFFSET va) (SL_OFFSET va)) (TL_OFFSET va + x)) = 0 := by
    intro x hx
    have hn : run_len SZ_4K = 1 := rfl
    rw [hn] at hx
    have hx0 : x = 0 := by omega
    rw [hfl, hslo, htl, htlo, hx0, Nat.add_zero]
    exact h8
  have h := map_L3_in_table k0 s va pa SZ_4K 3 (Or.inr rfl) hs.1 hl' hz
  have hn : run_len SZ_4K = 1 := rfl
  rw [hn, write_run_one, hfl, hslo, htl, htlo, hpa] at h
  rw [hpa]
  exact h

/-- The pass of the mapping loop that maps page `j` of the second segment of
`sg_block_pages`. -/
theorem page_pass (j : Nat) (v : RangeVars) (rest : List scatterlist) (hj : 1 ≤ j)
    (hj2 : j < 512) (hsg : v.sg = ⟨0x10001000, 0, 0x200000⟩ :: rest)
    (hva : v.va = 0x200000 + j * 0x1000) (hpa : v.pa = 0x10001000 + j * 0x1000)
    (hoff : v.offset = 0x200000 + j * 0x1000) (hco : v.chunk_offset = j * 0x1000)
    (hs : BlockAndPages j v.s) :
    map_range_body k0 v 0x401000 (__get_attr k0 3).1 (__get_attr k0 3).2 =
      if 0x200000 ≤ (j + 1) * 0x1000 then
        match rest with
        | [] => none
        | sg1 :: _ =>
          some (.inr ⟨write v.s (.pg 0x80001000 j)
            (leaf_desc k0 3 (0x10001000 + j * 0x1000) SZ_4K), rest,
            0x200000 + (j + 1) * 0x1000, get_phys_addr sg1, 0x200000 + (j + 1) * 0x1000, 0⟩)
      else
        some (.inr ⟨write v.s (.pg 0x80001000 j)
          (leaf_desc k0 3 (0x10001000 + j * 0x1000) SZ_4K),
          ⟨0x10001000, 0, 0x200000⟩ :: rest, 0x200000 + (j + 1) * 0x1000,
          0x10001000 + (j + 1) * 0x1000, 0x200000 + (j + 1) * 0x1000, (j + 1) * 0x1000⟩) := by
  have hc : chunk_size v.va v.pa
      (u32 ((⟨0x10001000, 0, 0x200000⟩ : scatterlist).length + 2 ^ 32 - v.chunk_offset)) =
        SZ_4K := chunk_size_4K _ _ _ (by rw [hva, hpa]; omega)
  have hmap := page_map j v.s v.va v.pa hj2 hva hpa hs
  have hb := map_range_pass k0 v 0x401000 3 SZ_4K _ rest 0 _ hsg hs.1 hc (by simp [granules]) hmap
  have e1 : u32 (v.chunk_offset + SZ_4K) = (j + 1) * 0x1000 := by
    rw [hco]; unfold u32; simp only [SZ_4K]; omega
  have e2 : u32 (v.offset + SZ_4K) = 0x200000 + (j + 1) * 0x1000 := by
    rw [hoff]; unfold u32; simp only [SZ_4K]; omega
  have e3 : u32 (v.va + SZ_4K) = 0x200000 + (j + 1) * 0x1000 := by
    rw [hva]; unfold u32; simp only [SZ_4K]; omega
  have e4 : phys_addr_t k0 (v.pa + SZ_4K) = 0x10001000 + (j + 1) * 0x1000 := by
    rw [hpa]
    show (0x10001000 + j * 0x1000 + SZ_4K) % 2 ^ 32 = _
    simp only [SZ_4K]
    omega
  rw [e1, e2, e3, e4, if_neg (by decide)] at hb
  rw [hb]
  by_cases hlast : 0x200000 ≤ (j + 1) * 0x1000
  · have hboth : (j + 1) * 0x1000 ≥ (⟨0x10001000, 0, 0x200000⟩ : scatterlist).length ∧
        0x200000 + (j + 1) * 0x1000 < 0x401000 := ⟨hlast, by omega⟩
    exact (if_pos hboth).trans (if_pos hlast).symm
  · have hboth : ¬ ((j + 1) * 0x1000 ≥ (⟨0x10001000, 0, 0x200000⟩ : scatterlist).length ∧
        0x200000 + (j + 1) * 0x1000 < 0x401000) := fun h => hlast h.1
    exact (if_neg hboth).trans (if_neg hlast).symm

/-- The passes over the pages of the second segment of `sg_block_pages`, from
page `j` on. -/
theorem pages_phase (n : Nat) : ∀ (j fuel : Nat) (v : RangeVars), j + (n + 1) = 512 → 1 ≤ j →
    v.sg = [⟨0x10001000, 0, 0x200000⟩, ⟨0x20001000, 0, 0x1000⟩] →
    v.va = 0x200000 + j * 0x1000 → v.pa = 0x10001000 + j * 0x1000 →
    v.offset = 0x200000 + j * 0x1000 → v.chunk_offset = j * 0x1000 → BlockAndPages j v.s →
    ∃ v1, map_range_loop k0 0x401000 (__get_attr k0 3).1 (__get_attr k0 3).2 (fuel + (n + 1)) v =
        map_range_loop k0 0x401000 (__get_attr k0 3).1 (__get_attr k0 3).2 fuel v1 ∧
      v1.sg = [⟨0x20001000, 0, 0x1000⟩] ∧ v1.va = 0x400000 ∧ v1.pa = 0x20001000 ∧
      v1.offset = 0x400000 ∧ v1.chunk_offset = 0 ∧ BlockAndPages 512 v1.s := by
  induction n with
  | zero =>
    intro j fuel v hjn hj hsg hva hpa hoff hco hs
    have hj511 : j = 511 := by omega
    have hb := page_pass j v _ hj (by omega) hsg hva hpa hoff hco hs
    rw [if_pos (by omega)] at hb
    have hlt : v.offset < 0x401000 := by omega
    refine ⟨_, map_range_loop_again k0 0x401000 _ _ fuel v _ hlt hb, rfl, ?_, rfl, ?_, rfl, ?_⟩
    · show 0x200000 + (j + 1) * 0x1000 = 0x400000
      omega
    · show 0x200000 + (j + 1) * 0x1000 = 0x400000
      omega
    · have := block_and_pages_write j v.s hs
      rw [hj511] at this ⊢
      exact this
  | succ n ih =>
    intro j fuel v hjn hj hsg hva hpa hoff hco hs
    have hb := page_pass j v _ hj (by omega) hsg hva hpa hoff hco hs
    rw [if_neg (by omega)] at hb
    have hlt : v.offset < 0x401000 := by omega
    have hrun := map_range_loop_again k0 0x401000 _ _ (fuel + (n + 1)) v _ hlt hb
    obtain ⟨v1, hrun1, hpost⟩ := ih (j + 1) fuel
      ⟨write v.s (.pg 0x80001000 j) (leaf_desc k0 3 (0x10001000 + j * 0x1000) SZ_4K),
        [⟨0x10001000, 0, 0x200000⟩, ⟨0x20001000, 0, 0x1000⟩], 0x200000 + (j + 1) * 0x1000,
        0x10001000 + (j + 1) * 0x1000, 0x200000 + (j + 1) * 0x1000, (j + 1) * 0x1000⟩
      (by omega) (by omega) rfl rfl rfl rfl rfl (block_and_pages_write j v.s hs)
    exact ⟨v1, hrun.trans hrun1, hpost⟩

end MsmLpae

namespace MsmLpae

/-! ## The failed range mapping and its rollback -/

/-- The first two passes of the mapping loop on `sg_block_pages` in a fresh
table with two page frames: the 2 MiB block, with its second-level table, and
the first page, with its third-level table. -/
theorem block_and_pages_start (fuel : Nat) :
    ∃ v, map_range_loop k0 0x401000 (__get_attr k0 3).1 (__get_attr k0 3).2 (fuel + 1 + 1)
        ⟨fresh_pt pool2, sg_block_pages, 0, 0x200000, 0, 0⟩ =
        map_range_loop k0 0x401000 (__get_attr k0 3).1 (__get_attr k0 3).2 fuel v ∧
      v.sg = [⟨0x10001000, 0, 0x200000⟩, ⟨0x20001000, 0, 0x1000⟩] ∧
      v.va = 0x200000 + 1 * 0x1000 ∧ v.pa = 0x10001000 + 1 * 0x1000 ∧
      v.offset = 0x200000 + 1 * 0x1000 ∧ v.chunk_offset = 1 * 0x1000 ∧
      BlockAndPages 1 v.s := by
  -- the block
  have hm1 := map_2M_alloc k0 (fresh_pt pool2) 0 0x200000 3 0x80000000 [0x80001000]
    (by decide) rfl rfl (by decide) (by decide)
  have c1 : FL_OFFSET 0 = 0 := by decide
  have c2 : SL_OFFSET 0 = 0 := by decide
  have c3 : leaf_desc k0 3 0x200000 SZ_2M = 0x200C45 := by decide
  rw [c1, c2, c3] at hm1
  have hb1 := map_range_pass k0 ⟨fresh_pt pool2, sg_block_pages, 0, 0x200000, 0, 0⟩ 0x401000 3
    SZ_2M ⟨0x200000, 0, 0x200000⟩ [⟨0x10001000, 0, 0x200000⟩, ⟨0x20001000, 0, 0x1000⟩] 0 _ rfl
    (by decide) (by decide) (by simp [granules]) hm1
  rw [if_neg (by decide), if_pos (by decide)] at hb1
  have hrun1 := map_range_loop_again k0 0x401000 _ _ (fuel + 1) _ _
    (by show (0 : Nat) < 0x401000; decide) hb1
  -- the first page
  have hm2 := map_4K_alloc k0
    (write (link_table (fresh_pt pool2) (.fl 0) 0x80000000) (.pg 0x80000000 0) 0x200C45)
    0x200000 0x10001000 3 0x80001000 [] (by decide) (by decide) (by decide) rfl (by decide)
    (by decide) (by decide)
  have c4 : FL_OFFSET 0x200000 = 0 := by decide
  have c5 : SL_OFFSET 0x200000 = 1 := by decide
  have c6 : TL_OFFSET 0x200000 = 0 := by decide
  have c7 : sl_of (write (link_table (fresh_pt pool2) (.fl 0) 0x80000000) (.pg 0x80000000 0)
      0x200C45) 0 = 0x80000000 := by decide
  rw [c4, c5, c6, c7] at hm2
  have hb2 := map_range_pass k0
    ⟨write (link_table (fresh_pt pool2) (.fl 0) 0x80000000) (.pg 0x80000000 0) 0x200C45,
      [⟨0x10001000, 0, 0x200000⟩, ⟨0x20001000, 0, 0x1000⟩], 0x200000, 0x10001000, 0x200000, 0⟩
    0x401000 3 SZ_4K ⟨0x10001000, 0, 0x200000⟩ [⟨0x20001000, 0, 0x1000⟩] 0 _ rfl
    (by decide) (by decide) (by simp [granules]) hm2
  rw [if_neg (by decide), if_neg (by decide)] at hb2
  have hrun2 := map_range_loop_again k0 0x401000 _ _ fuel _ _
    (by show (0x200000 : Nat) < 0x401000; decide) hb2
  refine ⟨_, hrun1.trans hrun2, rfl, by decide, by decide, by decide, by decide, ?_⟩
  show BlockAndPages 1 (write (link_table (write (link_table (fresh_pt pool2) (.fl 0) 0x80000000)
    (.pg 0x80000000 0) 0x200C45) (.pg 0x80000000 1) 0x80001000) (.pg 0x80001000 0)
    (leaf_desc k0 3 0x10001000 SZ_4K))
  refine ⟨by decide, by decide, ?_, by decide, by decide, ?_, ?_, ?_, by decide, by decide⟩
  · intro i hi
    simp only [write_mem, link_table_mem, fresh_pt]
    split_ifs <;> first | rfl | omega | simp_all
  · intro i hi
    simp only [write_mem, link_table_mem, fresh_pt]
    split_ifs <;> first | rfl | omega | simp_all
  · intro i hi
    have : i = 0 := by omega
    subst this
    simp only [write_mem, if_true]
  · intro i hi
    simp only [write_mem, link_table_mem, fresh_pt]
    split_ifs <;> first | rfl | omega | simp_all

/-- The pass for the page of the third segment of `sg_block_pages`: its
third-level table cannot be allocated. -/
theorem block_and_pages_fail (fuel : Nat) (v : RangeVars)
    (hsg : v.sg = [⟨0x20001000, 0, 0x1000⟩]) (hva : v.va = 0x400000)
    (hpa : v.pa = 0x20001000) (hoff : v.offset = 0x400000) (hco : v.chunk_offset = 0)
    (hs : BlockAndPages 512 v.s) :
    map_range_loop k0 0x401000 (__get_attr k0 3).1 (__get_attr k0 3).2 (fuel + 1) v =
      some (-ENOMEM, v) := by
  obtain ⟨hT, hsl, _, _, _⟩ := block_and_pages_links 512 v.s hs
  have c1 : FL_OFFSET 0x400000 = 0 := by decide
  have c2 : SL_OFFSET 0x400000 = 2 := by decide
  have hc : chunk_size v.va v.pa
      (u32 ((⟨0x20001000, 0, 0x1000⟩ : scatterlist).length + 2 ^ 32 - v.chunk_offset)) =
        SZ_4K := by
    rw [hva, hpa, hco]
    decide
  have hmap := map_4K_no_page k0 v.s v.va v.pa 3 hs.1 (by rw [hva, c1]; exact hT)
    (by
      rw [hva, c1, c2, hsl]
      exact hs.2.2.2.2.2.1 2 (le_refl _))
    hs.2.2.2.2.2.2.2.2.2
  have hb := map_range_pass k0 v 0x401000 3 SZ_4K _ [] _ _ hsg hs.1 hc (by simp [granules]) hmap
  rw [if_pos (by decide)] at hb
  exact map_range_loop_fail k0 0x401000 _ _ fuel v _ (by rw [hoff]; decide) hb

/-- The rollback over the 4 MiB that were mapped: one pass, which finds the
block in slot 0 of the second-level table and clears two slots of that table,
the block and the link to the third-level table; the second-level table is
empty then and is freed. The third-level table is not looked at. -/
theorem block_and_pages_rollback (fuel : Nat) (s : PtState) (hs : BlockAndPages 512 s) :
    ∃ s1, __msm_iommu_pagetable_unmap_range (fuel + 1) s 0 0x400000 1 = some s1 ∧
      (∀ i, s1.mem (.fl i) = 0) ∧ s1.live = [0x80001000] ∧
      (∀ j, s1.mem (.pg 0x80001000 j) = s.mem (.pg 0x80001000 j)) := by
  obtain ⟨hT, hsl, hB, _, _⟩ := block_and_pages_links 512 s hs
  obtain ⟨_, h2, h3, _, _, h6, _, _, h9, _⟩ := hs
  have c1 : FL_OFFSET 0 = 0 := by decide
  have c2 : SL_OFFSET 0 = 0 := by decide
  have c3 : sl_entries 0 (0x400000 - 0) = 2 := by decide
  have hbody := unmap_body_sl_block s 0 0x400000 0 (by rw [c1]; exact hT)
    (by rw [c1, c2, hsl]; exact hB)
  have hrun := unmap_loop_one s _ 0 _ 0x400000 0 _ (by decide)
    (by rw [c3]; decide) hbody fuel
  have hfollow : FOLLOW_TO_NEXT_TABLE s (.fl 0) = 0x80000000 := hsl
  have hbusy : any_busy (memset_zero s 0x80000000 0 2) (.pg 0x80000000 0) NUM_SL_PTE = false := by
    rw [any_busy_eq_false]
    intro i _
    rw [add_pg, memset_zero_pg]
    by_cases hi : 0 + i < 0 + 2
    · rw [if_pos ⟨rfl, Nat.zero_le _, hi⟩]
    · rw [if_neg (fun h => hi h.2.2)]
      exact h6 _ (by omega)
  have hstate : unmap_sl_run s 0 (0x400000 - 0) =
      write (free_page (memset_zero s 0x80000000 0 2) 0x80000000) (.fl 0) 0 := by
    unfold unmap_sl_run
    simp only [c1, c2, c3, hfollow]
    rw [free_table_empty _ _ _ _ _ hbusy]
  rw [hstate] at hrun
  refine ⟨write (free_page (memset_zero s 0x80000000 0 2) 0x80000000) (.fl 0) 0, ?_, ?_, ?_, ?_⟩
  · unfold __msm_iommu_pagetable_unmap_range
    rw [if_neg (by decide)]
    exact hrun
  · intro i
    rw [write_mem]
    by_cases hi : i = 0
    · rw [if_pos (by rw [hi])]
    · rw [if_neg (by simp [hi]), free_page_mem, memset_zero_fl]
      exact h3 i (by omega)
  · rw [write_live]
    unfold free_page
    simp only [memset_zero_live, h9]
    decide
  · intro j
    rw [write_mem, if_neg (by simp), free_page_mem, memset_zero_pg, if_neg (by simp)]

/-- What `msm_iommu_pagetable_map_range` returns when its loop fails after it
has mapped something: the code of the failure and the state after the
rollback. -/
theorem map_range_of_rollback (k : Build) (fuel : Nat) (s : PtState) (va : Nat)
    (sg0 : scatterlist) (rest : List scatterlist) (len prot : Nat) (ret : Int)
    (v : RangeVars) (s1 : PtState) (hlen : len &&& (SZ_4K - 1) = 0) (hfl : s.fl_table ≠ 0)
    (hloop : map_range_loop k len (__get_attr k prot).1 (__get_attr k prot).2 fuel
      ⟨s, sg0 :: rest, va, get_phys_addr sg0, 0, 0⟩ = some (ret, v))
    (hret : ret ≠ 0) (hoff : v.offset > 0)
    (hun : __msm_iommu_pagetable_unmap_range fuel v.s va v.offset 1 = some s1) :
    msm_iommu_pagetable_map_range k fuel s va (sg0 :: rest) len prot = some (ret, s1) := by
  unfold msm_iommu_pagetable_map_range
  simp only [hlen, hfl, ne_eq, not_true_eq_false, if_false, hloop]
  rw [if_pos ⟨hret, hoff⟩, hun]

/-- Claim C7 on an input where the rollback leaves descriptors behind. In a
fresh table with two page frames at hand, nothing is mapped; `sg_block_pages`
has 4 KiB-aligned segments whose lengths are multiples of 4 KiB, not zero, and
sum to `0x401000`. Range mapping at virtual address 0 maps the 2 MiB block and
the 512 pages of the second segment, finds no page frame for the table of the
last page and returns `-ENOMEM`, whatever fuel beyond its 514 passes it is
given. On return the four first-level slots are zero, so that nothing of the
range is mapped, but page frame `0x80001000`, the third-level table that the
call allocated, is still in use and linked from no slot, and it still holds the
512 page descriptors that the call wrote; the first is `0x10001C47`, the last
`0x10200C47`. -/
theorem map_range_rollback_leaves_table :
    WellFormed (fresh_pt pool2) ∧ (∀ a, walk (fresh_pt pool2) a = none) ∧
    sg_pages sg_block_pages ∧ sg_total sg_block_pages = 0x401000 ∧ 0 % SZ_4K = 0 ∧
    0 + 0x401000 ≤ 2 ^ 32 ∧
    ∀ fuel, ∃ s1, msm_iommu_pagetable_map_range k0 (fuel + 514) (fresh_pt pool2) 0
        sg_block_pages 0x401000 3 = some (-ENOMEM, s1) ∧
      observe s1 = ([0, 0, 0, 0], [0x80001000]) ∧ (∀ a, walk s1 a = none) ∧
      (List.range 512).map (fun j => s1.mem (.pg 0x80001000 j)) =
        (List.range 512).map (fun j => leaf_desc k0 3 (0x10001000 + j * 0x1000) SZ_4K) ∧
      (List.range 512).all (fun j =>
        decide (s1.mem (.pg 0x80001000 j) &&& FLSL_PTE_TYPE_MASK = TL_TYPE_PAGE)) = true ∧
      s1.mem (.pg 0x80001000 0) = 0x10001C47 ∧ s1.mem (.pg 0x80001000 511) = 0x10200C47 := by
  refine ⟨wf_fresh pool2 (by decide) (by decide), fun a => walk_none_of_empty_fl _ a rfl,
    by decide, by decide, by decide, by decide, ?_⟩
  intro fuel
  obtain ⟨v1, hrun1, hsg1, hva1, hpa1, hoff1, hco1, hs1⟩ :=
    block_and_pages_start (fuel + 1 + (510 + 1))
  obtain ⟨v2, hrun2, hsg2, hva2, hpa2, hoff2, hco2, hs2⟩ :=
    pages_phase 510 1 (fuel + 1) v1 (by decide) (le_refl _) hsg1 hva1 hpa1 hoff1 hco1 hs1
  have hrun3 := block_and_pages_fail fuel v2 hsg2 hva2 hpa2 hoff2 hco2 hs2
  have hfuel : fuel + 514 = fuel + 1 + (510 + 1) + 1 + 1 := by omega
  have hloop : map_range_loop k0 0x401000 (__get_attr k0 3).1 (__get_attr k0 3).2 (fuel + 514)
      ⟨fresh_pt pool2, sg_block_pages, 0, 0x200000, 0, 0⟩ = some (-ENOMEM, v2) := by
    rw [hfuel]
    exact hrun1.trans (hrun2.trans hrun3)
  obtain ⟨s1, hroll, hfl, hlive, hkeep⟩ := block_and_pages_rollback (fuel + 513) v2.s hs2
  have hd : ∀ j < 512, s1.mem (.pg 0x80001000 j) =
      leaf_desc k0 3 (0x10001000 + j * 0x1000) SZ_4K := by
    intro j hj
    rw [hkeep j]
    exact hs2.2.2.2.2.2.2.1 j hj
  refine ⟨s1, ?_, ?_, fun a => walk_none_of_empty_fl _ a (hfl _), ?_, ?_, ?_, ?_⟩
  · exact map_range_of_rollback k0 (fuel + 514) (fresh_pt pool2) 0 ⟨0x200000, 0, 0x200000⟩
      [⟨0x10001000, 0, 0x200000⟩, ⟨0x20001000, 0, 0x1000⟩] 0x401000 3 (-ENOMEM) v2 s1
      (by decide) (by decide) hloop (by decide) (by rw [hoff2]; decide)
      (by rw [hoff2]; exact hroll)
  · unfold observe
    rw [hlive]
    simp [NUM_FL_PTE, List.range_succ, hfl]
  · apply List.map_congr_left
    intro j hj
    exact hd j (List.mem_range.1 hj)
  · rw [List.all_eq_true]
    intro j hj
    rw [hd j (List.mem_range.1 hj)]
    exact decide_eq_true (isPage_leaf_desc k0 3 _ SZ_4K (by decide))
  · rw [hd 0 (by decide)]
    decide
  · rw [hd 511 (by decide)]
    decide

end MsmLpae
